import Mathlib

/-!
# goofy: frame scheduler and command-buffer lifecycle

A shallow embedding of the scheduling core of the `goofy` rendering layer
(`goofy.states.h`, `goofy.states.cpp`, `goofy.cpp`, `goofy.tools.cpp`).

Conventions of the embedding.

* Objects held through `std::shared_ptr` and mutated through several owners
  (GPU tasks, work pieces) live in a heap, a `List` indexed by object identity;
  a pointer is an index into it.
* Native Vulkan handles are natural numbers.  Vulkan entry points are taken to
  succeed; what they do to the native object is recorded in the model
  (the commands of a command buffer, the submissions of a queue).
* An operation that can throw, block or run into undefined behaviour returns
  `Except Fault`; the operations on the heap of GPU tasks, which only recurse,
  return `Option`, `none` standing for a dangling pointer or exhausted fuel.
* The threads interleave at the granularity of lock-protected sections: a step
  of a thread is a function on the state, and a run is a sequence of steps.
-/

namespace goofy

/-! ## GPU tasks (`struct __GPUTask`) -/

/-- The `__GPUTask` structure: `GPUFinished` is the native semaphore (`none` for `nullptr`),
`children` are the shared pointers to the child tasks, `finished` the flag.  The `device`
field is one fixed handle for the whole program and is left out. -/
structure __GPUTask where
  GPUFinished : Option Nat
  children : List Nat
  finished : Bool
deriving DecidableEq, Repr

/-- The heap of GPU tasks: a `std::shared_ptr<__GPUTask>` is an index into it. -/
abbrev TaskHeap := List __GPUTask

namespace __GPUTask

/-- The value of `tasks[i]->finished`.  A dangling index reads as finished. -/
def finishedAt (h : TaskHeap) (i : Nat) : Bool :=
  match h[i]? with
  | some t => t.finished
  | none => true

/-- The constructor `__GPUTask::__GPUTask()`: no semaphore, no children, `finished = false`. -/
def new : __GPUTask := { GPUFinished := none, children := [], finished := false }

/-- Source `__GPUTask::CreateSingle(device, empty)`: a new task which owns the freshly created
semaphore `sem` unless `empty`; `finished = empty`.  Returns the heap and the new pointer. -/
def CreateSingle (h : TaskHeap) (sem : Nat) (empty : Bool) : TaskHeap × Nat :=
  let task : __GPUTask := new
  let task := if !empty then { task with GPUFinished := some sem } else task
  let task := { task with finished := empty }
  (h ++ [task], h.length)

/-- Source `__GPUTask::Union(count, tasks)`: the loop pushes every input with `!finished` to
`children`, then `task->finished = task->children.size() > 0`. -/
def Union (h : TaskHeap) (tasks : List Nat) : TaskHeap × Nat :=
  let task : __GPUTask := new
  let children := tasks.foldl
    (fun (children : List Nat) i => if !finishedAt h i then children ++ [i] else children)
    task.children
  let task := { task with children := children }
  let task := { task with finished := decide (task.children.length > 0) }
  (h ++ [task], h.length)

/-- The loop `for (t : children) t->Wait();` over a wait function `w`, threading the heap
and the log of the semaphores waited on. -/
def waitEach (w : TaskHeap → Nat → Option (TaskHeap × List Nat)) :
    List Nat → TaskHeap × List Nat → Option (TaskHeap × List Nat)
  | [], acc => some acc
  | c :: cs, acc =>
    match w acc.1 c with
    | none => none
    | some r => waitEach w cs (r.1, acc.2 ++ r.2)

/-- Source `__GPUTask::Wait()` on the task at `i`.  The result is the heap afterwards and the list
of native semaphores handed to `vkWaitSemaphores`, in order.  The first argument bounds the
depth of the recursion. -/
def Wait : Nat → TaskHeap → Nat → Option (TaskHeap × List Nat)
  | 0, _, _ => none
  | fuel + 1, h, i =>
    match h[i]? with
    | none => none
    | some t =>
      if t.finished then some (h, [])
      else
        let own : List Nat := match t.GPUFinished with
          | some s => [s]
          | none => []
        match waitEach (Wait fuel) t.children (h, own) with
        | none => none
        | some (h1, log) =>
          match h1[i]? with
          | none => none
          | some t1 => some (h1.set i { t1 with finished := true }, log)

/-- The loop of `FillSemaphores` over the children: only children with `!c->finished`
are visited. -/
def fillEach (f : Nat → List Nat → Option (List Nat)) (h : TaskHeap) :
    List Nat → List Nat → Option (List Nat)
  | [], semaphores => some semaphores
  | c :: cs, semaphores =>
    if !finishedAt h c then
      match f c semaphores with
      | none => none
      | some semaphores1 => fillEach f h cs semaphores1
    else fillEach f h cs semaphores

/-- Source `__GPUTask::FillSemaphores(semaphores)`: appends the native semaphores of the unfinished
part of the tree of task `i`, depth first. -/
def FillSemaphores : Nat → TaskHeap → Nat → List Nat → Option (List Nat)
  | 0, _, _, _ => none
  | fuel + 1, h, i, semaphores =>
    match h[i]? with
    | none => none
    | some t =>
      if t.finished then some semaphores
      else
        let semaphores1 := match t.GPUFinished with
          | some s => semaphores ++ [s]
          | none => semaphores
        fillEach (FillSemaphores fuel h) h t.children semaphores1

/-- Children are created before their parent: every child pointer of the task at `i` is
an index below `i`.  `CreateSingle`, `Union` and `__Device::Flush` build tasks only over
tasks that exist already, so every heap they produce has this shape. -/
def Acyclic (h : TaskHeap) : Prop :=
  ∀ (i : Nat) (t : __GPUTask), h[i]? = some t → ∀ c ∈ t.children, c < i

/-- The heap `h'` holds the tasks of `h` with the same semaphores and children, and every
task finished in `h` is finished in `h'`: only `finished` flags were raised. -/
def Extends (h h' : TaskHeap) : Prop :=
  h'.length = h.length ∧
  ∀ (i : Nat) (t : __GPUTask), h[i]? = some t →
    ∃ t' : __GPUTask, h'[i]? = some t' ∧ t'.GPUFinished = t.GPUFinished ∧
      t'.children = t.children ∧ (t.finished = true → t'.finished = true)

end __GPUTask

/-- Source `GPUTask::Combine(count, tasks)` of the public interface: `__GPUTask::Union` on the states. -/
def GPUTask.Combine (h : TaskHeap) (tasks : List Nat) : TaskHeap × Nat :=
  __GPUTask.Union h tasks

/-- Source `GPUTask::Wait()` of the public interface: `__state->Wait()`. -/
def GPUTask.Wait (fuel : Nat) (h : TaskHeap) (i : Nat) : Option (TaskHeap × List Nat) :=
  __GPUTask.Wait fuel h i

/-! ## Outcomes of an operation -/

/-- How an operation can fail to return normally. -/
inductive Fault where
  /-- A C++ exception (`throw std::runtime_error(what)`). -/
  | thrown (what : String)
  /-- The calling thread waits on a semaphore whose count is zero: it cannot go on until
  another thread signals. -/
  | blocked
  /-- Undefined behaviour: an index out of range, a null pointer dereferenced, a division
  by zero, unbounded recursion. -/
  | undefined
  /-- A failed `assert`. -/
  | assertion
deriving DecidableEq, Repr

deriving instance DecidableEq for Except

/-! ## Enumerations (`goofy.h`, `goofy.states.h`) -/

/-- Source `enum class DispatchMode`. -/
inductive DispatchMode where
  | MAIN_THREAD
  | ASYNC_FRAME
  | ASYNC
deriving DecidableEq, Repr

/-- Source `enum class WorkPieceState`. -/
inductive WorkPieceState where
  | DISPATCHED
  | POPULATION_COMPLETED
  | SUBMITTED
deriving DecidableEq, Repr

/-- Source `enum class CommandListState`. -/
inductive CommandListState where
  | Initial
  | Recording
  | Executable
  | OnGPU
deriving DecidableEq, Repr

/-- Source `enum class EngineType`, as the integer the code casts it to. -/
abbrev EngineType := Nat

namespace EngineType
def NONE : EngineType := 0
def TRANSFER : EngineType := 1
def COMPUTE : EngineType := 2
def GRAPHICS : EngineType := 4
def RAYTRACING : EngineType := 8
end EngineType

/-- Constant `VK_QUEUE_GRAPHICS_BIT` of `VkQueueFlagBits` in the Vulkan headers (`vulkan_core.h`). -/
def VK_QUEUE_GRAPHICS_BIT : Nat := 1
/-- Constant `VK_QUEUE_COMPUTE_BIT` of the Vulkan headers. -/
def VK_QUEUE_COMPUTE_BIT : Nat := 2
/-- Constant `VK_QUEUE_TRANSFER_BIT` of the Vulkan headers. -/
def VK_QUEUE_TRANSFER_BIT : Nat := 4
/-- Constant `VK_PIPELINE_STAGE_ALL_COMMANDS_BIT` of the Vulkan headers. -/
def VK_PIPELINE_STAGE_ALL_COMMANDS_BIT : Nat := 0x00010000

/-! ## Synchronisation objects (`goofy.internal.h`, `goofy.tools.cpp`) -/

/-- Source `class Semaphore`: the counter `state`.  The mutex and the condition variable make each
method atomic; they carry no state of their own. -/
structure Semaphore where
  state : Int
deriving DecidableEq, Repr

namespace Semaphore

/-- Source `Semaphore::Semaphore()`, which is `Semaphore(0)`. -/
def new : Semaphore := { state := 0 }

/-- Source `Semaphore::Wait()`: `while (state == 0) waiting.wait(lock); state--;`.  With
`state == 0` the caller is blocked. -/
def Wait (s : Semaphore) : Except Fault Semaphore :=
  if s.state = 0 then .error .blocked else .ok { state := s.state - 1 }

/-- Source `Semaphore::Signal()`: `state++`. -/
def Signal (s : Semaphore) : Semaphore := { state := s.state + 1 }

/-- Source `Semaphore::SignalAll()`: `state++`, waking every waiter. -/
def SignalAll (s : Semaphore) : Semaphore := { state := s.state + 1 }

end Semaphore

/-- Source `class OneTimeSemaphore`. -/
structure OneTimeSemaphore where
  s : Semaphore
deriving DecidableEq, Repr

namespace OneTimeSemaphore

/-- Source `OneTimeSemaphore::Wait()`: `s.Wait(); s.Signal();`. -/
def Wait (o : OneTimeSemaphore) : Except Fault OneTimeSemaphore :=
  match o.s.Wait with
  | .error e => .error e
  | .ok s1 => .ok { s := s1.Signal }

/-- Source `OneTimeSemaphore::Done()`: `s.SignalAll();`. -/
def Done (o : OneTimeSemaphore) : OneTimeSemaphore := { s := o.s.SignalAll }

end OneTimeSemaphore

/-- Source `class ProducerConsumerQueue<T>`: the ring buffer `elements`, `start`, `count` and the
two semaphores.  `default` stands for the value-initialised `T` written by `= {}`. -/
structure ProducerConsumerQueue (T : Type) where
  elements : List T
  start : Nat
  count : Int
  productsSemaphore : Semaphore
  spacesSemaphore : Semaphore
deriving DecidableEq, Repr

namespace ProducerConsumerQueue

variable {T : Type}

/-- Source `ProducerConsumerQueue(int capacity)`. -/
def new [Inhabited T] (capacity : Nat) : ProducerConsumerQueue T :=
  { elements := List.replicate capacity default
    start := 0
    count := 0
    productsSemaphore := { state := 0 }
    spacesSemaphore := { state := capacity } }

/-- Source `getCount()`. -/
def getCount (q : ProducerConsumerQueue T) : Int := q.count

/-- Source `Consume()`.  Reading `elements[start]` out of range (in particular with capacity 0) is
undefined. -/
def Consume [Inhabited T] (q : ProducerConsumerQueue T) :
    Except Fault (ProducerConsumerQueue T × T) :=
  match q.productsSemaphore.Wait with
  | .error e => .error e
  | .ok products =>
    match q.elements[q.start]? with
    | none => .error .undefined
    | some element =>
      .ok ({ elements := q.elements.set q.start default
             start := (q.start + 1) % q.elements.length
             count := q.count - 1
             productsSemaphore := products
             spacesSemaphore := q.spacesSemaphore.Signal }, element)

/-- Source `Produce(element)`.  `(start + count) % elements.size()` is computed in `size_t`;
with capacity 0 the remainder is undefined. -/
def Produce (q : ProducerConsumerQueue T) (element : T) :
    Except Fault (ProducerConsumerQueue T) :=
  match q.spacesSemaphore.Wait with
  | .error e => .error e
  | .ok spaces =>
    if q.elements.length = 0 then .error .undefined
    else
      let enqueuePos := (((q.start : Int) + q.count) % 2 ^ 64).toNat % q.elements.length
      .ok { elements := q.elements.set enqueuePos element
            start := q.start
            count := q.count + 1
            productsSemaphore := q.productsSemaphore.Signal
            spacesSemaphore := spaces }

end ProducerConsumerQueue

/-! ## Command list facade and processes (`goofy.h`) -/

/-- Source `struct CommandListManager`, the facade handed to `Process::Populate`: the supported
engines and `__state`, the pointer to the command list it records into. -/
structure CommandListManager where
  _supported_engines : EngineType
  __state : Option Nat
deriving DecidableEq, Repr

namespace CommandListManager

/-- Source `CommandListManager::CheckCastSupport<T>()`, with `T::SupportedEngines` as argument. -/
def CheckCastSupport (m : CommandListManager) (T_SupportedEngines : EngineType) :
    Except Fault Unit :=
  if !(decide ((T_SupportedEngines &&& m._supported_engines) = T_SupportedEngines)) then
    .error (.thrown
      "Current command list manager doesnt support the destination engine requirement.")
  else .ok ()

/-- Source `CommandListManager::As<T>()`: the same facade after the check. -/
def As (m : CommandListManager) (T_SupportedEngines : EngineType) :
    Except Fault CommandListManager :=
  match m.CheckCastSupport T_SupportedEngines with
  | .error e => .error e
  | .ok _ => .ok m

/-- Source `CommandListManager::Engines()`. -/
def Engines (m : CommandListManager) : EngineType := m._supported_engines

end CommandListManager

/-- Source `TransferManager::SupportedEngines`. -/
def TransferManager.SupportedEngines : EngineType := EngineType.TRANSFER
/-- Source `ComputeManager::SupportedEngines`. -/
def ComputeManager.SupportedEngines : EngineType := EngineType.COMPUTE ||| EngineType.TRANSFER
/-- Source `ComputeExclusiveManager::SupportedEngines`. -/
def ComputeExclusiveManager.SupportedEngines : EngineType := EngineType.COMPUTE
/-- Source `GraphicsManager::SupportedEngines`. -/
def GraphicsManager.SupportedEngines : EngineType :=
  EngineType.GRAPHICS ||| EngineType.COMPUTE ||| EngineType.TRANSFER
/-- Source `RaytracingManager::SupportedEngines`. -/
def RaytracingManager.SupportedEngines : EngineType :=
  EngineType.RAYTRACING ||| EngineType.GRAPHICS ||| EngineType.COMPUTE ||| EngineType.TRANSFER

/-- Source `struct Process`: the two virtual methods.  `Populate` is user code; the model takes
what it does to the command list: the commands it records through the facade, in order, or
the fault it ends with. -/
structure Process where
  RequiredEngines : EngineType
  Populate : CommandListManager → Except Fault (List Nat)

/-- Source `MethodProcess<I, M>`: `RequiredEngines()` is `M::SupportedEngines` and `Populate` calls
the member function on `manager.As<M>()`; `function` is what the member records. -/
def MethodProcess (M_SupportedEngines : EngineType) (function : List Nat) : Process :=
  { RequiredEngines := M_SupportedEngines
    Populate := fun manager =>
      match manager.As M_SupportedEngines with
      | .error e => .error e
      | .ok _ => .ok function }

/-- Source `class CleaningProcess`: requires no engine and records nothing. -/
def CleaningProcess : Process :=
  { RequiredEngines := EngineType.NONE
    Populate := fun _ => .ok [] }

/-! ## Work pieces (`struct WorkPiece`) -/

/-- Source `struct WorkPiece`.  The `mutex` makes `PopulationCompleted` atomic and has no state of
its own. -/
structure WorkPiece where
  GraphicProcess : Option Process
  Dispatch : DispatchMode
  EngineIndex : Int
  ManagerIndex : Int
  State : WorkPieceState
  AfterPopulated : OneTimeSemaphore

namespace WorkPiece

/-- Source `WorkPiece::WorkPiece()` with the default member initialisers. -/
def new : WorkPiece :=
  { GraphicProcess := none
    Dispatch := DispatchMode.MAIN_THREAD
    EngineIndex := -1
    ManagerIndex := -1
    State := WorkPieceState.DISPATCHED
    AfterPopulated := { s := Semaphore.new } }

/-- Source `WorkPiece::PopulationCompleted()`. -/
def PopulationCompleted (w : WorkPiece) : WorkPiece :=
  let w := { w with State := WorkPieceState.POPULATION_COMPLETED }
  { w with AfterPopulated := w.AfterPopulated.Done }

/-- Source `WorkPiece::WaitForPopulation()`. -/
def WaitForPopulation (w : WorkPiece) : Except Fault WorkPiece :=
  match w.AfterPopulated.Wait with
  | .error e => .error e
  | .ok latch => .ok { w with AfterPopulated := latch }

/-- Source `WorkPiece::HasBeenSubmitted()`. -/
def HasBeenSubmitted (w : WorkPiece) : Bool :=
  decide (w.State = WorkPieceState.SUBMITTED)

end WorkPiece

/-- The heap of work pieces: a `std::shared_ptr<WorkPiece>` is an index into it. -/
abbrev PieceHeap := List WorkPiece

/-- Source `struct __CPUTask`. -/
structure __CPUTask where
  workPiece : Nat
deriving DecidableEq, Repr

/-- Source `__CPUTask::Wait()`: `workPiece->WaitForPopulation()`. -/
def __CPUTask.Wait (pieces : PieceHeap) (t : __CPUTask) : Except Fault PieceHeap :=
  match pieces[t.workPiece]? with
  | none => .error .undefined
  | some w =>
    match w.WaitForPopulation with
    | .error e => .error e
    | .ok w1 => .ok (pieces.set t.workPiece w1)

/-- Source `CPUTask::Wait()` of the public interface: `__state->Wait()`. -/
def CPUTask.Wait (pieces : PieceHeap) (t : __CPUTask) : Except Fault PieceHeap :=
  __CPUTask.Wait pieces t

/-! ## Command lists (`struct __CommandListManager`) -/

/-- Source `struct __CommandListManager`.  `recorded` stands for the content of the native command
buffer `vkCmdList`: the commands recorded since it was last reset. -/
structure __CommandListManager where
  vkCmdList : Nat
  SupportedEngines : EngineType
  State : CommandListState
  recorded : List Nat
deriving DecidableEq, Repr

namespace __CommandListManager

/-- Source `__CommandListManager::__Open()`. -/
def __Open (c : __CommandListManager) : Except Fault __CommandListManager :=
  if c.State = CommandListState.Recording then .ok c
  else if c.State ≠ CommandListState.Initial then
    .error (.thrown "Fail to open an executing command list")
  else .ok { c with State := CommandListState.Recording }

/-- Source `__CommandListManager::__Close()`. -/
def __Close (c : __CommandListManager) : Except Fault __CommandListManager :=
  if c.State ≠ CommandListState.Recording then
    .error (.thrown "Closing a command buffer has not been opened")
  else .ok { c with State := CommandListState.Executable }

/-- Source `__CommandListManager::__Reset()`; `vkResetCommandBuffer` empties the native buffer. -/
def __Reset (c : __CommandListManager) : Except Fault __CommandListManager :=
  if c.State = CommandListState.OnGPU then
    .error (.thrown "Reseting a command list has not finished on the gpu")
  else .ok { c with State := CommandListState.Initial, recorded := [] }

end __CommandListManager

/-- The part of `VkSubmitInfo` that `SubmitCurrent` fills in. -/
structure VkSubmitInfo where
  pCommandBuffers : List Nat
  pWaitSemaphores : List Nat
  pWaitDstStageMask : List Nat
  pSignalSemaphores : List Nat
deriving DecidableEq, Repr

/-! ## Command queue managers (`struct __CommandQueueManager`) -/

/-- Source `struct __CommandQueueManager`.  `cmdLists` is the heap of the command lists this
manager created in `FetchNew`: a `std::shared_ptr<__CommandListManager>` is an index into
it, so `reusableCmdBuffers`, `recordingBuffer` and `submittedBuffers` hold indices.
`submittedTasks` and `populated` hold pointers into the heaps of GPU tasks and of work
pieces.  `submits` lists what this manager handed to `vkQueueSubmit` on `queue`. -/
structure __CommandQueueManager where
  queue : Nat
  SupportedEngines : EngineType
  reusableCmdBuffers : List Nat
  recordingBuffer : Option Nat
  submittedBuffers : List Nat
  submittedTasks : List Nat
  waitingSemaphores : List Nat
  waintingStages : List Nat
  throwErrorIfAbandonedTasks : Bool
  populated : List Nat
  cmdLists : List __CommandListManager
  submits : List VkSubmitInfo
deriving DecidableEq, Repr

namespace __CommandQueueManager

/-- The constructor `__CommandQueueManager(device, familyIndex, supported, queue,
throwErrorIfAbandonedTasks)`. -/
def new (supported : EngineType) (queue : Nat) (throwErrorIfAbandonedTasks : Bool) :
    __CommandQueueManager :=
  { queue := queue
    SupportedEngines := supported
    reusableCmdBuffers := []
    recordingBuffer := none
    submittedBuffers := []
    submittedTasks := []
    waitingSemaphores := []
    waintingStages := []
    throwErrorIfAbandonedTasks := throwErrorIfAbandonedTasks
    populated := []
    cmdLists := []
    submits := [] }

/-- Source `__CommandQueueManager::FetchNew()`: with more than one reusable buffer the last one is
popped, otherwise a command list is created (value-initialised, so in state `Initial`) with
a native buffer allocated from the pool; then `result->__Open()`. -/
def FetchNew (m : __CommandQueueManager) : Except Fault (__CommandQueueManager × Nat) :=
  let mr : __CommandQueueManager × Nat :=
    if m.reusableCmdBuffers.length > 1 then
      ({ m with reusableCmdBuffers := m.reusableCmdBuffers.dropLast },
        m.reusableCmdBuffers.getLastD 0)
    else
      ({ m with cmdLists := m.cmdLists ++
          [{ vkCmdList := m.cmdLists.length
             SupportedEngines := m.SupportedEngines
             State := CommandListState.Initial
             recorded := [] }] },
        m.cmdLists.length)
  match mr.1.cmdLists[mr.2]? with
  | none => .error .undefined
  | some c =>
    match c.__Open with
    | .error e => .error e
    | .ok c1 => .ok ({ mr.1 with cmdLists := mr.1.cmdLists.set mr.2 c1 }, mr.2)

/-- Source `__CommandQueueManager::Peek()`. -/
def Peek (m : __CommandQueueManager) : Except Fault (__CommandQueueManager × Nat) :=
  match m.recordingBuffer with
  | some r => .ok (m, r)
  | none =>
    match m.FetchNew with
    | .error e => .error e
    | .ok (m1, r) => .ok ({ m1 with recordingBuffer := some r }, r)

/-- Source `__CommandQueueManager::WaitForPopulation()`: waits on the latch of every populated
piece, in order. -/
def WaitForPopulation (m : __CommandQueueManager) (pieces : PieceHeap) :
    Except Fault PieceHeap :=
  m.populated.foldlM (fun pieces w => __CPUTask.Wait pieces { workPiece := w }) pieces

/-- Source `__CommandQueueManager::Populating(task, cmdList)`, one critical section of
`sync_populated`. -/
def Populating (m : __CommandQueueManager) (task : Nat) :
    Except Fault (__CommandQueueManager × Nat) :=
  Peek { m with populated := m.populated ++ [task] }

/-- The loop `for (w : populated) w->State = SUBMITTED`. -/
def markSubmitted (pieces : PieceHeap) (populated : List Nat) : Except Fault PieceHeap :=
  populated.foldlM
    (fun (pieces : PieceHeap) w =>
      match pieces[w]? with
      | none => .error Fault.undefined
      | some piece => .ok (pieces.set w { piece with State := WorkPieceState.SUBMITTED }))
    pieces

/-- The loop of `SubmitCurrent` that fills `waitingSemaphores` from the unfinished tasks of
`wait_for`. -/
def fillWaiting (tasks : TaskHeap) (wait_for : List Nat) (semaphores : List Nat) :
    Except Fault (List Nat) :=
  wait_for.foldlM
    (fun (semaphores : List Nat) t =>
      if !__GPUTask.finishedAt tasks t then
        match __GPUTask.FillSemaphores tasks.length tasks t semaphores with
        | none => .error Fault.undefined
        | some semaphores1 => .ok semaphores1
      else .ok semaphores)
    semaphores

/-- Source `__CommandQueueManager::SubmitCurrent(count, wait_for)`, one critical section of
`sync_populated`.  The semaphore created for the new task is named by the index of the
task.  Returns the manager, both heaps and the pointer to the returned GPU task. -/
def SubmitCurrent (m : __CommandQueueManager) (tasks : TaskHeap) (pieces : PieceHeap)
    (wait_for : List Nat) :
    Except Fault (__CommandQueueManager × TaskHeap × PieceHeap × Nat) :=
  match m.recordingBuffer with
  | none =>
    let r := __GPUTask.CreateSingle tasks tasks.length true
    .ok (m, r.1, pieces, r.2)
  | some recordingBuffer =>
    let r := __GPUTask.CreateSingle tasks tasks.length false
    match m.cmdLists[recordingBuffer]? with
    | none => .error .undefined
    | some c =>
      match c.__Close with
      | .error e => .error e
      | .ok c1 =>
        match fillWaiting r.1 wait_for [] with
        | .error e => .error e
        | .ok waitingSemaphores =>
          let waintingStages :=
            List.replicate waitingSemaphores.length VK_PIPELINE_STAGE_ALL_COMMANDS_BIT
          let sinfo : VkSubmitInfo :=
            { pCommandBuffers := [c1.vkCmdList]
              pWaitSemaphores := waitingSemaphores
              pWaitDstStageMask := waintingStages
              pSignalSemaphores := [tasks.length] }
          match markSubmitted pieces m.populated with
          | .error e => .error e
          | .ok pieces1 =>
            .ok ({ m with
                    cmdLists := m.cmdLists.set recordingBuffer c1
                    waitingSemaphores := waitingSemaphores
                    waintingStages := waintingStages
                    submits := m.submits ++ [sinfo]
                    submittedBuffers := m.submittedBuffers ++ [recordingBuffer]
                    submittedTasks := m.submittedTasks ++ [r.2]
                    populated := []
                    recordingBuffer := none },
                 r.1, pieces1, r.2)

/-- What the recording calls made through a facade do: the commands are appended to the
native buffer of the command list the facade points to. -/
def record (m : __CommandQueueManager) (cmdList : Nat) (commands : List Nat) :
    Except Fault __CommandQueueManager :=
  match m.cmdLists[cmdList]? with
  | none => .error .undefined
  | some c =>
    .ok { m with cmdLists := m.cmdLists.set cmdList { c with recorded := c.recorded ++ commands } }

end __CommandQueueManager

/-! ## Engine managers (`struct __EngineManager`) -/

/-- Source `struct __EngineManager`. -/
structure __EngineManager where
  Managers : List __CommandQueueManager
  marked : List Bool
  Queues : List Nat
  frames : Nat
  frame_async_threads : Nat
  async_threads : Nat
  supportedEngines : EngineType
deriving DecidableEq, Repr

namespace __EngineManager

/-- The constructor `__EngineManager(device, familyIndex, supportedEngines, frames,
frame_async_threads, async_threads, queues)`.  The queue handed to manager `i` is
`Queues[i % queues]`, which is undefined for `queues = 0`. -/
def new (supportedEngines : EngineType) (frames frame_async_threads async_threads queues : Nat) :
    Except Fault __EngineManager :=
  let size := frames * (frame_async_threads + 1) + async_threads
  if queues = 0 ∧ 0 < size then .error .undefined
  else
    .ok { Managers := (List.range size).map (fun i =>
            __CommandQueueManager.new supportedEngines (i % queues)
              (decide (i ≥ frames * (frame_async_threads + 1))))
          marked := List.replicate size false
          Queues := List.range queues
          frames := frames
          frame_async_threads := frame_async_threads
          async_threads := async_threads
          supportedEngines := supportedEngines }

/-- The manager `Managers[cmdIdx]` for an `int` index; out of range is undefined. -/
def managerAt (e : __EngineManager) (cmdIdx : Int) : Except Fault __CommandQueueManager :=
  if cmdIdx < 0 then .error .undefined
  else
    match e.Managers[cmdIdx.toNat]? with
    | none => .error .undefined
    | some m => .ok m

/-- Source `__EngineManager::Dispatch`, first part (up to the construction of `wrapper`): the call
of `Populating` and the facade over the command list it returned.  `Populating` returns the
result of `Peek`, never a null pointer, so the `"Weird..."` branch is not taken. -/
def Dispatch_populating (e : __EngineManager) (pieces : PieceHeap) (workPiece : Nat) :
    Except Fault (__EngineManager × CommandListManager) :=
  match pieces[workPiece]? with
  | none => .error .undefined
  | some w =>
    let cmdIdx := w.ManagerIndex
    match e.managerAt cmdIdx with
    | .error f => .error f
    | .ok m =>
      match m.Populating workPiece with
      | .error f => .error f
      | .ok (m1, cmdList) =>
        .ok ({ e with Managers := e.Managers.set cmdIdx.toNat m1 },
             { _supported_engines := e.supportedEngines, __state := some cmdList })

/-- Source `__EngineManager::Dispatch`, second part: `workPiece->GraphicProcess->Populate(wrapper)`
and `workPiece->PopulationCompleted()`.  No lock is held while `Populate` runs; the commands
go to the command list the facade points to, wherever the manager keeps it by then. -/
def Dispatch_populate (e : __EngineManager) (pieces : PieceHeap) (workPiece : Nat)
    (wrapper : CommandListManager) : Except Fault (__EngineManager × PieceHeap) :=
  match pieces[workPiece]? with
  | none => .error .undefined
  | some w =>
    match w.GraphicProcess, wrapper.__state with
    | some process, some cmdList =>
      match process.Populate wrapper with
      | .error f => .error f
      | .ok commands =>
        match e.managerAt w.ManagerIndex with
        | .error f => .error f
        | .ok m =>
          match m.record cmdList commands with
          | .error f => .error f
          | .ok m1 =>
            .ok ({ e with Managers := e.Managers.set w.ManagerIndex.toNat m1 },
                 pieces.set workPiece w.PopulationCompleted)
    | _, _ => .error .undefined

/-- Source `__EngineManager::Dispatch(workPiece)`, run without interruption. -/
def Dispatch (e : __EngineManager) (pieces : PieceHeap) (workPiece : Nat) :
    Except Fault (__EngineManager × PieceHeap) :=
  match e.Dispatch_populating pieces workPiece with
  | .error f => .error f
  | .ok (e1, wrapper) => e1.Dispatch_populate pieces workPiece wrapper

/-- The first loop of `__EngineManager::Flush(frame)`. -/
def Flush_wait (e : __EngineManager) (pieces : PieceHeap) (frame : Nat) :
    Except Fault PieceHeap :=
  (List.range (e.frame_async_threads + 1)).foldlM
    (fun (pieces : PieceHeap) i =>
      match e.Managers[(e.frame_async_threads + 1) * frame + i]? with
      | none => .error Fault.undefined
      | some m => m.WaitForPopulation pieces)
    pieces

/-- The second loop of `__EngineManager::Flush(frame)`: `SubmitCurrent(0, nullptr)` on every
slot of the frame. -/
def Flush_submit (e : __EngineManager) (tasks : TaskHeap) (pieces : PieceHeap) (frame : Nat) :
    Except Fault (__EngineManager × TaskHeap × PieceHeap) :=
  (List.range (e.frame_async_threads + 1)).foldlM
    (fun (acc : __EngineManager × TaskHeap × PieceHeap) i =>
      let idx := (acc.1.frame_async_threads + 1) * frame + i
      match acc.1.Managers[idx]? with
      | none => .error Fault.undefined
      | some m =>
        match m.SubmitCurrent acc.2.1 acc.2.2 [] with
        | .error f => .error f
        | .ok (m1, tasks1, pieces1, _) =>
          .ok ({ acc.1 with Managers := acc.1.Managers.set idx m1 }, tasks1, pieces1))
    (e, tasks, pieces)

/-- Source `__EngineManager::Flush(frame)`. -/
def Flush (e : __EngineManager) (tasks : TaskHeap) (pieces : PieceHeap) (frame : Nat) :
    Except Fault (__EngineManager × TaskHeap × PieceHeap) :=
  match e.Flush_wait pieces frame with
  | .error f => .error f
  | .ok pieces1 => e.Flush_submit tasks pieces1 frame

/-- Source `__EngineManager::MarkForFlush(managerIdx)`. -/
def MarkForFlush (e : __EngineManager) (managerIdx : Int) : Except Fault __EngineManager :=
  if managerIdx < 0 ∨ e.marked.length ≤ managerIdx.toNat then .error .undefined
  else .ok { e with marked := e.marked.set managerIdx.toNat true }

/-- Source `__EngineManager::FlushMarked(waiting, waitingGPU, tasks)`: `SubmitCurrent` on every
marked manager, in index order; the returned tasks are pushed to `children`. -/
def FlushMarked (e : __EngineManager) (tasks : TaskHeap) (pieces : PieceHeap)
    (waitingGPU : List Nat) (children : List Nat) :
    Except Fault (__EngineManager × TaskHeap × PieceHeap × List Nat) :=
  (List.range e.Managers.length).foldlM
    (fun (acc : __EngineManager × TaskHeap × PieceHeap × List Nat) i =>
      match acc.1.marked[i]? with
      | none => .error Fault.undefined
      | some false => .ok acc
      | some true =>
        match acc.1.Managers[i]? with
        | none => .error Fault.undefined
        | some m =>
          match m.SubmitCurrent acc.2.1 acc.2.2.1 waitingGPU with
          | .error f => .error f
          | .ok (m1, tasks1, pieces1, task) =>
            .ok ({ acc.1 with Managers := acc.1.Managers.set i m1
                              marked := acc.1.marked.set i false },
                 tasks1, pieces1, acc.2.2.2 ++ [task]))
    (e, tasks, pieces, children)

end __EngineManager

/-! ## The device (`struct __Device`) -/

/-- The fields of `VkQueueFamilyProperties` the code reads, with the answer of
`vkGetPhysicalDeviceSurfaceSupportKHR` for the family. -/
structure VkQueueFamilyProperties where
  queueFlags : Nat
  queueCount : Nat
  presentSupport : Bool
deriving DecidableEq, Repr

/-- The scheduling part of `struct __Device`, with the two heaps of shared objects:
`pieces` (work pieces) and `tasks` (GPU tasks).  The elements of the two queues are
`std::shared_ptr<WorkPiece>`, `none` being the null pointer. -/
structure __Device where
  _FrameIndex : Nat
  _NumberOfFrames : Nat
  _NumberOfAsyncThreadsInFrame : Nat
  _NumberOfAsyncThreads : Nat
  _Engines : List __EngineManager
  _disposed : Bool
  _engine_mapping : List Int
  _FrameAsyncProcesses : ProducerConsumerQueue (Option Nat)
  _AsyncProcesses : ProducerConsumerQueue (Option Nat)
  pieces : PieceHeap
  tasks : TaskHeap

namespace __Device

/-- The loop of `__minimal_queue_index_for`: `acc` is `(minFlag, QueueFamilyIndex, i)`. -/
def __minimal_queue_index_for.step (bits : Nat) (require_present_support : Bool)
    (acc : Nat × Int × Nat) (queueFamily : VkQueueFamilyProperties) : Nat × Int × Nat :=
  if (queueFamily.queueFlags &&& bits) = bits ∧
      (!require_present_support || queueFamily.presentSupport) = true then
    if acc.1 > queueFamily.queueFlags % 2 ^ 32 then
      (queueFamily.queueFlags % 2 ^ 32, (acc.2.2 : Int), acc.2.2 + 1)
    else (acc.1, acc.2.1, acc.2.2 + 1)
  else (acc.1, acc.2.1, acc.2.2 + 1)

/-- Source `__Device::__minimal_queue_index_for(bits, require_present_support)` over the families
of the physical device. -/
def __minimal_queue_index_for (queueFamilies : List VkQueueFamilyProperties) (bits : Nat)
    (require_present_support : Bool) : Int :=
  (queueFamilies.foldl (__minimal_queue_index_for.step bits require_present_support)
    (0xFFFFFFFF, -1, 0)).2.1

/-- The `bits` that `ResolveEngineIndex` builds from an engine mask. -/
def ResolveEngineIndex.bits (engines : EngineType) : Nat :=
  let bits := 0
  let bits := if engines &&& EngineType.TRANSFER ≠ 0 then bits ||| VK_QUEUE_TRANSFER_BIT else bits
  let bits := if engines &&& EngineType.COMPUTE ≠ 0 then bits ||| VK_QUEUE_COMPUTE_BIT else bits
  let bits := if engines &&& EngineType.GRAPHICS ≠ 0 then bits ||| VK_QUEUE_GRAPHICS_BIT else bits
  let bits := if engines &&& EngineType.RAYTRACING ≠ 0 then bits ||| VK_QUEUE_GRAPHICS_BIT else bits
  bits

/-- Source `__Device::ResolveEngineIndex(engines)`: the value stored in
`_engine_mapping[(int)engines]`. -/
def ResolveEngineIndex (queueFamilies : List VkQueueFamilyProperties) (engines : EngineType) :
    Int :=
  __minimal_queue_index_for queueFamilies (ResolveEngineIndex.bits engines) false

/-- The table `_engine_mapping` after the loop `for (i < 16) ResolveEngineIndex(i)` of
`__create_vk_device`. -/
def engine_mapping (queueFamilies : List VkQueueFamilyProperties) : List Int :=
  (List.range 16).map (ResolveEngineIndex queueFamilies)

/-- Source `__Device::GetSupportedEngines(bits)`. -/
def GetSupportedEngines (bits : Nat) : EngineType :=
  let type := 0
  let type := if bits &&& VK_QUEUE_TRANSFER_BIT ≠ 0 then type ||| EngineType.TRANSFER else type
  let type := if bits &&& VK_QUEUE_COMPUTE_BIT ≠ 0 then type ||| EngineType.COMPUTE else type
  let type := if bits &&& VK_QUEUE_GRAPHICS_BIT ≠ 0 then type ||| EngineType.GRAPHICS else type
  let type := if bits &&& VK_QUEUE_GRAPHICS_BIT ≠ 0 then type ||| EngineType.RAYTRACING else type
  type

end __Device

/-- The fields of `struct PresenterDescription` that configure the scheduler. -/
structure PresenterDescription where
  frames : Int
  frame_threads : Nat
  async_threads : Nat
deriving DecidableEq, Repr

namespace __Device

/-- The scheduling part of `__Device::__create_vk_device(description)` for a physical device
with the given queue families: the frame counters, one engine manager per family, the
engine mapping and the two queues. -/
def __create_vk_device (queueFamilies : List VkQueueFamilyProperties)
    (description : PresenterDescription) : Except Fault __Device :=
  let total_threads := 1 + description.frame_threads + description.async_threads
  let _NumberOfFrames := (max 1 description.frames).toNat
  match queueFamilies.mapM (fun family =>
      __EngineManager.new (GetSupportedEngines family.queueFlags) _NumberOfFrames
        description.frame_threads description.async_threads
        (min family.queueCount total_threads)) with
  | .error f => .error f
  | .ok engines =>
    .ok { _FrameIndex := 0
          _NumberOfFrames := _NumberOfFrames
          _NumberOfAsyncThreadsInFrame := description.frame_threads
          _NumberOfAsyncThreads := description.async_threads
          _Engines := engines
          _disposed := false
          _engine_mapping := engine_mapping queueFamilies
          _FrameAsyncProcesses := ProducerConsumerQueue.new (description.frame_threads * 2)
          _AsyncProcesses := ProducerConsumerQueue.new (description.async_threads * 2)
          pieces := []
          tasks := [] }

/-- The engine manager `_Engines[index]` for an `int` index; out of range is undefined. -/
def engineAt (d : __Device) (index : Int) : Except Fault __EngineManager :=
  if index < 0 then .error .undefined
  else
    match d._Engines[index.toNat]? with
    | none => .error .undefined
    | some e => .ok e

/-- Source `__Device::__CreateWorkPiece(process, mode)`: the new piece is put on the heap and its
pointer returned.  The table has 16 entries; reading it elsewhere is undefined. -/
def __CreateWorkPiece (d : __Device) (process : Process) (mode : DispatchMode) :
    Except Fault (__Device × Nat) :=
  match d._engine_mapping[process.RequiredEngines]? with
  | none => .error .undefined
  | some engineIndex =>
    let workPiece := WorkPiece.new
    let workPiece := { workPiece with GraphicProcess := some process }
    let workPiece := { workPiece with Dispatch := mode }
    let workPiece := { workPiece with State := WorkPieceState.DISPATCHED }
    let workPiece := { workPiece with EngineIndex := engineIndex }
    let workPiece := { workPiece with ManagerIndex := -1 }
    .ok ({ d with pieces := d.pieces ++ [workPiece] }, d.pieces.length)

/-- The `switch` of `__PerformPopulation`: the asserted thread range and `managerIdx`. -/
def __PerformPopulation.managerIdx (d : __Device) (mode : DispatchMode) (threadIdx : Nat) :
    Except Fault Int :=
  match mode with
  | .MAIN_THREAD =>
    if threadIdx = 0 then
      .ok ((d._FrameIndex : Int) * (d._NumberOfAsyncThreadsInFrame + 1))
    else .error .assertion
  | .ASYNC_FRAME =>
    if threadIdx ≥ 1 ∧ threadIdx ≤ d._NumberOfAsyncThreadsInFrame then
      .ok ((d._FrameIndex : Int) * (d._NumberOfAsyncThreadsInFrame + 1) + threadIdx)
    else .error .assertion
  | .ASYNC =>
    if threadIdx > d._NumberOfAsyncThreadsInFrame ∧
        threadIdx < 1 + d._NumberOfAsyncThreadsInFrame + d._NumberOfAsyncThreads then
      .ok (((d._NumberOfFrames : Int) - 1) * (d._NumberOfAsyncThreadsInFrame + 1) + threadIdx)
    else .error .assertion

/-- Source `__PerformPopulation` up to `workPiece->ManagerIndex = managerIdx`. -/
def __PerformPopulation.assign (d : __Device) (workPiece : Nat) (threadIdx : Nat) :
    Except Fault __Device :=
  match d.pieces[workPiece]? with
  | none => .error .undefined
  | some w =>
    match __PerformPopulation.managerIdx d w.Dispatch threadIdx with
    | .error f => .error f
    | .ok managerIdx =>
      .ok { d with pieces := d.pieces.set workPiece { w with ManagerIndex := managerIdx } }

/-- Source `__Device::__PerformPopulation(workPiece, threadIdx)`, run without interruption. -/
def __PerformPopulation (d : __Device) (workPiece : Nat) (threadIdx : Nat) :
    Except Fault __Device :=
  match __PerformPopulation.assign d workPiece threadIdx with
  | .error f => .error f
  | .ok d1 =>
    match d1.pieces[workPiece]? with
    | none => .error .undefined
    | some w =>
      if w.EngineIndex ≥ 0 then
        match d1.engineAt w.EngineIndex with
        | .error f => .error f
        | .ok e =>
          match e.Dispatch d1.pieces workPiece with
          | .error f => .error f
          | .ok (e1, pieces1) =>
            .ok { d1 with _Engines := d1._Engines.set w.EngineIndex.toNat e1, pieces := pieces1 }
      else .ok d1

/-- Source `__PerformPopulation` up to the return of `Populating` inside `__EngineManager::Dispatch`:
the step of a population thread that ends where it starts running the user's `Populate`.
Returns the facade, or `none` when the piece has no engine. -/
def __PerformPopulation.populating (d : __Device) (workPiece : Nat) (threadIdx : Nat) :
    Except Fault (__Device × Option CommandListManager) :=
  match __PerformPopulation.assign d workPiece threadIdx with
  | .error f => .error f
  | .ok d1 =>
    match d1.pieces[workPiece]? with
    | none => .error .undefined
    | some w =>
      if w.EngineIndex ≥ 0 then
        match d1.engineAt w.EngineIndex with
        | .error f => .error f
        | .ok e =>
          match e.Dispatch_populating d1.pieces workPiece with
          | .error f => .error f
          | .ok (e1, wrapper) =>
            .ok ({ d1 with _Engines := d1._Engines.set w.EngineIndex.toNat e1 }, some wrapper)
      else .ok (d1, none)

/-- The remainder of `__PerformPopulation` after `Populating` returned: the user's `Populate`
on the facade and `PopulationCompleted`. -/
def __PerformPopulation.populate (d : __Device) (workPiece : Nat)
    (wrapper : Option CommandListManager) : Except Fault __Device :=
  match wrapper with
  | none => .ok d
  | some wrapper =>
    match d.pieces[workPiece]? with
    | none => .error .undefined
    | some w =>
      match d.engineAt w.EngineIndex with
      | .error f => .error f
      | .ok e =>
        match e.Dispatch_populate d.pieces workPiece wrapper with
        | .error f => .error f
        | .ok (e1, pieces1) =>
          .ok { d with _Engines := d._Engines.set w.EngineIndex.toNat e1, pieces := pieces1 }

/-- The `Consume` at the head of the loop body of `__OompaLoompaWork(_this, idx)`: worker
`idx` takes a piece from the queue it serves. -/
def __OompaLoompaWork.consume (d : __Device) (idx : Nat) : Except Fault (__Device × Nat) :=
  if idx ≤ d._NumberOfAsyncThreadsInFrame then
    match d._FrameAsyncProcesses.Consume with
    | .error f => .error f
    | .ok (q, some workPiece) => .ok ({ d with _FrameAsyncProcesses := q }, workPiece)
    | .ok (_, none) => .error .undefined
  else
    match d._AsyncProcesses.Consume with
    | .error f => .error f
    | .ok (q, some workPiece) => .ok ({ d with _AsyncProcesses := q }, workPiece)
    | .ok (_, none) => .error .undefined

/-- One pass of the loop body of `__OompaLoompaWork(_this, idx)`, run without interruption. -/
def __OompaLoompaWork (d : __Device) (idx : Nat) : Except Fault __Device :=
  match __OompaLoompaWork.consume d idx with
  | .error f => .error f
  | .ok (d1, workPiece) => d1.__PerformPopulation workPiece idx

/-- Source `__Device::Dispatch` after the redirection `switch`: the piece is created and populated
inline or produced onto the queue of its mode. -/
def Dispatch.rest (d : __Device) (process : Process) (mode : DispatchMode) :
    Except Fault (__Device × __CPUTask) :=
  match d.__CreateWorkPiece process mode with
  | .error f => .error f
  | .ok (d1, workPiece) =>
    let task : __CPUTask := { workPiece := workPiece }
    match mode with
    | .MAIN_THREAD =>
      match d1.__PerformPopulation workPiece 0 with
      | .error f => .error f
      | .ok d2 => .ok (d2, task)
    | .ASYNC_FRAME =>
      match d1._FrameAsyncProcesses.Produce (some workPiece) with
      | .error f => .error f
      | .ok q => .ok ({ d1 with _FrameAsyncProcesses := q }, task)
    | .ASYNC =>
      match d1._AsyncProcesses.Produce (some workPiece) with
      | .error f => .error f
      | .ok q => .ok ({ d1 with _AsyncProcesses := q }, task)

/-- Source `__Device::Dispatch(process, mode)` with a bound on the depth of its recursion. -/
def Dispatch.go : Nat → __Device → Process → DispatchMode → Except Fault (__Device × __CPUTask)
  | 0, _, _, _ => .error .undefined
  | fuel + 1, d, process, mode =>
    match mode with
    | .ASYNC_FRAME =>
      if d._NumberOfAsyncThreadsInFrame = 0 then
        Dispatch.go fuel d process .MAIN_THREAD
      else Dispatch.rest d process mode
    | .ASYNC =>
      if d._NumberOfAsyncThreads = 0 then
        if d._NumberOfAsyncThreadsInFrame = 0 then
          Dispatch.go fuel d process .MAIN_THREAD
        else
          Dispatch.go fuel d process .ASYNC_FRAME
      else Dispatch.rest d process mode
    | .MAIN_THREAD => Dispatch.rest d process mode

/-- Source `__Device::Dispatch(process, mode)`.  The recursion is at most two calls deep
(`ASYNC`, `ASYNC_FRAME`, `MAIN_THREAD`); three levels of fuel cover it. -/
def Dispatch (d : __Device) (process : Process) (mode : DispatchMode) :
    Except Fault (__Device × __CPUTask) :=
  Dispatch.go 3 d process mode

/-- The first loop of `__Device::Flush`: wait on every CPU task and mark its slot. -/
def Flush.mark (d : __Device) (tasks : List __CPUTask) : Except Fault __Device :=
  tasks.foldlM
    (fun (d : __Device) t =>
      match t.Wait d.pieces with
      | .error f => .error f
      | .ok pieces1 =>
        match pieces1[t.workPiece]? with
        | none => .error Fault.undefined
        | some w =>
          match d.engineAt w.EngineIndex with
          | .error f => .error f
          | .ok e =>
            match e.MarkForFlush w.ManagerIndex with
            | .error f => .error f
            | .ok e1 =>
              .ok { d with _Engines := d._Engines.set w.EngineIndex.toNat e1, pieces := pieces1 })
    d

/-- The second loop of `__Device::Flush`: `FlushMarked` on every engine, collecting the
children of the result. -/
def Flush.submit (d : __Device) (waitingGPU : List Nat) : Except Fault (__Device × List Nat) :=
  (List.range d._Engines.length).foldlM
    (fun (acc : __Device × List Nat) i =>
      match acc.1._Engines[i]? with
      | none => .error Fault.undefined
      | some e =>
        match e.FlushMarked acc.1.tasks acc.1.pieces waitingGPU acc.2 with
        | .error f => .error f
        | .ok (e1, tasks1, pieces1, children) =>
          .ok ({ acc.1 with _Engines := acc.1._Engines.set i e1, tasks := tasks1,
                            pieces := pieces1 }, children))
    (d, [])

/-- Source `__Device::Flush(count, tasks, waitingCount, waitingGPU)`.  The result task (no
semaphore, `finished = false`) is put on the heap once its children are collected. -/
def Flush (d : __Device) (tasks : List __CPUTask) (waitingGPU : List Nat) :
    Except Fault (__Device × Nat) :=
  match Flush.mark d tasks with
  | .error f => .error f
  | .ok d1 =>
    match Flush.submit d1 waitingGPU with
    | .error f => .error f
    | .ok (d2, children) =>
      let result : __GPUTask := { __GPUTask.new with children := children }
      .ok ({ d2 with tasks := d2.tasks ++ [result] }, d2.tasks.length)

/-- The calls `Dispatch(p1, m1); ...; Dispatch(pn, mn)` made one after the other by the
main thread; returns the CPU tasks in the order of the calls. -/
def DispatchAll (d : __Device) : List (Process × DispatchMode) →
    Except Fault (__Device × List __CPUTask)
  | [] => .ok (d, [])
  | (process, mode) :: rest =>
    match d.Dispatch process mode with
    | .error f => .error f
    | .ok (d1, task) =>
      match DispatchAll d1 rest with
      | .error f => .error f
      | .ok (d2, tasks) => .ok (d2, task :: tasks)

end __Device

/-- Source `Device::Dispatch(process, mode)` of the public interface (in C++ `mode` defaults to
`MAIN_THREAD`). -/
def Device.Dispatch (d : __Device) (process : Process) (mode : DispatchMode) :
    Except Fault (__Device × __CPUTask) :=
  d.Dispatch process mode

/-- Source `Device::Flush(count, tasks, waitingCount, waitingGPU)` of the public interface. -/
def Device.Flush (d : __Device) (tasks : List __CPUTask) (waitingGPU : List Nat) :
    Except Fault (__Device × Nat) :=
  d.Flush tasks waitingGPU

/-! ## The fall-back policy in the words of the specification -/

/-- The worker count of a mode: `frame_threads` for `ASYNC_FRAME`, `async_threads` for
`ASYNC`; the main thread is always there. -/
def workerCount (d : __Device) : DispatchMode → Nat
  | .MAIN_THREAD => 1
  | .ASYNC_FRAME => d._NumberOfAsyncThreadsInFrame
  | .ASYNC => d._NumberOfAsyncThreads

/-- The chain `mode → ASYNC_FRAME → MAIN_THREAD`, from the requested mode on. -/
def fallbackChain : DispatchMode → List DispatchMode
  | .ASYNC => [.ASYNC, .ASYNC_FRAME, .MAIN_THREAD]
  | .ASYNC_FRAME => [.ASYNC_FRAME, .MAIN_THREAD]
  | .MAIN_THREAD => [.MAIN_THREAD]

/-- The first mode of the chain whose worker count is non-zero. -/
def fallbackMode (d : __Device) (mode : DispatchMode) : DispatchMode :=
  ((fallbackChain mode).find? (fun m => decide (workerCount d m ≠ 0))).getD .MAIN_THREAD

/-- The number of bits set in a 32-bit mask (the `popcount` of the specification). -/
def popcount (n : Nat) : Nat :=
  (List.range 32).countP (fun i => n.testBit i)

/-- Two queue families: compute and transfer first, graphics and compute second. -/
def twoFamilies : List VkQueueFamilyProperties :=
  [{ queueFlags := 6, queueCount := 1, presentSupport := false },
   { queueFlags := 3, queueCount := 1, presentSupport := false }]

/-! ## Sample configurations used in examples -/

/-- A physical device with one queue family: graphics, compute and transfer, four queues. -/
def sampleFamilies : List VkQueueFamilyProperties :=
  [{ queueFlags := 7, queueCount := 4, presentSupport := true }]

/-- A physical device whose only queue family is transfer-only. -/
def transferOnlyFamilies : List VkQueueFamilyProperties :=
  [{ queueFlags := 4, queueCount := 1, presentSupport := true }]

/-- The device that `__create_vk_device` builds over `transferOnlyFamilies` for one frame
and no worker threads. -/
def transferOnlyDevice : __Device :=
  { _FrameIndex := 0
    _NumberOfFrames := 1
    _NumberOfAsyncThreadsInFrame := 0
    _NumberOfAsyncThreads := 0
    _Engines := [{ Managers := [__CommandQueueManager.new 1 0 false]
                   marked := [false]
                   Queues := [0]
                   frames := 1
                   frame_async_threads := 0
                   async_threads := 0
                   supportedEngines := 1 }]
    _disposed := false
    _engine_mapping := [0, 0, -1, -1, -1, -1, -1, -1, -1, -1, -1, -1, -1, -1, -1, -1]
    _FrameAsyncProcesses := ProducerConsumerQueue.new 0
    _AsyncProcesses := ProducerConsumerQueue.new 0
    pieces := []
    tasks := [] }

/-- The device that `__create_vk_device` builds over `sampleFamilies` for one frame and no
worker threads. -/
def sampleDevice : __Device :=
  { _FrameIndex := 0
    _NumberOfFrames := 1
    _NumberOfAsyncThreadsInFrame := 0
    _NumberOfAsyncThreads := 0
    _Engines := [{ Managers := [__CommandQueueManager.new 15 0 false]
                   marked := [false]
                   Queues := [0]
                   frames := 1
                   frame_async_threads := 0
                   async_threads := 0
                   supportedEngines := 15 }]
    _disposed := false
    _engine_mapping := [0, 0, 0, 0, 0, 0, 0, 0, 0, 0, 0, 0, 0, 0, 0, 0]
    _FrameAsyncProcesses := ProducerConsumerQueue.new 0
    _AsyncProcesses := ProducerConsumerQueue.new 0
    pieces := []
    tasks := [] }

/-- A process written against `GraphicsManager` that records the commands `10, 11`. -/
def processA : Process := MethodProcess GraphicsManager.SupportedEngines [10, 11]
/-- A process written against `GraphicsManager` that records the command `20`. -/
def processB : Process := MethodProcess GraphicsManager.SupportedEngines [20]
/-- A process written against `GraphicsManager` that records the commands `30, 31, 32`. -/
def processC : Process := MethodProcess GraphicsManager.SupportedEngines [30, 31, 32]

/-- The result of `Dispatch(processA, MAIN_THREAD)` on `sampleDevice`. -/
def sampleDispatched : __Device × __CPUTask :=
  match Device.Dispatch sampleDevice processA .MAIN_THREAD with
  | .ok r => r
  | .error _ => (sampleDevice, { workPiece := 0 })

/-- The commands that the processes of a list record through one facade, in the order of
the list. -/
def recordedBy (facade : CommandListManager) : List (Process × DispatchMode) → List Nat
  | [] => []
  | (process, _) :: rest =>
    (match process.Populate facade with
      | .ok commands => commands
      | .error _ => []) ++ recordedBy facade rest

/-- The pointers of `n` work pieces created one after the other on a heap of size `first`. -/
def piecesFrom (first n : Nat) : List Nat :=
  (List.range n).map (fun i => first + i)

/-- The processes `A`, `B`, `C` dispatched in this order, in three different modes. -/
def sampleSequence : List (Process × DispatchMode) :=
  [(processA, .MAIN_THREAD), (processB, .ASYNC_FRAME), (processC, .ASYNC)]

/-- The only command queue manager of `sampleDevice` after `Peek` gave out its first
command list. -/
def samplePeeked : __CommandQueueManager :=
  { __CommandQueueManager.new 15 0 false with
      recordingBuffer := some 0
      cmdLists := [{ vkCmdList := 0, SupportedEngines := 15,
                     State := CommandListState.Recording, recorded := [] }] }

/-! ## An interleaving of the main thread with a population thread -/

/-- What is observed of the two work pieces and of the slot of the cross-frame worker at one
point of `raceTrace`. -/
structure RaceObservation where
  states : List WorkPieceState
  latches : List Int
  populated : List (List Nat)
  submittedBuffers : List (List Nat)
deriving DecidableEq, Repr

/-- The observation of a device with one engine. -/
def observe (d : __Device) : RaceObservation :=
  { states := d.pieces.map (fun w => w.State)
    latches := d.pieces.map (fun w => w.AfterPopulated.s.state)
    populated := (d._Engines.map (fun e => e.Managers.map (fun m => m.populated))).flatten
    submittedBuffers :=
      (d._Engines.map (fun e => e.Managers.map (fun m => m.submittedBuffers))).flatten }

/-- A run of a device with one frame, no frame thread and one cross-frame worker (thread 1).
Each line is one step of one thread; a step is a piece of code that runs under a lock or
touches nothing another thread touches.

1. main thread: `Dispatch(A, ASYNC)` and `Dispatch(B, ASYNC)`; both pieces are queued;
2. worker 1: one pass of its loop, which takes `A` and populates it;
3. worker 1: takes `B`, and in `__EngineManager::Dispatch` returns from `Populating(B)`:
   `B` is in `populated` of the worker's slot and its `Populate` is about to run;
4. main thread: `Flush` on the CPU task of `A` alone;
5. worker 1: `Populate` of `B` and `PopulationCompleted`.

The result lists the observations after steps 3, 4 and 5. -/
def raceTrace : Except Fault (List RaceObservation) := do
  let d ← __Device.__create_vk_device sampleFamilies
    { frames := 1, frame_threads := 0, async_threads := 1 }
  let (d, taskA) ← Device.Dispatch d processA .ASYNC
  let (d, _) ← Device.Dispatch d processB .ASYNC
  let d ← d.__OompaLoompaWork 1
  let (d, workPiece) ← __Device.__OompaLoompaWork.consume d 1
  let (d, wrapper) ← __Device.__PerformPopulation.populating d workPiece 1
  let afterPopulating := observe d
  let (d, _) ← Device.Flush d [taskA] []
  let afterFlush := observe d
  let d ← __Device.__PerformPopulation.populate d workPiece wrapper
  pure [afterPopulating, afterFlush, observe d]

/-! ## Operations as transformers of the object they are called on -/

namespace __CommandListManager

/-- Source `__CommandListManager::__Open()`, with the command list as the call leaves it:
the `throw` comes before any assignment, so a failing call leaves the object as it was. -/
def __Open.run (c : __CommandListManager) : __CommandListManager × Except Fault Unit :=
  if c.State = CommandListState.Recording then (c, .ok ())
  else if c.State ≠ CommandListState.Initial then
    (c, .error (.thrown "Fail to open an executing command list"))
  else ({ c with State := CommandListState.Recording }, .ok ())

/-- Source `__CommandListManager::__Close()`, with the command list as the call leaves it. -/
def __Close.run (c : __CommandListManager) : __CommandListManager × Except Fault Unit :=
  if c.State ≠ CommandListState.Recording then
    (c, .error (.thrown "Closing a command buffer has not been opened"))
  else ({ c with State := CommandListState.Executable }, .ok ())

/-- Source `__CommandListManager::__Reset()`, with the command list as the call leaves it. -/
def __Reset.run (c : __CommandListManager) : __CommandListManager × Except Fault Unit :=
  if c.State = CommandListState.OnGPU then
    (c, .error (.thrown "Reseting a command list has not finished on the gpu"))
  else ({ c with State := CommandListState.Initial, recorded := [] }, .ok ())

end __CommandListManager

/-- Source `OneTimeSemaphore` as a member of a fresh object: the semaphore starts at zero. -/
def OneTimeSemaphore.new : OneTimeSemaphore := { s := Semaphore.new }

/-- The two calls a thread can make on a latch. -/
inductive LatchOp where
  | done
  | wait
deriving DecidableEq, Repr

/-- A sequence of calls on a latch, each made when the one before has returned; a `wait`
that cannot proceed ends the run as blocked. -/
def OneTimeSemaphore.run (o : OneTimeSemaphore) : List LatchOp → Except Fault OneTimeSemaphore
  | [] => .ok o
  | .done :: ops => OneTimeSemaphore.run o.Done ops
  | .wait :: ops =>
    match o.Wait with
    | .error f => .error f
    | .ok o1 => OneTimeSemaphore.run o1 ops

/-! ## The bounded queue and the list queue of the specification -/

/-- The two calls a thread can make on a queue. -/
inductive QueueOp (T : Type) where
  | produce (element : T)
  | consume

namespace ProducerConsumerQueue

variable {T : Type}

/-- The elements held by the ring buffer, oldest first: the `count` cells from `start` on,
wrapping around. -/
def contents [Inhabited T] (q : ProducerConsumerQueue T) : List T :=
  (List.range q.count.toNat).map
    (fun k => q.elements.getD ((q.start + k) % q.elements.length) default)

/-- A sequence of calls on a queue, each made when the one before has returned; returns the
queue and the elements that the `consume` calls returned, in order.  A call that cannot
proceed ends the run as blocked. -/
def run [Inhabited T] (q : ProducerConsumerQueue T) :
    List (QueueOp T) → Except Fault (ProducerConsumerQueue T × List T)
  | [] => .ok (q, [])
  | .produce element :: ops =>
    match q.Produce element with
    | .error f => .error f
    | .ok q1 => run q1 ops
  | .consume :: ops =>
    match q.Consume with
    | .error f => .error f
    | .ok (q1, element) =>
      match run q1 ops with
      | .error f => .error f
      | .ok (q2, elements) => .ok (q2, element :: elements)

/-- The states of a queue of capacity `C` reachable from the constructed queue by calls of
`Produce` and `Consume` that returned. -/
inductive Reachable [Inhabited T] (C : Nat) : ProducerConsumerQueue T → Prop where
  | new : Reachable C (ProducerConsumerQueue.new C)
  | produce (q q1 : ProducerConsumerQueue T) (element : T) :
      Reachable C q → q.Produce element = .ok q1 → Reachable C q1
  | consume (q q1 : ProducerConsumerQueue T) (element : T) :
      Reachable C q → q.Consume = .ok (q1, element) → Reachable C q1

/-- The invariant of a queue of capacity `C`. -/
def Invariant (C : Nat) (q : ProducerConsumerQueue T) : Prop :=
  q.elements.length = C ∧ 0 ≤ q.count ∧ q.count ≤ C ∧
  q.productsSemaphore.state = q.count ∧ q.spacesSemaphore.state = C - q.count ∧
  (0 < C → q.start < C)

end ProducerConsumerQueue

/-- The elements that a sequence of calls produces, in order. -/
def QueueOp.produced {T : Type} : List (QueueOp T) → List T
  | [] => []
  | .produce element :: ops => element :: QueueOp.produced ops
  | .consume :: ops => QueueOp.produced ops

/-- The list queue of the specification with capacity `C`: `produce` appends at the back
when fewer than `C` elements are held, `consume` removes the front when there is one; a
call that cannot proceed gives `none`.  Returns the list left and the consumed elements. -/
def ListQueue.run {T : Type} (C : Nat) (l : List T) : List (QueueOp T) → Option (List T × List T)
  | [] => some (l, [])
  | .produce element :: ops =>
    if l.length < C then ListQueue.run C (l ++ [element]) ops else none
  | .consume :: ops =>
    match l with
    | [] => none
    | front :: l1 =>
      match ListQueue.run C l1 ops with
      | none => none
      | some (l2, elements) => some (l2, front :: elements)

/-! ## The presenter (`class Presenter`, `goofy.cpp`) -/

/-- The state behind a `Presenter`: the scheduling state `__state` with the two fields of
`struct __Device` that only the frame loop reads. -/
structure PresenterState where
  __state : __Device
  __MainRenderingEngineIndex : Int
  __PresentingEngineIndex : Int

namespace Presenter

/-- Source `Presenter::CreateNew(description, presenter)`, for a physical device with the given
queue families: `__create_vk_device` and the two engine indices it computes with
`__minimal_queue_index_for`. -/
def CreateNew (queueFamilies : List VkQueueFamilyProperties)
    (description : PresenterDescription) : Except Fault PresenterState :=
  match __Device.__create_vk_device queueFamilies description with
  | .error f => .error f
  | .ok d =>
    .ok { __state := d
          __MainRenderingEngineIndex :=
            __Device.__minimal_queue_index_for queueFamilies VK_QUEUE_GRAPHICS_BIT false
          __PresentingEngineIndex :=
            __Device.__minimal_queue_index_for queueFamilies 0 true }

/-- The loop `for (e : _Engines) e->Flush(_FrameIndex)` of `EndFrame`. -/
def EndFrame.flush (d : __Device) : Except Fault __Device :=
  (List.range d._Engines.length).foldlM
    (fun (d : __Device) i =>
      match d._Engines[i]? with
      | none => .error Fault.undefined
      | some e =>
        match e.Flush d.tasks d.pieces d._FrameIndex with
        | .error f => .error f
        | .ok (e1, tasks1, pieces1) =>
          .ok { d with _Engines := d._Engines.set i e1, tasks := tasks1, pieces := pieces1 })
    d

/-- The access `_Engines[index]->Queues[0]` that `EndFrame` makes to submit and to present;
out of range is undefined. -/
def firstQueue (d : __Device) (index : Int) : Except Fault Nat :=
  match d.engineAt index with
  | .error f => .error f
  | .ok e =>
    match e.Queues[0]? with
    | none => .error .undefined
    | some queue => .ok queue

/-- Source `Presenter::EndFrame()`: every engine flushes the frame, the signalling submission
and the presentation go to the first queue of the rendering and of the presenting engine,
and `_FrameIndex = (_FrameIndex + 1) % _NumberOfFrames` (a remainder by zero is
undefined). -/
def EndFrame (p : PresenterState) : Except Fault PresenterState :=
  match EndFrame.flush p.__state with
  | .error f => .error f
  | .ok d =>
    match firstQueue d p.__MainRenderingEngineIndex with
    | .error f => .error f
    | .ok _ =>
      match firstQueue d p.__PresentingEngineIndex with
      | .error f => .error f
      | .ok _ =>
        if d._NumberOfFrames = 0 then .error .undefined
        else
          .ok { p with
                  __state := { d with _FrameIndex := (d._FrameIndex + 1) % d._NumberOfFrames } }

/-- The call `EndFrame()` made `n` times in a row. -/
def EndFrames : Nat → PresenterState → Except Fault PresenterState
  | 0, p => .ok p
  | n + 1, p =>
    match EndFrame p with
    | .error f => .error f
    | .ok p1 => EndFrames n p1

end Presenter

/-- The presenter over `sampleDevice`. -/
def samplePresenter : PresenterState :=
  { __state := sampleDevice, __MainRenderingEngineIndex := 0, __PresentingEngineIndex := 0 }

/-- The presenter `samplePresenter` after `n` calls of `EndFrame`. -/
def samplePresenterAfter (n : Nat) : PresenterState :=
  match Presenter.EndFrames n samplePresenter with
  | .ok p => p
  | .error _ => samplePresenter

/-- The presenter created over `sampleFamilies` with three frames and no worker threads. -/
def framesPresenter : PresenterState :=
  match Presenter.CreateNew sampleFamilies
      { frames := 3, frame_threads := 0, async_threads := 0 } with
  | .ok p => p
  | .error _ => samplePresenter

/-- The presenter `framesPresenter` after `n` calls of `EndFrame`. -/
def framesPresenterAfter (n : Nat) : PresenterState :=
  match Presenter.EndFrames n framesPresenter with
  | .ok p => p
  | .error _ => framesPresenter

/-! ## Retiring submitted command lists -/

/-- The loop `for (int i = 0; i < n; i++) body`: the state after `n` passes, the pass with
index `i` being `step state i`. -/
def forLoop {σ : Type} (step : σ → Nat → Except Fault σ) : Nat → σ → Except Fault σ
  | 0, state => .ok state
  | n + 1, state =>
    match forLoop step n state with
    | .error f => .error f
    | .ok state1 => step state1 n

/-- The effect of `std::vector::resize(n)` on a vector of handles; new cells hold the null
handle, written `0`. -/
def resizeHandles (l : List Nat) (n : Nat) : List Nat :=
  l.take n ++ List.replicate (n - l.length) 0

namespace __CommandQueueManager

/-- The first loop of `WaitForPendings`: the semaphores of the unfinished submitted tasks are
written to the front of `waitingSemaphores`; the state is the vector and `total`. -/
def WaitForPendings.collect (m : __CommandQueueManager) (tasks : TaskHeap) :
    Except Fault (List Nat × Nat) :=
  forLoop
    (fun (acc : List Nat × Nat) i =>
      match m.submittedTasks[i]? with
      | none => .error Fault.undefined
      | some t =>
        match tasks[t]? with
        | none => .error Fault.undefined
        | some task =>
          if !task.finished then
            if acc.2 < acc.1.length then
              .ok (acc.1.set acc.2 (task.GPUFinished.getD 0), acc.2 + 1)
            else .error Fault.undefined
          else .ok acc)
    m.submittedTasks.length
    (resizeHandles m.waitingSemaphores m.submittedTasks.length, 0)

/-- One pass of the second loop of `WaitForPendings`: `submittedTasks[i]->finished = true;
submittedBuffers[i]->__Reset(); reusableCmdBuffers.push_back(submittedBuffers[i]);`. -/
def WaitForPendings.retire (acc : __CommandQueueManager × TaskHeap) (i : Nat) :
    Except Fault (__CommandQueueManager × TaskHeap) :=
  match acc.1.submittedTasks[i]?, acc.1.submittedBuffers[i]? with
  | some t, some b =>
    match acc.2[t]?, acc.1.cmdLists[b]? with
    | some task, some c =>
      match c.__Reset with
      | .error f => .error f
      | .ok c1 =>
        .ok ({ acc.1 with
                cmdLists := acc.1.cmdLists.set b c1
                reusableCmdBuffers := acc.1.reusableCmdBuffers ++ [b] },
             acc.2.set t { task with finished := true })
    | _, _ => .error .undefined
  | _, _ => .error .undefined

/-- Source `__CommandQueueManager::WaitForPendings()`.  `vkWaitSemaphores` returns once the
GPU has signalled the collected semaphores, which it is taken to do.  (`waitingValues`,
a vector of ones, is left out.) -/
def WaitForPendings (m : __CommandQueueManager) (tasks : TaskHeap) :
    Except Fault (__CommandQueueManager × TaskHeap) :=
  match WaitForPendings.collect m tasks with
  | .error f => .error f
  | .ok (waitingSemaphores, _) =>
    match forLoop WaitForPendings.retire m.submittedBuffers.length
        ({ m with waitingSemaphores := waitingSemaphores }, tasks) with
    | .error f => .error f
    | .ok (m1, tasks1) =>
      .ok ({ m1 with submittedBuffers := [], submittedTasks := [] }, tasks1)

/-- The `while` loop of `Clean`, entered at index `i`.  `taskOwners t` is
`submittedTasks[i].use_count()` for the task `t`: the number of shared pointers that own
it, the one in `submittedTasks` included.  The first argument bounds the number of passes;
`submittedTasks.size() - i` passes are enough, since each pass removes an entry or
advances `i`. -/
def Clean.loop (tasks : TaskHeap) (taskOwners : Nat → Nat) :
    Nat → __CommandQueueManager → Nat → Except Fault __CommandQueueManager
  | 0, m, i => if i < m.submittedTasks.length then .error .undefined else .ok m
  | fuel + 1, m, i =>
    if i < m.submittedTasks.length then
      match m.submittedTasks[i]? with
      | none => .error .undefined
      | some t =>
        match tasks[t]? with
        | none => .error .undefined
        | some task =>
          if task.finished then
            match m.submittedBuffers[i]?, m.submittedBuffers.getLast?,
                m.submittedTasks.getLast? with
            | some b, some lastBuffer, some lastTask =>
              match m.cmdLists[b]? with
              | none => .error .undefined
              | some c =>
                match c.__Reset with
                | .error f => .error f
                | .ok c1 =>
                  Clean.loop tasks taskOwners fuel
                    { m with
                        cmdLists := m.cmdLists.set b c1
                        reusableCmdBuffers := m.reusableCmdBuffers ++ [b]
                        submittedBuffers := (m.submittedBuffers.set i lastBuffer).dropLast
                        submittedTasks := (m.submittedTasks.set i lastTask).dropLast }
                    i
            | _, _, _ => .error .undefined
          else
            if taskOwners t = 1 then
              .error (.thrown
                "Async process submitted but abandoned! Please, keep the GPUTask alive and synchronize manually.")
            else Clean.loop tasks taskOwners fuel m (i + 1)
    else .ok m

/-- The loop of `Clean` over `populated`.  `pieceOwners w` is the number of shared pointers
that own the piece `w` when `Clean` is called, the one in `populated` included; the loop
variable is one more owner, so `w.use_count()` is `pieceOwners w + 1`. -/
def Clean.populated (pieces : PieceHeap) (pieceOwners : Nat → Nat) :
    List Nat → Except Fault Unit
  | [] => .ok ()
  | w :: rest =>
    match pieces[w]? with
    | none => .error .undefined
    | some piece =>
      if piece.Dispatch = DispatchMode.ASYNC ∧ pieceOwners w + 1 ≤ 2 then
        .error (.thrown "Abandoned async populating thread!")
      else Clean.populated pieces pieceOwners rest

/-- Source `__CommandQueueManager::Clean()`. -/
def Clean (m : __CommandQueueManager) (tasks : TaskHeap) (pieces : PieceHeap)
    (taskOwners pieceOwners : Nat → Nat) : Except Fault __CommandQueueManager :=
  match Clean.loop tasks taskOwners m.submittedTasks.length m 0 with
  | .error f => .error f
  | .ok m1 =>
    match Clean.populated pieces pieceOwners m1.populated with
    | .error f => .error f
    | .ok _ => .ok m1

end __CommandQueueManager

namespace __EngineManager

/-- The loop of `CleanAsyncManagers` (and the second loop of `WaitForCompletition`): `Clean`
on the manager of every cross-frame worker. -/
def CleanAsyncManagers (e : __EngineManager) (tasks : TaskHeap) (pieces : PieceHeap)
    (taskOwners pieceOwners : Nat → Nat) : Except Fault __EngineManager :=
  forLoop
    (fun (e : __EngineManager) i =>
      let idx := (e.frame_async_threads + 1) * e.frames + i
      match e.Managers[idx]? with
      | none => .error Fault.undefined
      | some m =>
        match m.Clean tasks pieces taskOwners pieceOwners with
        | .error f => .error f
        | .ok m1 => .ok { e with Managers := e.Managers.set idx m1 })
    e.async_threads e

/-- The first loop of `WaitForCompletition(frame)`: `WaitForPendings` on every slot of the
frame. -/
def WaitForCompletition.pendings (frame : Nat) (acc : __EngineManager × TaskHeap) (i : Nat) :
    Except Fault (__EngineManager × TaskHeap) :=
  let idx := (acc.1.frame_async_threads + 1) * frame + i
  match acc.1.Managers[idx]? with
  | none => .error .undefined
  | some m =>
    match m.WaitForPendings acc.2 with
    | .error f => .error f
    | .ok (m1, tasks1) => .ok ({ acc.1 with Managers := acc.1.Managers.set idx m1 }, tasks1)

/-- Source `__EngineManager::WaitForCompletition(frame)`. -/
def WaitForCompletition (e : __EngineManager) (tasks : TaskHeap) (pieces : PieceHeap)
    (frame : Nat) (taskOwners pieceOwners : Nat → Nat) :
    Except Fault (__EngineManager × TaskHeap) :=
  match forLoop (WaitForCompletition.pendings frame) (e.frame_async_threads + 1) (e, tasks) with
  | .error f => .error f
  | .ok (e1, tasks1) =>
    match e1.CleanAsyncManagers tasks1 pieces taskOwners pieceOwners with
    | .error f => .error f
    | .ok e2 => .ok (e2, tasks1)

end __EngineManager

/-- The states of a command queue manager reachable from its construction by returning
calls of `Peek`, `Populating`, `SubmitCurrent`, `WaitForPendings` and `Clean`, and by the
recording that a process does through a facade. -/
inductive __CommandQueueManager.Reachable : __CommandQueueManager → Prop where
  | new (supported : EngineType) (queue : Nat) (throwErrorIfAbandonedTasks : Bool) :
      Reachable (__CommandQueueManager.new supported queue throwErrorIfAbandonedTasks)
  | peek (m m1 : __CommandQueueManager) (r : Nat) :
      Reachable m → m.Peek = .ok (m1, r) → Reachable m1
  | populating (m m1 : __CommandQueueManager) (task r : Nat) :
      Reachable m → m.Populating task = .ok (m1, r) → Reachable m1
  | submitCurrent (m m1 : __CommandQueueManager) (tasks tasks1 : TaskHeap)
      (pieces pieces1 : PieceHeap) (wait_for : List Nat) (task : Nat) :
      Reachable m → m.SubmitCurrent tasks pieces wait_for = .ok (m1, tasks1, pieces1, task) →
      Reachable m1
  | waitForPendings (m m1 : __CommandQueueManager) (tasks tasks1 : TaskHeap) :
      Reachable m → m.WaitForPendings tasks = .ok (m1, tasks1) → Reachable m1
  | clean (m m1 : __CommandQueueManager) (tasks : TaskHeap) (pieces : PieceHeap)
      (taskOwners pieceOwners : Nat → Nat) :
      Reachable m → m.Clean tasks pieces taskOwners pieceOwners = .ok m1 → Reachable m1
  | record (m m1 : __CommandQueueManager) (cmdList : Nat) (commands : List Nat) :
      Reachable m → m.record cmdList commands = .ok m1 → Reachable m1

/-- At most one command list of the manager is recording, and it is `recordingBuffer`:
every command list in state `Recording` is the one `recordingBuffer` points to. -/
def __CommandQueueManager.OnlyRecordingIsRecording (m : __CommandQueueManager) : Prop :=
  ∀ (j : Nat) (c : __CommandListManager), m.cmdLists[j]? = some c →
    c.State = CommandListState.Recording → m.recordingBuffer = some j


/-- The manager `m1` is `m` after the handles `retired` were reset and pushed to the reusable
list, in that order: nothing else of the command lists changed towards `Recording`. -/
def __CommandQueueManager.Retired (m m1 : __CommandQueueManager) (retired : List Nat) : Prop :=
  m1.recordingBuffer = m.recordingBuffer ∧
  m1.populated = m.populated ∧
  m1.reusableCmdBuffers = m.reusableCmdBuffers ++ retired ∧
  (∀ b ∈ retired, ∃ c, m1.cmdLists[b]? = some c ∧ c.State = CommandListState.Initial) ∧
  (∀ (j : Nat) (c : __CommandListManager), m1.cmdLists[j]? = some c →
    c.State = CommandListState.Recording → m.cmdLists[j]? = some c)


/-- What `Clean` relies on: the two submitted vectors are parallel, every submitted handle is a
command list of the manager that is not marked `OnGPU`, and every submitted task is alive. -/
def __CommandQueueManager.Clean.WellFormed (m : __CommandQueueManager) (tasks : TaskHeap) :
    Prop :=
  m.submittedBuffers.length = m.submittedTasks.length ∧
  (∀ b ∈ m.submittedBuffers,
    ∃ c, m.cmdLists[b]? = some c ∧ c.State ≠ CommandListState.OnGPU) ∧
  (∀ t ∈ m.submittedTasks, ∃ task, tasks[t]? = some task)


/-- A manager right after a first `Peek`: it holds one command list, which is recording. -/
def recordingManager : __CommandQueueManager :=
  match (__CommandQueueManager.new GraphicsManager.SupportedEngines 0 false).Peek with
  | .ok (m, _) => m
  | .error _ => __CommandQueueManager.new GraphicsManager.SupportedEngines 0 false


/-- The presenter over `sampleDevice` after `Dispatch(processA, MAIN_THREAD)` and
`EndFrame()`: the command list of the frame has been submitted. -/
def submittedPresenter : PresenterState :=
  match Presenter.EndFrame { samplePresenter with __state := sampleDispatched.1 } with
  | .ok p => p
  | .error _ => samplePresenter

/-- The only engine of `submittedPresenter`. -/
def submittedEngine : __EngineManager :=
  match submittedPresenter.__state._Engines with
  | e :: _ => e
  | [] =>
    { Managers := [], marked := [], Queues := [], frames := 0, frame_async_threads := 0,
      async_threads := 0, supportedEngines := 0 }

/-- The engine `submittedEngine` and the task heap after `WaitForCompletition(0)`. -/
def completedEngine : __EngineManager × TaskHeap :=
  match submittedEngine.WaitForCompletition submittedPresenter.__state.tasks
      submittedPresenter.__state.pieces 0 (fun _ => 2) (fun _ => 2) with
  | .ok r => r
  | .error _ => (submittedEngine, [])


/-! ## Use counts of GPU tasks -/

/-- The children of the task at `t`; none for a dangling pointer. -/
def __GPUTask.childrenAt (h : TaskHeap) (t : Nat) : List Nat :=
  match h[t]? with
  | some task => task.children
  | none => []

/-- The tasks kept alive by the `roots`: the roots and, through the `children` vectors, the
tasks they own; the first argument bounds the depth. -/
def __GPUTask.alive (h : TaskHeap) : Nat → List Nat → List Nat
  | 0, roots => roots.dedup
  | fuel + 1, roots =>
    __GPUTask.alive h fuel (roots ++ roots.flatMap (__GPUTask.childrenAt h))

/-- The tasks in the `submittedTasks` vectors of all the managers of the device. -/
def __Device.submittedTasks (d : __Device) : List Nat :=
  d._Engines.flatMap (fun e => e.Managers.flatMap (fun m => m.submittedTasks))

/-- The value of `use_count()` for the GPU task `t` between two calls on the device, when
the program holds the handles `held`: one owner for each handle held, one for each
occurrence in a `submittedTasks` vector, and one for each occurrence among the children of
a task that is alive. -/
def __Device.taskOwners (d : __Device) (held : List Nat) (t : Nat) : Nat :=
  held.count t + d.submittedTasks.count t +
    ((__GPUTask.alive d.tasks d.tasks.length (held ++ d.submittedTasks)).map
      (fun u => (__GPUTask.childrenAt d.tasks u).count t)).sum

/-- A device with one frame, no frame thread and one cross-frame worker, after
`Dispatch(processA, ASYNC)`, one pass of the worker (which populates the piece) and
`Flush` of the returned CPU task; the second component is the GPU task `Flush` returned. -/
def flushedDevice : Except Fault (__Device × Nat) := do
  let d ← __Device.__create_vk_device sampleFamilies
    { frames := 1, frame_threads := 0, async_threads := 1 }
  let (d, taskA) ← Device.Dispatch d processA .ASYNC
  let d ← d.__OompaLoompaWork 1
  Device.Flush d [taskA] []

/-- The device of `flushedDevice`. -/
def flushedDevice.device : __Device :=
  match flushedDevice with
  | .ok r => r.1
  | .error _ => sampleDevice

/-- The manager of the cross-frame worker in `flushedDevice` (slot 1 of the only engine). -/
def flushedDevice.manager : __CommandQueueManager :=
  match flushedDevice.device._Engines with
  | e :: _ => e.Managers.getD 1 recordingManager
  | [] => recordingManager


/-- The device of `flushedDevice` before the `Flush`: the worker has populated the piece of
`processA`, which sits in the `populated` vector of the worker's manager. -/
def populatedDevice : Except Fault __Device := do
  let d ← __Device.__create_vk_device sampleFamilies
    { frames := 1, frame_threads := 0, async_threads := 1 }
  let (d, _) ← Device.Dispatch d processA .ASYNC
  d.__OompaLoompaWork 1

/-- The device of `populatedDevice`. -/
def populatedDevice.device : __Device :=
  match populatedDevice with
  | .ok d => d
  | .error _ => sampleDevice

/-- The manager of the cross-frame worker in `populatedDevice` (slot 1 of the only engine). -/
def populatedDevice.manager : __CommandQueueManager :=
  match populatedDevice.device._Engines with
  | e :: _ => e.Managers.getD 1 recordingManager
  | [] => recordingManager


/-! ## Flushing marked slots, in the words of the specification -/

/-- One pass of the loop of `FlushMarked`, at manager index `i`. -/
def __EngineManager.FlushMarked.step (waitingGPU : List Nat)
    (acc : __EngineManager × TaskHeap × PieceHeap × List Nat) (i : Nat) :
    Except Fault (__EngineManager × TaskHeap × PieceHeap × List Nat) :=
  match acc.1.marked[i]? with
  | none => .error Fault.undefined
  | some false => .ok acc
  | some true =>
    match acc.1.Managers[i]? with
    | none => .error Fault.undefined
    | some m =>
      match m.SubmitCurrent acc.2.1 acc.2.2.1 waitingGPU with
      | .error f => .error f
      | .ok (m1, tasks1, pieces1, task) =>
        .ok ({ acc.1 with Managers := acc.1.Managers.set i m1
                          marked := acc.1.marked.set i false },
             tasks1, pieces1, acc.2.2.2 ++ [task])

/-- The call `Managers[i]->SubmitCurrent(waiting, waitingGPU)` on an engine, the returned
task being pushed to the list: the marks are neither read nor written. -/
def __EngineManager.submitAt (waitingGPU : List Nat)
    (acc : __EngineManager × TaskHeap × PieceHeap × List Nat) (i : Nat) :
    Except Fault (__EngineManager × TaskHeap × PieceHeap × List Nat) :=
  match acc.1.Managers[i]? with
  | none => .error .undefined
  | some m =>
    match m.SubmitCurrent acc.2.1 acc.2.2.1 waitingGPU with
    | .error f => .error f
    | .ok (m1, tasks1, pieces1, task) =>
      .ok ({ acc.1 with Managers := acc.1.Managers.set i m1 }, tasks1, pieces1,
           acc.2.2.2 ++ [task])

/-- The engine with every mark cleared. -/
def __EngineManager.unmarked (e : __EngineManager) : __EngineManager :=
  { e with marked := List.replicate e.marked.length false }

/-- The call `SubmitCurrent(waiting, waitingGPU)` on the slot `(engine index, manager index)`
of a device, the returned task being pushed to the list. -/
def __Device.submitSlot (waitingGPU : List Nat) (acc : __Device × List Nat)
    (slot : Nat × Nat) : Except Fault (__Device × List Nat) :=
  match acc.1._Engines[slot.1]? with
  | none => .error .undefined
  | some e =>
    match e.Managers[slot.2]? with
    | none => .error .undefined
    | some m =>
      match m.SubmitCurrent acc.1.tasks acc.1.pieces waitingGPU with
      | .error f => .error f
      | .ok (m1, tasks1, pieces1, task) =>
        .ok ({ acc.1 with
                _Engines := acc.1._Engines.set slot.1
                  { e with Managers := e.Managers.set slot.2 m1 }
                tasks := tasks1
                pieces := pieces1 },
             acc.2 ++ [task])

/-- The specification of the submitting part of `flush`: `SubmitCurrent(waitingGPU)` is
called once on each slot of the list, in order; the result is the device afterwards and
the GPU tasks the calls returned. -/
def __Device.submitSlots (d : __Device) (waitingGPU : List Nat) (slots : List (Nat × Nat)) :
    Except Fault (__Device × List Nat) :=
  slots.foldlM (__Device.submitSlot waitingGPU) (d, [])

/-- The slots of an engine that are marked, in index order. -/
def __EngineManager.markedSlots (e : __EngineManager) : List Nat :=
  (List.range e.Managers.length).filter (fun i => e.marked[i]? = some true)

/-- The device with every mark of every engine cleared. -/
def __Device.unmarked (d : __Device) : __Device :=
  { d with _Engines := d._Engines.map __EngineManager.unmarked }


/-- One pass of the second loop of `__Device::Flush`, at engine index `i`. -/
def __Device.Flush.submit.step (waitingGPU : List Nat) (acc : __Device × List Nat) (i : Nat) :
    Except Fault (__Device × List Nat) :=
  match acc.1._Engines[i]? with
  | none => .error Fault.undefined
  | some e =>
    match e.FlushMarked acc.1.tasks acc.1.pieces waitingGPU acc.2 with
    | .error f => .error f
    | .ok (e1, tasks1, pieces1, children) =>
      .ok ({ acc.1 with _Engines := acc.1._Engines.set i e1, tasks := tasks1,
                        pieces := pieces1 }, children)

/-- The marked slots `(engine index, manager index)` of the first `n` engines of a device,
in the order in which `Flush` visits them. -/
def __Device.markedSlotsBelow (d : __Device) (n : Nat) : List (Nat × Nat) :=
  (List.range n).flatMap (fun i =>
    match d._Engines[i]? with
    | some e => e.markedSlots.map (fun mi => (i, mi))
    | none => [])

/-- The marked slots of a device. -/
def __Device.markedSlots (d : __Device) : List (Nat × Nat) :=
  d.markedSlotsBelow d._Engines.length


/-- One pass of the first loop of `__Device::Flush`, for the CPU task `t`. -/
def __Device.Flush.mark.step (d : __Device) (t : __CPUTask) : Except Fault __Device :=
  match t.Wait d.pieces with
  | .error f => .error f
  | .ok pieces1 =>
    match pieces1[t.workPiece]? with
    | none => .error Fault.undefined
    | some w =>
      match d.engineAt w.EngineIndex with
      | .error f => .error f
      | .ok e =>
        match e.MarkForFlush w.ManagerIndex with
        | .error f => .error f
        | .ok e1 =>
          .ok { d with _Engines := d._Engines.set w.EngineIndex.toNat e1, pieces := pieces1 }


/-- The device `d1` is `d` with marks added: nothing but the `marked` vectors differs, and a
slot is marked in `d1` exactly when it was marked in `d` or it is the slot
`(EngineIndex, ManagerIndex)` of the work piece of one of the CPU tasks. -/
def __Device.MarkedFrom (d d1 : __Device) (tasks : List __CPUTask) : Prop :=
  d1 = { d with _Engines := d1._Engines } ∧
  d1._Engines.length = d._Engines.length ∧
  ∀ (k : Nat) (e : __EngineManager), d._Engines[k]? = some e →
    ∃ e1, d1._Engines[k]? = some e1 ∧ e1 = { e with marked := e1.marked } ∧
      e1.marked.length = e.marked.length ∧
      ∀ (mi : Nat), e1.marked[mi]? = some true ↔
        (e.marked[mi]? = some true ∨
          ∃ t ∈ tasks, ∃ w, d.pieces[t.workPiece]? = some w ∧
            w.EngineIndex = (k : Int) ∧ w.ManagerIndex = (mi : Int))


/-- A device with one frame, no frame thread and one cross-frame worker, after
`Dispatch(processA, MAIN_THREAD)`, `Dispatch(processB, ASYNC)` and one pass of the worker;
with it the two CPU tasks, whose pieces sit in the slots `(0, 0)` and `(0, 1)`. -/
def twoSlotDevice : Except Fault (__Device × List __CPUTask) := do
  let d ← __Device.__create_vk_device sampleFamilies
    { frames := 1, frame_threads := 0, async_threads := 1 }
  let (d, taskA) ← Device.Dispatch d processA .MAIN_THREAD
  let (d, taskB) ← Device.Dispatch d processB .ASYNC
  let d ← d.__OompaLoompaWork 1
  pure (d, [taskA, taskB])

/-- The device of `twoSlotDevice`. -/
def twoSlotDevice.device : __Device :=
  match twoSlotDevice with
  | .ok r => r.1
  | .error _ => sampleDevice

/-- The CPU tasks of `twoSlotDevice`. -/
def twoSlotDevice.tasks : List __CPUTask :=
  match twoSlotDevice with
  | .ok r => r.2
  | .error _ => []

/-- The result of `Flush` of both CPU tasks on `twoSlotDevice`. -/
def twoSlotDevice.flushed : __Device × Nat :=
  match Device.Flush twoSlotDevice.device twoSlotDevice.tasks [] with
  | .ok r => r
  | .error _ => (sampleDevice, 0)


/-- What holds of the submitted vectors of a manager in every reachable state: they are
parallel, they name command lists of the manager, and no command list is marked `OnGPU`
(the source never assigns that state). -/
def __CommandQueueManager.Sound (m : __CommandQueueManager) : Prop :=
  m.submittedBuffers.length = m.submittedTasks.length ∧
  (∀ b ∈ m.submittedBuffers, b < m.cmdLists.length) ∧
  (∀ (j : Nat) (c : __CommandListManager), m.cmdLists[j]? = some c →
    c.State ≠ CommandListState.OnGPU)


/-! ## The semaphores of a task tree, in the words of the specification -/

/-- The native semaphore that the task at `i` contributes by itself: its own, when it has
one and is not finished. -/
def __GPUTask.ownSemaphore (t : __GPUTask) : List Nat :=
  if t.finished then []
  else
    match t.GPUFinished with
    | some s => [s]
    | none => []

/-- The depth-first flattening of the tree of the task at `i`: every unfinished task that
owns a native semaphore contributes it, a finished task contributes nothing, duplicates
are kept.  The first argument bounds the depth. -/
def __GPUTask.flatten.go : Nat → TaskHeap → Nat → List Nat
  | 0, _, _ => []
  | fuel + 1, h, i =>
    match h[i]? with
    | none => []
    | some t => t.ownSemaphore ++ t.children.flatMap (__GPUTask.flatten.go fuel h)

/-- The flattening of the tree of the task at `i`, to the depth of the heap. -/
def __GPUTask.flatten (h : TaskHeap) (i : Nat) : List Nat :=
  __GPUTask.flatten.go h.length h i

/-- The flattening that stops at a finished task: the subtree below a task flagged finished
is not visited. -/
def __GPUTask.flattenUnfinished.go : Nat → TaskHeap → Nat → List Nat
  | 0, _, _ => []
  | fuel + 1, h, i =>
    match h[i]? with
    | none => []
    | some t =>
      if t.finished then []
      else t.ownSemaphore ++ t.children.flatMap (__GPUTask.flattenUnfinished.go fuel h)

/-- The flattening that stops at a finished task, to the depth of the heap. -/
def __GPUTask.flattenUnfinished (h : TaskHeap) (i : Nat) : List Nat :=
  __GPUTask.flattenUnfinished.go h.length h i

/-- The flags of the heap are consistent: every child of a finished task is finished. -/
def __GPUTask.Consistent (h : TaskHeap) : Prop :=
  ∀ (i : Nat) (t : __GPUTask), h[i]? = some t → t.finished = true →
    ∀ c ∈ t.children, __GPUTask.finishedAt h c = true


/-- The only manager of `sampleDevice` after `Dispatch(processA, MAIN_THREAD)`: its command
list is recording and the piece of `processA` is in `populated`. -/
def sampleDispatched.manager : __CommandQueueManager :=
  match sampleDispatched.1._Engines with
  | e :: _ => e.Managers.getD 0 recordingManager
  | [] => recordingManager

/-- A heap with one unfinished task that owns the semaphore `7`, and the result of
`GPUTask::Combine` on that task. -/
def pendingCombined : TaskHeap × Nat :=
  GPUTask.Combine [{ GPUFinished := some 7, children := [], finished := false }] [0]


/-- The manager `recordingManager` after `SubmitCurrent` and `WaitForPendings`: its only
command list has come back to the reusable list and nothing is recording. -/
def retiredManager : __CommandQueueManager :=
  match recordingManager.SubmitCurrent [] [] [] with
  | .error _ => recordingManager
  | .ok (m, tasks, _, _) =>
    match m.WaitForPendings tasks with
    | .error _ => recordingManager
    | .ok (m1, _) => m1

/-- The manager `recordingManager` after `SubmitCurrent`. -/
def submittedManager : __CommandQueueManager :=
  match recordingManager.SubmitCurrent [] [] [] with
  | .error _ => recordingManager
  | .ok (m, _, _, _) => m


/-- The submitted command lists of a manager, each paired with its GPU task: the two
parallel vectors `submittedBuffers` and `submittedTasks` read side by side. -/
def __CommandQueueManager.submittedPairs (m : __CommandQueueManager) : List (Nat × Nat) :=
  List.zip m.submittedBuffers m.submittedTasks


/-- A manager with two submitted command lists, and the task heap in which the task of the
first has been waited for (it is finished) and the task of the second is pending:
`Peek`, `SubmitCurrent`, `Peek`, `SubmitCurrent`, then `Wait` on the first task. -/
def twoSubmitted : __CommandQueueManager × TaskHeap :=
  match recordingManager.SubmitCurrent [] [] [] with
  | .error _ => (recordingManager, [])
  | .ok (m1, tasks1, _, _) =>
    match m1.Peek with
    | .error _ => (recordingManager, [])
    | .ok (m2, _) =>
      match m2.SubmitCurrent tasks1 [] [] with
      | .error _ => (recordingManager, [])
      | .ok (m3, tasks3, _, _) =>
        match GPUTask.Wait 3 tasks3 0 with
        | none => (recordingManager, [])
        | some (tasks4, _) => (m3, tasks4)

/-- The manager of `twoSubmitted` after `Clean`, both tasks being held by the program. -/
def twoSubmitted.cleaned : __CommandQueueManager :=
  match twoSubmitted.1.Clean twoSubmitted.2 [] (fun _ => 2) (fun _ => 2) with
  | .ok m => m
  | .error _ => recordingManager


/-- The slots of the frame `frame` in an engine manager, in the order in which `Flush` visits
them: `(frame_async_threads + 1) * frame + w` for `w` in `0 .. frame_async_threads`. -/
def __EngineManager.frameSlots (e : __EngineManager) (frame : Nat) : List Nat :=
  (List.range (e.frame_async_threads + 1)).map
    (fun w => (e.frame_async_threads + 1) * frame + w)


/-- One pass of the second loop of `__EngineManager::Flush(frame)`, for the worker `i` of the
frame. -/
def __EngineManager.Flush_submit.step (frame : Nat)
    (acc : __EngineManager × TaskHeap × PieceHeap) (i : Nat) :
    Except Fault (__EngineManager × TaskHeap × PieceHeap) :=
  let idx := (acc.1.frame_async_threads + 1) * frame + i
  match acc.1.Managers[idx]? with
  | none => .error Fault.undefined
  | some m =>
    match m.SubmitCurrent acc.2.1 acc.2.2 [] with
    | .error f => .error f
    | .ok (m1, tasks1, pieces1, _) =>
      .ok ({ acc.1 with Managers := acc.1.Managers.set idx m1 }, tasks1, pieces1)


/-- The only engine of `sampleDevice` after `Dispatch(processA, MAIN_THREAD)`. -/
def sampleDispatched.engine : __EngineManager :=
  match sampleDispatched.1._Engines with
  | e :: _ => e
  | [] =>
    { Managers := [], marked := [], Queues := [], frames := 0, frame_async_threads := 0,
      async_threads := 0, supportedEngines := 0 }

/-- The engine `sampleDispatched.engine` and the heaps after `Flush(0)`. -/
def sampleDispatched.flushed : __EngineManager × TaskHeap × PieceHeap :=
  match sampleDispatched.engine.Flush sampleDispatched.1.tasks sampleDispatched.1.pieces 0 with
  | .ok r => r
  | .error _ => (sampleDispatched.engine, [], [])


/-! ## The scheduler: queues, worker threads and the modes of the pieces -/

/-- Every work piece of the heap `p` is still in `p1`, with the dispatch mode it had. -/
def PieceHeap.ModesKept (p p1 : PieceHeap) : Prop :=
  ∀ (w : Nat) (piece : WorkPiece), p[w]? = some piece →
    ∃ piece1, p1[w]? = some piece1 ∧ piece1.Dispatch = piece.Dispatch

/-- Every element held by the queue `q` is a non-null pointer to a piece of `pieces`
dispatched in `mode`. -/
def __Device.QueueServes (pieces : PieceHeap) (mode : DispatchMode)
    (q : ProducerConsumerQueue (Option Nat)) : Prop :=
  ∀ x ∈ q.contents, ∃ (w : Nat) (piece : WorkPiece),
    x = some w ∧ pieces[w]? = some piece ∧ piece.Dispatch = mode

/-- The invariant of the scheduler: the two queues have the capacities
`2 * frame_threads` and `2 * async_threads` and meet the queue invariant, the frame queue
holds `ASYNC_FRAME` pieces and the cross-frame queue `ASYNC` pieces. -/
def __Device.SchedulerInvariant (d : __Device) : Prop :=
  ProducerConsumerQueue.Invariant (d._NumberOfAsyncThreadsInFrame * 2) d._FrameAsyncProcesses ∧
  ProducerConsumerQueue.Invariant (d._NumberOfAsyncThreads * 2) d._AsyncProcesses ∧
  __Device.QueueServes d.pieces .ASYNC_FRAME d._FrameAsyncProcesses ∧
  __Device.QueueServes d.pieces .ASYNC d._AsyncProcesses

/-- A step from `d` to `d1` that leaves the thread counts and the two queues as they were and
keeps every piece with its mode. -/
def __Device.SchedulerKept (d d1 : __Device) : Prop :=
  d1._NumberOfAsyncThreadsInFrame = d._NumberOfAsyncThreadsInFrame ∧
  d1._NumberOfAsyncThreads = d._NumberOfAsyncThreads ∧
  d1._FrameAsyncProcesses = d._FrameAsyncProcesses ∧
  d1._AsyncProcesses = d._AsyncProcesses ∧
  PieceHeap.ModesKept d.pieces d1.pieces

/-- The states of a device reachable from `__create_vk_device` by calls that returned:
`Dispatch` and `Flush` of the main thread, the `Consume` and the population (whole, or its
two halves around the user's `Populate`) of a worker thread `1 .. frame_threads +
async_threads` or of any caller, the `Wait` on a CPU task, `EndFrame` of the presenter, and
any change of the engine managers, of the GPU tasks and of `_disposed` (waiting for
completion, cleaning, the destructor's flag). -/
inductive __Device.Reachable : __Device → Prop where
  | created (queueFamilies : List VkQueueFamilyProperties) (description : PresenterDescription)
      (d : __Device) :
      __Device.__create_vk_device queueFamilies description = .ok d → __Device.Reachable d
  | dispatch (d d1 : __Device) (process : Process) (mode : DispatchMode) (task : __CPUTask) :
      __Device.Reachable d → d.Dispatch process mode = .ok (d1, task) → __Device.Reachable d1
  | consume (d d1 : __Device) (idx workPiece : Nat) :
      __Device.Reachable d → 1 ≤ idx →
      idx ≤ d._NumberOfAsyncThreadsInFrame + d._NumberOfAsyncThreads →
      __Device.__OompaLoompaWork.consume d idx = .ok (d1, workPiece) → __Device.Reachable d1
  | performPopulation (d d1 : __Device) (workPiece threadIdx : Nat) :
      __Device.Reachable d → d.__PerformPopulation workPiece threadIdx = .ok d1 →
      __Device.Reachable d1
  | populating (d d1 : __Device) (workPiece threadIdx : Nat)
      (wrapper : Option CommandListManager) :
      __Device.Reachable d →
      __Device.__PerformPopulation.populating d workPiece threadIdx = .ok (d1, wrapper) →
      __Device.Reachable d1
  | populate (d d1 : __Device) (workPiece : Nat) (wrapper : Option CommandListManager) :
      __Device.Reachable d →
      __Device.__PerformPopulation.populate d workPiece wrapper = .ok d1 →
      __Device.Reachable d1
  | wait (d : __Device) (t : __CPUTask) (pieces1 : PieceHeap) :
      __Device.Reachable d → __CPUTask.Wait d.pieces t = .ok pieces1 →
      __Device.Reachable { d with pieces := pieces1 }
  | flush (d d1 : __Device) (tasks : List __CPUTask) (waitingGPU : List Nat) (result : Nat) :
      __Device.Reachable d → d.Flush tasks waitingGPU = .ok (d1, result) →
      __Device.Reachable d1
  | endFrame (p p1 : PresenterState) :
      __Device.Reachable p.__state → Presenter.EndFrame p = .ok p1 →
      __Device.Reachable p1.__state
  | engines (d : __Device) (engines : List __EngineManager) (tasks : TaskHeap)
      (disposed : Bool) :
      __Device.Reachable d →
      __Device.Reachable { d with _Engines := engines, tasks := tasks, _disposed := disposed }

/-- The device that `__create_vk_device` builds over `sampleFamilies` for one frame, one
frame worker (thread 1) and one cross-frame worker (thread 2). -/
def workerDevice.created : __Device :=
  match __Device.__create_vk_device sampleFamilies
    { frames := 1, frame_threads := 1, async_threads := 1 } with
  | .ok d => d
  | .error _ => sampleDevice

/-- The device `workerDevice.created` after `Dispatch(processA, ASYNC_FRAME)`, with the CPU
task returned. -/
def workerDevice : __Device × __CPUTask :=
  match Device.Dispatch workerDevice.created processA .ASYNC_FRAME with
  | .ok r => r
  | .error _ => (sampleDevice, { workPiece := 0 })


/-- The processes `A`, `B`, `C` dispatched in this order as `MAIN_THREAD`, `ASYNC`,
`MAIN_THREAD`. -/
def asyncSequence : List (Process × DispatchMode) :=
  [(processA, .MAIN_THREAD), (processB, .ASYNC), (processC, .MAIN_THREAD)]

/-- The device that `__create_vk_device` builds over `sampleFamilies` for one frame, no frame
worker and one cross-frame worker (thread 1). -/
def asyncDevice : __Device :=
  match __Device.__create_vk_device sampleFamilies
    { frames := 1, frame_threads := 0, async_threads := 1 } with
  | .ok d => d
  | .error _ => sampleDevice

/-- The device `asyncDevice` after the main thread dispatched `asyncSequence`, with the CPU
tasks returned. -/
def asyncDevice.dispatched : __Device × List __CPUTask :=
  match asyncDevice.DispatchAll asyncSequence with
  | .ok r => r
  | .error _ => (sampleDevice, [])

/-- The device `asyncDevice.dispatched` after worker 1 consumed and populated the queued
piece. -/
def asyncDevice.populated : __Device :=
  match asyncDevice.dispatched.1.__OompaLoompaWork 1 with
  | .ok d => d
  | .error _ => sampleDevice

/-- For every engine and every slot of it: the recording buffer, the populated pieces and the
commands recorded in each command list. -/
def __Device.slotRecords (d : __Device) :
    List (List (Option Nat × List Nat × List (List Nat))) :=
  d._Engines.map (fun e =>
    e.Managers.map (fun m =>
      (m.recordingBuffer, m.populated, m.cmdLists.map (fun c => c.recorded))))

/-! # Theorems -/

/-! ## GPU tasks -/

namespace __GPUTask

theorem Union_children_fold (h : TaskHeap) (tasks acc : List Nat) :
    tasks.foldl
      (fun (children : List Nat) i => if !finishedAt h i then children ++ [i] else children) acc
      = acc ++ tasks.filter (fun i => !finishedAt h i) := by
  induction tasks generalizing acc with
  | nil => simp
  | cons a as ih =>
    simp only [List.foldl_cons, ih, List.filter_cons]
    split <;> simp

/-- The task that `Union` builds: its children are the unfinished inputs, in order, and it
is flagged finished exactly when that list is non-empty. -/
theorem Union_task (h : TaskHeap) (tasks : List Nat) :
    (Union h tasks).1[(Union h tasks).2]? = some
      { GPUFinished := none
        children := tasks.filter (fun i => !finishedAt h i)
        finished := decide ((tasks.filter (fun i => !finishedAt h i)).length > 0) } := by
  have hfold := Union_children_fold h tasks []
  simp only [List.nil_append] at hfold
  simp only [Union, new, hfold, List.getElem?_concat_length]

/-- What the code of `Union` computes, for every input: the union is flagged finished
exactly when some input is unfinished. -/
theorem Union_finishedAt_iff (h : TaskHeap) (tasks : List Nat) :
    finishedAt (Union h tasks).1 (Union h tasks).2 = true ↔
      ∃ i ∈ tasks, finishedAt h i = false := by
  unfold finishedAt
  rw [Union_task]
  simp only [gt_iff_lt, decide_eq_true_eq, List.length_pos]
  constructor
  · intro hne
    obtain ⟨i, hi⟩ := List.exists_mem_of_ne_nil _ hne
    rw [List.mem_filter] at hi
    exact ⟨i, hi.1, by simpa [finishedAt] using hi.2⟩
  · rintro ⟨i, hi, hf⟩
    apply List.ne_nil_of_mem (a := i)
    rw [List.mem_filter]
    exact ⟨hi, by simpa [finishedAt] using hf⟩

end __GPUTask

/-- On every list that holds an unfinished task, `Wait` on the union built by `Union`
returns at once: the heap is unchanged and no semaphore is waited on. -/
theorem __GPUTask.Wait_Union_of_pending (h : TaskHeap) (tasks : List Nat) (fuel : Nat)
    (hp : ∃ i ∈ tasks, __GPUTask.finishedAt h i = false) :
    __GPUTask.Wait (fuel + 1) (__GPUTask.Union h tasks).1 (__GPUTask.Union h tasks).2 =
      some ((__GPUTask.Union h tasks).1, []) := by
  have hfin := (__GPUTask.Union_finishedAt_iff h tasks).mpr hp
  unfold __GPUTask.finishedAt at hfin
  rw [__GPUTask.Union_task] at hfin
  simp only [__GPUTask.Wait, __GPUTask.Union_task]
  simp only at hfin
  simp only [hfin, if_true]

/-- The heap stays acyclic under `CreateSingle`. -/
theorem __GPUTask.CreateSingle_acyclic (h : TaskHeap) (sem : Nat) (empty : Bool)
    (hac : __GPUTask.Acyclic h) : __GPUTask.Acyclic (__GPUTask.CreateSingle h sem empty).1 := by
  intro i t hi c hc
  by_cases hlt : i < h.length
  · simp only [__GPUTask.CreateSingle, List.getElem?_append_left hlt] at hi
    exact hac i t hi c hc
  · simp only [__GPUTask.CreateSingle] at hi
    have hlen := (List.getElem?_eq_some_iff.mp hi).1
    simp only [List.length_append, List.length_singleton] at hlen
    have hi' : i = h.length := by omega
    subst hi'
    rw [List.getElem?_concat_length] at hi
    cases hi
    cases empty <;> simp [__GPUTask.new] at hc

/-- The heap stays acyclic under `Union`: the children of the union are tasks of the heap. -/
theorem __GPUTask.Union_acyclic (h : TaskHeap) (tasks : List Nat)
    (hac : __GPUTask.Acyclic h) : __GPUTask.Acyclic (__GPUTask.Union h tasks).1 := by
  intro i t hi c hc
  by_cases hlt : i < h.length
  · simp only [__GPUTask.Union, List.getElem?_append_left hlt] at hi
    exact hac i t hi c hc
  · have hlen := (List.getElem?_eq_some_iff.mp hi).1
    simp only [__GPUTask.Union, List.length_append, List.length_singleton] at hlen
    have hi' : i = (__GPUTask.Union h tasks).2 := by
      simp only [__GPUTask.Union]; omega
    rw [hi', __GPUTask.Union_task] at hi
    cases hi
    simp only [List.mem_filter] at hc
    have hc2 := hc.2
    simp only [__GPUTask.finishedAt] at hc2
    cases hget : h[c]? with
    | none => simp [hget] at hc2
    | some tc =>
      have := (List.getElem?_eq_some_iff.mp hget).1
      omega

/-- C1, the code at the failing inputs.  `GPUTask.Combine` of one pending task is flagged
finished although its input is not, and `GPUTask.Combine` of one finished task is flagged
unfinished although every input is finished: `Union` sets
`finished = children.size() > 0`, the negation of what the claim states. -/
theorem C1_Combine_finished_flag_is_inverted :
    (let h : TaskHeap := [{ GPUFinished := some 7, children := [], finished := false }]
     __GPUTask.finishedAt h 0 = false ∧
       __GPUTask.finishedAt (GPUTask.Combine h [0]).1 (GPUTask.Combine h [0]).2 = true) ∧
    (let h : TaskHeap := [{ GPUFinished := some 7, children := [], finished := true }]
     __GPUTask.finishedAt h 0 = true ∧
       __GPUTask.finishedAt (GPUTask.Combine h [0]).1 (GPUTask.Combine h [0]).2 = false) := by
  decide

/-- C2, the code at the failing input.  For `[finished, finished, pending]` the union built
by `GPUTask.Combine` holds the pending task as its only child but is flagged finished, so
`GPUTask.Wait` on it returns at once: it waits on no semaphore, in particular not on
semaphore `3` of the pending task, and the pending task is still unfinished afterwards. -/
theorem C2_Wait_on_Combine_skips_pending :
    let h : TaskHeap :=
      [{ GPUFinished := some 1, children := [], finished := true },
       { GPUFinished := some 2, children := [], finished := true },
       { GPUFinished := some 3, children := [], finished := false }]
    let u := GPUTask.Combine h [0, 1, 2]
    u.1[u.2]? = some { GPUFinished := none, children := [2], finished := true } ∧
    GPUTask.Wait 4 u.1 u.2 = some (u.1, []) ∧
    __GPUTask.finishedAt u.1 2 = false ∧
    __GPUTask.Wait 4 h 2 =
      some ([{ GPUFinished := some 1, children := [], finished := true },
             { GPUFinished := some 2, children := [], finished := true },
             { GPUFinished := some 3, children := [], finished := true }], [3]) := by
  decide


namespace __GPUTask

theorem Extends.trans {h1 h2 h3 : TaskHeap} (h12 : Extends h1 h2) (h23 : Extends h2 h3) :
    Extends h1 h3 := by
  refine ⟨h23.1.trans h12.1, fun i t ht => ?_⟩
  obtain ⟨t2, ht2, hs2, hc2, hf2⟩ := h12.2 i t ht
  obtain ⟨t3, ht3, hs3, hc3, hf3⟩ := h23.2 i t2 ht2
  exact ⟨t3, ht3, hs3.trans hs2, hc3.trans hc2, fun hf => hf3 (hf2 hf)⟩

theorem Extends.finishedAt {h h' : TaskHeap} (hext : Extends h h') (x : Nat)
    (hx : finishedAt h x = true) : finishedAt h' x = true := by
  unfold __GPUTask.finishedAt at hx ⊢
  cases hhx : h[x]? with
  | none =>
    have : h'[x]? = none := by
      rw [List.getElem?_eq_none_iff] at hhx ⊢
      rw [hext.1]; exact hhx
    rw [this]
  | some t =>
    rw [hhx] at hx
    obtain ⟨t', ht', _, _, hf⟩ := hext.2 x t hhx
    rw [ht']
    exact hf hx

end __GPUTask

theorem sampleDevice_created :
    __Device.__create_vk_device sampleFamilies
      { frames := 1, frame_threads := 0, async_threads := 0 } = .ok sampleDevice := by
  rfl

theorem transferOnlyDevice_created :
    __Device.__create_vk_device transferOnlyFamilies
      { frames := 0, frame_threads := 0, async_threads := 0 } = .ok transferOnlyDevice := by
  rfl

/-- Fuel beyond three levels does not change `Dispatch`, which never runs out of fuel. -/
theorem __Device.Dispatch_go_eq (d : __Device) (process : Process) (mode : DispatchMode)
    (fuel : Nat) (hfuel : 3 ≤ fuel) :
    __Device.Dispatch.go fuel d process mode = d.Dispatch process mode := by
  obtain ⟨k, rfl⟩ : ∃ k, fuel = k + 3 := ⟨fuel - 3, by omega⟩
  cases mode <;> simp only [__Device.Dispatch, __Device.Dispatch.go]

/-- The function `Dispatch` is its creation-and-population part run in the fall-back mode. -/
theorem __Device.Dispatch_eq_rest (d : __Device) (process : Process) (mode : DispatchMode) :
    d.Dispatch process mode = __Device.Dispatch.rest d process (fallbackMode d mode) := by
  cases mode <;>
    by_cases h1 : d._NumberOfAsyncThreadsInFrame = 0 <;>
    by_cases h2 : d._NumberOfAsyncThreads = 0 <;>
    simp [__Device.Dispatch, __Device.Dispatch.go, fallbackMode,
      fallbackChain, workerCount, List.find?, h1, h2]

/-- C4.  `Dispatch(process, mode)` is the creation-and-population part of `Dispatch` run
in the first mode of the chain `mode → ASYNC_FRAME → MAIN_THREAD` whose worker count is
non-zero: `ASYNC_FRAME` with no frame threads becomes `MAIN_THREAD`, `ASYNC` with no
cross-frame threads becomes `ASYNC_FRAME` if there are frame threads and `MAIN_THREAD`
otherwise, any other request is kept; and on a device without worker threads
`Dispatch(p, ASYNC)` returns the same device state and the same CPU task (work piece) as
`Dispatch(p, MAIN_THREAD)`. -/
theorem C4_Dispatch_falls_back_along_chain (d : __Device) (process : Process)
    (mode : DispatchMode) :
    Device.Dispatch d process mode = __Device.Dispatch.rest d process (fallbackMode d mode) ∧
    workerCount d (fallbackMode d mode) ≠ 0 ∧
    (d._NumberOfAsyncThreadsInFrame = 0 →
      fallbackMode d .ASYNC_FRAME = .MAIN_THREAD) ∧
    (d._NumberOfAsyncThreads = 0 → d._NumberOfAsyncThreadsInFrame > 0 →
      fallbackMode d .ASYNC = .ASYNC_FRAME) ∧
    (d._NumberOfAsyncThreads = 0 → d._NumberOfAsyncThreadsInFrame = 0 →
      fallbackMode d .ASYNC = .MAIN_THREAD) ∧
    (workerCount d mode ≠ 0 → fallbackMode d mode = mode) ∧
    (d._NumberOfAsyncThreads = 0 → d._NumberOfAsyncThreadsInFrame = 0 →
      Device.Dispatch d process .ASYNC = Device.Dispatch d process .MAIN_THREAD) := by
  refine ⟨?_, ?_, ?_, ?_, ?_, ?_, ?_⟩
  · exact __Device.Dispatch_eq_rest d process mode
  · cases mode <;>
      by_cases h1 : d._NumberOfAsyncThreadsInFrame = 0 <;>
      by_cases h2 : d._NumberOfAsyncThreads = 0 <;>
      simp [fallbackMode, fallbackChain, workerCount, List.find?, h1, h2]
  · intro h
    simp [fallbackMode, fallbackChain, workerCount, List.find?, h]
  · intro h1 h2
    have h3 : d._NumberOfAsyncThreadsInFrame ≠ 0 := by omega
    simp [fallbackMode, fallbackChain, workerCount, List.find?, h1, h3]
  · intro h1 h2
    simp [fallbackMode, fallbackChain, workerCount, List.find?, h1, h2]
  · intro h
    cases mode <;> simp_all [fallbackMode, fallbackChain, workerCount, List.find?]
  · intro h1 h2
    simp [Device.Dispatch, __Device.Dispatch, __Device.Dispatch.go, h1, h2]

/-- C4 at `sampleDevice`, which has no worker threads: `ASYNC` is handled as
`MAIN_THREAD`. -/
theorem C4_Dispatch_witness :
    Device.Dispatch sampleDevice processA .ASYNC =
      __Device.Dispatch.rest sampleDevice processA .MAIN_THREAD ∧
    Device.Dispatch sampleDevice processA .ASYNC =
      Device.Dispatch sampleDevice processA .MAIN_THREAD :=
  ⟨(C4_Dispatch_falls_back_along_chain sampleDevice processA .ASYNC).1,
   (C4_Dispatch_falls_back_along_chain sampleDevice processA .ASYNC).2.2.2.2.2.2 rfl rfl⟩

/-! ## Work piece creation -/

/-- The result of `__CreateWorkPiece` for a mask the table has an entry for. -/
theorem __Device.CreateWorkPiece_eq (d : __Device) (process : Process)
    (mode : DispatchMode) (engineIndex : Int)
    (hmask : d._engine_mapping[process.RequiredEngines]? = some engineIndex) :
    d.__CreateWorkPiece process mode =
      .ok ({ d with pieces := d.pieces ++
              [{ GraphicProcess := some process
                 Dispatch := mode
                 EngineIndex := engineIndex
                 ManagerIndex := -1
                 State := WorkPieceState.DISPATCHED
                 AfterPopulated := { s := { state := 0 } } }] },
           d.pieces.length) := by
  simp [__Device.__CreateWorkPiece, hmask, WorkPiece.new, Semaphore.new]

/-- C5, counterexample.  On a device whose only queue family is transfer-only no family
supports the mask of `GraphicsManager` and `_engine_mapping` holds `-1` for it; yet
`__CreateWorkPiece` does not fail: it returns a work piece, with `EngineIndex = -1`. -/
theorem C5_CreateWorkPiece_returns_piece_for_unsupported_mask :
    (∀ family ∈ transferOnlyFamilies,
      (GraphicsManager.SupportedEngines &&& __Device.GetSupportedEngines family.queueFlags)
        ≠ GraphicsManager.SupportedEngines) ∧
    transferOnlyDevice._engine_mapping[processA.RequiredEngines]? = some (-1) ∧
    (transferOnlyDevice.__CreateWorkPiece processA .MAIN_THREAD).map
        (fun r => (r.2, r.1.pieces.map
          (fun w => (w.EngineIndex, w.ManagerIndex, w.State)))) =
      .ok (0, [(-1, -1, WorkPieceState.DISPATCHED)]) := by
  decide

/-- C5, amended.  For every mask the table has an entry for, `__CreateWorkPiece` returns:
the result is the device with one new piece on the heap, which holds the process and the
mode, is `DISPATCHED`, has `ManagerIndex = -1`, an unfired latch, and as `EngineIndex` the
table entry, `-1` included. -/
theorem C5_CreateWorkPiece_never_fails (d : __Device) (process : Process)
    (mode : DispatchMode) (engineIndex : Int)
    (hmask : d._engine_mapping[process.RequiredEngines]? = some engineIndex) :
    d.__CreateWorkPiece process mode =
      .ok ({ d with pieces := d.pieces ++
              [{ GraphicProcess := some process
                 Dispatch := mode
                 EngineIndex := engineIndex
                 ManagerIndex := -1
                 State := WorkPieceState.DISPATCHED
                 AfterPopulated := { s := { state := 0 } } }] },
           d.pieces.length) :=
  __Device.CreateWorkPiece_eq d process mode engineIndex hmask

/-- C5 amended, at the transfer-only device and a graphics process. -/
theorem C5_CreateWorkPiece_witness :
    transferOnlyDevice.__CreateWorkPiece processA .MAIN_THREAD =
      .ok ({ transferOnlyDevice with pieces := transferOnlyDevice.pieces ++
              [{ GraphicProcess := some processA
                 Dispatch := .MAIN_THREAD
                 EngineIndex := -1
                 ManagerIndex := -1
                 State := WorkPieceState.DISPATCHED
                 AfterPopulated := { s := { state := 0 } } }] },
           transferOnlyDevice.pieces.length) :=
  C5_CreateWorkPiece_never_fails transferOnlyDevice processA .MAIN_THREAD (-1) (by decide)

/-! ## The engine mapping -/

namespace __Device

theorem and_low_bits (a b : Nat) (hb : b < 8) : a &&& b = (a % 8) &&& b := by
  have h7 : b = 7 &&& b := by
    rw [Nat.and_comm]
    have := Nat.and_pow_two_sub_one_eq_mod b 3
    simp at this
    rw [this]
    omega
  have ha : a % 8 = a &&& 7 := by
    have := Nat.and_pow_two_sub_one_eq_mod a 3
    simp at this
    exact this.symm
  rw [ha, Nat.and_assoc, ← h7]

/-- The family test of the engine mapping, on the Vulkan flags, is the subset test on the
engine capabilities of the family. -/
theorem family_test_iff_supported (flags mask : Nat) (hmask : mask < 16) :
    (flags &&& ResolveEngineIndex.bits mask) = ResolveEngineIndex.bits mask ↔
      (mask &&& GetSupportedEngines flags) = mask := by
  have hb : ∀ m, m < 16 → ResolveEngineIndex.bits m < 8 := by decide
  have hg : GetSupportedEngines flags = GetSupportedEngines (flags % 8) := by
    simp only [GetSupportedEngines, VK_QUEUE_TRANSFER_BIT, VK_QUEUE_COMPUTE_BIT,
      VK_QUEUE_GRAPHICS_BIT]
    have e4 : (flags % 8) &&& 4 = flags &&& 4 := (and_low_bits flags 4 (by omega)).symm
    have e2 : (flags % 8) &&& 2 = flags &&& 2 := (and_low_bits flags 2 (by omega)).symm
    have e1 : (flags % 8) &&& 1 = flags &&& 1 := (and_low_bits flags 1 (by omega)).symm
    simp only [e4, e2, e1]
  rw [and_low_bits flags _ (hb mask hmask), hg]
  have hlt : flags % 8 < 8 := Nat.mod_lt _ (by omega)
  generalize flags % 8 = r at hlt
  revert mask
  revert r
  decide

/-- The loop of `__minimal_queue_index_for` after all families: the index counts the
families; either nothing was selected and no accepted family has flags below `0xFFFFFFFF`,
or the selected family `k` is accepted, has the least flags value among the accepted
families and is the first with that value. -/
theorem minimal_fold_spec (bits : Nat) (require_present_support : Bool)
    (queueFamilies : List VkQueueFamilyProperties) :
    (queueFamilies.foldl (__minimal_queue_index_for.step bits require_present_support)
      (0xFFFFFFFF, -1, 0)).2.2 = queueFamilies.length ∧
    (((queueFamilies.foldl (__minimal_queue_index_for.step bits require_present_support)
        (0xFFFFFFFF, -1, 0)).2.1 = -1 ∧
      (queueFamilies.foldl (__minimal_queue_index_for.step bits require_present_support)
        (0xFFFFFFFF, -1, 0)).1 = 0xFFFFFFFF ∧
      ∀ g ∈ queueFamilies,
        ((g.queueFlags &&& bits) = bits ∧
          (!require_present_support || g.presentSupport) = true) →
        0xFFFFFFFF ≤ g.queueFlags % 2 ^ 32) ∨
     ∃ (k : Nat) (f : VkQueueFamilyProperties),
      (queueFamilies.foldl (__minimal_queue_index_for.step bits require_present_support)
        (0xFFFFFFFF, -1, 0)).2.1 = (k : Int) ∧
      (queueFamilies.foldl (__minimal_queue_index_for.step bits require_present_support)
        (0xFFFFFFFF, -1, 0)).1 = f.queueFlags % 2 ^ 32 ∧
      queueFamilies[k]? = some f ∧
      ((f.queueFlags &&& bits) = bits ∧
        (!require_present_support || f.presentSupport) = true) ∧
      f.queueFlags % 2 ^ 32 < 0xFFFFFFFF ∧
      ∀ (j : Nat) (g : VkQueueFamilyProperties), queueFamilies[j]? = some g →
        ((g.queueFlags &&& bits) = bits ∧
          (!require_present_support || g.presentSupport) = true) →
        f.queueFlags % 2 ^ 32 ≤ g.queueFlags % 2 ^ 32 ∧
        (g.queueFlags % 2 ^ 32 = f.queueFlags % 2 ^ 32 → k ≤ j)) := by
  induction queueFamilies using List.reverseRecOn with
  | nil => exact ⟨rfl, Or.inl ⟨rfl, rfl, by simp⟩⟩
  | append_singleton l x ih =>
    rw [List.foldl_append, List.foldl_cons, List.foldl_nil]
    generalize l.foldl (__minimal_queue_index_for.step bits require_present_support)
      (0xFFFFFFFF, -1, 0) = acc at ih
    obtain ⟨minFlag, QueueFamilyIndex, i⟩ := acc
    simp only at ih
    obtain ⟨hi, ih⟩ := ih
    subst hi
    have hlast : (l ++ [x])[l.length]? = some x := List.getElem?_concat_length l x
    have hget : ∀ (j : Nat) (g : VkQueueFamilyProperties), (l ++ [x])[j]? = some g →
        (j < l.length ∧ l[j]? = some g) ∨ (j = l.length ∧ g = x) := by
      intro j g hj
      have hjlt : j < (l ++ [x]).length := (List.getElem?_eq_some_iff.mp hj).1
      rw [List.length_append, List.length_singleton] at hjlt
      by_cases hjl : j < l.length
      · rw [List.getElem?_append_left hjl] at hj
        exact Or.inl ⟨hjl, hj⟩
      · have hjeq : j = l.length := by omega
        subst hjeq
        rw [hlast] at hj
        cases hj
        exact Or.inr ⟨rfl, rfl⟩
    have hxlt : x.queueFlags % 2 ^ 32 < 2 ^ 32 := Nat.mod_lt _ (by decide)
    unfold __minimal_queue_index_for.step
    by_cases hacc : (x.queueFlags &&& bits) = bits ∧
        (!require_present_support || x.presentSupport) = true
    · rw [if_pos hacc]
      by_cases hmin : minFlag > x.queueFlags % 2 ^ 32
      · rw [if_pos hmin]
        refine ⟨by simp, Or.inr ⟨l.length, x, rfl, rfl, hlast, hacc, ?_, ?_⟩⟩
        · rcases ih with ⟨_, hm, _⟩ | ⟨k, f, _, hm, _, _, hf, _⟩
          · omega
          · omega
        · intro j g hj hg
          rcases hget j g hj with ⟨hjl, hjg⟩ | ⟨hjl, hgx⟩
          · rcases ih with ⟨_, hm, hnone⟩ | ⟨k, f, _, hm, _, _, _, hleast⟩
            · have := hnone g (List.getElem?_mem hjg) hg
              omega
            · have := (hleast j g hjg hg).1
              omega
          · subst hgx
            exact ⟨le_refl _, fun _ => by omega⟩
      · rw [if_neg hmin]
        refine ⟨by simp, ?_⟩
        rcases ih with ⟨hidx, hm, hnone⟩ | ⟨k, f, hidx, hm, hk, hf, hflt, hleast⟩
        · refine Or.inl ⟨hidx, hm, ?_⟩
          intro g hg hgacc
          rcases List.mem_append.mp hg with hgl | hgx
          · exact hnone g hgl hgacc
          · rw [List.mem_singleton] at hgx
            subst hgx
            omega
        · have hkl : k < l.length := (List.getElem?_eq_some_iff.mp hk).1
          refine Or.inr ⟨k, f, hidx, hm, ?_, hf, hflt, ?_⟩
          · rw [List.getElem?_append_left hkl]; exact hk
          · intro j g hj hg
            rcases hget j g hj with ⟨_, hjg⟩ | ⟨hjl, hgx⟩
            · exact hleast j g hjg hg
            · subst hgx
              exact ⟨by omega, fun _ => by omega⟩
    · rw [if_neg hacc]
      refine ⟨by simp, ?_⟩
      rcases ih with ⟨hidx, hm, hnone⟩ | ⟨k, f, hidx, hm, hk, hf, hflt, hleast⟩
      · refine Or.inl ⟨hidx, hm, ?_⟩
        intro g hg hgacc
        rcases List.mem_append.mp hg with hgl | hgx
        · exact hnone g hgl hgacc
        · rw [List.mem_singleton] at hgx
          subst hgx
          exact absurd hgacc hacc
      · have hkl : k < l.length := (List.getElem?_eq_some_iff.mp hk).1
        refine Or.inr ⟨k, f, hidx, hm, ?_, hf, hflt, ?_⟩
        · rw [List.getElem?_append_left hkl]; exact hk
        · intro j g hj hg
          rcases hget j g hj with ⟨_, hjg⟩ | ⟨hjl, hgx⟩
          · exact hleast j g hjg hg
          · subst hgx
            exact absurd hg hacc

end __Device

/-- C6, counterexample.  For the families `[compute+transfer, graphics+compute]` and the
mask `COMPUTE` the table holds family `1`, although family `0` supports the mask too and
has fewer capabilities (two engines against three) and, counted on the Vulkan flags, as
many bits at a smaller index: the code selects by the least numeric value of the flags
(`3 < 6`), not by the least popcount. -/
theorem C6_engine_mapping_is_not_popcount_minimal :
    (__Device.engine_mapping twoFamilies)[EngineType.COMPUTE]? = some 1 ∧
    (EngineType.COMPUTE &&& __Device.GetSupportedEngines 6) = EngineType.COMPUTE ∧
    (EngineType.COMPUTE &&& __Device.GetSupportedEngines 3) = EngineType.COMPUTE ∧
    popcount (__Device.GetSupportedEngines 6) = 2 ∧
    popcount (__Device.GetSupportedEngines 3) = 3 ∧
    popcount 6 = 2 ∧ popcount 3 = 2 := by
  decide

/-- C6, amended.  For queue families with flags below `0xFFFFFFFF` and every mask in
`0..15`, `_engine_mapping[mask]` is `-1` when no family's capabilities contain the mask,
and otherwise the index `k` of a family whose capabilities contain the mask and whose
Vulkan flags value is the least among all such families, the smallest index winning
ties. -/
theorem C6_engine_mapping_selects_least_flags (queueFamilies : List VkQueueFamilyProperties)
    (mask : Nat) (hmask : mask < 16)
    (hflags : ∀ f ∈ queueFamilies, f.queueFlags < 0xFFFFFFFF) :
    (__Device.engine_mapping queueFamilies)[mask]? =
      some (__Device.ResolveEngineIndex queueFamilies mask) ∧
    ((__Device.ResolveEngineIndex queueFamilies mask = -1 ∧
      ∀ g ∈ queueFamilies, (mask &&& __Device.GetSupportedEngines g.queueFlags) ≠ mask) ∨
     ∃ (k : Nat) (f : VkQueueFamilyProperties),
      __Device.ResolveEngineIndex queueFamilies mask = (k : Int) ∧
      queueFamilies[k]? = some f ∧
      (mask &&& __Device.GetSupportedEngines f.queueFlags) = mask ∧
      ∀ (j : Nat) (g : VkQueueFamilyProperties), queueFamilies[j]? = some g →
        (mask &&& __Device.GetSupportedEngines g.queueFlags) = mask →
        f.queueFlags ≤ g.queueFlags ∧ (g.queueFlags = f.queueFlags → k ≤ j)) := by
  have hmod : ∀ g ∈ queueFamilies, g.queueFlags % 2 ^ 32 = g.queueFlags := fun g hg =>
    Nat.mod_eq_of_lt (by have := hflags g hg; omega)
  refine ⟨by simp [__Device.engine_mapping, List.getElem?_range hmask], ?_⟩
  obtain ⟨_, hspec⟩ :=
    __Device.minimal_fold_spec (__Device.ResolveEngineIndex.bits mask) false queueFamilies
  rcases hspec with ⟨hidx, _, hnone⟩ | ⟨k, f, hidx, _, hk, hf, _, hleast⟩
  · refine Or.inl ⟨hidx, fun g hg hsup => ?_⟩
    have h1 := hnone g hg
      ⟨(__Device.family_test_iff_supported g.queueFlags mask hmask).mpr hsup, by simp⟩
    have h2 := hflags g hg
    rw [hmod g hg] at h1
    omega
  · refine Or.inr ⟨k, f, hidx, hk,
      (__Device.family_test_iff_supported f.queueFlags mask hmask).mp hf.1, ?_⟩
    intro j g hj hsup
    have h1 := hleast j g hj
      ⟨(__Device.family_test_iff_supported g.queueFlags mask hmask).mpr hsup, by simp⟩
    rw [hmod g (List.getElem?_mem hj), hmod f (List.getElem?_mem hk)] at h1
    exact h1

/-- C6 amended, at `twoFamilies` and the mask `COMPUTE`. -/
theorem C6_engine_mapping_witness :
    (__Device.engine_mapping twoFamilies)[2]? =
      some (__Device.ResolveEngineIndex twoFamilies 2) ∧
    ((__Device.ResolveEngineIndex twoFamilies 2 = -1 ∧
      ∀ g ∈ twoFamilies, (2 &&& __Device.GetSupportedEngines g.queueFlags) ≠ 2) ∨
     ∃ (k : Nat) (f : VkQueueFamilyProperties),
      __Device.ResolveEngineIndex twoFamilies 2 = (k : Int) ∧
      twoFamilies[k]? = some f ∧
      (2 &&& __Device.GetSupportedEngines f.queueFlags) = 2 ∧
      ∀ (j : Nat) (g : VkQueueFamilyProperties), twoFamilies[j]? = some g →
        (2 &&& __Device.GetSupportedEngines g.queueFlags) = 2 →
        f.queueFlags ≤ g.queueFlags ∧ (g.queueFlags = f.queueFlags → k ≤ j)) :=
  C6_engine_mapping_selects_least_flags twoFamilies 2 (by decide) (by decide)

/-! ## Inline population -/

/-- What a successful `__EngineManager::Dispatch` did: `Populating` on the slot of the piece
returned the command list `cmdList`, the process was run once on a facade over it, its
commands were appended to that command list, and the piece was marked populated. -/
theorem __EngineManager.Dispatch_ok (e e' : __EngineManager) (pieces pieces' : PieceHeap)
    (workPiece : Nat) (h : e.Dispatch pieces workPiece = .ok (e', pieces')) :
    ∃ (w : WorkPiece) (process : Process) (m m1 : __CommandQueueManager) (cmdList : Nat)
      (c1 : __CommandListManager) (commands : List Nat),
      pieces[workPiece]? = some w ∧ w.GraphicProcess = some process ∧
      0 ≤ w.ManagerIndex ∧ e.Managers[w.ManagerIndex.toNat]? = some m ∧
      m.Populating workPiece = .ok (m1, cmdList) ∧ m1.cmdLists[cmdList]? = some c1 ∧
      process.Populate { _supported_engines := e.supportedEngines, __state := some cmdList }
        = .ok commands ∧
      e' = { e with
              Managers := e.Managers.set w.ManagerIndex.toNat
                { m1 with
                    cmdLists := m1.cmdLists.set cmdList
                      { c1 with recorded := c1.recorded ++ commands } } } ∧
      pieces' = pieces.set workPiece w.PopulationCompleted := by
  unfold __EngineManager.Dispatch __EngineManager.Dispatch_populating at h
  cases hw : pieces[workPiece]? with
  | none => simp [hw] at h
  | some w =>
    simp only [hw] at h
    by_cases hneg : w.ManagerIndex < 0
    · simp [__EngineManager.managerAt, hneg] at h
    cases hm : e.Managers[w.ManagerIndex.toNat]? with
    | none => simp [__EngineManager.managerAt, hneg, hm] at h
    | some m =>
      simp only [__EngineManager.managerAt, hneg, hm, if_false] at h
      cases hp : m.Populating workPiece with
      | error f => simp [hp] at h
      | ok r =>
        obtain ⟨m1, cmdList⟩ := r
        simp only [hp, __EngineManager.Dispatch_populate, hw] at h
        cases hproc : w.GraphicProcess with
        | none => simp [hproc] at h
        | some process =>
          simp only [hproc] at h
          cases hpop : process.Populate
              { _supported_engines := e.supportedEngines, __state := some cmdList } with
          | error f => simp [hpop] at h
          | ok commands =>
            have hlt : w.ManagerIndex.toNat < e.Managers.length :=
              (List.getElem?_eq_some_iff.mp hm).1
            simp only [hpop, __EngineManager.managerAt, hneg, if_false,
              List.getElem?_set_self hlt, __CommandQueueManager.record] at h
            cases hc : m1.cmdLists[cmdList]? with
            | none => simp [hc] at h
            | some c1 =>
              simp only [hc, List.set_set, Except.ok.injEq, Prod.mk.injEq] at h
              exact ⟨w, process, m, m1, cmdList, c1, commands, rfl, hproc, by omega, hm, hp,
                hc, hpop, h.1.symm, h.2.symm⟩

/-- C7.  Let the required engines of `process` be mapped to an engine (`_engine_mapping`
holds an index `≥ 0`, which is the case when some family supports them).  When
`Dispatch(process, MAIN_THREAD)` returns, the population was performed inside the call:
`Populating` on the slot `_FrameIndex * (frame_threads + 1)` of that engine returned the
command list `cmdList`; `Populate` was run on a facade over `cmdList` and its commands were
appended, once, to what `cmdList` held; the slot is left as `Populating` left it but for
these commands; the work piece of the returned CPU task is `POPULATION_COMPLETED`, its latch
has fired (count `1`), and `Wait` on the CPU task returns without blocking and changes
nothing. -/
theorem C7_Dispatch_main_thread_populates_inline (d d' : __Device) (process : Process)
    (engineIndex : Int) (task : __CPUTask)
    (hmapped : d._engine_mapping[process.RequiredEngines]? = some engineIndex)
    (hsupported : 0 ≤ engineIndex)
    (hreturns : Device.Dispatch d process .MAIN_THREAD = .ok (d', task)) :
    ∃ (e : __EngineManager) (m m1 : __CommandQueueManager) (cmdList : Nat)
      (c1 : __CommandListManager) (commands : List Nat) (w : WorkPiece),
      task.workPiece = d.pieces.length ∧
      d._Engines[engineIndex.toNat]? = some e ∧
      e.Managers[d._FrameIndex * (d._NumberOfAsyncThreadsInFrame + 1)]? = some m ∧
      m.Populating task.workPiece = .ok (m1, cmdList) ∧
      m1.cmdLists[cmdList]? = some c1 ∧
      process.Populate { _supported_engines := e.supportedEngines, __state := some cmdList }
        = .ok commands ∧
      d'._Engines = d._Engines.set engineIndex.toNat
        { e with
            Managers := e.Managers.set (d._FrameIndex * (d._NumberOfAsyncThreadsInFrame + 1))
              { m1 with
                  cmdLists := m1.cmdLists.set cmdList
                    { c1 with recorded := c1.recorded ++ commands } } } ∧
      d'.pieces[task.workPiece]? = some w ∧
      w.State = WorkPieceState.POPULATION_COMPLETED ∧
      w.AfterPopulated.s.state = 1 ∧
      w.EngineIndex = engineIndex ∧
      w.ManagerIndex = ((d._FrameIndex * (d._NumberOfAsyncThreadsInFrame + 1) : Nat) : Int) ∧
      CPUTask.Wait d'.pieces task = .ok d'.pieces := by
  simp only [Device.Dispatch, __Device.Dispatch, __Device.Dispatch.go, __Device.Dispatch.rest,
    __Device.CreateWorkPiece_eq d process .MAIN_THREAD engineIndex hmapped] at hreturns
  cases hpp : __Device.__PerformPopulation
      { d with pieces := d.pieces ++
          [{ GraphicProcess := some process
             Dispatch := .MAIN_THREAD
             EngineIndex := engineIndex
             ManagerIndex := -1
             State := WorkPieceState.DISPATCHED
             AfterPopulated := { s := { state := 0 } } }] } d.pieces.length 0 with
  | error f => simp [hpp] at hreturns
  | ok d2 =>
    simp only [hpp, Except.ok.injEq, Prod.mk.injEq] at hreturns
    obtain ⟨hd2, htask⟩ := hreturns
    subst hd2
    subst htask
    simp only [__Device.__PerformPopulation, __Device.__PerformPopulation.assign,
      List.getElem?_concat_length, __Device.__PerformPopulation.managerIdx, if_true,
      List.set_append_right _ _ (le_refl d.pieces.length), Nat.sub_self, List.set_cons_zero,
      ge_iff_le, hsupported, __Device.engineAt, not_lt.mpr hsupported, if_false] at hpp
    cases he : d._Engines[engineIndex.toNat]? with
    | none => simp [he] at hpp
    | some e =>
      simp only [he] at hpp
      cases hdis : e.Dispatch (d.pieces ++
          [{ GraphicProcess := some process
             Dispatch := .MAIN_THREAD
             EngineIndex := engineIndex
             ManagerIndex := (d._FrameIndex : Int) * (d._NumberOfAsyncThreadsInFrame + 1)
             State := WorkPieceState.DISPATCHED
             AfterPopulated := { s := { state := 0 } } }]) d.pieces.length with
      | error f => simp [hdis] at hpp
      | ok r =>
        obtain ⟨e1, pieces1⟩ := r
        simp only [hdis, Except.ok.injEq] at hpp
        subst hpp
        obtain ⟨w, process', m, m1, cmdList, c1, commands, hw, hproc, _, hm, hpop, hc1, hrun,
          he1, hpieces1⟩ := __EngineManager.Dispatch_ok _ _ _ _ _ hdis
        rw [List.getElem?_concat_length] at hw
        cases hw
        cases hproc
        have hslot : ((d._FrameIndex : Int) * (d._NumberOfAsyncThreadsInFrame + 1)).toNat
            = d._FrameIndex * (d._NumberOfAsyncThreadsInFrame + 1) := by
          have : ((d._FrameIndex : Int) * (d._NumberOfAsyncThreadsInFrame + 1))
              = ((d._FrameIndex * (d._NumberOfAsyncThreadsInFrame + 1) : Nat) : Int) := by
            push_cast; ring
          rw [this, Int.toNat_ofNat]
        simp only [hslot] at hm he1
        subst he1
        subst hpieces1
        refine ⟨e, m, m1, cmdList, c1, commands,
          WorkPiece.PopulationCompleted
            { GraphicProcess := some process
              Dispatch := .MAIN_THREAD
              EngineIndex := engineIndex
              ManagerIndex := (d._FrameIndex : Int) * (d._NumberOfAsyncThreadsInFrame + 1)
              State := WorkPieceState.DISPATCHED
              AfterPopulated := { s := { state := 0 } } },
          rfl, rfl, hm, hpop, hc1, hrun, rfl, ?_, ?_⟩
        · simp only [List.set_append_right _ _ (le_refl d.pieces.length), Nat.sub_self,
            List.set_cons_zero, List.getElem?_concat_length]
        · refine ⟨rfl, rfl, rfl, ?_, ?_⟩
          · simp only [WorkPiece.PopulationCompleted]
            push_cast; ring
          · simp only [CPUTask.Wait, __CPUTask.Wait,
              List.set_append_right _ _ (le_refl d.pieces.length), Nat.sub_self,
              List.set_cons_zero, List.getElem?_concat_length, WorkPiece.WaitForPopulation,
              WorkPiece.PopulationCompleted, OneTimeSemaphore.Wait, OneTimeSemaphore.Done,
              Semaphore.Wait, Semaphore.SignalAll, Semaphore.Signal]
            simp

/-- C7 at `sampleDevice` and `processA`. -/
theorem C7_Dispatch_main_thread_witness :
    ∃ w : WorkPiece, sampleDispatched.1.pieces[sampleDispatched.2.workPiece]? = some w ∧
      w.State = WorkPieceState.POPULATION_COMPLETED ∧ w.AfterPopulated.s.state = 1 ∧
      CPUTask.Wait sampleDispatched.1.pieces sampleDispatched.2 =
        .ok sampleDispatched.1.pieces := by
  obtain ⟨_, _, _, _, _, _, w, _, _, _, _, _, _, _, hw, hstate, hlatch, _, _, hwait⟩ :=
    C7_Dispatch_main_thread_populates_inline sampleDevice sampleDispatched.1 processA 0
      sampleDispatched.2 (by decide) (by decide) (by rfl)
  exact ⟨w, hw, hstate, hlatch, hwait⟩

/-! ## Order of population within a slot -/

/-- The function `Peek` does not read or write `populated`, and the command list it returns is the
recording buffer afterwards. -/
theorem __CommandQueueManager.Peek_populated (m m1 : __CommandQueueManager) (r : Nat)
    (populated : List Nat) (h : m.Peek = .ok (m1, r)) :
    __CommandQueueManager.Peek { m with populated := populated } =
      .ok ({ m1 with populated := populated }, r) ∧
    m1.populated = m.populated ∧ m1.recordingBuffer = some r := by
  unfold __CommandQueueManager.Peek at h ⊢
  cases hrec : m.recordingBuffer with
  | some r' =>
    simp only [hrec, Except.ok.injEq, Prod.mk.injEq] at h ⊢
    obtain ⟨rfl, rfl⟩ := h
    exact ⟨⟨by rw [hrec], rfl⟩, rfl, hrec⟩
  | none =>
    simp only [hrec] at h ⊢
    unfold __CommandQueueManager.FetchNew at h ⊢
    generalize m.reusableCmdBuffers.getLastD 0 = last at h ⊢
    by_cases hlen : m.reusableCmdBuffers.length > 1
    · simp only [hlen, ↓reduceIte] at h ⊢
      cases hc : m.cmdLists[last]? with
      | none => simp [hc] at h
      | some c =>
        simp only [hc] at h ⊢
        cases ho : c.__Open with
        | error f => simp [ho] at h
        | ok c1 =>
          simp only [ho, Except.ok.injEq, Prod.mk.injEq] at h ⊢
          obtain ⟨rfl, rfl⟩ := h
          exact ⟨⟨rfl, rfl⟩, rfl, rfl⟩
    · simp only [hlen, ↓reduceIte] at h ⊢
      cases hc : (m.cmdLists ++
          [{ vkCmdList := m.cmdLists.length
             SupportedEngines := m.SupportedEngines
             State := CommandListState.Initial
             recorded := [] }])[m.cmdLists.length]? with
      | none => simp [hc] at h
      | some c =>
        simp only [hc] at h ⊢
        cases ho : c.__Open with
        | error f => simp [ho] at h
        | ok c1 =>
          simp only [ho, Except.ok.injEq, Prod.mk.injEq] at h ⊢
          obtain ⟨rfl, rfl⟩ := h
          exact ⟨⟨rfl, rfl⟩, rfl, rfl⟩

/-- One `Dispatch` that is handled by the main thread (no frame threads; `ASYNC` only
without cross-frame threads), computed: the piece is created and populated, the slot
`_FrameIndex` of the engine gets the piece appended to `populated` and the commands
appended to the command list that `Peek` returns. -/
theorem __Device.Dispatch_main_step (d : __Device) (process : Process) (mode : DispatchMode)
    (k : Nat) (eng : __EngineManager) (m m1 : __CommandQueueManager) (r : Nat)
    (c : __CommandListManager) (commands : List Nat)
    (hfat : d._NumberOfAsyncThreadsInFrame = 0)
    (hmode : mode = .ASYNC → d._NumberOfAsyncThreads = 0)
    (hmap : d._engine_mapping[process.RequiredEngines]? = some (k : Int))
    (heng : d._Engines[k]? = some eng)
    (hm : eng.Managers[d._FrameIndex]? = some m)
    (hpeek : m.Peek = .ok (m1, r))
    (hc : m1.cmdLists[r]? = some c)
    (hpop : process.Populate { _supported_engines := eng.supportedEngines, __state := some r }
      = .ok commands) :
    d.Dispatch process mode =
      .ok ({ d with
              _Engines := d._Engines.set k
                { eng with
                    Managers := eng.Managers.set d._FrameIndex
                      { m1 with
                          populated := m.populated ++ [d.pieces.length]
                          cmdLists := m1.cmdLists.set r
                            { c with recorded := c.recorded ++ commands } } }
              pieces := d.pieces ++
                [{ GraphicProcess := some process
                   Dispatch := .MAIN_THREAD
                   EngineIndex := (k : Int)
                   ManagerIndex := (d._FrameIndex : Int)
                   State := WorkPieceState.POPULATION_COMPLETED
                   AfterPopulated := { s := { state := 1 } } }] },
           { workPiece := d.pieces.length }) := by
  have hfb : fallbackMode d mode = .MAIN_THREAD := by
    cases mode
    · simp [fallbackMode, fallbackChain, workerCount, List.find?]
    · simp [fallbackMode, fallbackChain, workerCount, List.find?, hfat]
    · simp [fallbackMode, fallbackChain, workerCount, List.find?, hfat, hmode rfl]
  have hklt : k < d._Engines.length := (List.getElem?_eq_some_iff.mp heng).1
  have hslt : d._FrameIndex < eng.Managers.length := (List.getElem?_eq_some_iff.mp hm).1
  obtain ⟨hpeek', _, _⟩ :=
    __CommandQueueManager.Peek_populated m m1 r (m.populated ++ [d.pieces.length]) hpeek
  rw [__Device.Dispatch_eq_rest, hfb]
  simp only [__Device.Dispatch.rest, __Device.CreateWorkPiece_eq d process .MAIN_THREAD k hmap,
    __Device.__PerformPopulation, __Device.__PerformPopulation.assign,
    List.getElem?_concat_length, __Device.__PerformPopulation.managerIdx, if_true,
    List.set_append_right _ _ (le_refl d.pieces.length), Nat.sub_self, List.set_cons_zero,
    hfat, __Device.engineAt, heng, __EngineManager.Dispatch,
    __EngineManager.Dispatch_populating, __EngineManager.managerAt,
    __CommandQueueManager.Populating, __EngineManager.Dispatch_populate]
  simp only [Nat.cast_zero, zero_add, mul_one, Int.toNat_ofNat, ge_iff_le,
    Int.natCast_nonneg, show ¬ ((k : Int) < 0) from by omega,
    show ¬ ((d._FrameIndex : Int) < 0) from by omega, if_true, if_false, heng, hm, hpeek', hpop,
    List.getElem?_set_self hslt, __CommandQueueManager.record, hc, List.set_set,
    WorkPiece.PopulationCompleted, OneTimeSemaphore.Done, Semaphore.SignalAll]

/-- The facts about one main-thread `Dispatch` that a sequence of them needs. -/
theorem __Device.Dispatch_main_step_facts (d : __Device) (process : Process)
    (mode : DispatchMode) (k : Nat) (eng : __EngineManager) (m m1 : __CommandQueueManager)
    (r : Nat) (c : __CommandListManager) (commands : List Nat)
    (hfat : d._NumberOfAsyncThreadsInFrame = 0)
    (hmode : mode = .ASYNC → d._NumberOfAsyncThreads = 0)
    (hmap : d._engine_mapping[process.RequiredEngines]? = some (k : Int))
    (heng : d._Engines[k]? = some eng)
    (hm : eng.Managers[d._FrameIndex]? = some m)
    (hpeek : m.Peek = .ok (m1, r))
    (hc : m1.cmdLists[r]? = some c)
    (hpop : process.Populate { _supported_engines := eng.supportedEngines, __state := some r }
      = .ok commands) :
    ∃ (d1 : __Device) (eng1 : __EngineManager) (m' : __CommandQueueManager),
      d.Dispatch process mode = .ok (d1, { workPiece := d.pieces.length }) ∧
      d1._Engines[k]? = some eng1 ∧ eng1.Managers[d._FrameIndex]? = some m' ∧
      m'.Peek = .ok (m', r) ∧ m'.recordingBuffer = some r ∧
      m'.cmdLists[r]? = some { c with recorded := c.recorded ++ commands } ∧
      m'.populated = m.populated ++ [d.pieces.length] ∧
      d1._NumberOfAsyncThreadsInFrame = d._NumberOfAsyncThreadsInFrame ∧
      d1._NumberOfAsyncThreads = d._NumberOfAsyncThreads ∧
      d1._engine_mapping = d._engine_mapping ∧
      d1._FrameIndex = d._FrameIndex ∧
      eng1.supportedEngines = eng.supportedEngines ∧
      d1.pieces.length = d.pieces.length + 1 := by
  have hstep := __Device.Dispatch_main_step d process mode k eng m m1 r c commands hfat
    hmode hmap heng hm hpeek hc hpop
  have hklt : k < d._Engines.length := (List.getElem?_eq_some_iff.mp heng).1
  have hslt : d._FrameIndex < eng.Managers.length := (List.getElem?_eq_some_iff.mp hm).1
  have hrlt : r < m1.cmdLists.length := (List.getElem?_eq_some_iff.mp hc).1
  obtain ⟨_, _, hrec⟩ := __CommandQueueManager.Peek_populated m m1 r [] hpeek
  refine ⟨_,
    { eng with
        Managers := eng.Managers.set d._FrameIndex
          { m1 with
              populated := m.populated ++ [d.pieces.length]
              cmdLists := m1.cmdLists.set r { c with recorded := c.recorded ++ commands } } },
    { m1 with
        populated := m.populated ++ [d.pieces.length]
        cmdLists := m1.cmdLists.set r { c with recorded := c.recorded ++ commands } },
    hstep, ?_, ?_, ?_, hrec, ?_, rfl, rfl, rfl, rfl, rfl, rfl, ?_⟩
  · simp only [List.getElem?_set_self hklt]
  · simp only [List.getElem?_set_self hslt]
  · simp only [__CommandQueueManager.Peek, hrec]
  · simp only [List.getElem?_set_self hrlt]
  · simp only [List.length_append, List.length_singleton]

theorem piecesFrom_succ (first n : Nat) :
    piecesFrom first (n + 1) = first :: piecesFrom (first + 1) n := by
  simp only [piecesFrom, List.range_succ_eq_map, List.map_cons, List.map_map, Nat.add_zero]
  congr 1
  apply List.map_congr_left
  intro i _
  simp only [Function.comp, Nat.succ_eq_add_one]
  omega

/-- A non-empty sequence of `Dispatch` calls that are all handled by the main thread on one
engine: it returns, and the slot `_FrameIndex` of the engine holds the pieces in call order
and, in the one command list that `Peek` returned, the commands in call order. -/
theorem __Device.DispatchAll_main_spec :
    ∀ (rest : List (Process × DispatchMode)) (first : Process × DispatchMode) (d : __Device)
      (k : Nat) (eng : __EngineManager) (m m1 : __CommandQueueManager) (r : Nat)
      (c : __CommandListManager),
      d._NumberOfAsyncThreadsInFrame = 0 →
      (∀ pm ∈ first :: rest, pm.2 = DispatchMode.ASYNC → d._NumberOfAsyncThreads = 0) →
      (∀ pm ∈ first :: rest, d._engine_mapping[pm.1.RequiredEngines]? = some (k : Int)) →
      d._Engines[k]? = some eng →
      eng.Managers[d._FrameIndex]? = some m →
      m.Peek = .ok (m1, r) →
      m1.cmdLists[r]? = some c →
      (∀ pm ∈ first :: rest, ∃ commands,
        pm.1.Populate { _supported_engines := eng.supportedEngines, __state := some r }
          = .ok commands) →
      ∃ (d' : __Device) (eng' : __EngineManager) (m' : __CommandQueueManager),
        d.DispatchAll (first :: rest) =
          .ok (d', (piecesFrom d.pieces.length (rest.length + 1)).map
            (fun w => { workPiece := w })) ∧
        d'._Engines[k]? = some eng' ∧
        eng'.Managers[d._FrameIndex]? = some m' ∧
        m'.recordingBuffer = some r ∧
        m'.cmdLists[r]? = some
          { c with
              recorded := c.recorded ++
                recordedBy ⟨eng.supportedEngines, some r⟩ (first :: rest) } ∧
        m'.populated = m.populated ++ piecesFrom d.pieces.length (rest.length + 1) := by
  intro rest
  induction rest with
  | nil =>
    intro first d k eng m m1 r c hfat hmodes hmap heng hm hpeek hc hpop
    obtain ⟨process, mode⟩ := first
    obtain ⟨commands, hcommands⟩ := hpop (process, mode) (List.mem_cons_self _ _)
    change process.Populate _ = _ at hcommands
    obtain ⟨d1, eng1, m', hstep, heng1, hm', _, hrec', hcmd', hpopulated', _⟩ :=
      __Device.Dispatch_main_step_facts d process mode k eng m m1 r c commands hfat
        (hmodes (process, mode) (List.mem_cons_self _ _))
        (hmap (process, mode) (List.mem_cons_self _ _)) heng hm hpeek hc hcommands
    refine ⟨d1, eng1, m', ?_, heng1, hm', hrec', ?_, ?_⟩
    · simp only [__Device.DispatchAll, hstep]
      rfl
    · rw [hcmd']
      simp only [recordedBy, hcommands, List.append_nil]
    · rw [hpopulated']
      rfl
  | cons second rest ih =>
    intro first d k eng m m1 r c hfat hmodes hmap heng hm hpeek hc hpop
    obtain ⟨process, mode⟩ := first
    obtain ⟨commands, hcommands⟩ := hpop (process, mode) (List.mem_cons_self _ _)
    change process.Populate _ = _ at hcommands
    obtain ⟨d1, eng1, m1', hstep, heng1, hm1', hpeek1, _, hcmd1, hpopulated1, hfat1, hat1,
        hmap1, hframe1, hsup1, hlen1⟩ :=
      __Device.Dispatch_main_step_facts d process mode k eng m m1 r c commands hfat
        (hmodes (process, mode) (List.mem_cons_self _ _))
        (hmap (process, mode) (List.mem_cons_self _ _)) heng hm hpeek hc hcommands
    obtain ⟨d', eng', m', hall, heng', hm', hrec', hcmd', hpopulated'⟩ :=
      ih second d1 k eng1 m1' m1' r { c with recorded := c.recorded ++ commands }
        (hfat1.trans hfat)
        (fun pm hpm h => hat1.trans (hmodes pm (List.mem_cons_of_mem _ hpm) h))
        (fun pm hpm => by rw [hmap1]; exact hmap pm (List.mem_cons_of_mem _ hpm))
        heng1 (by rw [hframe1]; exact hm1') hpeek1 hcmd1
        (fun pm hpm => by rw [hsup1]; exact hpop pm (List.mem_cons_of_mem _ hpm))
    rw [hframe1] at hm'
    rw [hsup1] at hcmd'
    refine ⟨d', eng', m', ?_, heng', hm', hrec', ?_, ?_⟩
    · simp only [__Device.DispatchAll, hstep] at hall ⊢
      rw [hall, hlen1]
      simp only [List.length_cons, piecesFrom_succ d.pieces.length (rest.length + 1),
        List.map_cons]
    · rw [hcmd']
      simp only [recordedBy, hcommands, List.append_assoc]
    · rw [hpopulated', hpopulated1, hlen1]
      simp only [List.length_cons, piecesFrom_succ d.pieces.length (rest.length + 1),
        List.append_assoc, List.singleton_append]

/-- C8, amended.  On a device without frame threads let `ps` be a non-empty sequence of
processes, each dispatched in a mode the main thread handles (`ASYNC` only when there are
no cross-frame threads either) and all mapped to the same engine `k`, whose slot
`_FrameIndex * (frame_threads + 1)` can give out its recording command list `r` (`Peek`
succeeds) and whose processes populate without fault.  Then the sequence of `Dispatch`
calls returns, `r` is the recording buffer of the slot afterwards, the commands recorded
in `r` are those it held followed by the commands of the processes in dispatch order, and
the slot's `populated` list is extended by their work pieces in dispatch order. -/
theorem C8_main_thread_dispatch_keeps_order (d : __Device)
    (ps : List (Process × DispatchMode)) (k : Nat) (eng : __EngineManager)
    (m m1 : __CommandQueueManager) (r : Nat) (c : __CommandListManager)
    (hne : ps ≠ [])
    (hfat : d._NumberOfAsyncThreadsInFrame = 0)
    (hmodes : ∀ pm ∈ ps, pm.2 = DispatchMode.ASYNC → d._NumberOfAsyncThreads = 0)
    (hmap : ∀ pm ∈ ps, d._engine_mapping[pm.1.RequiredEngines]? = some (k : Int))
    (heng : d._Engines[k]? = some eng)
    (hm : eng.Managers[d._FrameIndex * (d._NumberOfAsyncThreadsInFrame + 1)]? = some m)
    (hpeek : m.Peek = .ok (m1, r))
    (hc : m1.cmdLists[r]? = some c)
    (hpop : ∀ pm ∈ ps, ∃ commands,
      pm.1.Populate { _supported_engines := eng.supportedEngines, __state := some r }
        = .ok commands) :
    ∃ (d' : __Device) (eng' : __EngineManager) (m' : __CommandQueueManager),
      d.DispatchAll ps =
        .ok (d', (piecesFrom d.pieces.length ps.length).map (fun w => { workPiece := w })) ∧
      d'._Engines[k]? = some eng' ∧
      eng'.Managers[d._FrameIndex * (d._NumberOfAsyncThreadsInFrame + 1)]? = some m' ∧
      m'.recordingBuffer = some r ∧
      m'.cmdLists[r]? = some
        { c with
            recorded := c.recorded ++ recordedBy ⟨eng.supportedEngines, some r⟩ ps } ∧
      m'.populated = m.populated ++ piecesFrom d.pieces.length ps.length := by
  obtain ⟨first, rest, rfl⟩ := List.exists_cons_of_ne_nil hne
  have hslot : d._FrameIndex * (d._NumberOfAsyncThreadsInFrame + 1) = d._FrameIndex := by
    rw [hfat]; omega
  rw [hslot] at hm ⊢
  exact __Device.DispatchAll_main_spec rest first d k eng m m1 r c hfat hmodes hmap heng hm
    hpeek hc hpop

/-- C8 amended, at `sampleDevice`: `A`, `B`, `C` dispatched as `MAIN_THREAD`, `ASYNC_FRAME`, `ASYNC`
end up in this order in command list `0` of slot `0`. -/
theorem C8_main_thread_dispatch_witness :
    ∃ (d' : __Device) (eng' : __EngineManager) (m' : __CommandQueueManager),
      sampleDevice.DispatchAll sampleSequence =
        .ok (d', [{ workPiece := 0 }, { workPiece := 1 }, { workPiece := 2 }]) ∧
      d'._Engines[0]? = some eng' ∧
      eng'.Managers[0]? = some m' ∧
      m'.recordingBuffer = some 0 ∧
      m'.cmdLists[0]? = some
        { vkCmdList := 0, SupportedEngines := 15, State := CommandListState.Recording,
          recorded := [10, 11, 20, 30, 31, 32] } ∧
      m'.populated = [0, 1, 2] :=
  C8_main_thread_dispatch_keeps_order sampleDevice sampleSequence 0
    { Managers := [__CommandQueueManager.new 15 0 false]
      marked := [false]
      Queues := [0]
      frames := 1
      frame_async_threads := 0
      async_threads := 0
      supportedEngines := 15 }
    (__CommandQueueManager.new 15 0 false) samplePeeked 0
    { vkCmdList := 0, SupportedEngines := 15, State := CommandListState.Recording,
      recorded := [] }
    (by simp [sampleSequence]) rfl (fun _ _ _ => rfl)
    (by
      intro pm hpm
      simp only [sampleSequence, List.mem_cons, List.mem_singleton, List.not_mem_nil,
        or_false] at hpm
      rcases hpm with rfl | rfl | rfl <;> rfl)
    rfl rfl rfl rfl
    (by
      intro pm hpm
      simp only [sampleSequence, List.mem_cons, List.mem_singleton, List.not_mem_nil,
        or_false] at hpm
      rcases hpm with rfl | rfl | rfl
      · exact ⟨[10, 11], rfl⟩
      · exact ⟨[20], rfl⟩
      · exact ⟨[30, 31, 32], rfl⟩)

/-! ## Work piece states under interleaving -/

/-- The two halves of the population step, run one after the other, are
`__PerformPopulation`. -/
theorem __Device.PerformPopulation_eq_halves (d : __Device) (workPiece threadIdx : Nat) :
    d.__PerformPopulation workPiece threadIdx =
      match __Device.__PerformPopulation.populating d workPiece threadIdx with
      | .error f => .error f
      | .ok (d1, wrapper) => __Device.__PerformPopulation.populate d1 workPiece wrapper := by
  unfold __Device.__PerformPopulation __Device.__PerformPopulation.populating
  cases ha : __Device.__PerformPopulation.assign d workPiece threadIdx with
  | error f => rfl
  | ok d1 =>
    simp only
    cases hw : d1.pieces[workPiece]? with
    | none => rfl
    | some w =>
      simp only
      by_cases he : w.EngineIndex ≥ 0
      · simp only [he, if_true]
        cases heng : d1.engineAt w.EngineIndex with
        | error f => rfl
        | ok e =>
          simp only [__EngineManager.Dispatch]
          cases hpop : e.Dispatch_populating d1.pieces workPiece with
          | error f => rfl
          | ok r =>
            obtain ⟨e1, wrapper⟩ := r
            have hlt : w.EngineIndex.toNat < d1._Engines.length := by
              unfold __Device.engineAt at heng
              split at heng
              · cases heng
              · cases hget : d1._Engines[w.EngineIndex.toNat]? with
                | none => simp [hget] at heng
                | some e' => exact (List.getElem?_eq_some_iff.mp hget).1
            simp only [__Device.__PerformPopulation.populate, hw, __Device.engineAt,
              not_lt.mpr he, if_false, List.getElem?_set_self hlt, List.set_set]
      · simp only [he, if_false, __Device.__PerformPopulation.populate]

/-- C9, the code at the failing interleaving.  In `raceTrace` the piece `B` (index 1) is
`DISPATCHED` while its `Populate` is pending, is marked `SUBMITTED` by the `Flush` of `A`'s
CPU task, and is then set back to `POPULATION_COMPLETED` when its population ends: its
state goes `DISPATCHED`, `SUBMITTED`, `POPULATION_COMPLETED`. -/
theorem C9_state_rolls_back_from_SUBMITTED :
    raceTrace.map (fun obs => obs.map (fun o => o.states[1]?)) =
      .ok [some WorkPieceState.DISPATCHED, some WorkPieceState.SUBMITTED,
           some WorkPieceState.POPULATION_COMPLETED] := by
  decide

/-- C10, the code at the failing interleaving.  In `raceTrace`, when the main thread calls
`Flush` on `A`'s CPU task the slot of the worker (slot 1) has `populated = [A, B]` with `B`
still `DISPATCHED` and its latch not fired (count 0); after the `Flush`, `SubmitCurrent`
has moved the buffer to `submittedBuffers`, emptied `populated` and marked `B`
`SUBMITTED`, its latch still not fired. -/
theorem C10_submit_marks_unpopulated_piece :
    raceTrace =
      .ok [{ states := [.POPULATION_COMPLETED, .DISPATCHED], latches := [1, 0],
             populated := [[], [0, 1]], submittedBuffers := [[], []] },
           { states := [.SUBMITTED, .SUBMITTED], latches := [1, 0],
             populated := [[], []], submittedBuffers := [[], [0]] },
           { states := [.SUBMITTED, .POPULATION_COMPLETED], latches := [1, 1],
             populated := [[], []], submittedBuffers := [[], [0]] }] := by
  decide

/-! ## Command list states -/

/-- The value-returning and the object-transforming forms of the three operations agree. -/
theorem __CommandListManager.run_agrees (c : __CommandListManager) :
    (c.__Open = match (__CommandListManager.__Open.run c).2 with
      | .ok _ => .ok (__CommandListManager.__Open.run c).1
      | .error f => .error f) ∧
    (c.__Close = match (__CommandListManager.__Close.run c).2 with
      | .ok _ => .ok (__CommandListManager.__Close.run c).1
      | .error f => .error f) ∧
    (c.__Reset = match (__CommandListManager.__Reset.run c).2 with
      | .ok _ => .ok (__CommandListManager.__Reset.run c).1
      | .error f => .error f) := by
  obtain ⟨v, e, st, r⟩ := c
  cases st <;> simp [__CommandListManager.__Open, __CommandListManager.__Close,
    __CommandListManager.__Reset, __CommandListManager.__Open.run,
    __CommandListManager.__Close.run, __CommandListManager.__Reset.run]

/-- C20.  On a command list: `__Open` throws in the states `Executable` and `OnGPU` and
yields `Recording` from `Initial`; `__Close` throws in every state but `Recording`, from
which it yields `Executable`; `__Reset` throws in the state `OnGPU` and otherwise yields
`Initial`; and every throwing call leaves the command list as it was. -/
theorem C20_command_list_transitions (c : __CommandListManager) :
    ((c.State = CommandListState.Executable ∨ c.State = CommandListState.OnGPU) →
      c.__Open = .error (.thrown "Fail to open an executing command list") ∧
      __CommandListManager.__Open.run c =
        (c, .error (.thrown "Fail to open an executing command list"))) ∧
    (c.State = CommandListState.Initial →
      c.__Open = .ok { c with State := CommandListState.Recording } ∧
      __CommandListManager.__Open.run c =
        ({ c with State := CommandListState.Recording }, .ok ())) ∧
    (c.State ≠ CommandListState.Recording →
      c.__Close = .error (.thrown "Closing a command buffer has not been opened") ∧
      __CommandListManager.__Close.run c =
        (c, .error (.thrown "Closing a command buffer has not been opened"))) ∧
    (c.State = CommandListState.Recording →
      c.__Close = .ok { c with State := CommandListState.Executable } ∧
      __CommandListManager.__Close.run c =
        ({ c with State := CommandListState.Executable }, .ok ())) ∧
    (c.State = CommandListState.OnGPU →
      c.__Reset = .error (.thrown "Reseting a command list has not finished on the gpu") ∧
      __CommandListManager.__Reset.run c =
        (c, .error (.thrown "Reseting a command list has not finished on the gpu"))) ∧
    (c.State ≠ CommandListState.OnGPU →
      ∃ c' : __CommandListManager, c.__Reset = .ok c' ∧
        __CommandListManager.__Reset.run c = (c', .ok ()) ∧
        c'.State = CommandListState.Initial) := by
  obtain ⟨v, e, st, r⟩ := c
  cases st <;> simp [__CommandListManager.__Open, __CommandListManager.__Close,
    __CommandListManager.__Reset, __CommandListManager.__Open.run,
    __CommandListManager.__Close.run, __CommandListManager.__Reset.run]

/-! ## The capability check of the facade -/

theorem and_low_bits_pow (a b n : Nat) (hb : b < 2 ^ n) : a &&& b = (a % 2 ^ n) &&& b := by
  have hbm : b = (2 ^ n - 1) &&& b := by
    rw [Nat.and_comm, Nat.and_pow_two_sub_one_eq_mod, Nat.mod_eq_of_lt hb]
  have ha : a % 2 ^ n = a &&& (2 ^ n - 1) := (Nat.and_pow_two_sub_one_eq_mod a n).symm
  rw [ha, Nat.and_assoc, ← hbm]

/-- A facade that supports the engines of `RaytracingManager` or of `GraphicsManager`
supports those of `ComputeManager` and of `TransferManager`. -/
theorem supports_compute_and_transfer (s : Nat)
    (h : (RaytracingManager.SupportedEngines &&& s) = RaytracingManager.SupportedEngines ∨
      (GraphicsManager.SupportedEngines &&& s) = GraphicsManager.SupportedEngines) :
    (ComputeManager.SupportedEngines &&& s) = ComputeManager.SupportedEngines ∧
    (TransferManager.SupportedEngines &&& s) = TransferManager.SupportedEngines := by
  have e15 : RaytracingManager.SupportedEngines = 15 := by decide
  have e7 : GraphicsManager.SupportedEngines = 7 := by decide
  have e3 : ComputeManager.SupportedEngines = 3 := by decide
  have e1 : TransferManager.SupportedEngines = 1 := by decide
  rw [e15, e7] at h
  rw [e3, e1]
  have h15 : (15 : Nat) &&& s = 15 &&& (s % 16) := by
    rw [Nat.and_comm, and_low_bits_pow s 15 4 (by decide), Nat.and_comm]
    norm_num
  have h7 : (7 : Nat) &&& s = 7 &&& (s % 16) := by
    rw [Nat.and_comm, and_low_bits_pow s 7 4 (by decide), Nat.and_comm]
    norm_num
  have h3 : (3 : Nat) &&& s = 3 &&& (s % 16) := by
    rw [Nat.and_comm, and_low_bits_pow s 3 4 (by decide), Nat.and_comm]
    norm_num
  have h1 : (1 : Nat) &&& s = 1 &&& (s % 16) := by
    rw [Nat.and_comm, and_low_bits_pow s 1 4 (by decide), Nat.and_comm]
    norm_num
  rw [h15, h7] at h
  rw [h3, h1]
  have hlt : s % 16 < 16 := Nat.mod_lt _ (by decide)
  generalize s % 16 = r at h hlt
  revert h
  revert r
  decide

/-- C17.  `As<T>()` on a facade with supported engines `s` returns the facade exactly when
`(T::SupportedEngines & s) == T::SupportedEngines` and otherwise throws the
capability-mismatch error; hence a facade that can be cast to `RaytracingManager` or to
`GraphicsManager` can be cast to `ComputeManager` and to `TransferManager`. -/
theorem C17_As_checks_engine_subset (m : CommandListManager) (T_SupportedEngines : EngineType) :
    ((T_SupportedEngines &&& m._supported_engines) = T_SupportedEngines →
      m.As T_SupportedEngines = .ok m) ∧
    ((T_SupportedEngines &&& m._supported_engines) ≠ T_SupportedEngines →
      m.As T_SupportedEngines = .error (.thrown
        "Current command list manager doesnt support the destination engine requirement.")) ∧
    (m.As T_SupportedEngines = .ok m ↔
      (T_SupportedEngines &&& m._supported_engines) = T_SupportedEngines) ∧
    ((m.As RaytracingManager.SupportedEngines = .ok m ∨
        m.As GraphicsManager.SupportedEngines = .ok m) →
      m.As ComputeManager.SupportedEngines = .ok m ∧
      m.As TransferManager.SupportedEngines = .ok m) := by
  have hiff : ∀ T : EngineType, m.As T = .ok m ↔ (T &&& m._supported_engines) = T := by
    intro T
    by_cases h : (T &&& m._supported_engines) = T
    · simp [CommandListManager.As, CommandListManager.CheckCastSupport, h]
    · simp [CommandListManager.As, CommandListManager.CheckCastSupport, h]
  refine ⟨fun h => (hiff _).mpr h, fun h => ?_, hiff _, fun h => ?_⟩
  · simp [CommandListManager.As, CommandListManager.CheckCastSupport, h]
  · have := supports_compute_and_transfer m._supported_engines
      (h.imp (hiff _).mp (hiff _).mp)
    exact ⟨(hiff _).mpr this.1, (hiff _).mpr this.2⟩

/-! ## The one-shot latch -/

/-- A latch whose count is positive lets `Wait` through and is left as it was. -/
theorem OneTimeSemaphore.Wait_of_pos (o : OneTimeSemaphore) (h : 0 < o.s.state) :
    o.Wait = .ok o := by
  have hne : o.s.state ≠ 0 := by omega
  obtain ⟨⟨n⟩⟩ := o
  simp only [OneTimeSemaphore.Wait, Semaphore.Wait, Semaphore.Signal] at hne ⊢
  simp [hne]

/-- The count of a latch after a run that returned is the count before plus the number of
`done` calls. -/
theorem OneTimeSemaphore.run_state (ops : List LatchOp) :
    ∀ (o o' : OneTimeSemaphore), OneTimeSemaphore.run o ops = .ok o' →
      o'.s.state = o.s.state + ops.count LatchOp.done := by
  induction ops with
  | nil =>
    intro o o' h
    simp only [OneTimeSemaphore.run, Except.ok.injEq] at h
    subst h
    simp
  | cons op ops ih =>
    intro o o' h
    cases op with
    | done =>
      simp only [OneTimeSemaphore.run] at h
      have := ih _ _ h
      simp only [OneTimeSemaphore.Done, Semaphore.SignalAll] at this
      rw [this]
      simp only [List.count_cons_self, Nat.cast_add, Nat.cast_one]
      ring
    | wait =>
      simp only [OneTimeSemaphore.run] at h
      cases hw : o.Wait with
      | error f => simp [hw] at h
      | ok o1 =>
        simp only [hw] at h
        have h1 := ih _ _ h
        have ho1 : o1.s.state = o.s.state := by
          obtain ⟨⟨n⟩⟩ := o
          by_cases hn : n = 0
          · simp [OneTimeSemaphore.Wait, Semaphore.Wait, hn] at hw
          · simp only [OneTimeSemaphore.Wait, Semaphore.Wait, Semaphore.Signal, hn, if_false,
              Except.ok.injEq] at hw
            subst hw
            simp
        rw [h1, ho1]
        simp

/-- C16.  The latch is sticky.  On a fresh latch a run whose first `wait` comes before any
`done` is blocked at that `wait`.  After any run that returned and held a `done`, the count
is the number of `done` calls, hence positive; `Wait` returns and leaves the latch as it
was, and so does any number of further `wait` calls. -/
theorem C16_latch_is_sticky (ops : List LatchOp) (n : Nat) :
    OneTimeSemaphore.new.Wait = .error .blocked ∧
    OneTimeSemaphore.run OneTimeSemaphore.new
      (List.replicate n LatchOp.wait ++ LatchOp.wait :: ops) = .error .blocked ∧
    (∀ o : OneTimeSemaphore, OneTimeSemaphore.run OneTimeSemaphore.new ops = .ok o →
      LatchOp.done ∈ ops →
      o.s.state = ops.count LatchOp.done ∧ 0 < o.s.state ∧ o.Wait = .ok o ∧
      OneTimeSemaphore.run o (List.replicate n LatchOp.wait) = .ok o) := by
  refine ⟨rfl, ?_, ?_⟩
  · cases n <;> rfl
  · intro o hrun hdone
    have hstate := OneTimeSemaphore.run_state ops _ _ hrun
    simp only [OneTimeSemaphore.new, Semaphore.new, zero_add] at hstate
    have hpos : 0 < o.s.state := by
      rw [hstate]
      exact_mod_cast List.count_pos_iff.mpr hdone
    refine ⟨hstate, hpos, OneTimeSemaphore.Wait_of_pos o hpos, ?_⟩
    induction n with
    | zero => rfl
    | succ k ih =>
      simp only [List.replicate_succ, OneTimeSemaphore.run,
        OneTimeSemaphore.Wait_of_pos o hpos]
      exact ih

/-! ## The bounded queue -/

namespace ProducerConsumerQueue

variable {T : Type} [Inhabited T]

theorem new_invariant (C : Nat) : Invariant C (ProducerConsumerQueue.new C : ProducerConsumerQueue T) := by
  refine ⟨by simp [ProducerConsumerQueue.new], by simp [ProducerConsumerQueue.new],
    by simp [ProducerConsumerQueue.new], rfl, by simp [ProducerConsumerQueue.new], fun h => h⟩

theorem slot_injective (a k n C : Nat) (hk : k < C) (hn : n < C)
    (h : (a + k) % C = (a + n) % C) : k = n :=
  Nat.ModEq.eq_of_lt_of_lt (Nat.ModEq.add_left_cancel' a h) hk hn

/-- `Produce` on a queue that meets the invariant: it returns exactly when fewer than `C`
elements are held, keeps the invariant, and puts the element behind the ones held. -/
theorem Produce_spec (C : Nat) (hC : C < 2 ^ 31) (q : ProducerConsumerQueue T)
    (hinv : Invariant C q) (element : T) :
    (q.count < C → ∃ q1, q.Produce element = .ok q1 ∧ Invariant C q1 ∧
      q1.contents = q.contents ++ [element] ∧ q1.count = q.count + 1) ∧
    (q.count = C → q.Produce element = .error .blocked) := by
  obtain ⟨elements, start, count, ⟨ps⟩, ⟨ss⟩⟩ := q
  obtain ⟨hlen, h0, hle, hps, hss, hst⟩ := hinv
  simp only at hlen h0 hle hps hss hst
  lift count to ℕ using h0 with n
  have hnC : n ≤ C := by exact_mod_cast hle
  constructor
  · intro hlt
    have hnlt : n < C := by exact_mod_cast hlt
    have hCpos : 0 < C := by omega
    have hstart := hst hCpos
    have hss0 : ss ≠ 0 := by omega
    have hlen0 : elements.length ≠ 0 := by omega
    have hpos : (((start : Int) + (n : Int)) % 2 ^ 64).toNat = start + n := by
      have h1 : ((start : Int) + (n : Int)) % 2 ^ 64 = (start : Int) + (n : Int) :=
        Int.emod_eq_of_lt (by omega) (by
          have : (2 : Int) ^ 64 = 18446744073709551616 := by norm_num
          have : (2 : Nat) ^ 31 = 2147483648 := by norm_num
          omega)
      rw [h1]
      omega
    have hplt : (start + n) % C < elements.length := by
      rw [hlen]; exact Nat.mod_lt _ hCpos
    refine ⟨{ elements := elements.set ((start + n) % elements.length) element
              start := start
              count := (n : Int) + 1
              productsSemaphore := { state := ps + 1 }
              spacesSemaphore := { state := ss - 1 } },
      by simp only [Produce, Semaphore.Wait, Semaphore.Signal, hss0, if_false, hlen0, hpos],
      ?_, ?_, rfl⟩
    · refine ⟨by simp only [List.length_set]; exact hlen, by simp only; omega,
        by simp only; omega, by simp only [Semaphore.Signal]; omega, by simp only; omega,
        hst⟩
    · simp only [contents, Int.toNat_ofNat, List.length_set, hlen,
        show ((n : Int) + 1).toNat = n + 1 from by omega, List.range_succ, List.map_append,
        List.map_cons, List.map_nil, List.getD_eq_getElem?_getD,
        List.getElem?_set_self hplt, Option.getD_some]
      congr 1
      apply List.map_congr_left
      intro k hk
      have hk' : k < n := List.mem_range.mp hk
      have hne : (start + n) % C ≠ (start + k) % C := by
        intro heq
        have := slot_injective start n k C hnlt (by omega) heq
        omega
      rw [List.getElem?_set_ne hne]
  · intro heq
    have hnC' : n = C := by exact_mod_cast heq
    have hss0 : ss = 0 := by omega
    simp only [Produce, Semaphore.Wait, hss0, if_true]

/-- `Consume` on a queue that meets the invariant: it returns exactly when an element is
held, keeps the invariant, and returns the oldest element, leaving the others. -/
theorem Consume_spec (C : Nat) (q : ProducerConsumerQueue T) (hinv : Invariant C q) :
    (0 < q.count → ∃ q1 element, q.Consume = .ok (q1, element) ∧ Invariant C q1 ∧
      q.contents = element :: q1.contents ∧ q1.count = q.count - 1) ∧
    (q.count = 0 → q.Consume = .error .blocked) := by
  obtain ⟨elements, start, count, ⟨ps⟩, ⟨ss⟩⟩ := q
  obtain ⟨hlen, h0, hle, hps, hss, hst⟩ := hinv
  simp only at hlen h0 hle hps hss hst
  lift count to ℕ using h0 with n
  have hnC : n ≤ C := by exact_mod_cast hle
  constructor
  · intro hpos
    have hnpos : 0 < n := by exact_mod_cast hpos
    have hCpos : 0 < C := by omega
    have hstart := hst hCpos
    have hps0 : ps ≠ 0 := by omega
    have hslt : start < elements.length := by omega
    obtain ⟨m, rfl⟩ : ∃ m, n = m + 1 := ⟨n - 1, by omega⟩
    refine ⟨{ elements := elements.set start default
              start := (start + 1) % elements.length
              count := ((m + 1 : Nat) : Int) - 1
              productsSemaphore := { state := ps - 1 }
              spacesSemaphore := { state := ss + 1 } },
      elements[start],
      by simp only [Consume, Semaphore.Wait, Semaphore.Signal, hps0, if_false,
        List.getElem?_eq_getElem hslt],
      ?_, ?_, rfl⟩
    · refine ⟨by simp only [List.length_set]; exact hlen, by simp only; omega,
        by simp only; omega, by simp only; omega, by simp only [Semaphore.Signal]; omega,
        fun _ => by simp only [hlen]; exact Nat.mod_lt _ hCpos⟩
    · simp only [contents, Int.toNat_ofNat, List.length_set, hlen,
        show (((m + 1 : Nat) : Int) - 1).toNat = m from by omega,
        show (((m + 1 : Nat) : Int)).toNat = m + 1 from by omega,
        List.range_succ_eq_map, List.map_cons, List.map_map,
        List.getD_eq_getElem?_getD, Nat.add_zero, Nat.mod_eq_of_lt hstart,
        List.getElem?_eq_getElem hslt, Option.getD_some]
      congr 1
      apply List.map_congr_left
      intro k hk
      have hk' : k < m := List.mem_range.mp hk
      simp only [Function.comp, Nat.succ_eq_add_one, Nat.mod_add_mod]
      have hne : start ≠ (start + 1 + k) % C := by
        intro heq
        have h1 : (start + 0) % C = (start + (k + 1)) % C := by
          rw [Nat.add_zero, Nat.mod_eq_of_lt hstart, show start + (k + 1) = start + 1 + k by omega]
          exact heq
        have := slot_injective start 0 (k + 1) C hCpos (by omega) h1
        omega
      rw [List.getElem?_set_ne hne, Nat.add_assoc, Nat.add_comm 1 k]
  · intro heq
    have hn0 : n = 0 := by exact_mod_cast heq
    have hps0 : ps = 0 := by omega
    simp only [Consume, Semaphore.Wait, hps0, if_true]

/-- Every reachable state of a queue of capacity `C` meets the invariant. -/
theorem Reachable.invariant (C : Nat) (hC : C < 2 ^ 31) (q : ProducerConsumerQueue T)
    (h : Reachable C q) : Invariant C q := by
  induction h with
  | new => exact new_invariant C
  | produce q q1 element _ hp ih =>
    by_cases hlt : q.count < C
    · obtain ⟨q1', hq1, hinv, _⟩ := (Produce_spec C hC q ih element).1 hlt
      rw [hp] at hq1
      cases hq1
      exact hinv
    · have heq : q.count = C := by
        have := ih.2.2.1
        omega
      rw [(Produce_spec C hC q ih element).2 heq] at hp
      cases hp
  | consume q q1 element _ hc ih =>
    by_cases hpos : 0 < q.count
    · obtain ⟨q1', x, hq1, hinv, _⟩ := (Consume_spec C q ih).1 hpos
      rw [hc] at hq1
      cases hq1
      exact hinv
    · have heq : q.count = 0 := by
        have := ih.2.1
        omega
      rw [(Consume_spec C q ih).2 heq] at hc
      cases hc

theorem contents_length (q : ProducerConsumerQueue T) : q.contents.length = q.count.toNat := by
  simp [contents]

end ProducerConsumerQueue

namespace ProducerConsumerQueue

variable {T : Type} [Inhabited T]

/-- The ring buffer simulates the list queue: a run of calls on a queue that meets the
invariant returns exactly when the same calls can proceed on the list of its contents, with
the same consumed elements and the contents of the final queue as the final list; a run
that does not return is blocked. -/
theorem run_simulates (C : Nat) (hC : C < 2 ^ 31) (ops : List (QueueOp T)) :
    ∀ q : ProducerConsumerQueue T, Invariant C q →
      (∀ q1 outs, q.run ops = .ok (q1, outs) →
        ListQueue.run C q.contents ops = some (q1.contents, outs)) ∧
      (∀ f, q.run ops = .error f → f = .blocked ∧ ListQueue.run C q.contents ops = none) := by
  induction ops with
  | nil =>
    intro q _
    refine ⟨fun q1 outs h => ?_, fun f h => ?_⟩
    · simp only [run, Except.ok.injEq, Prod.mk.injEq] at h
      obtain ⟨rfl, rfl⟩ := h
      rfl
    · simp [run] at h
  | cons op ops ih =>
    intro q hinv
    have hlen : q.contents.length = q.count.toNat := contents_length q
    obtain ⟨_, h0, hle, _, _, _⟩ := id hinv
    cases op with
    | produce element =>
      by_cases hlt : q.count < C
      · obtain ⟨q1, hp, hinv1, hcont, _⟩ := (Produce_spec C hC q hinv element).1 hlt
        have hl : q.contents.length < C := by omega
        simp only [run, hp, ListQueue.run, hl, if_true, ← hcont]
        exact ih q1 hinv1
      · have heq : q.count = C := by omega
        have hp := (Produce_spec C hC q hinv element).2 heq
        have hl : ¬ q.contents.length < C := by omega
        simp only [run, hp, ListQueue.run, hl, if_false]
        exact ⟨fun _ _ h => (by cases h), fun f h => by cases h; exact ⟨rfl, trivial⟩⟩
    | consume =>
      by_cases hpos : 0 < q.count
      · obtain ⟨q1, x, hc, hinv1, hcont, _⟩ := (Consume_spec C q hinv).1 hpos
        obtain ⟨ihok, iherr⟩ := ih q1 hinv1
        simp only [run, hc, hcont, ListQueue.run]
        cases hr : q1.run ops with
        | error f =>
          obtain ⟨hf, hnone⟩ := iherr f hr
          simp only [hnone]
          exact ⟨fun _ _ h => (by cases h), fun f' h => by cases h; exact ⟨hf, trivial⟩⟩
        | ok r =>
          obtain ⟨q2, xs⟩ := r
          simp only [ihok q2 xs hr]
          refine ⟨fun q3 outs h => ?_, fun f h => by cases h⟩
          simp only [Except.ok.injEq, Prod.mk.injEq] at h
          obtain ⟨rfl, rfl⟩ := h
          rfl
      · have heq : q.count = 0 := by omega
        have hc := (Consume_spec C q hinv).2 heq
        have hnil : q.contents = [] := by
          apply List.eq_nil_of_length_eq_zero
          rw [hlen, heq]
          rfl
        simp only [run, hc, hnil, ListQueue.run]
        exact ⟨fun _ _ h => (by cases h), fun f h => by cases h; exact ⟨rfl, trivial⟩⟩

end ProducerConsumerQueue

/-- The list queue is first in, first out: the consumed elements followed by the elements
left are the elements held at the start followed by the produced elements. -/
theorem ListQueue.run_fifo {T : Type} (C : Nat) (ops : List (QueueOp T)) :
    ∀ (l l1 outs : List T), ListQueue.run C l ops = some (l1, outs) →
      outs ++ l1 = l ++ QueueOp.produced ops := by
  induction ops with
  | nil =>
    intro l l1 outs h
    simp only [ListQueue.run, Option.some.injEq, Prod.mk.injEq] at h
    obtain ⟨rfl, rfl⟩ := h
    simp [QueueOp.produced]
  | cons op ops ih =>
    intro l l1 outs h
    cases op with
    | produce element =>
      simp only [ListQueue.run] at h
      split at h
      · have := ih _ _ _ h
        simp only [QueueOp.produced, this, List.append_assoc, List.singleton_append]
      · cases h
    | consume =>
      cases l with
      | nil => simp [ListQueue.run] at h
      | cons front l2 =>
        simp only [ListQueue.run] at h
        cases hr : ListQueue.run C l2 ops with
        | none => simp [hr] at h
        | some r =>
          obtain ⟨l3, xs⟩ := r
          simp only [hr, Option.some.injEq, Prod.mk.injEq] at h
          obtain ⟨rfl, rfl⟩ := h
          have := ih _ _ _ hr
          simp only [QueueOp.produced, List.cons_append, this]

/-- The two queues of a created device have the capacities `2 * frame_threads` and
`2 * async_threads`. -/
theorem __Device.created_queues (queueFamilies : List VkQueueFamilyProperties)
    (description : PresenterDescription) (d : __Device)
    (h : __Device.__create_vk_device queueFamilies description = .ok d) :
    d._FrameAsyncProcesses = ProducerConsumerQueue.new (description.frame_threads * 2) ∧
    d._AsyncProcesses = ProducerConsumerQueue.new (description.async_threads * 2) ∧
    d._NumberOfFrames = (max 1 description.frames).toNat ∧
    d._FrameIndex = 0 ∧
    d._NumberOfAsyncThreadsInFrame = description.frame_threads ∧
    d._NumberOfAsyncThreads = description.async_threads := by
  unfold __Device.__create_vk_device at h
  simp only at h
  split at h
  · cases h
  · simp only [Except.ok.injEq] at h
    subst h
    exact ⟨rfl, rfl, rfl, rfl, rfl, rfl⟩

/-- C14.  A queue of capacity `C` (an `int`), in any state reachable from its construction
by `Produce` and `Consume` calls, has `0 ≤ count ≤ C`, its items semaphore at `count` and
its free-slots semaphore at `C - count`; `Produce` returns exactly when `count < C` and is
blocked exactly when `count = C`; `Consume` returns exactly when `count > 0` and is blocked
exactly when `count = 0`; `Produce` keeps every element held and adds the new one behind
them, `Consume` removes only the element it returns; the queue holds `count` elements.
The frame-async queue of a created device has capacity `2 * frame_threads`. -/
theorem C14_bounded_queue_counts {T : Type} [Inhabited T] (C : Nat) (hC : C < 2 ^ 31)
    (q : ProducerConsumerQueue T) (hreach : ProducerConsumerQueue.Reachable C q) (element : T)
    (queueFamilies : List VkQueueFamilyProperties) (description : PresenterDescription) :
    0 ≤ q.count ∧ q.count ≤ C ∧
    q.productsSemaphore.state = q.count ∧ q.spacesSemaphore.state = C - q.count ∧
    ((∃ q1, q.Produce element = .ok q1) ↔ q.count < C) ∧
    (q.Produce element = .error .blocked ↔ q.count = C) ∧
    ((∃ r, q.Consume = .ok r) ↔ 0 < q.count) ∧
    (q.Consume = .error .blocked ↔ q.count = 0) ∧
    (∀ q1, q.Produce element = .ok q1 → q1.contents = q.contents ++ [element]) ∧
    (∀ q1 x, q.Consume = .ok (q1, x) → q.contents = x :: q1.contents) ∧
    q.contents.length = q.count.toNat ∧
    (∀ d, __Device.__create_vk_device queueFamilies description = .ok d →
      d._FrameAsyncProcesses = ProducerConsumerQueue.new (description.frame_threads * 2)) := by
  have hinv := ProducerConsumerQueue.Reachable.invariant C hC q hreach
  obtain ⟨_, h0, hle, hps, hss, _⟩ := id hinv
  obtain ⟨hpok, hpblock⟩ := ProducerConsumerQueue.Produce_spec C hC q hinv element
  obtain ⟨hcok, hcblock⟩ := ProducerConsumerQueue.Consume_spec C q hinv
  refine ⟨h0, hle, hps, hss, ⟨?_, ?_⟩, ⟨?_, hpblock⟩, ⟨?_, ?_⟩, ⟨?_, hcblock⟩, ?_, ?_,
    ProducerConsumerQueue.contents_length q,
    fun d hd => (__Device.created_queues queueFamilies description d hd).1⟩
  · rintro ⟨q1, hq1⟩
    by_contra hnot
    rw [hpblock (by omega)] at hq1
    cases hq1
  · intro hlt
    obtain ⟨q1, hq1, _⟩ := hpok hlt
    exact ⟨q1, hq1⟩
  · intro hb
    by_contra hne
    obtain ⟨q1, hq1, _⟩ := hpok (by omega)
    rw [hb] at hq1
    cases hq1
  · rintro ⟨r, hr⟩
    by_contra hnot
    rw [hcblock (by omega)] at hr
    cases hr
  · intro hpos
    obtain ⟨q1, x, hq1, _⟩ := hcok hpos
    exact ⟨(q1, x), hq1⟩
  · intro hb
    by_contra hne
    obtain ⟨q1, x, hq1, _⟩ := hcok (by omega)
    rw [hb] at hq1
    cases hq1
  · intro q1 hq1
    by_cases hlt : q.count < C
    · obtain ⟨q1', hq1', _, hcont, _⟩ := hpok hlt
      rw [hq1] at hq1'
      cases hq1'
      exact hcont
    · rw [hpblock (by omega)] at hq1
      cases hq1
  · intro q1 x hq1
    by_cases hpos : 0 < q.count
    · obtain ⟨q1', x', hq1', _, hcont, _⟩ := hcok hpos
      rw [hq1] at hq1'
      cases hq1'
      exact hcont
    · rw [hcblock (by omega)] at hq1
      cases hq1

/-- C15.  The bounded queue is first in, first out.  For every sequence of `Produce` and
`Consume` calls on a reachable queue of capacity `C`: the run on the ring buffer returns
exactly when the list queue of the specification can make the same calls on the contents,
with the same consumed elements and final contents (a run that does not return is
blocked); and the consumed elements followed by the elements still held are the elements
held at the start followed by the produced ones, in production order. -/
theorem C15_bounded_queue_is_fifo {T : Type} [Inhabited T] (C : Nat) (hC : C < 2 ^ 31)
    (q : ProducerConsumerQueue T) (hreach : ProducerConsumerQueue.Reachable C q)
    (ops : List (QueueOp T)) :
    (∀ q1 outs, q.run ops = .ok (q1, outs) →
      ListQueue.run C q.contents ops = some (q1.contents, outs) ∧
      outs ++ q1.contents = q.contents ++ QueueOp.produced ops) ∧
    (∀ f, q.run ops = .error f → f = .blocked ∧ ListQueue.run C q.contents ops = none) ∧
    (∀ q1 outs, (ProducerConsumerQueue.new C : ProducerConsumerQueue T).run ops = .ok (q1, outs) →
      outs ++ q1.contents = QueueOp.produced ops) := by
  have hinv := ProducerConsumerQueue.Reachable.invariant C hC q hreach
  obtain ⟨hok, herr⟩ := ProducerConsumerQueue.run_simulates C hC ops q hinv
  refine ⟨fun q1 outs h => ⟨hok q1 outs h, ListQueue.run_fifo C ops _ _ _ (hok q1 outs h)⟩,
    herr, fun q1 outs h => ?_⟩
  have hsim := (ProducerConsumerQueue.run_simulates C hC ops _
    (ProducerConsumerQueue.new_invariant C)).1 q1 outs h
  have hfifo := ListQueue.run_fifo C ops _ _ _ hsim
  simpa [ProducerConsumerQueue.contents, ProducerConsumerQueue.new] using hfifo

/-! ## The frame index -/

/-- A `foldlM` in `Except` keeps a property of the state that every step keeps. -/
theorem foldlM_except_invariant {α β ε : Type} (P : β → Prop) (f : β → α → Except ε β)
    (hf : ∀ b a b1, P b → f b a = .ok b1 → P b1) :
    ∀ (l : List α) (b b1 : β), P b → l.foldlM f b = .ok b1 → P b1 := by
  intro l
  induction l with
  | nil =>
    intro b b1 hb h
    simp only [List.foldlM, pure, Except.pure, Except.ok.injEq] at h
    exact h ▸ hb
  | cons a l ih =>
    intro b b1 hb h
    simp only [List.foldlM, bind, Except.bind] at h
    cases hfa : f b a with
    | error e => simp [hfa] at h
    | ok b2 =>
      simp only [hfa] at h
      exact ih b2 b1 (hf b a b2 hb hfa) h

/-- The flush loop of `EndFrame` leaves the frame counters alone. -/
theorem Presenter.EndFrame_flush_frames (d d1 : __Device)
    (h : Presenter.EndFrame.flush d = .ok d1) :
    d1._FrameIndex = d._FrameIndex ∧ d1._NumberOfFrames = d._NumberOfFrames := by
  refine foldlM_except_invariant
    (fun x : __Device => x._FrameIndex = d._FrameIndex ∧ x._NumberOfFrames = d._NumberOfFrames)
    _ ?_ _ d d1 ⟨rfl, rfl⟩ h
  intro b a b1 hb hstep
  simp only at hstep
  split at hstep
  · cases hstep
  · split at hstep
    · cases hstep
    · simp only [Except.ok.injEq] at hstep
      subst hstep
      exact hb

/-- What a returning `EndFrame` does to the frame counters. -/
theorem Presenter.EndFrame_frames (p p1 : PresenterState) (h : Presenter.EndFrame p = .ok p1) :
    p1.__state._FrameIndex = (p.__state._FrameIndex + 1) % p.__state._NumberOfFrames ∧
    p1.__state._NumberOfFrames = p.__state._NumberOfFrames ∧
    0 < p.__state._NumberOfFrames := by
  unfold Presenter.EndFrame at h
  cases hf : Presenter.EndFrame.flush p.__state with
  | error f => simp [hf] at h
  | ok d =>
    obtain ⟨hi, hn⟩ := Presenter.EndFrame_flush_frames _ _ hf
    simp only [hf] at h
    split at h
    · cases h
    · split at h
      · cases h
      · split at h
        · cases h
        · rename_i hne
          simp only [Except.ok.injEq] at h
          subst h
          simp only [hi, hn]
          exact ⟨trivial, trivial, by omega⟩

/-- The frame counters after `n` calls of `EndFrame` in a row, from an index in range. -/
theorem Presenter.EndFrames_frames (n : Nat) :
    ∀ (p p1 : PresenterState), p.__state._FrameIndex < p.__state._NumberOfFrames →
      Presenter.EndFrames n p = .ok p1 →
      p1.__state._FrameIndex = (p.__state._FrameIndex + n) % p.__state._NumberOfFrames ∧
      p1.__state._NumberOfFrames = p.__state._NumberOfFrames := by
  induction n with
  | zero =>
    intro p p1 hlt h
    simp only [Presenter.EndFrames, Except.ok.injEq] at h
    subst h
    exact ⟨by rw [Nat.add_zero, Nat.mod_eq_of_lt hlt], rfl⟩
  | succ n ih =>
    intro p p1 hlt h
    simp only [Presenter.EndFrames] at h
    cases he : Presenter.EndFrame p with
    | error f => simp [he] at h
    | ok p2 =>
      simp only [he] at h
      obtain ⟨hi2, hn2, hpos⟩ := Presenter.EndFrame_frames p p2 he
      have hlt2 : p2.__state._FrameIndex < p2.__state._NumberOfFrames := by
        rw [hi2, hn2]; exact Nat.mod_lt _ hpos
      obtain ⟨hi1, hn1⟩ := ih p2 p1 hlt2 h
      rw [hi1, hn1, hi2, hn2]
      refine ⟨?_, rfl⟩
      rw [Nat.mod_add_mod]
      congr 1
      omega

theorem index_after_frames (i n F : Nat) (hi : i < F) :
    (n = F → (i + n) % F = i) ∧ (0 < n → n < F → (i + n) % F ≠ i) := by
  constructor
  · intro h
    subst h
    rw [Nat.add_mod_right, Nat.mod_eq_of_lt hi]
  · intro hpos hlt
    by_cases hsum : i + n < F
    · rw [Nat.mod_eq_of_lt hsum]; omega
    · rw [Nat.mod_eq_sub_mod (by omega), Nat.mod_eq_of_lt (by omega)]
      omega

/-- C18.  A created device has `max(1, frames)` frames (so `1` for a request of `0`) and
starts at frame index `0`.  A returning `EndFrame` sets the frame index to
`(index + 1) mod frames`, keeps the number of frames and leaves the index below it.  After
`n` calls of `EndFrame` in a row from an index in range the index is
`(index + n) mod frames`, which is in range, is the starting index for `n = frames` and is
not the starting index for `0 < n < frames`. -/
theorem C18_frame_index_cycles (queueFamilies : List VkQueueFamilyProperties)
    (description : PresenterDescription) (d : __Device) (p p1 pn : PresenterState) (n : Nat) :
    (__Device.__create_vk_device queueFamilies description = .ok d →
      d._NumberOfFrames = (max 1 description.frames).toNat ∧ 1 ≤ d._NumberOfFrames ∧
      (description.frames = 0 → d._NumberOfFrames = 1) ∧ d._FrameIndex = 0) ∧
    (Presenter.EndFrame p = .ok p1 →
      p1.__state._FrameIndex = (p.__state._FrameIndex + 1) % p.__state._NumberOfFrames ∧
      p1.__state._NumberOfFrames = p.__state._NumberOfFrames ∧
      p1.__state._FrameIndex < p1.__state._NumberOfFrames) ∧
    (p.__state._FrameIndex < p.__state._NumberOfFrames →
      Presenter.EndFrames n p = .ok pn →
      pn.__state._FrameIndex = (p.__state._FrameIndex + n) % p.__state._NumberOfFrames ∧
      pn.__state._NumberOfFrames = p.__state._NumberOfFrames ∧
      pn.__state._FrameIndex < pn.__state._NumberOfFrames ∧
      (n = p.__state._NumberOfFrames → pn.__state._FrameIndex = p.__state._FrameIndex) ∧
      (0 < n → n < p.__state._NumberOfFrames →
        pn.__state._FrameIndex ≠ p.__state._FrameIndex)) := by
  refine ⟨fun h => ?_, fun h => ?_, fun hlt h => ?_⟩
  · obtain ⟨_, _, hframes, hindex, _⟩ := __Device.created_queues queueFamilies description d h
    refine ⟨hframes, ?_, ?_, hindex⟩
    · rw [hframes]; omega
    · intro h0
      rw [hframes, h0]
      rfl
  · obtain ⟨hi, hn, hpos⟩ := Presenter.EndFrame_frames p p1 h
    exact ⟨hi, hn, by rw [hi, hn]; exact Nat.mod_lt _ hpos⟩
  · obtain ⟨hi, hn⟩ := Presenter.EndFrames_frames n p pn hlt h
    obtain ⟨hfull, hpart⟩ := index_after_frames p.__state._FrameIndex n
      p.__state._NumberOfFrames hlt
    refine ⟨hi, hn, ?_, ?_, ?_⟩
    · rw [hi, hn]; exact Nat.mod_lt _ (by omega)
    · intro h; rw [hi]; exact hfull h
    · intro h1 h2; rw [hi]; exact hpart h1 h2

/-- C18 at a presenter with three frames: three calls of `EndFrame` return and bring the
frame index back to where it started; one call does not. -/
theorem C18_frame_index_witness :
    framesPresenter.__state._NumberOfFrames = 3 ∧
    (framesPresenterAfter 3).__state._FrameIndex = framesPresenter.__state._FrameIndex ∧
    (framesPresenterAfter 1).__state._FrameIndex ≠ framesPresenter.__state._FrameIndex :=
  ⟨rfl,
   (C18_frame_index_cycles sampleFamilies { frames := 3, frame_threads := 0, async_threads := 0 }
      framesPresenter.__state framesPresenter framesPresenter (framesPresenterAfter 3) 3).2.2
      (by decide) (by rfl) |>.2.2.2.1 rfl,
   (C18_frame_index_cycles sampleFamilies { frames := 3, frame_threads := 0, async_threads := 0 }
      framesPresenter.__state framesPresenter framesPresenter (framesPresenterAfter 1) 1).2.2
      (by decide) (by rfl) |>.2.2.2.2 (by decide) (by decide)⟩

/-- C14 at a fresh queue of capacity four, the capacity of the frame-async queue of a
device with two frame threads. -/
theorem C14_bounded_queue_witness :
    ((∃ q1, (ProducerConsumerQueue.new 4 : ProducerConsumerQueue (Option Nat)).Produce (some 7)
        = .ok q1) ↔
      (ProducerConsumerQueue.new 4 : ProducerConsumerQueue (Option Nat)).count < 4) ∧
    (∀ d, __Device.__create_vk_device sampleFamilies
        { frames := 1, frame_threads := 2, async_threads := 0 } = .ok d →
      d._FrameAsyncProcesses = ProducerConsumerQueue.new (2 * 2)) :=
  ⟨(C14_bounded_queue_counts 4 (by decide) (ProducerConsumerQueue.new 4)
      ProducerConsumerQueue.Reachable.new (some 7) sampleFamilies
      { frames := 1, frame_threads := 2, async_threads := 0 }).2.2.2.2.1,
   (C14_bounded_queue_counts 4 (by decide)
      (ProducerConsumerQueue.new 4 : ProducerConsumerQueue (Option Nat))
      ProducerConsumerQueue.Reachable.new (some 7) sampleFamilies
      { frames := 1, frame_threads := 2, async_threads := 0 }).2.2.2.2.2.2.2.2.2.2.2⟩

/-- A run on a queue of capacity four: four elements go in, the fifth `Produce` is blocked;
after one `Consume`, which returns the first element, a fifth element goes in. -/
theorem bounded_queue_sample_runs :
    ((ProducerConsumerQueue.new 4 : ProducerConsumerQueue (Option Nat)).run
        [.produce (some 1), .produce (some 2), .produce (some 3), .produce (some 4),
          .produce (some 5)]) = .error .blocked ∧
    ((ProducerConsumerQueue.new 4 : ProducerConsumerQueue (Option Nat)).run
        [.produce (some 1), .produce (some 2), .produce (some 3), .produce (some 4),
          .consume, .produce (some 5), .consume, .consume]).map (fun r => r.2)
      = .ok [some 1, some 2, some 3] := by
  decide

/-- C15 at a fresh queue of capacity four and a run of three calls. -/
theorem C15_bounded_queue_witness :
    ProducerConsumerQueue.Reachable 4
      (ProducerConsumerQueue.new 4 : ProducerConsumerQueue (Option Nat)) ∧
    ((∀ q1 outs, (ProducerConsumerQueue.new 4 : ProducerConsumerQueue (Option Nat)).run
          [.produce (some 1), .produce (some 2), .consume] = .ok (q1, outs) →
        ListQueue.run 4
            (ProducerConsumerQueue.new 4 : ProducerConsumerQueue (Option Nat)).contents
            [.produce (some 1), .produce (some 2), .consume] = some (q1.contents, outs) ∧
        outs ++ q1.contents =
          (ProducerConsumerQueue.new 4 : ProducerConsumerQueue (Option Nat)).contents ++
            QueueOp.produced [.produce (some 1), .produce (some 2), .consume]) ∧
      (∀ f, (ProducerConsumerQueue.new 4 : ProducerConsumerQueue (Option Nat)).run
          [.produce (some 1), .produce (some 2), .consume] = .error f →
        f = .blocked ∧
        ListQueue.run 4
            (ProducerConsumerQueue.new 4 : ProducerConsumerQueue (Option Nat)).contents
            [.produce (some 1), .produce (some 2), .consume] = none) ∧
      (∀ q1 outs, (ProducerConsumerQueue.new 4 : ProducerConsumerQueue (Option Nat)).run
          [.produce (some 1), .produce (some 2), .consume] = .ok (q1, outs) →
        outs ++ q1.contents =
          QueueOp.produced [.produce (some 1), .produce (some 2), .consume])) :=
  ⟨ProducerConsumerQueue.Reachable.new,
    C15_bounded_queue_is_fifo 4 (by decide) (ProducerConsumerQueue.new 4)
      ProducerConsumerQueue.Reachable.new
      [.produce (some 1), .produce (some 2), .consume]⟩


/-! ## Retiring submitted command lists: the recording invariant -/

theorem forLoop_invariant {σ : Type} (P : σ → Prop) (step : σ → Nat → Except Fault σ)
    (hstep : ∀ s i s1, P s → step s i = .ok s1 → P s1) :
    ∀ (n : Nat) (s s1 : σ), P s → forLoop step n s = .ok s1 → P s1 := by
  intro n
  induction n with
  | zero =>
    intro s s1 hs h
    simp only [forLoop, Except.ok.injEq] at h
    exact h ▸ hs
  | succ n ih =>
    intro s s1 hs h
    simp only [forLoop] at h
    cases hn : forLoop step n s with
    | error f => rw [hn] at h; cases h
    | ok s2 =>
      rw [hn] at h
      exact hstep s2 n s1 (ih s s2 hs hn) h

namespace __CommandListManager

theorem Reset_state (c c1 : __CommandListManager) (h : c.__Reset = .ok c1) :
    c1.State = CommandListState.Initial := by
  unfold __Reset at h
  split at h
  · cases h
  · cases h; rfl

theorem Close_state (c c1 : __CommandListManager) (h : c.__Close = .ok c1) :
    c1.State = CommandListState.Executable := by
  unfold __Close at h
  split at h
  · cases h
  · cases h; rfl

theorem recording_of_set (l : List __CommandListManager) (b : Nat) (c1 : __CommandListManager)
    (h1 : c1.State ≠ CommandListState.Recording) (j : Nat) (c : __CommandListManager)
    (hj : (l.set b c1)[j]? = some c) (hc : c.State = CommandListState.Recording) :
    l[j]? = some c := by
  by_cases hb : b = j
  · subst hb
    rw [List.getElem?_set] at hj
    simp only [if_true] at hj
    split at hj
    · cases hj; exact absurd hc h1
    · cases hj
  · rwa [List.getElem?_set_ne hb] at hj

end __CommandListManager

namespace __CommandQueueManager

theorem new_onlyRecording (supported : EngineType) (queue : Nat) (flag : Bool) :
    (__CommandQueueManager.new supported queue flag).OnlyRecordingIsRecording := by
  intro j c hj _
  simp [__CommandQueueManager.new] at hj

theorem FetchNew_onlyRecording (m m1 : __CommandQueueManager) (r : Nat)
    (hnone : m.recordingBuffer = none)
    (hI : m.OnlyRecordingIsRecording) (h : m.FetchNew = .ok (m1, r)) :
    ∀ (j : Nat) (c : __CommandListManager), m1.cmdLists[j]? = some c →
      c.State = CommandListState.Recording → j = r := by
  intro j c hj hc
  unfold FetchNew at h
  by_cases hlen : m.reusableCmdBuffers.length > 1
  · simp only [hlen, if_true] at h
    split at h
    · cases h
    · rename_i c0 hc0
      split at h
      · cases h
      · rename_i c1 hc1
        simp only [Except.ok.injEq, Prod.mk.injEq] at h
        obtain ⟨hm, hr⟩ := h
        subst hm
        by_contra hne
        have hne2 : ¬ m.reusableCmdBuffers.getLastD 0 = j := fun e => hne (by rw [← hr, e])
        simp only [List.getElem?_set_ne hne2] at hj
        have := hI j c hj hc
        rw [hnone] at this
        cases this
  · simp only [hlen, if_false] at h
    split at h
    · cases h
    · rename_i c0 hc0
      split at h
      · cases h
      · rename_i c1 hc1
        simp only [Except.ok.injEq, Prod.mk.injEq] at h
        obtain ⟨hm, hr⟩ := h
        subst hm
        by_contra hne
        have hne2 : ¬ m.cmdLists.length = j := fun e => hne (by rw [← hr, e])
        simp only [List.getElem?_set_ne hne2] at hj
        by_cases hlt : j < m.cmdLists.length
        · rw [List.getElem?_append_left hlt] at hj
          have := hI j c hj hc
          rw [hnone] at this
          cases this
        · have hgt : m.cmdLists.length < j := by omega
          rw [List.getElem?_eq_none (by simp; omega)] at hj
          cases hj

theorem Peek_onlyRecording (m m1 : __CommandQueueManager) (r : Nat)
    (hI : m.OnlyRecordingIsRecording) (h : m.Peek = .ok (m1, r)) :
    m1.OnlyRecordingIsRecording := by
  unfold Peek at h
  cases hrec : m.recordingBuffer with
  | some r0 =>
    simp only [hrec, Except.ok.injEq, Prod.mk.injEq] at h
    rw [← h.1]; exact hI
  | none =>
    simp only [hrec] at h
    cases hf : m.FetchNew with
    | error f => rw [hf] at h; cases h
    | ok mr =>
      obtain ⟨m2, r2⟩ := mr
      rw [hf] at h
      simp only [Except.ok.injEq, Prod.mk.injEq] at h
      obtain ⟨hm, hr⟩ := h
      subst hm
      intro j c hj hc
      have := FetchNew_onlyRecording m m2 r2 hrec hI hf j c hj hc
      simp [this]

theorem Populating_onlyRecording (m m1 : __CommandQueueManager) (task r : Nat)
    (hI : m.OnlyRecordingIsRecording) (h : m.Populating task = .ok (m1, r)) :
    m1.OnlyRecordingIsRecording :=
  Peek_onlyRecording { m with populated := m.populated ++ [task] } m1 r hI h

theorem SubmitCurrent_onlyRecording (m m1 : __CommandQueueManager) (tasks tasks1 : TaskHeap)
    (pieces pieces1 : PieceHeap) (wait_for : List Nat) (task : Nat)
    (hI : m.OnlyRecordingIsRecording)
    (h : m.SubmitCurrent tasks pieces wait_for = .ok (m1, tasks1, pieces1, task)) :
    m1.OnlyRecordingIsRecording := by
  unfold SubmitCurrent at h
  cases hrec : m.recordingBuffer with
  | none =>
    simp only [hrec, Except.ok.injEq, Prod.mk.injEq] at h
    rw [← h.1]; exact hI
  | some r0 =>
    simp only [hrec] at h
    split at h
    · cases h
    · rename_i c0 hc0
      split at h
      · cases h
      · rename_i c1 hc1
        split at h
        · cases h
        · split at h
          · cases h
          · simp only [Except.ok.injEq, Prod.mk.injEq] at h
            obtain ⟨hm, -⟩ := h
            subst hm
            intro j c hj hc
            have hcl : c1.State ≠ CommandListState.Recording := by
              rw [__CommandListManager.Close_state c0 c1 hc1]; decide
            have hj2 := __CommandListManager.recording_of_set m.cmdLists r0 c1 hcl j c hj hc
            have hr := hI j c hj2 hc
            rw [hrec] at hr
            cases hr
            rw [List.getElem?_set] at hj
            simp only [if_true] at hj
            split at hj
            · cases hj; exact absurd hc hcl
            · cases hj

theorem record_onlyRecording (m m1 : __CommandQueueManager) (cmdList : Nat)
    (commands : List Nat)
    (hI : m.OnlyRecordingIsRecording) (h : m.record cmdList commands = .ok m1) :
    m1.OnlyRecordingIsRecording := by
  unfold record at h
  split at h
  · cases h
  · rename_i c0 hc0
    simp only [Except.ok.injEq] at h
    subst h
    intro j c hj hc
    by_cases hb : cmdList = j
    · subst hb
      exact hI cmdList c0 hc0 (by
        rw [List.getElem?_set] at hj
        simp only [if_true] at hj
        split at hj
        · cases hj; exact hc
        · cases hj)
    · rw [List.getElem?_set_ne hb] at hj
      exact hI j c hj hc

end __CommandQueueManager


namespace __CommandQueueManager

theorem Retired.same (m : __CommandQueueManager) : Retired m m [] :=
  ⟨rfl, rfl, by simp, by simp, fun _ _ h _ => h⟩

theorem Retired.keeps_recording (m m1 : __CommandQueueManager) (retired : List Nat)
    (hR : Retired m m1 retired) (hI : m.OnlyRecordingIsRecording) :
    m1.OnlyRecordingIsRecording := by
  intro j c hj hc
  rw [hR.1]
  exact hI j c (hR.2.2.2.2 j c hj hc) hc

theorem Retired.snoc (m m1 m2 : __CommandQueueManager) (retired : List Nat) (b : Nat)
    (c c1 : __CommandListManager) (hR : Retired m m1 retired)
    (hb : m1.cmdLists[b]? = some c) (hc1 : c1.State = CommandListState.Initial)
    (h2rec : m2.recordingBuffer = m1.recordingBuffer)
    (h2pop : m2.populated = m1.populated)
    (h2re : m2.reusableCmdBuffers = m1.reusableCmdBuffers ++ [b])
    (h2cl : m2.cmdLists = m1.cmdLists.set b c1) :
    Retired m m2 (retired ++ [b]) := by
  obtain ⟨hrec, hpop, hre, hinit, hrecording⟩ := hR
  have hblt : b < m1.cmdLists.length := by
    rcases List.getElem?_eq_some_iff.mp hb with ⟨hlt, -⟩
    exact hlt
  refine ⟨h2rec.trans hrec, h2pop.trans hpop, ?_, ?_, ?_⟩
  · rw [h2re, hre, List.append_assoc]
  · intro b1 hb1
    by_cases hbb : b1 = b
    · subst hbb
      refine ⟨c1, ?_, hc1⟩
      rw [h2cl, List.getElem?_set]
      simp [hblt]
    · have hmem : b1 ∈ retired := by
        rcases List.mem_append.mp hb1 with h | h
        · exact h
        · exact absurd (List.mem_singleton.mp h) hbb
      obtain ⟨c2, hc2, hs2⟩ := hinit b1 hmem
      refine ⟨c2, ?_, hs2⟩
      rw [h2cl, List.getElem?_set_ne (fun e => hbb e.symm)]
      exact hc2
  · intro j c2 hj hc2
    rw [h2cl] at hj
    have hne : c1.State ≠ CommandListState.Recording := by rw [hc1]; decide
    exact hrecording j c2
      (__CommandListManager.recording_of_set m1.cmdLists b c1 hne j c2 hj hc2) hc2

theorem WaitForPendings.retire_spec (acc acc1 : __CommandQueueManager × TaskHeap) (i : Nat)
    (h : WaitForPendings.retire acc i = .ok acc1) :
    ∃ (b : Nat) (c c1 : __CommandListManager),
      acc.1.submittedBuffers[i]? = some b ∧ acc.1.cmdLists[b]? = some c ∧
      c1.State = CommandListState.Initial ∧
      acc1.1.recordingBuffer = acc.1.recordingBuffer ∧
      acc1.1.populated = acc.1.populated ∧
      acc1.1.reusableCmdBuffers = acc.1.reusableCmdBuffers ++ [b] ∧
      acc1.1.cmdLists = acc.1.cmdLists.set b c1 ∧
      acc1.1.submittedBuffers = acc.1.submittedBuffers ∧
      acc1.1.submittedTasks = acc.1.submittedTasks := by
  unfold WaitForPendings.retire at h
  split at h
  · rename_i t b ht hb
    split at h
    · rename_i task c htask hc
      split at h
      · cases h
      · rename_i c1 hc1
        simp only [Except.ok.injEq] at h
        subst h
        exact ⟨b, c, c1, hb, hc, __CommandListManager.Reset_state c c1 hc1,
          rfl, rfl, rfl, rfl, rfl, rfl⟩
    · cases h
  · cases h

theorem WaitForPendings.retire_loop (m : __CommandQueueManager) (tasks : TaskHeap) :
    ∀ (n : Nat) (acc : __CommandQueueManager × TaskHeap),
      forLoop WaitForPendings.retire n (m, tasks) = .ok acc →
      Retired m acc.1 (m.submittedBuffers.take n) ∧
      acc.1.submittedBuffers = m.submittedBuffers ∧
      acc.1.submittedTasks = m.submittedTasks := by
  intro n
  induction n with
  | zero =>
    intro acc h
    simp only [forLoop, Except.ok.injEq] at h
    subst h
    exact ⟨by simpa using Retired.same m, rfl, rfl⟩
  | succ n ih =>
    intro acc h
    simp only [forLoop] at h
    cases hn : forLoop WaitForPendings.retire n (m, tasks) with
    | error f => rw [hn] at h; cases h
    | ok acc0 =>
      rw [hn] at h
      obtain ⟨hR, hbuf, htasks⟩ := ih acc0 hn
      obtain ⟨b, c, c1, hb, hc, hc1, h1, h2, h3, h4, h5, h6⟩ :=
        WaitForPendings.retire_spec acc0 acc n h
      rw [hbuf] at hb
      refine ⟨?_, h5.trans hbuf, h6.trans htasks⟩
      rw [List.take_succ, hb]
      exact Retired.snoc m acc0.1 acc.1 _ b c c1 hR hc hc1 h1 h2 h3 h4

/-- What a returning `WaitForPendings` leaves: the submitted lists are empty, every handle
that was submitted is in state `Initial` and was appended to the reusable list. -/
theorem WaitForPendings_spec (m m1 : __CommandQueueManager) (tasks tasks1 : TaskHeap)
    (h : m.WaitForPendings tasks = .ok (m1, tasks1)) :
    m1.submittedBuffers = [] ∧ m1.submittedTasks = [] ∧
    Retired m m1 m.submittedBuffers := by
  unfold WaitForPendings at h
  split at h
  · cases h
  · rename_i sems total hcollect
    split at h
    · cases h
    · rename_i m2 tasks2 hloop
      simp only [Except.ok.injEq, Prod.mk.injEq] at h
      obtain ⟨hm, -⟩ := h
      subst hm
      obtain ⟨hR, -, -⟩ :=
        WaitForPendings.retire_loop { m with waitingSemaphores := sems } tasks _ _ hloop
      simp only [List.take_length] at hR
      exact ⟨rfl, rfl, hR⟩

theorem WaitForPendings_onlyRecording (m m1 : __CommandQueueManager) (tasks tasks1 : TaskHeap)
    (hI : m.OnlyRecordingIsRecording) (h : m.WaitForPendings tasks = .ok (m1, tasks1)) :
    m1.OnlyRecordingIsRecording :=
  Retired.keeps_recording m m1 _ (WaitForPendings_spec m m1 tasks tasks1 h).2.2 hI

end __CommandQueueManager


theorem swapRemove_getElem? {α : Type} (l : List α) (i j : Nat) (last x : α)
    (hlast : l.getLast? = some last) (hj : l[j]? = some x) (hij : i < j) :
    ∃ j1, i ≤ j1 ∧ ((l.set i last).dropLast)[j1]? = some x := by
  have hjlt : j < l.length := (List.getElem?_eq_some_iff.mp hj).1
  rw [List.dropLast_eq_take, List.length_set]
  by_cases hjl : j = l.length - 1
  · refine ⟨i, le_refl _, ?_⟩
    rw [List.getLast?_eq_getElem?, ← hjl, hj] at hlast
    cases hlast
    rw [List.getElem?_take_of_lt (by omega), List.getElem?_set]
    simp [show i < l.length by omega]
  · refine ⟨j, le_of_lt hij, ?_⟩
    rw [List.getElem?_take_of_lt (by omega), List.getElem?_set_ne (by omega)]
    exact hj

theorem swapRemove_mem {α : Type} (l : List α) (i : Nat) (last x : α)
    (hlast : l.getLast? = some last) (hx : x ∈ (l.set i last).dropLast) : x ∈ l := by
  rcases List.mem_or_eq_of_mem_set (List.mem_of_mem_dropLast hx) with h | h
  · exact h
  · rw [h]; exact List.mem_of_getLast?_eq_some hlast

namespace __CommandQueueManager

theorem Clean.loop_retired (tasks : TaskHeap) (taskOwners : Nat → Nat)
    (m0 : __CommandQueueManager) :
    ∀ (fuel : Nat) (retired : List Nat) (m : __CommandQueueManager) (i : Nat)
      (m1 : __CommandQueueManager),
      Retired m0 m retired → Clean.loop tasks taskOwners fuel m i = .ok m1 →
      ∃ retired1, Retired m0 m1 retired1 := by
  intro fuel
  induction fuel with
  | zero =>
    intro retired m i m1 hR h
    simp only [Clean.loop] at h
    split at h
    · cases h
    · cases h; exact ⟨retired, hR⟩
  | succ fuel ih =>
    intro retired m i m1 hR h
    simp only [Clean.loop] at h
    split at h
    · split at h
      · cases h
      · split at h
        · cases h
        · split at h
          · split at h
            · rename_i b lastBuffer lastTask hb hlb hlt
              split at h
              · cases h
              · rename_i c hc
                split at h
                · cases h
                · rename_i c1 hc1
                  exact ih (retired ++ [b]) _ i m1
                    (Retired.snoc m0 m
                      { m with
                          cmdLists := m.cmdLists.set b c1
                          reusableCmdBuffers := m.reusableCmdBuffers ++ [b]
                          submittedBuffers := (m.submittedBuffers.set i lastBuffer).dropLast
                          submittedTasks := (m.submittedTasks.set i lastTask).dropLast }
                      retired b c c1 hR hc
                      (__CommandListManager.Reset_state c c1 hc1) rfl rfl rfl rfl) h
            · cases h
          · split at h
            · cases h
            · exact ih retired m (i + 1) m1 hR h
    · cases h; exact ⟨retired, hR⟩

theorem Clean_retired (m m1 : __CommandQueueManager) (tasks : TaskHeap) (pieces : PieceHeap)
    (taskOwners pieceOwners : Nat → Nat)
    (h : m.Clean tasks pieces taskOwners pieceOwners = .ok m1) :
    ∃ retired, Retired m m1 retired := by
  unfold Clean at h
  split at h
  · cases h
  · rename_i m2 hloop
    split at h
    · cases h
    · simp only [Except.ok.injEq] at h
      subst h
      exact Clean.loop_retired tasks taskOwners m _ [] m 0 m2 (Retired.same m) hloop

theorem Clean_onlyRecording (m m1 : __CommandQueueManager) (tasks : TaskHeap)
    (pieces : PieceHeap) (taskOwners pieceOwners : Nat → Nat)
    (hI : m.OnlyRecordingIsRecording)
    (h : m.Clean tasks pieces taskOwners pieceOwners = .ok m1) :
    m1.OnlyRecordingIsRecording := by
  obtain ⟨retired, hR⟩ := Clean_retired m m1 tasks pieces taskOwners pieceOwners h
  exact Retired.keeps_recording m m1 retired hR hI

theorem Reachable.recording_invariant (m : __CommandQueueManager) (h : Reachable m) :
    m.OnlyRecordingIsRecording := by
  induction h with
  | new supported queue flag => exact new_onlyRecording supported queue flag
  | peek m m1 r _ h ih => exact Peek_onlyRecording m m1 r ih h
  | populating m m1 task r _ h ih => exact Populating_onlyRecording m m1 task r ih h
  | submitCurrent m m1 tasks tasks1 pieces pieces1 wait_for task _ h ih =>
    exact SubmitCurrent_onlyRecording m m1 tasks tasks1 pieces pieces1 wait_for task ih h
  | waitForPendings m m1 tasks tasks1 _ h ih =>
    exact WaitForPendings_onlyRecording m m1 tasks tasks1 ih h
  | clean m m1 tasks pieces taskOwners pieceOwners _ h ih =>
    exact Clean_onlyRecording m m1 tasks pieces taskOwners pieceOwners ih h
  | record m m1 cmdList commands _ h ih => exact record_onlyRecording m m1 cmdList commands ih h

end __CommandQueueManager

/-- Claim C11: in every state of a command queue manager reachable from its construction
through `Peek`, `Populating`, `SubmitCurrent`, `WaitForPendings` and `Clean` (and the
recording of a process), every command list the manager owns (the recording one, the
reusable ones, the submitted ones) that is in state `Recording` is the one `recordingBuffer`
points to; so any two owned command lists in state `Recording` are the same one. -/
theorem C11_at_most_one_recording_handle (m : __CommandQueueManager)
    (hreach : __CommandQueueManager.Reachable m) :
    (∀ (j : Nat) (c : __CommandListManager),
      (m.recordingBuffer = some j ∨ j ∈ m.reusableCmdBuffers ∨ j ∈ m.submittedBuffers) →
      m.cmdLists[j]? = some c → c.State = CommandListState.Recording →
      m.recordingBuffer = some j) ∧
    (∀ (j k : Nat) (c d : __CommandListManager),
      (m.recordingBuffer = some j ∨ j ∈ m.reusableCmdBuffers ∨ j ∈ m.submittedBuffers) →
      (m.recordingBuffer = some k ∨ k ∈ m.reusableCmdBuffers ∨ k ∈ m.submittedBuffers) →
      m.cmdLists[j]? = some c → c.State = CommandListState.Recording →
      m.cmdLists[k]? = some d → d.State = CommandListState.Recording → j = k) := by
  have hI := __CommandQueueManager.Reachable.recording_invariant m hreach
  refine ⟨fun j c _ hj hc => hI j c hj hc, ?_⟩
  intro j k c d _ _ hj hc hk hd
  have h1 := hI j c hj hc
  have h2 := hI k d hk hd
  rw [h1] at h2
  exact Option.some.inj h2


theorem C11_at_most_one_recording_witness :
    __CommandQueueManager.Reachable recordingManager ∧
    recordingManager.recordingBuffer = some 0 ∧
    ((∀ (j : Nat) (c : __CommandListManager),
      (recordingManager.recordingBuffer = some j ∨ j ∈ recordingManager.reusableCmdBuffers ∨
        j ∈ recordingManager.submittedBuffers) →
      recordingManager.cmdLists[j]? = some c → c.State = CommandListState.Recording →
      recordingManager.recordingBuffer = some j) ∧
    (∀ (j k : Nat) (c d : __CommandListManager),
      (recordingManager.recordingBuffer = some j ∨ j ∈ recordingManager.reusableCmdBuffers ∨
        j ∈ recordingManager.submittedBuffers) →
      (recordingManager.recordingBuffer = some k ∨ k ∈ recordingManager.reusableCmdBuffers ∨
        k ∈ recordingManager.submittedBuffers) →
      recordingManager.cmdLists[j]? = some c → c.State = CommandListState.Recording →
      recordingManager.cmdLists[k]? = some d → d.State = CommandListState.Recording →
      j = k)) :=
  ⟨__CommandQueueManager.Reachable.peek _ recordingManager 0
      (__CommandQueueManager.Reachable.new GraphicsManager.SupportedEngines 0 false) (by rfl),
    by rfl,
    C11_at_most_one_recording_handle recordingManager
      (__CommandQueueManager.Reachable.peek _ recordingManager 0
        (__CommandQueueManager.Reachable.new GraphicsManager.SupportedEngines 0 false)
        (by rfl))⟩

namespace __EngineManager

theorem CleanAsyncManagers_frames (e e1 : __EngineManager) (tasks : TaskHeap)
    (pieces : PieceHeap) (taskOwners pieceOwners : Nat → Nat)
    (h : e.CleanAsyncManagers tasks pieces taskOwners pieceOwners = .ok e1) :
    ∀ idx, idx < (e.frame_async_threads + 1) * e.frames → e1.Managers[idx]? = e.Managers[idx]? := by
  unfold CleanAsyncManagers at h
  have key := forLoop_invariant
    (fun (x : __EngineManager) =>
      x.frame_async_threads = e.frame_async_threads ∧ x.frames = e.frames ∧
      ∀ idx, idx < (e.frame_async_threads + 1) * e.frames → x.Managers[idx]? = e.Managers[idx]?)
    _ ?_ e.async_threads e e1 ⟨rfl, rfl, fun _ _ => rfl⟩ h
  · exact key.2.2
  · intro s i s1 hs hstep
    simp only at hstep
    split at hstep
    · cases hstep
    · split at hstep
      · cases hstep
      · simp only [Except.ok.injEq] at hstep
        subst hstep
        refine ⟨hs.1, hs.2.1, ?_⟩
        intro idx hidx
        simp only
        rw [List.getElem?_set_ne (by rw [hs.1, hs.2.1]; omega)]
        exact hs.2.2 idx hidx

theorem WaitForCompletition.pendings_loop (e : __EngineManager) (tasks : TaskHeap)
    (frame : Nat) :
    ∀ (n : Nat) (acc : __EngineManager × TaskHeap),
      forLoop (WaitForCompletition.pendings frame) n (e, tasks) = .ok acc →
      acc.1.frame_async_threads = e.frame_async_threads ∧ acc.1.frames = e.frames ∧
      (∀ idx, (idx < (e.frame_async_threads + 1) * frame ∨
          (e.frame_async_threads + 1) * frame + n ≤ idx) →
        acc.1.Managers[idx]? = e.Managers[idx]?) ∧
      (∀ w, w < n → ∃ m m1,
        e.Managers[(e.frame_async_threads + 1) * frame + w]? = some m ∧
        acc.1.Managers[(e.frame_async_threads + 1) * frame + w]? = some m1 ∧
        m1.submittedBuffers = [] ∧ m1.submittedTasks = [] ∧
        __CommandQueueManager.Retired m m1 m.submittedBuffers) := by
  intro n
  induction n with
  | zero =>
    intro acc h
    simp only [forLoop, Except.ok.injEq] at h
    subst h
    exact ⟨rfl, rfl, fun _ _ => rfl, fun w hw => absurd hw (Nat.not_lt_zero w)⟩
  | succ n ih =>
    intro acc h
    simp only [forLoop] at h
    cases hn : forLoop (WaitForCompletition.pendings frame) n (e, tasks) with
    | error f => rw [hn] at h; cases h
    | ok acc0 =>
      rw [hn] at h
      obtain ⟨hfat, hframes, hother, hdone⟩ := ih acc0 hn
      unfold WaitForCompletition.pendings at h
      simp only at h
      split at h
      · cases h
      · rename_i m hm
        split at h
        · cases h
        · rename_i m1 tasks1 hwait
          simp only [Except.ok.injEq] at h
          subst h
          rw [hfat] at hm
          have hm0 : e.Managers[(e.frame_async_threads + 1) * frame + n]? = some m := by
            rw [← hother _ (Or.inr (le_refl _))]; exact hm
          have hlt : (e.frame_async_threads + 1) * frame + n < acc0.1.Managers.length :=
            (List.getElem?_eq_some_iff.mp hm).1
          refine ⟨hfat, hframes, ?_, ?_⟩
          · intro idx hidx
            simp only [hfat]
            rw [List.getElem?_set_ne (by omega)]
            exact hother idx (by omega)
          · intro w hw
            simp only [hfat]
            by_cases hwn : w = n
            · subst hwn
              obtain ⟨h1, h2, h3⟩ :=
                __CommandQueueManager.WaitForPendings_spec m m1 acc0.2 tasks1 hwait
              refine ⟨m, m1, hm0, ?_, h1, h2, h3⟩
              rw [List.getElem?_set]
              simp [hlt]
            · obtain ⟨m2, m3, h1, h2, h3⟩ := hdone w (by omega)
              refine ⟨m2, m3, h1, ?_, h3⟩
              rw [List.getElem?_set_ne (by omega)]
              exact h2

theorem WaitForCompletition_spec (e e1 : __EngineManager) (tasks tasks1 : TaskHeap)
    (pieces : PieceHeap) (frame : Nat) (taskOwners pieceOwners : Nat → Nat)
    (hframe : frame < e.frames)
    (h : e.WaitForCompletition tasks pieces frame taskOwners pieceOwners = .ok (e1, tasks1)) :
    ∀ w, w ≤ e.frame_async_threads → ∃ m m1,
      e.Managers[(e.frame_async_threads + 1) * frame + w]? = some m ∧
      e1.Managers[(e.frame_async_threads + 1) * frame + w]? = some m1 ∧
      m1.submittedBuffers = [] ∧ m1.submittedTasks = [] ∧
      __CommandQueueManager.Retired m m1 m.submittedBuffers := by
  unfold WaitForCompletition at h
  split at h
  · cases h
  · rename_i e2 tasks2 hloop
    split at h
    · cases h
    · rename_i e3 hclean
      simp only [Except.ok.injEq, Prod.mk.injEq] at h
      obtain ⟨he, -⟩ := h
      subst he
      obtain ⟨hfat, hframes, -, hdone⟩ :=
        WaitForCompletition.pendings_loop e tasks frame _ _ hloop
      intro w hw
      obtain ⟨m, m1, h1, h2, h3⟩ := hdone w (by omega)
      refine ⟨m, m1, h1, ?_, h3⟩
      have hkeep := CleanAsyncManagers_frames e2 e3 tasks2 pieces taskOwners pieceOwners hclean
        ((e.frame_async_threads + 1) * frame + w) (by
          simp only at hfat hframes
          rw [hfat, hframes]
          calc (e.frame_async_threads + 1) * frame + w
              < (e.frame_async_threads + 1) * frame + (e.frame_async_threads + 1) := by omega
            _ = (e.frame_async_threads + 1) * (frame + 1) := by ring
            _ ≤ (e.frame_async_threads + 1) * e.frames :=
              Nat.mul_le_mul_left _ (by omega))
      rw [hkeep]
      exact h2

end __EngineManager


/-- Claim C12: for every frame `frame` of an engine manager, when
`WaitForCompletition(frame)` returns, each slot `frame * (frame_async_threads + 1) + w` with
`w` in `0 .. frame_async_threads` has empty `submittedBuffers` and `submittedTasks`, its
reusable list is the former one followed by the handles that were in `submittedBuffers`, and
each of those handles is in state `Initial`. -/
theorem C12_WaitForCompletition_retires_frame_slots (e e1 : __EngineManager)
    (tasks tasks1 : TaskHeap) (pieces : PieceHeap) (frame : Nat)
    (taskOwners pieceOwners : Nat → Nat) (hframe : frame < e.frames)
    (h : e.WaitForCompletition tasks pieces frame taskOwners pieceOwners = .ok (e1, tasks1)) :
    ∀ w, w ≤ e.frame_async_threads → ∃ m m1,
      e.Managers[frame * (e.frame_async_threads + 1) + w]? = some m ∧
      e1.Managers[frame * (e.frame_async_threads + 1) + w]? = some m1 ∧
      m1.submittedBuffers = [] ∧ m1.submittedTasks = [] ∧
      m1.reusableCmdBuffers = m.reusableCmdBuffers ++ m.submittedBuffers ∧
      ∀ b ∈ m.submittedBuffers,
        ∃ c, m1.cmdLists[b]? = some c ∧ c.State = CommandListState.Initial := by
  intro w hw
  obtain ⟨m, m1, h1, h2, h3, h4, hR⟩ :=
    __EngineManager.WaitForCompletition_spec e e1 tasks tasks1 pieces frame taskOwners
      pieceOwners hframe h w hw
  rw [Nat.mul_comm] at h1 h2
  exact ⟨m, m1, h1, h2, h3, h4, hR.2.2.1, hR.2.2.2.1⟩

theorem C12_WaitForCompletition_witness :
    submittedEngine.Managers.map (fun m => m.submittedBuffers) = [[0]] ∧
    ∀ w, w ≤ submittedEngine.frame_async_threads → ∃ m m1,
      submittedEngine.Managers[0 * (submittedEngine.frame_async_threads + 1) + w]? = some m ∧
      completedEngine.1.Managers[0 * (submittedEngine.frame_async_threads + 1) + w]? =
        some m1 ∧
      m1.submittedBuffers = [] ∧ m1.submittedTasks = [] ∧
      m1.reusableCmdBuffers = m.reusableCmdBuffers ++ m.submittedBuffers ∧
      ∀ b ∈ m.submittedBuffers,
        ∃ c, m1.cmdLists[b]? = some c ∧ c.State = CommandListState.Initial :=
  ⟨by decide,
    C12_WaitForCompletition_retires_frame_slots submittedEngine completedEngine.1
      submittedPresenter.__state.tasks completedEngine.2 submittedPresenter.__state.pieces 0
      (fun _ => 2) (fun _ => 2) (by decide) (by rfl)⟩


namespace __CommandQueueManager

/-- The `while` loop of `Clean` on a well-formed manager, with enough passes allowed: either
it returns, and then no unfinished task at or after the entry index had a use count of
one, or it throws the abandoned-task error, and then some unfinished submitted task had a
use count of one. -/
theorem Clean.loop_outcome (tasks : TaskHeap) (taskOwners : Nat → Nat) :
    ∀ (fuel : Nat) (m : __CommandQueueManager) (i : Nat),
      Clean.WellFormed m tasks → m.submittedTasks.length - i ≤ fuel →
      (∃ m1, Clean.loop tasks taskOwners fuel m i = .ok m1 ∧
        m1.populated = m.populated ∧
        ∀ (j t : Nat) (task : __GPUTask), i ≤ j → m.submittedTasks[j]? = some t →
          tasks[t]? = some task → task.finished = false → taskOwners t ≠ 1) ∨
      (Clean.loop tasks taskOwners fuel m i = .error (.thrown
        "Async process submitted but abandoned! Please, keep the GPUTask alive and synchronize manually.") ∧
        ∃ (t : Nat) (task : __GPUTask), t ∈ m.submittedTasks ∧ tasks[t]? = some task ∧
          task.finished = false ∧ taskOwners t = 1) := by
  intro fuel
  induction fuel with
  | zero =>
    intro m i _ hfuel
    left
    have hi : ¬ i < m.submittedTasks.length := by omega
    refine ⟨m, by simp [Clean.loop, hi], rfl, ?_⟩
    intro j t task hij hj
    have := (List.getElem?_eq_some_iff.mp hj).1
    omega
  | succ fuel ih =>
    intro m i hWF hfuel
    obtain ⟨hlen, hbuf, halive⟩ := hWF
    by_cases hi : i < m.submittedTasks.length
    · have hti : m.submittedTasks[i]? = some m.submittedTasks[i] := List.getElem?_eq_getElem hi
      obtain ⟨task, htask⟩ := halive _ (List.getElem_mem hi)
      by_cases hfin : task.finished = true
      · have hib : i < m.submittedBuffers.length := by omega
        have hbi : m.submittedBuffers[i]? = some m.submittedBuffers[i] :=
          List.getElem?_eq_getElem hib
        obtain ⟨c, hc, hstate⟩ := hbuf _ (List.getElem_mem hib)
        have hlb : m.submittedBuffers.getLast? =
            some (m.submittedBuffers[m.submittedBuffers.length - 1]) := by
          rw [List.getLast?_eq_getElem?, List.getElem?_eq_getElem (by omega)]
        have hlt : m.submittedTasks.getLast? =
            some (m.submittedTasks[m.submittedTasks.length - 1]) := by
          rw [List.getLast?_eq_getElem?, List.getElem?_eq_getElem (by omega)]
        have hreset : c.__Reset =
            .ok { c with State := CommandListState.Initial, recorded := [] } := by
          simp [__CommandListManager.__Reset, hstate]
        have hWF1 : Clean.WellFormed
            { m with
                cmdLists := m.cmdLists.set m.submittedBuffers[i]
                  { c with State := CommandListState.Initial, recorded := [] }
                reusableCmdBuffers := m.reusableCmdBuffers ++ [m.submittedBuffers[i]]
                submittedBuffers := (m.submittedBuffers.set i
                  (m.submittedBuffers[m.submittedBuffers.length - 1])).dropLast
                submittedTasks := (m.submittedTasks.set i
                  (m.submittedTasks[m.submittedTasks.length - 1])).dropLast } tasks := by
          refine ⟨by simp [hlen], ?_, ?_⟩
          · intro b hb
            have hbm : b ∈ m.submittedBuffers := swapRemove_mem _ _ _ _ hlb hb
            obtain ⟨c2, hc2, hs2⟩ := hbuf b hbm
            by_cases hbb : m.submittedBuffers[i] = b
            · refine ⟨{ c with State := CommandListState.Initial, recorded := [] }, ?_,
                by simp⟩
              simp only [List.getElem?_set, hbb, if_true]
              rw [if_pos (List.getElem?_eq_some_iff.mp hc2).1]
            · refine ⟨c2, ?_, hs2⟩
              simp only [List.getElem?_set_ne hbb]
              exact hc2
          · intro t ht
            exact halive t (swapRemove_mem _ _ _ _ hlt ht)
        have hstep := ih _ i hWF1 (by simp only [List.length_dropLast, List.length_set]; omega)
        simp only [Clean.loop, hi, if_true, hti, htask, hfin, hbi, hlb, hlt, hc, hreset]
        rcases hstep with ⟨m1, h1, hpop, hno⟩ | herr
        · left
          refine ⟨m1, h1, hpop, ?_⟩
          intro j t task1 hij hj htask1 hunf
          have hne : i ≠ j := by
            intro e
            subst e
            rw [hti] at hj
            cases hj
            rw [htask] at htask1
            cases htask1
            rw [hfin] at hunf
            cases hunf
          obtain ⟨j1, hij1, hj1⟩ := swapRemove_getElem? m.submittedTasks i j _ t hlt hj
            (by omega)
          exact hno j1 t task1 hij1 hj1 htask1 hunf
        · right
          obtain ⟨herr1, t, task1, ht, htask1, hunf, hown⟩ := herr
          exact ⟨herr1, t, task1, swapRemove_mem _ _ _ _ hlt ht, htask1, hunf, hown⟩
      · have hfin2 : task.finished = false := by
          cases h : task.finished
          · rfl
          · exact absurd h hfin
        by_cases ho : taskOwners m.submittedTasks[i] = 1
        · right
          exact ⟨by simp [Clean.loop, hi, hti, htask, hfin2, ho],
            m.submittedTasks[i], task, List.getElem_mem hi, htask, hfin2, ho⟩
        · simp only [Clean.loop, hi, if_true, hti, htask, hfin2, ho, if_false]
          rcases ih m (i + 1) ⟨hlen, hbuf, halive⟩ (by omega) with ⟨m1, h1, hpop, hno⟩ | herr
          · left
            refine ⟨m1, by simpa using h1, hpop, ?_⟩
            intro j t task1 hij hj htask1 hunf
            by_cases hji : j = i
            · subst hji
              rw [hti] at hj
              cases hj
              exact ho
            · exact hno j t task1 (by omega) hj htask1 hunf
          · right
            exact ⟨by simpa using herr.1, herr.2⟩
    · left
      refine ⟨m, by simp [Clean.loop, hi], rfl, ?_⟩
      intro j t task hij hj
      have := (List.getElem?_eq_some_iff.mp hj).1
      omega

end __CommandQueueManager


namespace __CommandQueueManager

theorem Clean.populated_abandoned (pieces : PieceHeap) (pieceOwners : Nat → Nat) :
    ∀ (l : List Nat), (∀ w ∈ l, ∃ piece, pieces[w]? = some piece) →
      (∃ (w : Nat) (piece : WorkPiece), w ∈ l ∧ pieces[w]? = some piece ∧
        piece.Dispatch = DispatchMode.ASYNC ∧ pieceOwners w ≤ 1) →
      Clean.populated pieces pieceOwners l =
        .error (.thrown "Abandoned async populating thread!") := by
  intro l
  induction l with
  | nil =>
    intro _ h
    obtain ⟨w, _, hw, _⟩ := h
    cases hw
  | cons v rest ih =>
    intro hvalid h
    obtain ⟨piece, hpiece⟩ := hvalid v (List.mem_cons_self v rest)
    simp only [Clean.populated, hpiece]
    by_cases hv : piece.Dispatch = DispatchMode.ASYNC ∧ pieceOwners v + 1 ≤ 2
    · rw [if_pos hv]
    · rw [if_neg hv]
      apply ih (fun w hw => hvalid w (List.mem_cons_of_mem v hw))
      obtain ⟨w, piece1, hw, hp1, hd, ho⟩ := h
      rcases List.mem_cons.mp hw with e | hmem
      · subst e
        rw [hpiece] at hp1
        cases hp1
        exact absurd ⟨hd, by omega⟩ hv
      · exact ⟨w, piece1, hmem, hp1, hd, ho⟩

theorem Clean_abandoned_task (m : __CommandQueueManager) (tasks : TaskHeap)
    (pieces : PieceHeap) (taskOwners pieceOwners : Nat → Nat)
    (hWF : Clean.WellFormed m tasks)
    (h : ∃ (t : Nat) (task : __GPUTask), t ∈ m.submittedTasks ∧ tasks[t]? = some task ∧
      task.finished = false ∧ taskOwners t = 1) :
    m.Clean tasks pieces taskOwners pieceOwners = .error (.thrown
      "Async process submitted but abandoned! Please, keep the GPUTask alive and synchronize manually.") := by
  unfold Clean
  rcases Clean.loop_outcome tasks taskOwners m.submittedTasks.length m 0 hWF (by omega) with
    ⟨m1, _, _, hno⟩ | ⟨herr, _⟩
  · obtain ⟨t, task, ht, htask, hunf, hown⟩ := h
    obtain ⟨j, hj⟩ := List.mem_iff_getElem?.mp ht
    exact absurd hown (hno j t task (Nat.zero_le j) hj htask hunf)
  · rw [herr]

theorem Clean_abandoned_piece (m : __CommandQueueManager) (tasks : TaskHeap)
    (pieces : PieceHeap) (taskOwners pieceOwners : Nat → Nat)
    (hWF : Clean.WellFormed m tasks)
    (hvalid : ∀ w ∈ m.populated, ∃ piece, pieces[w]? = some piece)
    (h : ∃ (w : Nat) (piece : WorkPiece), w ∈ m.populated ∧ pieces[w]? = some piece ∧
      piece.Dispatch = DispatchMode.ASYNC ∧ pieceOwners w ≤ 1) :
    (m.Clean tasks pieces taskOwners pieceOwners = .error (.thrown
        "Async process submitted but abandoned! Please, keep the GPUTask alive and synchronize manually.") ∧
      ∃ (t : Nat) (task : __GPUTask), t ∈ m.submittedTasks ∧ tasks[t]? = some task ∧
        task.finished = false ∧ taskOwners t = 1) ∨
    m.Clean tasks pieces taskOwners pieceOwners =
      .error (.thrown "Abandoned async populating thread!") := by
  unfold Clean
  rcases Clean.loop_outcome tasks taskOwners m.submittedTasks.length m 0 hWF (by omega) with
    ⟨m1, hloop, hpop, _⟩ | ⟨herr, habandoned⟩
  · right
    rw [hloop]
    simp only
    rw [hpop, Clean.populated_abandoned pieces pieceOwners m.populated hvalid h]
  · left
    rw [herr]
    exact ⟨rfl, habandoned⟩

end __CommandQueueManager


/-- Claim C13: on a manager whose submitted vectors are well formed, `Clean` throws the
abandoned-task error whenever some submitted GPU task that is not finished has a use count
of one (only the manager owns it); and when a populated `ASYNC` work piece has no owner
besides the manager, `Clean` throws as well: the abandoned-task error if there is such a
task, the abandoned-populating error otherwise. -/
theorem C13_Clean_throws_on_abandoned (m : __CommandQueueManager) (tasks : TaskHeap)
    (pieces : PieceHeap) (taskOwners pieceOwners : Nat → Nat)
    (hWF : __CommandQueueManager.Clean.WellFormed m tasks) :
    ((∃ (t : Nat) (task : __GPUTask), t ∈ m.submittedTasks ∧ tasks[t]? = some task ∧
        task.finished = false ∧ taskOwners t = 1) →
      m.Clean tasks pieces taskOwners pieceOwners = .error (.thrown
        "Async process submitted but abandoned! Please, keep the GPUTask alive and synchronize manually.")) ∧
    ((∀ w ∈ m.populated, ∃ piece, pieces[w]? = some piece) →
      (∃ (w : Nat) (piece : WorkPiece), w ∈ m.populated ∧ pieces[w]? = some piece ∧
        piece.Dispatch = DispatchMode.ASYNC ∧ pieceOwners w ≤ 1) →
      ∃ what, m.Clean tasks pieces taskOwners pieceOwners = .error (.thrown what) ∧
        (what =
            "Async process submitted but abandoned! Please, keep the GPUTask alive and synchronize manually." ∨
          what = "Abandoned async populating thread!") ∧
        ((¬ ∃ (t : Nat) (task : __GPUTask), t ∈ m.submittedTasks ∧ tasks[t]? = some task ∧
            task.finished = false ∧ taskOwners t = 1) →
          what = "Abandoned async populating thread!")) := by
  refine ⟨__CommandQueueManager.Clean_abandoned_task m tasks pieces taskOwners pieceOwners hWF,
    ?_⟩
  intro hvalid h
  rcases __CommandQueueManager.Clean_abandoned_piece m tasks pieces taskOwners pieceOwners hWF
    hvalid h with ⟨herr, habandoned⟩ | herr
  · exact ⟨_, herr, Or.inl rfl, fun hno => absurd habandoned hno⟩
  · exact ⟨_, herr, Or.inr rfl, fun _ => rfl⟩

theorem flushedDevice_manager_wellFormed :
    __CommandQueueManager.Clean.WellFormed flushedDevice.manager flushedDevice.device.tasks := by
  have hb : flushedDevice.manager.submittedBuffers = [0] := by decide
  have ht : flushedDevice.manager.submittedTasks = [0] := by decide
  refine ⟨by rw [hb, ht], ?_, ?_⟩
  · intro b hmem
    rw [hb] at hmem
    cases List.mem_singleton.mp hmem
    exact ⟨flushedDevice.manager.cmdLists.getD 0
      { vkCmdList := 0, SupportedEngines := 0, State := CommandListState.OnGPU, recorded := [] },
      by rfl, by decide⟩
  · intro t hmem
    rw [ht] at hmem
    cases List.mem_singleton.mp hmem
    exact ⟨{ GPUFinished := some 0, children := [], finished := false }, by decide⟩

theorem populatedDevice_manager_wellFormed :
    __CommandQueueManager.Clean.WellFormed populatedDevice.manager
      populatedDevice.device.tasks := by
  have hb : populatedDevice.manager.submittedBuffers = [] := by decide
  have ht : populatedDevice.manager.submittedTasks = [] := by decide
  refine ⟨by rw [hb, ht], ?_, ?_⟩
  · intro b hmem
    rw [hb] at hmem
    cases hmem
  · intro t hmem
    rw [ht] at hmem
    cases hmem

theorem C13_Clean_throws_witness :
    flushedDevice.manager.submittedTasks = [0] ∧
    flushedDevice.device.taskOwners [] 0 = 1 ∧
    flushedDevice.device.taskOwners [1] 0 = 2 ∧
    flushedDevice.manager.Clean flushedDevice.device.tasks flushedDevice.device.pieces
      (flushedDevice.device.taskOwners []) (fun _ => 1) = .error (.thrown
        "Async process submitted but abandoned! Please, keep the GPUTask alive and synchronize manually.") ∧
    populatedDevice.manager.populated = [0] ∧
    ∃ what, populatedDevice.manager.Clean populatedDevice.device.tasks
        populatedDevice.device.pieces (populatedDevice.device.taskOwners []) (fun _ => 1) =
          .error (.thrown what) ∧
      (what =
          "Async process submitted but abandoned! Please, keep the GPUTask alive and synchronize manually." ∨
        what = "Abandoned async populating thread!") ∧
      ((¬ ∃ (t : Nat) (task : __GPUTask), t ∈ populatedDevice.manager.submittedTasks ∧
          populatedDevice.device.tasks[t]? = some task ∧ task.finished = false ∧
          populatedDevice.device.taskOwners [] t = 1) →
        what = "Abandoned async populating thread!") :=
  ⟨by decide, by decide, by decide,
    (C13_Clean_throws_on_abandoned flushedDevice.manager flushedDevice.device.tasks
      flushedDevice.device.pieces (flushedDevice.device.taskOwners []) (fun _ => 1)
      flushedDevice_manager_wellFormed).1
      ⟨0, { GPUFinished := some 0, children := [], finished := false }, by decide, by decide,
        rfl, by decide⟩,
    by decide,
    (C13_Clean_throws_on_abandoned populatedDevice.manager populatedDevice.device.tasks
      populatedDevice.device.pieces (populatedDevice.device.taskOwners []) (fun _ => 1)
      populatedDevice_manager_wellFormed).2
      (by
        intro w hw
        have hp : populatedDevice.manager.populated = [0] := by decide
        rw [hp] at hw
        cases List.mem_singleton.mp hw
        exact ⟨populatedDevice.device.pieces.getD 0 WorkPiece.new, by rfl⟩)
      ⟨0, populatedDevice.device.pieces.getD 0 WorkPiece.new, by decide, by rfl, by decide,
        by decide⟩⟩


/-! ## Flushing marked slots -/

theorem foldlM_range_eq_forLoop {σ : Type} (step : σ → Nat → Except Fault σ) (s : σ) :
    ∀ (n : Nat), (List.range n).foldlM step s = forLoop step n s := by
  intro n
  induction n with
  | zero => rfl
  | succ n ih =>
    rw [List.range_succ, List.foldlM_append, ih]
    simp only [forLoop]
    cases forLoop step n s with
    | error f => rfl
    | ok s1 =>
      simp only [List.foldlM, bind, Except.bind, pure, Except.pure]
      cases step s1 n <;> rfl

theorem foldlM_except_append {σ α : Type} (step : σ → α → Except Fault σ) (s s1 s2 : σ)
    (l1 l2 : List α) (h1 : l1.foldlM step s = .ok s1) (h2 : l2.foldlM step s1 = .ok s2) :
    (l1 ++ l2).foldlM step s = .ok s2 := by
  rw [List.foldlM_append, h1]
  exact h2

namespace __EngineManager

theorem FlushMarked_eq (e : __EngineManager) (tasks : TaskHeap) (pieces : PieceHeap)
    (waitingGPU children : List Nat) :
    e.FlushMarked tasks pieces waitingGPU children =
      forLoop (FlushMarked.step waitingGPU) e.Managers.length (e, tasks, pieces, children) := by
  unfold FlushMarked
  rw [foldlM_range_eq_forLoop]
  rfl

end __EngineManager


namespace __EngineManager

theorem FlushMarked.loop_submits (waitingGPU : List Nat) (e0 : __EngineManager)
    (tasks : TaskHeap) (pieces : PieceHeap) (children : List Nat) :
    ∀ (n : Nat) (acc : __EngineManager × TaskHeap × PieceHeap × List Nat),
      forLoop (FlushMarked.step waitingGPU) n (e0, tasks, pieces, children) = .ok acc →
      ((List.range n).filter (fun i => e0.marked[i]? = some true)).foldlM
          (submitAt waitingGPU) (e0.unmarked, tasks, pieces, children) =
        .ok (acc.1.unmarked, acc.2) ∧
      acc.1.Managers.length = e0.Managers.length ∧
      acc.1.marked.length = e0.marked.length ∧
      (∀ k, acc.1.marked[k]? =
        if k < n then (e0.marked[k]?).map (fun _ => false) else e0.marked[k]?) := by
  intro n
  induction n with
  | zero =>
    intro acc h
    simp only [forLoop, Except.ok.injEq] at h
    subst h
    refine ⟨rfl, rfl, rfl, ?_⟩
    intro k
    simp
  | succ n ih =>
    intro acc h
    simp only [forLoop] at h
    cases hn : forLoop (FlushMarked.step waitingGPU) n (e0, tasks, pieces, children) with
    | error f => rw [hn] at h; cases h
    | ok acc0 =>
      rw [hn] at h
      obtain ⟨hspec, hlenM, hlen, hmarks⟩ := ih acc0 hn
      have hmark0 : acc0.1.marked[n]? = e0.marked[n]? := by
        rw [hmarks n, if_neg (Nat.lt_irrefl n)]
      simp only [FlushMarked.step] at h
      rw [List.range_succ, List.filter_append]
      cases hm : acc0.1.marked[n]? with
      | none => rw [hm] at h; cases h
      | some b =>
        rw [hm] at h hmark0
        cases b with
        | false =>
          simp only [Except.ok.injEq] at h
          subst h
          refine ⟨?_, hlenM, hlen, ?_⟩
          · have hf : List.filter (fun i => decide (e0.marked[i]? = some true)) [n] = [] := by
              simp [List.filter, ← hmark0]
            rw [hf, List.append_nil]
            exact hspec
          · intro k
            by_cases hk : k < n
            · rw [hmarks k, if_pos hk, if_pos (by omega)]
            · by_cases hkn : k = n
              · subst hkn
                rw [hm, if_pos (Nat.lt_succ_self k), ← hmark0]
                rfl
              · rw [hmarks k, if_neg hk, if_neg (by omega)]
        | true =>
          simp only at h
          split at h
          · cases h
          · rename_i m hmgr
            split at h
            · cases h
            · rename_i m1 tasks1 pieces1 task hsub
              simp only [Except.ok.injEq] at h
              subst h
              refine ⟨?_, ?_, ?_, ?_⟩
              · have hf : List.filter (fun i => decide (e0.marked[i]? = some true)) [n] =
                    [n] := by
                  simp [List.filter, ← hmark0]
                rw [hf]
                refine foldlM_except_append _ _ _ _ _ _ hspec ?_
                simp only [List.foldlM, submitAt, unmarked, hmgr, hsub, List.length_set, bind,
                  Except.bind, pure, Except.pure]
              · simp only [List.length_set]
                exact hlenM
              · simp only [List.length_set]
                exact hlen
              · intro k
                simp only
                by_cases hkn : k = n
                · subst hkn
                  rw [List.getElem?_set, if_pos rfl, if_pos (Nat.lt_succ_self k), ← hmark0]
                  have hlt : k < acc0.1.marked.length :=
                    (List.getElem?_eq_some_iff.mp hm).1
                  rw [if_pos hlt]
                  rfl
                · rw [List.getElem?_set_ne (fun e => hkn e.symm), hmarks k]
                  by_cases hk : k < n
                  · rw [if_pos hk, if_pos (by omega)]
                  · rw [if_neg hk, if_neg (by omega)]

end __EngineManager


theorem set_of_getElem? {α : Type} (l : List α) (i : Nat) (a : α) (h : l[i]? = some a) :
    l.set i a = l := by
  apply List.ext_getElem?
  intro k
  by_cases hk : i = k
  · subst hk
    rw [List.getElem?_set, if_pos rfl, if_pos (List.getElem?_eq_some_iff.mp h).1, h]
  · rw [List.getElem?_set_ne hk]

namespace __EngineManager

theorem engine_unmarked (e : __EngineManager)
    (h : e.marked = List.replicate e.marked.length false) : e.unmarked = e := by
  unfold unmarked
  cases e
  simp only at h
  simp only [__EngineManager.mk.injEq, true_and, and_true]
  exact h.symm

theorem FlushMarked_spec (e e1 : __EngineManager) (tasks tasks1 : TaskHeap)
    (pieces pieces1 : PieceHeap) (waitingGPU children children1 : List Nat)
    (hshape : e.marked.length = e.Managers.length)
    (h : e.FlushMarked tasks pieces waitingGPU children = .ok (e1, tasks1, pieces1, children1)) :
    e.markedSlots.foldlM (submitAt waitingGPU) (e.unmarked, tasks, pieces, children) =
        .ok (e1, tasks1, pieces1, children1) ∧
      e1.marked = List.replicate e1.marked.length false ∧
      e1.marked.length = e1.Managers.length := by
  rw [FlushMarked_eq] at h
  obtain ⟨hspec, hlenM, hlen, hmarks⟩ :=
    FlushMarked.loop_submits waitingGPU e tasks pieces children _ _ h
  simp only at hlenM hlen hmarks hspec
  have hclear : e1.marked = List.replicate e1.marked.length false := by
    apply List.ext_getElem?
    intro k
    rw [hmarks k, List.getElem?_replicate, hlen]
    by_cases hk : k < e.marked.length
    · rw [if_pos (by omega), if_pos hk, List.getElem?_eq_getElem hk]
      rfl
    · rw [if_neg (by omega), if_neg hk]
      exact List.getElem?_eq_none (by omega)
  rw [engine_unmarked e1 hclear] at hspec
  exact ⟨hspec, hclear, by omega⟩

end __EngineManager

namespace __Device

theorem submitAt_lift (waitingGPU : List Nat) (i : Nat) :
    ∀ (idxs : List Nat) (d : __Device) (e : __EngineManager) (children : List Nat)
      (e1 : __EngineManager) (tasks1 : TaskHeap) (pieces1 : PieceHeap) (children1 : List Nat),
      d._Engines[i]? = some e →
      idxs.foldlM (__EngineManager.submitAt waitingGPU) (e, d.tasks, d.pieces, children) =
        .ok (e1, tasks1, pieces1, children1) →
      (idxs.map (fun mi => (i, mi))).foldlM (submitSlot waitingGPU) (d, children) =
        .ok ({ d with _Engines := d._Engines.set i e1, tasks := tasks1, pieces := pieces1 },
             children1) := by
  intro idxs
  induction idxs with
  | nil =>
    intro d e children e1 tasks1 pieces1 children1 he h
    simp only [List.foldlM, pure, Except.pure, Except.ok.injEq, Prod.mk.injEq] at h
    obtain ⟨h1, h2, h3, h4⟩ := h
    subst h1 h2 h3 h4
    simp only [List.map_nil, List.foldlM, pure, Except.pure]
    rw [set_of_getElem? d._Engines i e he]
  | cons mi rest ih =>
    intro d e children e1 tasks1 pieces1 children1 he h
    rw [List.foldlM_cons] at h
    cases hstep : __EngineManager.submitAt waitingGPU (e, d.tasks, d.pieces, children) mi with
    | error f => rw [hstep] at h; cases h
    | ok acc1 =>
      rw [hstep] at h
      simp only [bind, Except.bind] at h
      unfold __EngineManager.submitAt at hstep
      simp only at hstep
      split at hstep
      · cases hstep
      · rename_i m hm
        split at hstep
        · cases hstep
        · rename_i m1 tasks2 pieces2 task hsub
          simp only [Except.ok.injEq] at hstep
          subst hstep
          have hi : i < d._Engines.length := (List.getElem?_eq_some_iff.mp he).1
          have key := ih
            { d with
                _Engines := d._Engines.set i { e with Managers := e.Managers.set mi m1 }
                tasks := tasks2
                pieces := pieces2 }
            { e with Managers := e.Managers.set mi m1 } (children ++ [task])
            e1 tasks1 pieces1 children1
            (by simp [List.getElem?_set, hi]) h
          rw [List.map_cons, List.foldlM_cons]
          simp only [submitSlot, he, hm, hsub, bind, Except.bind]
          rw [key]
          simp only [List.set_set]

end __Device


namespace __Device

theorem Flush.submit_eq (d : __Device) (waitingGPU : List Nat) :
    Flush.submit d waitingGPU =
      forLoop (Flush.submit.step waitingGPU) d._Engines.length (d, []) := by
  unfold Flush.submit
  rw [foldlM_range_eq_forLoop]
  rfl

theorem markedSlotsBelow_succ (d : __Device) (n : Nat) (e : __EngineManager)
    (he : d._Engines[n]? = some e) :
    d.markedSlotsBelow (n + 1) =
      d.markedSlotsBelow n ++ e.markedSlots.map (fun mi => (n, mi)) := by
  unfold markedSlotsBelow
  rw [List.range_succ, List.flatMap_append, List.flatMap_singleton, he]

theorem Flush.submit.loop_slots (waitingGPU : List Nat) (d1 : __Device)
    (hshape : ∀ e ∈ d1._Engines, e.marked.length = e.Managers.length) :
    ∀ (n : Nat) (acc : __Device × List Nat), n ≤ d1._Engines.length →
      forLoop (Flush.submit.step waitingGPU) n (d1, []) = .ok acc →
      (d1.markedSlotsBelow n).foldlM (submitSlot waitingGPU) (d1.unmarked, []) =
        .ok (acc.1.unmarked, acc.2) ∧
      acc.1._Engines.length = d1._Engines.length ∧
      (∀ k, n ≤ k → acc.1._Engines[k]? = d1._Engines[k]?) ∧
      (∀ k e, k < n → acc.1._Engines[k]? = some e →
        e.marked = List.replicate e.marked.length false ∧
        e.marked.length = e.Managers.length) := by
  intro n
  induction n with
  | zero =>
    intro acc _ h
    simp only [forLoop, Except.ok.injEq] at h
    subst h
    exact ⟨rfl, rfl, fun _ _ => rfl, fun k e hk => absurd hk (Nat.not_lt_zero k)⟩
  | succ n ih =>
    intro acc hn1 h
    simp only [forLoop] at h
    cases hn : forLoop (Flush.submit.step waitingGPU) n (d1, []) with
    | error f => rw [hn] at h; cases h
    | ok acc0 =>
      rw [hn] at h
      obtain ⟨hspec, hlen, hrest, hdone⟩ := ih acc0 (by omega) hn
      have hlt : n < d1._Engines.length := by omega
      have he1 : d1._Engines[n]? = some d1._Engines[n] := List.getElem?_eq_getElem hlt
      have he0 : acc0.1._Engines[n]? = some d1._Engines[n] := by
        rw [hrest n (le_refl n)]; exact he1
      simp only [Flush.submit.step, he0] at h
      split at h
      · cases h
      · rename_i e1 tasks1 pieces1 children1 hFM
        simp only [Except.ok.injEq] at h
        subst h
        obtain ⟨hfold, hclear, hshapeE⟩ :=
          __EngineManager.FlushMarked_spec d1._Engines[n] e1 acc0.1.tasks tasks1
            acc0.1.pieces pieces1 waitingGPU acc0.2 children1
            (hshape _ (List.getElem_mem hlt)) hFM
        have hlift := submitAt_lift waitingGPU n d1._Engines[n].markedSlots acc0.1.unmarked
          d1._Engines[n].unmarked acc0.2 e1 tasks1 pieces1 children1
          (by simp only [unmarked, List.getElem?_map, he0, Option.map_some']) hfold
        refine ⟨?_, ?_, ?_, ?_⟩
        · rw [markedSlotsBelow_succ d1 n _ he1]
          refine foldlM_except_append _ _ _ _ _ _ hspec ?_
          rw [hlift]
          simp only [unmarked, List.map_set]
          rw [show __EngineManager.unmarked e1 = e1 from
            __EngineManager.engine_unmarked e1 hclear]
        · simp only [List.length_set]
          exact hlen
        · intro k hk
          simp only
          rw [List.getElem?_set_ne (by omega)]
          exact hrest k (by omega)
        · intro k e hk hke
          simp only at hke
          by_cases hkn : k = n
          · subst hkn
            rw [List.getElem?_set, if_pos rfl, if_pos (by omega)] at hke
            cases hke
            exact ⟨hclear, hshapeE⟩
          · rw [List.getElem?_set_ne (fun e => hkn e.symm)] at hke
            exact hdone k e (by omega) hke

theorem device_unmarked (d : __Device)
    (h : ∀ e ∈ d._Engines, e.marked = List.replicate e.marked.length false) :
    d.unmarked = d := by
  have hmap : d._Engines.map __EngineManager.unmarked = d._Engines := by
    apply List.ext_getElem?
    intro k
    rw [List.getElem?_map]
    cases hk : d._Engines[k]? with
    | none => rfl
    | some e =>
      simp only [Option.map_some']
      rw [__EngineManager.engine_unmarked e (h e (List.getElem?_mem hk))]
  unfold unmarked
  rw [hmap]

/-- The submitting part of `Flush` on a device whose marks lie within the managers: it is
`SubmitCurrent` on each marked slot, once, in order, and it leaves no mark. -/
theorem Flush.submit_spec (waitingGPU : List Nat) (d1 d2 : __Device) (children : List Nat)
    (hshape : ∀ e ∈ d1._Engines, e.marked.length = e.Managers.length)
    (h : Flush.submit d1 waitingGPU = .ok (d2, children)) :
    d1.unmarked.submitSlots waitingGPU d1.markedSlots = .ok (d2, children) ∧
    (∀ e ∈ d2._Engines, e.marked = List.replicate e.marked.length false ∧
      e.marked.length = e.Managers.length) := by
  rw [Flush.submit_eq] at h
  obtain ⟨hspec, hlen, -, hdone⟩ :=
    Flush.submit.loop_slots waitingGPU d1 hshape _ _ (le_refl _) h
  simp only at hspec hlen hdone
  have hclear : ∀ e ∈ d2._Engines, e.marked = List.replicate e.marked.length false ∧
      e.marked.length = e.Managers.length := by
    intro e he
    obtain ⟨k, hk⟩ := List.mem_iff_getElem?.mp he
    have hklt : k < d2._Engines.length := (List.getElem?_eq_some_iff.mp hk).1
    exact hdone k e (by omega) hk
  rw [device_unmarked d2 (fun e he => (hclear e he).1)] at hspec
  exact ⟨hspec, hclear⟩

end __Device


theorem __CPUTask.Wait_pieces (pieces pieces1 : PieceHeap) (t : __CPUTask)
    (h : __CPUTask.Wait pieces t = .ok pieces1) : pieces1 = pieces := by
  unfold __CPUTask.Wait at h
  split at h
  · cases h
  · rename_i w hw
    unfold WorkPiece.WaitForPopulation OneTimeSemaphore.Wait Semaphore.Wait at h
    by_cases hs : w.AfterPopulated.s.state = 0
    · simp [hs] at h
    · simp only [hs, if_false, Semaphore.Signal, Except.ok.injEq] at h
      subst h
      have hw1 : ({ w with AfterPopulated := ⟨⟨w.AfterPopulated.s.state - 1 + 1⟩⟩ } :
          WorkPiece) = w := by
        cases w with
        | mk gp dm ei mi st ap =>
          cases ap with
          | mk s =>
            cases s with
            | mk state => simp
      rw [hw1]
      exact set_of_getElem? pieces t.workPiece w hw

namespace __Device

theorem Flush.mark_eq (d : __Device) (tasks : List __CPUTask) :
    Flush.mark d tasks = tasks.foldlM Flush.mark.step d := rfl

theorem Flush.mark.step_spec (d d1 : __Device) (t : __CPUTask)
    (h : Flush.mark.step d t = .ok d1) :
    ∃ (w : WorkPiece) (e : __EngineManager),
      d.pieces[t.workPiece]? = some w ∧ 0 ≤ w.EngineIndex ∧
      d._Engines[w.EngineIndex.toNat]? = some e ∧ 0 ≤ w.ManagerIndex ∧
      w.ManagerIndex.toNat < e.marked.length ∧
      d1 = { d with
              _Engines := d._Engines.set w.EngineIndex.toNat
                { e with marked := e.marked.set w.ManagerIndex.toNat true } } := by
  unfold Flush.mark.step at h
  split at h
  · cases h
  · rename_i pieces1 hwait
    have hp := __CPUTask.Wait_pieces d.pieces pieces1 t hwait
    subst hp
    split at h
    · cases h
    · rename_i w hw
      split at h
      · cases h
      · rename_i e he
        split at h
        · cases h
        · rename_i e1 hmarkE
          simp only [Except.ok.injEq] at h
          subst h
          unfold engineAt at he
          by_cases hneg : w.EngineIndex < 0
          · simp [hneg] at he
          · simp only [hneg, if_false] at he
            split at he
            · cases he
            · rename_i e0 he0
              simp only [Except.ok.injEq] at he
              subst he
              unfold __EngineManager.MarkForFlush at hmarkE
              by_cases hbad : w.ManagerIndex < 0 ∨ e0.marked.length ≤ w.ManagerIndex.toNat
              · simp [hbad] at hmarkE
              · simp only [hbad, if_false, Except.ok.injEq] at hmarkE
                subst hmarkE
                exact ⟨w, e0, hw, by omega, he0, by omega, by omega, rfl⟩

end __Device


namespace __Device

theorem Flush.mark_spec :
    ∀ (tasks : List __CPUTask) (d d1 : __Device),
      tasks.foldlM Flush.mark.step d = .ok d1 → MarkedFrom d d1 tasks := by
  intro tasks
  induction tasks with
  | nil =>
    intro d d1 h
    simp only [List.foldlM, pure, Except.pure, Except.ok.injEq] at h
    subst h
    refine ⟨rfl, rfl, ?_⟩
    intro k e he
    refine ⟨e, he, rfl, rfl, ?_⟩
    intro mi
    constructor
    · intro h; exact Or.inl h
    · rintro (h | ⟨t, ht, _⟩)
      · exact h
      · cases ht
  | cons t rest ih =>
    intro d d1 h
    rw [List.foldlM_cons] at h
    cases hstep : Flush.mark.step d t with
    | error f => rw [hstep] at h; cases h
    | ok d0 =>
      rw [hstep] at h
      simp only [bind, Except.bind] at h
      obtain ⟨w0, e0, hw0, hei, he0, hmi, hmilt, hd0⟩ := Flush.mark.step_spec d d0 t hstep
      obtain ⟨hrec, hlen, hmarks⟩ := ih d0 d1 h
      have hpieces : d0.pieces = d.pieces := by rw [hd0]
      have hengines : d0._Engines = d._Engines.set w0.EngineIndex.toNat
          { e0 with marked := e0.marked.set w0.ManagerIndex.toNat true } := by rw [hd0]
      refine ⟨?_, ?_, ?_⟩
      · rw [hrec, hd0]
      · rw [hlen, hengines, List.length_set]
      · intro k e he
        have hklt : k < d._Engines.length := (List.getElem?_eq_some_iff.mp he).1
        by_cases hk : w0.EngineIndex.toNat = k
        · have hee : e = e0 := by
            rw [hk, he] at he0
            exact Option.some.inj he0
          subst hee
          have he0' : d0._Engines[k]? =
              some { e with marked := e.marked.set w0.ManagerIndex.toNat true } := by
            rw [hengines, List.getElem?_set, if_pos hk, if_pos (by omega)]
          obtain ⟨e1, he1, heq, hlen1, hiff⟩ := hmarks k _ he0'
          refine ⟨e1, he1, ?_, ?_, ?_⟩
          · rw [heq]
          · rw [hlen1]; simp only [List.length_set]
          · intro mi
            rw [hiff mi, hpieces]
            simp only [List.getElem?_set]
            constructor
            · rintro (h1 | ⟨t1, ht1, w1, hw1, h2, h3⟩)
              · by_cases hmm : w0.ManagerIndex.toNat = mi
                · right
                  exact ⟨t, List.mem_cons_self t rest, w0, hw0, by omega, by omega⟩
                · rw [if_neg hmm] at h1
                  exact Or.inl h1
              · right
                exact ⟨t1, List.mem_cons_of_mem t ht1, w1, hw1, h2, h3⟩
            · rintro (h1 | ⟨t1, ht1, w1, hw1, h2, h3⟩)
              · left
                by_cases hmm : w0.ManagerIndex.toNat = mi
                · rw [if_pos hmm, if_pos hmilt]
                · rw [if_neg hmm]; exact h1
              · rcases List.mem_cons.mp ht1 with e1t | hmem
                · subst e1t
                  rw [hw0] at hw1
                  cases hw1
                  left
                  rw [if_pos (by omega), if_pos hmilt]
                · right
                  exact ⟨t1, hmem, w1, hw1, h2, h3⟩
        · have he0' : d0._Engines[k]? = some e := by
            rw [hengines, List.getElem?_set_ne hk]
            exact he
          obtain ⟨e1, he1, heq, hlen1, hiff⟩ := hmarks k e he0'
          refine ⟨e1, he1, heq, hlen1, ?_⟩
          intro mi
          rw [hiff mi, hpieces]
          constructor
          · rintro (h1 | ⟨t1, ht1, w1, hw1, h2, h3⟩)
            · exact Or.inl h1
            · right
              exact ⟨t1, List.mem_cons_of_mem t ht1, w1, hw1, h2, h3⟩
          · rintro (h1 | ⟨t1, ht1, w1, hw1, h2, h3⟩)
            · exact Or.inl h1
            · rcases List.mem_cons.mp ht1 with e1t | hmem
              · subst e1t
                rw [hw0] at hw1
                cases hw1
                exact (hk (by omega)).elim
              · right
                exact ⟨t1, hmem, w1, hw1, h2, h3⟩

end __Device


namespace __Device

theorem mem_markedSlotsBelow (d : __Device) (n ei mi : Nat) :
    (ei, mi) ∈ d.markedSlotsBelow n ↔
      ei < n ∧ ∃ e, d._Engines[ei]? = some e ∧ mi ∈ e.markedSlots := by
  unfold markedSlotsBelow
  rw [List.mem_flatMap]
  constructor
  · rintro ⟨i, hi, hmem⟩
    cases he : d._Engines[i]? with
    | none => rw [he] at hmem; cases hmem
    | some e =>
      rw [he] at hmem
      obtain ⟨mi1, hmi1, heq⟩ := List.mem_map.mp hmem
      simp only [Prod.mk.injEq] at heq
      obtain ⟨h1, h2⟩ := heq
      subst h1 h2
      exact ⟨List.mem_range.mp hi, e, he, hmi1⟩
  · rintro ⟨hlt, e, he, hmem⟩
    refine ⟨ei, List.mem_range.mpr hlt, ?_⟩
    rw [he]
    exact List.mem_map.mpr ⟨mi, hmem, rfl⟩

theorem markedSlotsBelow_nodup (d : __Device) : ∀ (n : Nat), (d.markedSlotsBelow n).Nodup := by
  intro n
  induction n with
  | zero => simp [markedSlotsBelow]
  | succ n ih =>
    have hsucc : d.markedSlotsBelow (n + 1) = d.markedSlotsBelow n ++
        (match d._Engines[n]? with
          | some e => e.markedSlots.map (fun mi => (n, mi))
          | none => []) := by
      unfold markedSlotsBelow
      rw [List.range_succ, List.flatMap_append, List.flatMap_singleton]
    rw [hsucc, List.nodup_append]
    refine ⟨ih, ?_, ?_⟩
    · cases d._Engines[n]? with
      | none => exact List.nodup_nil
      | some e =>
        refine List.Nodup.map ?_ ((List.nodup_range _).filter _)
        intro a b hab
        simp only [Prod.mk.injEq, true_and] at hab
        exact hab
    · intro slot h1 h2
      obtain ⟨ei, mi⟩ := slot
      have hlt := ((mem_markedSlotsBelow d n ei mi).mp h1).1
      cases he : d._Engines[n]? with
      | none => rw [he] at h2; cases h2
      | some e =>
        rw [he] at h2
        obtain ⟨mi1, _, heq⟩ := List.mem_map.mp h2
        simp only [Prod.mk.injEq] at heq
        omega

theorem Flush.mark_valid :
    ∀ (tasks : List __CPUTask) (d d1 : __Device),
      tasks.foldlM Flush.mark.step d = .ok d1 →
      ∀ t ∈ tasks, ∃ w, d.pieces[t.workPiece]? = some w ∧ 0 ≤ w.EngineIndex ∧
        w.EngineIndex.toNat < d._Engines.length ∧ 0 ≤ w.ManagerIndex := by
  intro tasks
  induction tasks with
  | nil =>
    intro d d1 _ t ht
    cases ht
  | cons t0 rest ih =>
    intro d d1 h t ht
    rw [List.foldlM_cons] at h
    cases hstep : Flush.mark.step d t0 with
    | error f => rw [hstep] at h; cases h
    | ok d0 =>
      rw [hstep] at h
      simp only [bind, Except.bind] at h
      obtain ⟨w0, e0, hw0, hei, he0, hmi, hmilt, hd0⟩ := Flush.mark.step_spec d d0 t0 hstep
      rcases List.mem_cons.mp ht with e | hmem
      · subst e
        exact ⟨w0, hw0, hei, (List.getElem?_eq_some_iff.mp he0).1, hmi⟩
      · obtain ⟨w, hw, h1, h2, h3⟩ := ih d0 d1 h t hmem
        rw [hd0] at hw h2
        simp only [List.length_set] at h2
        exact ⟨w, hw, h1, h2, h3⟩

theorem submitSlots_length (waitingGPU : List Nat) :
    ∀ (slots : List (Nat × Nat)) (d d1 : __Device) (children children1 : List Nat),
      slots.foldlM (submitSlot waitingGPU) (d, children) = .ok (d1, children1) →
      children1.length = children.length + slots.length := by
  intro slots
  induction slots with
  | nil =>
    intro d d1 children children1 h
    simp only [List.foldlM, pure, Except.pure, Except.ok.injEq, Prod.mk.injEq] at h
    rw [← h.2]
    rfl
  | cons slot rest ih =>
    intro d d1 children children1 h
    rw [List.foldlM_cons] at h
    cases hstep : submitSlot waitingGPU (d, children) slot with
    | error f => rw [hstep] at h; cases h
    | ok acc =>
      rw [hstep] at h
      simp only [bind, Except.bind] at h
      have hacc : acc.2.length = children.length + 1 := by
        unfold submitSlot at hstep
        simp only at hstep
        split at hstep
        · cases hstep
        · split at hstep
          · cases hstep
          · split at hstep
            · cases hstep
            · simp only [Except.ok.injEq] at hstep
              rw [← hstep]
              simp
      have := ih acc.1 d1 acc.2 children1 h
      rw [this, hacc, List.length_cons]
      omega

end __Device


namespace __Device

theorem MarkedFrom.engine (d d1 : __Device) (tasks : List __CPUTask)
    (hunmarked : ∀ e ∈ d._Engines, e.marked = List.replicate e.Managers.length false)
    (hM : MarkedFrom d d1 tasks) (k : Nat) (e : __EngineManager)
    (he : d._Engines[k]? = some e) :
    ∃ e1, d1._Engines[k]? = some e1 ∧ e1.Managers = e.Managers ∧
      e1.marked.length = e.Managers.length ∧ e1.unmarked = e ∧
      ∀ (mi : Nat), e1.marked[mi]? = some true ↔
        ∃ t ∈ tasks, ∃ w, d.pieces[t.workPiece]? = some w ∧
          w.EngineIndex = (k : Int) ∧ w.ManagerIndex = (mi : Int) := by
  obtain ⟨e1, he1, heq, hlen, hiff⟩ := hM.2.2 k e he
  have hclear := hunmarked e (List.getElem?_mem he)
  have hlenE : e.marked.length = e.Managers.length := by
    rw [hclear, List.length_replicate]
  have hMgr : e1.Managers = e.Managers := congrArg (fun x => x.Managers) heq
  refine ⟨e1, he1, hMgr, by rw [hlen, hlenE], ?_, ?_⟩
  · have h1 : e1.unmarked = { e with marked := List.replicate e1.marked.length false } := by
      unfold __EngineManager.unmarked
      rw [heq]
    rw [h1, hlen, hlenE, ← hclear]
  · intro mi
    rw [hiff mi]
    constructor
    · rintro (h | h)
      · rw [hclear, List.getElem?_replicate] at h
        split at h
        · cases h
        · cases h
      · exact h
    · intro h
      exact Or.inr h

theorem MarkedFrom.unmarked (d d1 : __Device) (tasks : List __CPUTask)
    (hunmarked : ∀ e ∈ d._Engines, e.marked = List.replicate e.Managers.length false)
    (hM : MarkedFrom d d1 tasks) : d1.unmarked = d := by
  have hmap : d1._Engines.map __EngineManager.unmarked = d._Engines := by
    apply List.ext_getElem?
    intro k
    rw [List.getElem?_map]
    cases he : d._Engines[k]? with
    | none =>
      have hk : d._Engines.length ≤ k := by
        by_contra hlt
        rw [List.getElem?_eq_getElem (by omega)] at he
        cases he
      rw [List.getElem?_eq_none (by rw [hM.2.1]; exact hk)]
      rfl
    | some e =>
      obtain ⟨e1, he1, -, -, hun, -⟩ := MarkedFrom.engine d d1 tasks hunmarked hM k e he
      rw [he1, Option.map_some', hun]
  unfold __Device.unmarked
  rw [hmap, hM.1]

theorem MarkedFrom.shape (d d1 : __Device) (tasks : List __CPUTask)
    (hunmarked : ∀ e ∈ d._Engines, e.marked = List.replicate e.Managers.length false)
    (hM : MarkedFrom d d1 tasks) :
    ∀ e1 ∈ d1._Engines, e1.marked.length = e1.Managers.length := by
  intro e1 hmem
  obtain ⟨k, hk⟩ := List.mem_iff_getElem?.mp hmem
  have hklt : k < d1._Engines.length := (List.getElem?_eq_some_iff.mp hk).1
  have hklt2 : k < d._Engines.length := by rw [← hM.2.1]; exact hklt
  obtain ⟨e2, he2, hMgr, hlen, -, -⟩ := MarkedFrom.engine d d1 tasks hunmarked hM k _
    (List.getElem?_eq_getElem hklt2)
  rw [hk] at he2
  cases he2
  rw [hlen, hMgr]

theorem MarkedFrom.mem_markedSlots (d d1 : __Device) (tasks : List __CPUTask)
    (hunmarked : ∀ e ∈ d._Engines, e.marked = List.replicate e.Managers.length false)
    (hM : MarkedFrom d d1 tasks)
    (hV : ∀ t ∈ tasks, ∃ w, d.pieces[t.workPiece]? = some w ∧ 0 ≤ w.EngineIndex ∧
      w.EngineIndex.toNat < d._Engines.length ∧ 0 ≤ w.ManagerIndex)
    (ei mi : Nat) :
    (ei, mi) ∈ d1.markedSlots ↔
      ∃ t ∈ tasks, ∃ w, d.pieces[t.workPiece]? = some w ∧
        w.EngineIndex = (ei : Int) ∧ w.ManagerIndex = (mi : Int) := by
  unfold markedSlots
  rw [mem_markedSlotsBelow]
  constructor
  · rintro ⟨hlt, e1, he1, hmem⟩
    have hlt2 : ei < d._Engines.length := by rw [← hM.2.1]; exact hlt
    obtain ⟨e2, he2, -, -, -, hiff⟩ := MarkedFrom.engine d d1 tasks hunmarked hM ei _
      (List.getElem?_eq_getElem hlt2)
    rw [he1] at he2
    cases he2
    unfold __EngineManager.markedSlots at hmem
    rw [List.mem_filter] at hmem
    exact (hiff mi).mp (of_decide_eq_true hmem.2)
  · intro h
    obtain ⟨t, ht, w, hw, h1, h2⟩ := h
    obtain ⟨w1, hw1, h3, h4, -⟩ := hV t ht
    rw [hw] at hw1
    cases hw1
    have hlt2 : ei < d._Engines.length := by omega
    obtain ⟨e1, he1, hMgr, hlen, -, hiff⟩ := MarkedFrom.engine d d1 tasks hunmarked hM ei _
      (List.getElem?_eq_getElem hlt2)
    have hmark : e1.marked[mi]? = some true := (hiff mi).mpr ⟨t, ht, w, hw, h1, h2⟩
    have hmilt : mi < e1.marked.length := (List.getElem?_eq_some_iff.mp hmark).1
    refine ⟨by rw [hM.2.1]; exact hlt2, e1, he1, ?_⟩
    unfold __EngineManager.markedSlots
    rw [List.mem_filter]
    exact ⟨List.mem_range.mpr (by rw [hMgr]; omega), decide_eq_true hmark⟩

/-- What a returning `Flush` does on a device without marks: `SubmitCurrent` is called once on
each slot of the work pieces of the given CPU tasks and on no other; the tasks returned are
the children of the result; no mark is left. -/
theorem Flush_spec (d dF : __Device) (tasks : List __CPUTask) (waitingGPU : List Nat)
    (result : Nat)
    (hunmarked : ∀ e ∈ d._Engines, e.marked = List.replicate e.Managers.length false)
    (h : d.Flush tasks waitingGPU = .ok (dF, result)) :
    ∃ (slots : List (Nat × Nat)) (d2 : __Device) (children : List Nat),
      slots.Nodup ∧
      (∀ (ei mi : Nat), (ei, mi) ∈ slots ↔
        ∃ t ∈ tasks, ∃ w, d.pieces[t.workPiece]? = some w ∧
          w.EngineIndex = (ei : Int) ∧ w.ManagerIndex = (mi : Int)) ∧
      d.submitSlots waitingGPU slots = .ok (d2, children) ∧
      children.length = slots.length ∧
      dF = { d2 with tasks := d2.tasks ++ [{ __GPUTask.new with children := children }] } ∧
      result = d2.tasks.length ∧
      dF.tasks[result]? = some { __GPUTask.new with children := children } ∧
      (∀ e ∈ dF._Engines, ∀ b ∈ e.marked, b = false) ∧
      (∀ e ∈ dF._Engines, e.marked = List.replicate e.Managers.length false) := by
  unfold Flush at h
  split at h
  · cases h
  · rename_i d1 hmark
    split at h
    · cases h
    · rename_i d2 children hsubmit
      simp only [Except.ok.injEq, Prod.mk.injEq] at h
      obtain ⟨hdF, hres⟩ := h
      have hM := Flush.mark_spec tasks d d1 hmark
      have hV := Flush.mark_valid tasks d d1 hmark
      obtain ⟨hspec, hclear⟩ := Flush.submit_spec waitingGPU d1 d2 children
        (MarkedFrom.shape d d1 tasks hunmarked hM) hsubmit
      rw [MarkedFrom.unmarked d d1 tasks hunmarked hM] at hspec
      refine ⟨d1.markedSlots, d2, children, markedSlotsBelow_nodup d1 _,
        MarkedFrom.mem_markedSlots d d1 tasks hunmarked hM hV, hspec, ?_, hdF.symm,
        hres.symm, ?_, ?_, ?_⟩
      · have := submitSlots_length waitingGPU d1.markedSlots d d2 [] children hspec
        simpa using this
      · rw [← hdF, ← hres]
        simp
      · intro e he b hb
        rw [← hdF] at he
        rw [(hclear e he).1] at hb
        exact List.eq_of_mem_replicate hb
      · intro e he
        rw [← hdF] at he
        have h1 := (hclear e he).1
        rw [(hclear e he).2] at h1
        exact h1

end __Device


/-- Claim C19: on a device none of whose slots is marked, a returning
`Flush(tasks, waitingGPU)` is `SubmitCurrent(waitingGPU)` called once on each slot of a
duplicate-free list, whose members are exactly the slots `(EngineIndex, ManagerIndex)` of
the work pieces of the given CPU tasks; the children of the returned GPU task are the tasks
those calls returned, one for each slot; and no slot of any engine is marked afterwards,
so that the device is again one none of whose slots is marked. -/
theorem C19_Flush_submits_each_slot_once (d d1 : __Device) (tasks : List __CPUTask)
    (waitingGPU : List Nat) (result : Nat)
    (hunmarked : ∀ e ∈ d._Engines, e.marked = List.replicate e.Managers.length false)
    (h : Device.Flush d tasks waitingGPU = .ok (d1, result)) :
    ∃ (slots : List (Nat × Nat)) (d2 : __Device) (children : List Nat),
      slots.Nodup ∧
      (∀ (ei mi : Nat), (ei, mi) ∈ slots ↔
        ∃ t ∈ tasks, ∃ w, d.pieces[t.workPiece]? = some w ∧
          w.EngineIndex = (ei : Int) ∧ w.ManagerIndex = (mi : Int)) ∧
      d.submitSlots waitingGPU slots = .ok (d2, children) ∧
      children.length = slots.length ∧
      d1 = { d2 with tasks := d2.tasks ++ [{ __GPUTask.new with children := children }] } ∧
      result = d2.tasks.length ∧
      d1.tasks[result]? = some { __GPUTask.new with children := children } ∧
      (∀ e ∈ d1._Engines, ∀ b ∈ e.marked, b = false) ∧
      (∀ e ∈ d1._Engines, e.marked = List.replicate e.Managers.length false) :=
  __Device.Flush_spec d d1 tasks waitingGPU result hunmarked h

theorem C19_Flush_witness :
    twoSlotDevice.tasks.length = 2 ∧
    ∃ (slots : List (Nat × Nat)) (d2 : __Device) (children : List Nat),
      slots.Nodup ∧
      (∀ (ei mi : Nat), (ei, mi) ∈ slots ↔
        ∃ t ∈ twoSlotDevice.tasks, ∃ w,
          twoSlotDevice.device.pieces[t.workPiece]? = some w ∧
          w.EngineIndex = (ei : Int) ∧ w.ManagerIndex = (mi : Int)) ∧
      twoSlotDevice.device.submitSlots [] slots = .ok (d2, children) ∧
      children.length = slots.length ∧
      twoSlotDevice.flushed.1 =
        { d2 with tasks := d2.tasks ++ [{ __GPUTask.new with children := children }] } ∧
      twoSlotDevice.flushed.2 = d2.tasks.length ∧
      twoSlotDevice.flushed.1.tasks[twoSlotDevice.flushed.2]? =
        some { __GPUTask.new with children := children } ∧
      (∀ e ∈ twoSlotDevice.flushed.1._Engines, ∀ b ∈ e.marked, b = false) ∧
      (∀ e ∈ twoSlotDevice.flushed.1._Engines,
        e.marked = List.replicate e.Managers.length false) :=
  ⟨by decide,
    C19_Flush_submits_each_slot_once twoSlotDevice.device twoSlotDevice.flushed.1
      twoSlotDevice.tasks [] twoSlotDevice.flushed.2 (by decide) (by rfl)⟩


/-! ## Reachable managers are well formed -/

theorem getElem?_set_of_forall {α : Type} (P : α → Prop) (l : List α) (b : Nat) (a : α)
    (hl : ∀ (j : Nat) (c : α), l[j]? = some c → P c) (ha : P a) :
    ∀ (j : Nat) (c : α), (l.set b a)[j]? = some c → P c := by
  intro j c hj
  by_cases hb : b = j
  · subst hb
    rw [List.getElem?_set, if_pos rfl] at hj
    split at hj
    · cases hj; exact ha
    · cases hj
  · rw [List.getElem?_set_ne hb] at hj
    exact hl j c hj

namespace __CommandListManager

theorem Open_state (c c1 : __CommandListManager) (h : c.__Open = .ok c1) :
    c1.State = CommandListState.Recording := by
  unfold __Open at h
  split at h
  · rename_i hrec
    cases h; exact hrec
  · split at h
    · cases h
    · cases h; rfl

end __CommandListManager

namespace __CommandQueueManager

theorem new_sound (supported : EngineType) (queue : Nat) (flag : Bool) :
    (__CommandQueueManager.new supported queue flag).Sound := by
  refine ⟨rfl, ?_, ?_⟩
  · intro b hb
    simp [__CommandQueueManager.new] at hb
  · intro j c hj
    simp [__CommandQueueManager.new] at hj

theorem FetchNew_sound (m m1 : __CommandQueueManager) (r : Nat) (hS : m.Sound)
    (h : m.FetchNew = .ok (m1, r)) :
    m1.submittedBuffers = m.submittedBuffers ∧ m1.submittedTasks = m.submittedTasks ∧
    m.cmdLists.length ≤ m1.cmdLists.length ∧
    (∀ (j : Nat) (c : __CommandListManager), m1.cmdLists[j]? = some c →
      c.State ≠ CommandListState.OnGPU) := by
  unfold FetchNew at h
  by_cases hlen : m.reusableCmdBuffers.length > 1
  · simp only [hlen, if_true] at h
    split at h
    · cases h
    · rename_i c0 hc0
      split at h
      · cases h
      · rename_i c1 hc1
        simp only [Except.ok.injEq, Prod.mk.injEq] at h
        obtain ⟨hm, -⟩ := h
        subst hm
        refine ⟨rfl, rfl, by simp, ?_⟩
        exact getElem?_set_of_forall _ _ _ _ hS.2.2
          (by rw [__CommandListManager.Open_state c0 c1 hc1]; decide)
  · simp only [hlen, if_false] at h
    split at h
    · cases h
    · rename_i c0 hc0
      split at h
      · cases h
      · rename_i c1 hc1
        simp only [Except.ok.injEq, Prod.mk.injEq] at h
        obtain ⟨hm, -⟩ := h
        subst hm
        refine ⟨rfl, rfl, by simp, ?_⟩
        refine getElem?_set_of_forall _ _ _ _ ?_
          (by rw [__CommandListManager.Open_state c0 c1 hc1]; decide)
        intro j c hj
        by_cases hlt : j < m.cmdLists.length
        · rw [List.getElem?_append_left hlt] at hj
          exact hS.2.2 j c hj
        · by_cases heq : j = m.cmdLists.length
          · subst heq
            rw [List.getElem?_concat_length] at hj
            cases hj
            simp
          · rw [List.getElem?_eq_none (by simp; omega)] at hj
            cases hj

theorem Peek_sound (m m1 : __CommandQueueManager) (r : Nat) (hS : m.Sound)
    (h : m.Peek = .ok (m1, r)) : m1.Sound := by
  unfold Peek at h
  cases hrec : m.recordingBuffer with
  | some r0 =>
    simp only [hrec, Except.ok.injEq, Prod.mk.injEq] at h
    rw [← h.1]; exact hS
  | none =>
    simp only [hrec] at h
    cases hf : m.FetchNew with
    | error f => rw [hf] at h; cases h
    | ok mr =>
      obtain ⟨m2, r2⟩ := mr
      rw [hf] at h
      simp only [Except.ok.injEq, Prod.mk.injEq] at h
      obtain ⟨hm, -⟩ := h
      subst hm
      obtain ⟨hb, ht, hlen, hno⟩ := FetchNew_sound m m2 r2 hS hf
      refine ⟨?_, ?_, hno⟩
      · simp only [hb, ht]; exact hS.1
      · intro b hmem
        simp only [hb] at hmem
        exact Nat.lt_of_lt_of_le (hS.2.1 b hmem) hlen

theorem SubmitCurrent_sound (m m1 : __CommandQueueManager) (tasks tasks1 : TaskHeap)
    (pieces pieces1 : PieceHeap) (wait_for : List Nat) (task : Nat) (hS : m.Sound)
    (h : m.SubmitCurrent tasks pieces wait_for = .ok (m1, tasks1, pieces1, task)) :
    m1.Sound := by
  unfold SubmitCurrent at h
  cases hrec : m.recordingBuffer with
  | none =>
    simp only [hrec, Except.ok.injEq, Prod.mk.injEq] at h
    rw [← h.1]; exact hS
  | some r0 =>
    simp only [hrec] at h
    split at h
    · cases h
    · rename_i c0 hc0
      split at h
      · cases h
      · rename_i c1 hc1
        split at h
        · cases h
        · split at h
          · cases h
          · simp only [Except.ok.injEq, Prod.mk.injEq] at h
            obtain ⟨hm, -⟩ := h
            subst hm
            refine ⟨?_, ?_, ?_⟩
            · simp only [List.length_append, List.length_singleton]
              rw [hS.1]
            · intro b hmem
              simp only [List.length_set]
              rcases List.mem_append.mp hmem with hb | hb
              · exact hS.2.1 b hb
              · rw [List.mem_singleton.mp hb]
                exact (List.getElem?_eq_some_iff.mp hc0).1
            · exact getElem?_set_of_forall _ _ _ _ hS.2.2
                (by rw [__CommandListManager.Close_state c0 c1 hc1]; decide)

theorem record_sound (m m1 : __CommandQueueManager) (cmdList : Nat) (commands : List Nat)
    (hS : m.Sound) (h : m.record cmdList commands = .ok m1) : m1.Sound := by
  unfold record at h
  split at h
  · cases h
  · rename_i c0 hc0
    simp only [Except.ok.injEq] at h
    subst h
    refine ⟨hS.1, ?_, ?_⟩
    · intro b hmem
      simp only [List.length_set]
      exact hS.2.1 b hmem
    · exact getElem?_set_of_forall _ _ _ _ hS.2.2 (hS.2.2 cmdList c0 hc0)

theorem WaitForPendings_sound (m m1 : __CommandQueueManager) (tasks tasks1 : TaskHeap)
    (hS : m.Sound) (h : m.WaitForPendings tasks = .ok (m1, tasks1)) : m1.Sound := by
  unfold WaitForPendings at h
  split at h
  · cases h
  · rename_i sems total hcollect
    split at h
    · cases h
    · rename_i m2 tasks2 hloop
      simp only [Except.ok.injEq, Prod.mk.injEq] at h
      obtain ⟨hm, -⟩ := h
      subst hm
      have key := forLoop_invariant
        (fun (acc : __CommandQueueManager × TaskHeap) =>
          ∀ (j : Nat) (c : __CommandListManager), acc.1.cmdLists[j]? = some c →
            c.State ≠ CommandListState.OnGPU)
        WaitForPendings.retire
        (by
          intro acc i acc1 hacc hstep
          obtain ⟨b, c, c1, -, -, hc1, -, -, -, hcl, -, -⟩ :=
            WaitForPendings.retire_spec acc acc1 i hstep
          rw [hcl]
          exact getElem?_set_of_forall _ _ _ _ hacc (by rw [hc1]; decide))
        _ _ _ hS.2.2 hloop
      refine ⟨rfl, ?_, key⟩
      intro b hb
      cases hb

theorem Clean.loop_sound (tasks : TaskHeap) (taskOwners : Nat → Nat) :
    ∀ (fuel : Nat) (m : __CommandQueueManager) (i : Nat) (m1 : __CommandQueueManager),
      m.Sound → Clean.loop tasks taskOwners fuel m i = .ok m1 → m1.Sound := by
  intro fuel
  induction fuel with
  | zero =>
    intro m i m1 hS h
    simp only [Clean.loop] at h
    split at h
    · cases h
    · cases h; exact hS
  | succ fuel ih =>
    intro m i m1 hS h
    simp only [Clean.loop] at h
    split at h
    · split at h
      · cases h
      · split at h
        · cases h
        · split at h
          · split at h
            · rename_i b lastBuffer lastTask hb hlb hlt
              split at h
              · cases h
              · rename_i c hc
                split at h
                · cases h
                · rename_i c1 hc1
                  refine ih _ i m1 ⟨?_, ?_, ?_⟩ h
                  · simp only [List.length_dropLast, List.length_set]
                    rw [hS.1]
                  · intro b1 hb1
                    simp only [List.length_set]
                    exact hS.2.1 b1 (swapRemove_mem _ _ _ _ hlb hb1)
                  · exact getElem?_set_of_forall _ _ _ _ hS.2.2
                      (by rw [__CommandListManager.Reset_state c c1 hc1]; decide)
            · cases h
          · split at h
            · cases h
            · exact ih m (i + 1) m1 hS h
    · cases h; exact hS

theorem Clean_sound (m m1 : __CommandQueueManager) (tasks : TaskHeap) (pieces : PieceHeap)
    (taskOwners pieceOwners : Nat → Nat) (hS : m.Sound)
    (h : m.Clean tasks pieces taskOwners pieceOwners = .ok m1) : m1.Sound := by
  unfold Clean at h
  split at h
  · cases h
  · rename_i m2 hloop
    split at h
    · cases h
    · simp only [Except.ok.injEq] at h
      subst h
      exact Clean.loop_sound tasks taskOwners _ m 0 m2 hS hloop

theorem Reachable.sound (m : __CommandQueueManager) (h : Reachable m) : m.Sound := by
  induction h with
  | new supported queue flag => exact new_sound supported queue flag
  | peek m m1 r _ h ih => exact Peek_sound m m1 r ih h
  | populating m m1 task r _ h ih =>
    exact Peek_sound { m with populated := m.populated ++ [task] } m1 r ih h
  | submitCurrent m m1 tasks tasks1 pieces pieces1 wait_for task _ h ih =>
    exact SubmitCurrent_sound m m1 tasks tasks1 pieces pieces1 wait_for task ih h
  | waitForPendings m m1 tasks tasks1 _ h ih =>
    exact WaitForPendings_sound m m1 tasks tasks1 ih h
  | clean m m1 tasks pieces taskOwners pieceOwners _ h ih =>
    exact Clean_sound m m1 tasks pieces taskOwners pieceOwners ih h
  | record m m1 cmdList commands _ h ih => exact record_sound m m1 cmdList commands ih h

/-- Every reachable manager, with a heap in which its submitted tasks are alive, is well
formed in the sense `Clean` relies on. -/
theorem Reachable.wellFormed (m : __CommandQueueManager) (tasks : TaskHeap)
    (h : Reachable m) (halive : ∀ t ∈ m.submittedTasks, ∃ task, tasks[t]? = some task) :
    Clean.WellFormed m tasks := by
  obtain ⟨hlen, hvalid, hno⟩ := Reachable.sound m h
  refine ⟨hlen, ?_, halive⟩
  intro b hb
  have hlt := hvalid b hb
  exact ⟨m.cmdLists[b], List.getElem?_eq_getElem hlt,
    hno b _ (List.getElem?_eq_getElem hlt)⟩

end __CommandQueueManager


/-! ## The wait semaphores of a submission -/

namespace __GPUTask

theorem fillEach_flatten (h : TaskHeap) (f : Nat → List Nat → Option (List Nat))
    (g : Nat → List Nat) :
    ∀ (children : List Nat) (semaphores : List Nat),
      (∀ c ∈ children, finishedAt h c = false →
        ∀ s, f c s = some (s ++ g c)) →
      (∀ c ∈ children, finishedAt h c = true → g c = []) →
      fillEach f h children semaphores = some (semaphores ++ children.flatMap g) := by
  intro children
  induction children with
  | nil =>
    intro semaphores _ _
    simp [fillEach]
  | cons c cs ih =>
    intro semaphores hf hg
    have ih1 := fun s => ih s (fun c1 hc1 => hf c1 (List.mem_cons_of_mem c hc1))
      (fun c1 hc1 => hg c1 (List.mem_cons_of_mem c hc1))
    cases hfin : finishedAt h c with
    | true =>
      simp only [fillEach, hfin, Bool.not_true, Bool.false_eq_true, if_false]
      rw [ih1, List.flatMap_cons, hg c (List.mem_cons_self c cs) hfin, List.nil_append]
    | false =>
      simp only [fillEach, hfin, Bool.not_false, if_true, hf c (List.mem_cons_self c cs) hfin,
        ih1, List.flatMap_cons, List.append_assoc]

/-- What `FillSemaphores` appends on an acyclic heap: the flattening that stops at finished
tasks; and it returns whenever the depth allowed exceeds the task index. -/
theorem FillSemaphores_flatten (h : TaskHeap) (hacyclic : Acyclic h) :
    ∀ (fuel i : Nat) (t : __GPUTask) (semaphores : List Nat), i < fuel → h[i]? = some t →
      FillSemaphores fuel h i semaphores =
        some (semaphores ++ flattenUnfinished.go fuel h i) := by
  intro fuel
  induction fuel with
  | zero =>
    intro i t semaphores hi
    omega
  | succ fuel ih =>
    intro i t semaphores hi ht
    simp only [FillSemaphores, flattenUnfinished.go, ht]
    cases hfin : t.finished with
    | true => simp
    | false =>
      simp only [Bool.false_eq_true, if_false]
      have hchildren := fillEach_flatten h (FillSemaphores fuel h) (flattenUnfinished.go fuel h)
        t.children
        (match t.GPUFinished with
          | some s => semaphores ++ [s]
          | none => semaphores)
        (by
          intro c hc hcf s
          have hclt : c < i := hacyclic i t ht c hc
          cases hct : h[c]? with
          | none => simp [finishedAt, hct] at hcf
          | some tc => exact ih c tc s (by omega) hct)
        (by
          intro c hc hcf
          cases fuel with
          | zero => rfl
          | succ fuel1 =>
            cases hct : h[c]? with
            | none => simp [flattenUnfinished.go, hct]
            | some tc =>
              have : tc.finished = true := by simpa [finishedAt, hct] using hcf
              simp [flattenUnfinished.go, hct, this])
      rw [hchildren]
      cases hgp : t.GPUFinished with
      | none => simp [ownSemaphore, hfin, hgp]
      | some s => simp [ownSemaphore, hfin, hgp]

end __GPUTask


namespace __GPUTask

theorem flatten_go_finished (h : TaskHeap) (hcons : Consistent h) :
    ∀ (fuel i : Nat), finishedAt h i = true → flatten.go fuel h i = [] := by
  intro fuel
  induction fuel with
  | zero =>
    intro i _
    rfl
  | succ fuel ih =>
    intro i hfin
    cases ht : h[i]? with
    | none => simp [flatten.go, ht]
    | some t =>
      have htf : t.finished = true := by simpa [finishedAt, ht] using hfin
      simp only [flatten.go, ht, ownSemaphore, htf, if_true, List.nil_append]
      have hall : ∀ (l : List Nat), (∀ c ∈ l, finishedAt h c = true) →
          l.flatMap (flatten.go fuel h) = [] := by
        intro l
        induction l with
        | nil => intro _; rfl
        | cons c cs ihl =>
          intro hl
          rw [List.flatMap_cons, ih c (hl c (List.mem_cons_self c cs)),
            ihl (fun c1 hc1 => hl c1 (List.mem_cons_of_mem c hc1))]
          rfl
      exact hall t.children (hcons i t ht htf)

/-- On a heap with consistent flags the flattening of the specification is the flattening
that stops at finished tasks. -/
theorem flatten_go_eq_unfinished (h : TaskHeap) (hcons : Consistent h) :
    ∀ (fuel i : Nat), flatten.go fuel h i = flattenUnfinished.go fuel h i := by
  intro fuel
  induction fuel with
  | zero =>
    intro i
    rfl
  | succ fuel ih =>
    intro i
    cases ht : h[i]? with
    | none => simp [flatten.go, flattenUnfinished.go, ht]
    | some t =>
      cases htf : t.finished with
      | true =>
        rw [flatten_go_finished h hcons (fuel + 1) i (by simp [finishedAt, ht, htf])]
        simp [flattenUnfinished.go, ht, htf]
      | false =>
        have hfun : flatten.go fuel h = flattenUnfinished.go fuel h := funext ih
        simp [flatten.go, flattenUnfinished.go, ht, htf, hfun]

end __GPUTask

namespace __CommandQueueManager

/-- The loop of `SubmitCurrent` over `wait_for` on an acyclic heap: it returns, and what it
appends is, in the order of `wait_for`, the flattening of each task that stops at finished
tasks. -/
theorem fillWaiting_flatten (tasks : TaskHeap) (hacyclic : __GPUTask.Acyclic tasks) :
    ∀ (wait_for semaphores : List Nat),
      fillWaiting tasks wait_for semaphores =
        .ok (semaphores ++ wait_for.flatMap (__GPUTask.flattenUnfinished tasks)) := by
  intro wait_for
  induction wait_for with
  | nil =>
    intro semaphores
    simp [fillWaiting, List.foldlM, pure, Except.pure]
  | cons t rest ih =>
    intro semaphores
    unfold fillWaiting at ih ⊢
    rw [List.foldlM_cons]
    cases hfin : __GPUTask.finishedAt tasks t with
    | true =>
      have hnil : __GPUTask.flattenUnfinished tasks t = [] := by
        unfold __GPUTask.flattenUnfinished
        cases hlen : tasks.length with
        | zero => rfl
        | succ n =>
          cases ht : tasks[t]? with
          | none => simp [__GPUTask.flattenUnfinished.go, ht]
          | some task =>
            have : task.finished = true := by simpa [__GPUTask.finishedAt, ht] using hfin
            simp [__GPUTask.flattenUnfinished.go, ht, this]
      simp only [hfin, Bool.not_true, Bool.false_eq_true, if_false, bind, Except.bind]
      rw [ih, List.flatMap_cons, hnil, List.nil_append]
    | false =>
      cases ht : tasks[t]? with
      | none => simp [__GPUTask.finishedAt, ht] at hfin
      | some task =>
        have hlt : t < tasks.length := (List.getElem?_eq_some_iff.mp ht).1
        have hfill := __GPUTask.FillSemaphores_flatten tasks hacyclic tasks.length t task
          semaphores hlt ht
        simp only [hfin, Bool.not_false, if_true, hfill, bind, Except.bind]
        rw [ih, List.flatMap_cons, List.append_assoc]
        rfl

theorem markSubmitted_spec :
    ∀ (populated : List Nat) (pieces pieces1 : PieceHeap),
      markSubmitted pieces populated = .ok pieces1 →
      pieces1.length = pieces.length ∧
      (∀ w ∈ populated, ∃ piece, pieces1[w]? = some piece ∧
        piece.State = WorkPieceState.SUBMITTED) ∧
      (∀ w, w ∉ populated → pieces1[w]? = pieces[w]?) ∧
      (∀ (w : Nat) (piece1 : WorkPiece), pieces1[w]? = some piece1 →
        ∃ piece, pieces[w]? = some piece ∧ piece1 = { piece with State := piece1.State }) := by
  intro populated
  induction populated with
  | nil =>
    intro pieces pieces1 h
    simp only [markSubmitted, List.foldlM, pure, Except.pure, Except.ok.injEq] at h
    subst h
    exact ⟨rfl, fun w hw => (by cases hw), fun _ _ => rfl,
      fun w piece1 hw => ⟨piece1, hw, rfl⟩⟩
  | cons v rest ih =>
    intro pieces pieces1 h
    unfold markSubmitted at h ih
    rw [List.foldlM_cons] at h
    cases hv : pieces[v]? with
    | none => simp [hv, bind, Except.bind] at h
    | some piece =>
      simp only [hv, bind, Except.bind] at h
      have hvlt : v < pieces.length := (List.getElem?_eq_some_iff.mp hv).1
      obtain ⟨hlen, hsub, hother, hsame⟩ := ih _ pieces1 h
      refine ⟨by rw [hlen, List.length_set], ?_, ?_, ?_⟩
      · intro w hw
        by_cases hwr : w ∈ rest
        · exact hsub w hwr
        · have hwv : w = v := by
            rcases List.mem_cons.mp hw with e | e
            · exact e
            · exact absurd e hwr
          subst hwv
          refine ⟨{ piece with State := WorkPieceState.SUBMITTED }, ?_, rfl⟩
          rw [hother w hwr, List.getElem?_set, if_pos rfl, if_pos hvlt]
      · intro w hw
        have hwv : v ≠ w := fun e => hw (by rw [e]; exact List.mem_cons_self w rest)
        rw [hother w (fun e => hw (List.mem_cons_of_mem v e)), List.getElem?_set_ne hwv]
      · intro w piece1 hw
        obtain ⟨piece0, hp0, heq⟩ := hsame w piece1 hw
        by_cases hwv : v = w
        · subst hwv
          rw [List.getElem?_set, if_pos rfl, if_pos hvlt] at hp0
          cases hp0
          exact ⟨piece, hv, heq⟩
        · rw [List.getElem?_set_ne hwv] at hp0
          exact ⟨piece0, hp0, heq⟩

theorem markSubmitted_returns :
    ∀ (populated : List Nat) (pieces : PieceHeap),
      (∀ w ∈ populated, w < pieces.length) →
      ∃ pieces1, markSubmitted pieces populated = .ok pieces1 := by
  intro populated
  induction populated with
  | nil =>
    intro pieces _
    exact ⟨pieces, rfl⟩
  | cons v rest ih =>
    intro pieces hvalid
    have hvlt := hvalid v (List.mem_cons_self v rest)
    unfold markSubmitted at ih ⊢
    rw [List.foldlM_cons]
    simp only [List.getElem?_eq_getElem hvlt, bind, Except.bind]
    exact ih _ (fun w hw => by
      rw [List.length_set]
      exact hvalid w (List.mem_cons_of_mem v hw))

end __CommandQueueManager


namespace __CommandQueueManager

/-- What a returning `SubmitCurrent` did when `recordingBuffer` was not null. -/
theorem SubmitCurrent_recording (m m1 : __CommandQueueManager) (tasks tasks1 : TaskHeap)
    (pieces pieces1 : PieceHeap) (wait_for : List Nat) (task r : Nat)
    (hrec : m.recordingBuffer = some r)
    (h : m.SubmitCurrent tasks pieces wait_for = .ok (m1, tasks1, pieces1, task)) :
    ∃ (c : __CommandListManager) (semaphores : List Nat),
      m.cmdLists[r]? = some c ∧ c.State = CommandListState.Recording ∧
      tasks1 = tasks ++ [{ GPUFinished := some tasks.length, children := [], finished := false }] ∧
      task = tasks.length ∧
      fillWaiting tasks1 wait_for [] = .ok semaphores ∧
      markSubmitted pieces m.populated = .ok pieces1 ∧
      m1 = { m with
              cmdLists := m.cmdLists.set r { c with State := CommandListState.Executable }
              waitingSemaphores := semaphores
              waintingStages :=
                List.replicate semaphores.length VK_PIPELINE_STAGE_ALL_COMMANDS_BIT
              submits := m.submits ++
                [{ pCommandBuffers := [c.vkCmdList]
                   pWaitSemaphores := semaphores
                   pWaitDstStageMask :=
                     List.replicate semaphores.length VK_PIPELINE_STAGE_ALL_COMMANDS_BIT
                   pSignalSemaphores := [tasks.length] }]
              submittedBuffers := m.submittedBuffers ++ [r]
              submittedTasks := m.submittedTasks ++ [tasks.length]
              populated := []
              recordingBuffer := none } := by
  unfold SubmitCurrent at h
  simp only [hrec] at h
  split at h
  · cases h
  · rename_i c hc
    split at h
    · cases h
    · rename_i c1 hc1
      split at h
      · cases h
      · rename_i semaphores hfill
        split at h
        · cases h
        · rename_i pieces2 hmark
          simp only [Except.ok.injEq, Prod.mk.injEq] at h
          obtain ⟨hm, ht, hp, htask⟩ := h
          subst hm hp
          have hstate : c.State = CommandListState.Recording := by
            unfold __CommandListManager.__Close at hc1
            by_contra hne
            simp [hne] at hc1
          have hc1eq : c1 = { c with State := CommandListState.Executable } := by
            unfold __CommandListManager.__Close at hc1
            simp only [hstate, ne_eq, not_true_eq_false, if_false, Except.ok.injEq] at hc1
            exact hc1.symm
          subst hc1eq
          refine ⟨c, semaphores, hc, hstate, ?_, ?_, ?_, hmark, rfl⟩
          · rw [← ht]; rfl
          · rw [← htask]; rfl
          · rw [← ht]; exact hfill

/-- When `recordingBuffer` points to a recording command list, the task heap is acyclic and
the populated pieces exist, `SubmitCurrent` returns. -/
theorem SubmitCurrent_returns (m : __CommandQueueManager) (tasks : TaskHeap)
    (pieces : PieceHeap) (wait_for : List Nat) (r : Nat) (c : __CommandListManager)
    (hrec : m.recordingBuffer = some r) (hc : m.cmdLists[r]? = some c)
    (hstate : c.State = CommandListState.Recording)
    (hacyclic : __GPUTask.Acyclic tasks)
    (hpieces : ∀ w ∈ m.populated, w < pieces.length) :
    ∃ m1 tasks1 pieces1 task,
      m.SubmitCurrent tasks pieces wait_for = .ok (m1, tasks1, pieces1, task) := by
  obtain ⟨pieces1, hmark⟩ := markSubmitted_returns m.populated pieces hpieces
  have hfill := fillWaiting_flatten (__GPUTask.CreateSingle tasks tasks.length false).1
    (__GPUTask.CreateSingle_acyclic tasks tasks.length false hacyclic) wait_for []
  unfold SubmitCurrent
  simp only [hrec, hc, __CommandListManager.__Close, hstate, ne_eq, not_true_eq_false,
    if_false, hfill, hmark]
  exact ⟨_, _, _, _, rfl⟩

end __CommandQueueManager


namespace __CommandQueueManager

/-- The wait semaphores of the submission that a returning `SubmitCurrent` builds on an
acyclic heap: in the order of `wait_for`, the flattening of each task that stops at
finished tasks, which is the flattening of the specification when the flags of the heap
are consistent; the wait stages are as many. -/
theorem SubmitCurrent_wait_semaphores (m m1 : __CommandQueueManager) (tasks tasks1 : TaskHeap)
    (pieces pieces1 : PieceHeap) (wait_for : List Nat) (task r : Nat)
    (hrec : m.recordingBuffer = some r) (hacyclic : __GPUTask.Acyclic tasks)
    (h : m.SubmitCurrent tasks pieces wait_for = .ok (m1, tasks1, pieces1, task)) :
    ∃ sinfo, m1.submits = m.submits ++ [sinfo] ∧
      sinfo.pWaitSemaphores = wait_for.flatMap (__GPUTask.flattenUnfinished tasks1) ∧
      sinfo.pWaitDstStageMask.length = sinfo.pWaitSemaphores.length ∧
      (__GPUTask.Consistent tasks1 →
        sinfo.pWaitSemaphores = wait_for.flatMap (__GPUTask.flatten tasks1)) := by
  obtain ⟨c, semaphores, -, -, ht, -, hfill, -, hm1⟩ :=
    SubmitCurrent_recording m m1 tasks tasks1 pieces pieces1 wait_for task r hrec h
  have hac1 : __GPUTask.Acyclic tasks1 := by
    rw [ht]
    exact __GPUTask.CreateSingle_acyclic tasks tasks.length false hacyclic
  rw [fillWaiting_flatten tasks1 hac1 wait_for []] at hfill
  simp only [List.nil_append, Except.ok.injEq] at hfill
  refine ⟨_, by rw [hm1], hfill.symm, by simp, ?_⟩
  intro hcons
  have hfun : __GPUTask.flatten tasks1 = __GPUTask.flattenUnfinished tasks1 :=
    funext (fun i => __GPUTask.flatten_go_eq_unfinished tasks1 hcons tasks1.length i)
  rw [hfun]
  exact hfill.symm

end __CommandQueueManager

/-- Claim C21: when `recordingBuffer` points to a recording command list (with an acyclic
task heap and the populated pieces alive), `SubmitCurrent` returns and leaves the manager
with `recordingBuffer` null and `populated` empty; the former recording handle is the last
of `submittedBuffers`, the returned task, unfinished and owning a new semaphore, is the
last of `submittedTasks`; every piece that was in `populated` is `SUBMITTED`, no other piece
changed, and the reusable list is as it was. -/
theorem C21_SubmitCurrent_moves_recording (m : __CommandQueueManager) (tasks : TaskHeap)
    (pieces : PieceHeap) (wait_for : List Nat) (r : Nat) (c : __CommandListManager)
    (hrec : m.recordingBuffer = some r) (hc : m.cmdLists[r]? = some c)
    (hstate : c.State = CommandListState.Recording)
    (hacyclic : __GPUTask.Acyclic tasks)
    (hpieces : ∀ w ∈ m.populated, w < pieces.length) :
    ∃ m1 tasks1 pieces1 task,
      m.SubmitCurrent tasks pieces wait_for = .ok (m1, tasks1, pieces1, task) ∧
      m1.recordingBuffer = none ∧ m1.populated = [] ∧
      m1.submittedBuffers = m.submittedBuffers ++ [r] ∧
      m1.submittedTasks = m.submittedTasks ++ [task] ∧
      tasks1 = tasks ++ [{ GPUFinished := some tasks.length, children := [], finished := false }] ∧
      tasks1[task]? =
        some { GPUFinished := some tasks.length, children := [], finished := false } ∧
      (∀ w ∈ m.populated, ∃ piece, pieces1[w]? = some piece ∧
        piece.State = WorkPieceState.SUBMITTED) ∧
      (∀ w, w ∉ m.populated → pieces1[w]? = pieces[w]?) ∧
      m1.reusableCmdBuffers = m.reusableCmdBuffers := by
  obtain ⟨m1, tasks1, pieces1, task, h⟩ :=
    __CommandQueueManager.SubmitCurrent_returns m tasks pieces wait_for r c hrec hc hstate
      hacyclic hpieces
  obtain ⟨c0, semaphores, -, -, ht, htask, -, hmark, hm1⟩ :=
    __CommandQueueManager.SubmitCurrent_recording m m1 tasks tasks1 pieces pieces1 wait_for
      task r hrec h
  obtain ⟨-, hsub, hother, -⟩ :=
    __CommandQueueManager.markSubmitted_spec m.populated pieces pieces1 hmark
  refine ⟨m1, tasks1, pieces1, task, h, ?_, ?_, ?_, ?_, ht, ?_, hsub, hother, ?_⟩
  · rw [hm1]
  · rw [hm1]
  · rw [hm1]
  · rw [hm1, htask]
  · rw [ht, htask, List.getElem?_concat_length]
  · rw [hm1]

theorem C21_SubmitCurrent_witness :
    sampleDispatched.manager.recordingBuffer = some 0 ∧
    sampleDispatched.manager.populated = [0] ∧
    ∃ m1 tasks1 pieces1 task,
      sampleDispatched.manager.SubmitCurrent [] sampleDispatched.1.pieces [] =
        .ok (m1, tasks1, pieces1, task) ∧
      m1.recordingBuffer = none ∧ m1.populated = [] ∧
      m1.submittedBuffers = sampleDispatched.manager.submittedBuffers ++ [0] ∧
      m1.submittedTasks = sampleDispatched.manager.submittedTasks ++ [task] ∧
      tasks1 = [] ++ [{ GPUFinished := some ([] : TaskHeap).length, children := [],
                        finished := false }] ∧
      tasks1[task]? =
        some { GPUFinished := some ([] : TaskHeap).length, children := [], finished := false } ∧
      (∀ w ∈ sampleDispatched.manager.populated, ∃ piece, pieces1[w]? = some piece ∧
        piece.State = WorkPieceState.SUBMITTED) ∧
      (∀ w, w ∉ sampleDispatched.manager.populated →
        pieces1[w]? = sampleDispatched.1.pieces[w]?) ∧
      m1.reusableCmdBuffers = sampleDispatched.manager.reusableCmdBuffers :=
  ⟨by decide, by decide,
    C21_SubmitCurrent_moves_recording sampleDispatched.manager [] sampleDispatched.1.pieces []
      0 (sampleDispatched.manager.cmdLists.getD 0
        { vkCmdList := 0, SupportedEngines := 0, State := CommandListState.Initial,
          recorded := [] })
      (by decide) (by rfl) (by decide) (fun i t hi => by simp at hi) (by decide)⟩

/-- Claim C22: when `recordingBuffer` is null, `SubmitCurrent` returns a new task that is
finished, owns no native semaphore and has no children; nothing is submitted and the
command queue manager is returned as it was, field for field, as are the work pieces and
the tasks that existed. -/
theorem C22_SubmitCurrent_without_recording (m : __CommandQueueManager) (tasks : TaskHeap)
    (pieces : PieceHeap) (wait_for : List Nat) (hrec : m.recordingBuffer = none) :
    m.SubmitCurrent tasks pieces wait_for =
      .ok (m, tasks ++ [{ GPUFinished := none, children := [], finished := true }], pieces,
           tasks.length) := by
  unfold __CommandQueueManager.SubmitCurrent
  simp only [hrec]
  rfl

theorem C22_SubmitCurrent_witness :
    (__CommandQueueManager.new 15 0 false).recordingBuffer = none ∧
    (__CommandQueueManager.new 15 0 false).SubmitCurrent [] [] [] =
      .ok (__CommandQueueManager.new 15 0 false,
           [] ++ [{ GPUFinished := none, children := [], finished := true }], [],
           ([] : TaskHeap).length) :=
  ⟨rfl, C22_SubmitCurrent_without_recording (__CommandQueueManager.new 15 0 false) [] [] [] rfl⟩

/-- Claim C23, on a tree built by `Combine`: the union of one unfinished task owning the
semaphore `7` is flagged finished, so `SubmitCurrent` with that union in `wait_for` builds a
submission with no wait semaphore, although the flattening of the tree holds `7`; the code
stops at a task flagged finished.  The wait stages are as many as the wait semaphores. -/
theorem C23_wait_semaphores_miss_combined_pending :
    __GPUTask.finishedAt pendingCombined.1 0 = false ∧
    __GPUTask.finishedAt pendingCombined.1 pendingCombined.2 = true ∧
    (recordingManager.SubmitCurrent pendingCombined.1 [] [pendingCombined.2]).map
        (fun r => (r.1.submits.map (fun s => (s.pWaitSemaphores, s.pWaitDstStageMask)),
          __GPUTask.flatten r.2.1 pendingCombined.2,
          __GPUTask.flattenUnfinished r.2.1 pendingCombined.2)) =
      .ok ([([], [])], [7], []) ∧
    (recordingManager.SubmitCurrent pendingCombined.1 [] [0]).map
        (fun r => r.1.submits.map (fun s => (s.pWaitSemaphores, s.pWaitDstStageMask))) =
      .ok [([7], [VK_PIPELINE_STAGE_ALL_COMMANDS_BIT])] := by
  decide


namespace __CommandQueueManager

/-- What `Peek` does when `recordingBuffer` is null: with more than one reusable handle the
last one is popped, otherwise (also with exactly one) a command list is created and the
reusable list is left as it was; the handle returned is recording and becomes
`recordingBuffer`. -/
theorem Peek_without_recording (m m1 : __CommandQueueManager) (r : Nat)
    (hrec : m.recordingBuffer = none) (h : m.Peek = .ok (m1, r)) :
    m1.recordingBuffer = some r ∧
    (∃ c, m1.cmdLists[r]? = some c ∧ c.State = CommandListState.Recording) ∧
    (1 < m.reusableCmdBuffers.length →
      m.reusableCmdBuffers.getLast? = some r ∧
      m1.reusableCmdBuffers = m.reusableCmdBuffers.dropLast ∧
      m1.cmdLists.length = m.cmdLists.length) ∧
    (m.reusableCmdBuffers.length ≤ 1 →
      r = m.cmdLists.length ∧ m1.reusableCmdBuffers = m.reusableCmdBuffers ∧
      m1.cmdLists.length = m.cmdLists.length + 1) := by
  unfold Peek at h
  simp only [hrec] at h
  cases hf : m.FetchNew with
  | error f => rw [hf] at h; cases h
  | ok mr =>
    obtain ⟨m2, r2⟩ := mr
    rw [hf] at h
    simp only [Except.ok.injEq, Prod.mk.injEq] at h
    obtain ⟨hm, hr⟩ := h
    subst hm hr
    unfold FetchNew at hf
    by_cases hlen : m.reusableCmdBuffers.length > 1
    · simp only [hlen, if_true] at hf
      split at hf
      · cases hf
      · rename_i c0 hc0
        split at hf
        · cases hf
        · rename_i c1 hc1
          simp only [Except.ok.injEq, Prod.mk.injEq] at hf
          obtain ⟨hm, hr⟩ := hf
          subst hm hr
          have hlt : m.reusableCmdBuffers.getLastD 0 < m.cmdLists.length :=
            (List.getElem?_eq_some_iff.mp hc0).1
          refine ⟨rfl, ⟨c1, by simp only [List.getElem?_set]; rw [if_pos trivial, if_pos hlt],
            __CommandListManager.Open_state c0 c1 hc1⟩, ?_, fun hle => absurd hlen (by omega)⟩
          intro _
          refine ⟨?_, rfl, by simp only [List.length_set]⟩
          cases hl : m.reusableCmdBuffers.getLast? with
          | none =>
            rw [List.getLast?_eq_none_iff] at hl
            rw [hl] at hlen
            simp at hlen
          | some x =>
            rw [List.getLastD_eq_getLast?, hl]
            rfl
    · simp only [hlen, if_false] at hf
      split at hf
      · cases hf
      · rename_i c0 hc0
        split at hf
        · cases hf
        · rename_i c1 hc1
          simp only [Except.ok.injEq, Prod.mk.injEq] at hf
          obtain ⟨hm, hr⟩ := hf
          subst hm hr
          refine ⟨rfl, ⟨c1, by simp [List.getElem?_set],
            __CommandListManager.Open_state c0 c1 hc1⟩, fun hgt => absurd hgt hlen, ?_⟩
          intro _
          exact ⟨rfl, rfl, by simp⟩

end __CommandQueueManager

/-- Claim C24, on a manager with exactly one reusable handle and nothing recording (the
state after a submit and `WaitForPendings`): `Peek` does not pop the reusable handle; it
creates a second command list, which becomes `recordingBuffer`, and the reusable list still
holds the first. -/
theorem C24_Peek_leaves_single_reusable_handle :
    retiredManager.recordingBuffer = none ∧
    retiredManager.reusableCmdBuffers = [0] ∧
    retiredManager.cmdLists.map (fun c => c.State) = [CommandListState.Initial] ∧
    retiredManager.Peek.map
        (fun r => (r.2, r.1.recordingBuffer, r.1.reusableCmdBuffers,
          r.1.cmdLists.map (fun c => c.State))) =
      .ok (1, some 1, [0], [CommandListState.Initial, CommandListState.Recording]) := by
  decide

/-- Claim C25, what the code does instead: the handle that `SubmitCurrent` moves to
`submittedBuffers` is in state `Executable`, not `OnGPU`; and `__Reset` on a handle in state
`OnGPU` throws instead of taking it to `Initial`. -/
theorem C25_submitted_handle_is_Executable :
    submittedManager.submittedBuffers = [0] ∧
    submittedManager.cmdLists.map (fun c => c.State) = [CommandListState.Executable] ∧
    ({ vkCmdList := 0, SupportedEngines := 15, State := CommandListState.OnGPU,
       recorded := [] } : __CommandListManager).__Reset =
      .error (.thrown "Reseting a command list has not finished on the gpu") := by
  decide

/-- Claim C25, amended: in every reachable state of a command queue manager no command
list is in state `OnGPU`; `SubmitCurrent` takes the recording handle from `Recording` to
`Executable` and moves it to `submittedBuffers` in that state; the reset done by
`WaitForPendings` and by `Clean` leaves the handles it retires in state `Initial`; and
`__Reset` takes every state but `OnGPU` to `Initial` and throws on `OnGPU`. -/
theorem C25_handles_are_never_OnGPU (m : __CommandQueueManager)
    (hreach : __CommandQueueManager.Reachable m) :
    (∀ (j : Nat) (c : __CommandListManager), m.cmdLists[j]? = some c →
      c.State ≠ CommandListState.OnGPU) ∧
    (∀ (tasks tasks1 : TaskHeap) (pieces pieces1 : PieceHeap) (wait_for : List Nat)
        (m1 : __CommandQueueManager) (task r : Nat), m.recordingBuffer = some r →
      m.SubmitCurrent tasks pieces wait_for = .ok (m1, tasks1, pieces1, task) →
      m1.submittedBuffers = m.submittedBuffers ++ [r] ∧
      ∃ c c1, m.cmdLists[r]? = some c ∧ c.State = CommandListState.Recording ∧
        m1.cmdLists[r]? = some c1 ∧ c1.State = CommandListState.Executable) ∧
    (∀ (tasks tasks1 : TaskHeap) (m1 : __CommandQueueManager),
      m.WaitForPendings tasks = .ok (m1, tasks1) →
      ∀ b ∈ m.submittedBuffers, ∃ c c1, m.cmdLists[b]? = some c ∧
        c.State ≠ CommandListState.OnGPU ∧
        m1.cmdLists[b]? = some c1 ∧ c1.State = CommandListState.Initial) ∧
    (∀ (tasks : TaskHeap) (pieces : PieceHeap) (taskOwners pieceOwners : Nat → Nat)
        (m1 : __CommandQueueManager),
      m.Clean tasks pieces taskOwners pieceOwners = .ok m1 →
      ∃ retired, m1.reusableCmdBuffers = m.reusableCmdBuffers ++ retired ∧
        ∀ b ∈ retired, ∃ c1, m1.cmdLists[b]? = some c1 ∧
          c1.State = CommandListState.Initial) ∧
    (∀ c : __CommandListManager,
      (c.State = CommandListState.OnGPU →
        c.__Reset = .error (.thrown "Reseting a command list has not finished on the gpu")) ∧
      (c.State ≠ CommandListState.OnGPU →
        c.__Reset = .ok { c with State := CommandListState.Initial, recorded := [] })) := by
  obtain ⟨-, hvalid, hno⟩ := __CommandQueueManager.Reachable.sound m hreach
  refine ⟨hno, ?_, ?_, ?_, ?_⟩
  · intro tasks tasks1 pieces pieces1 wait_for m1 task r hrec h
    obtain ⟨c, semaphores, hc, hstate, -, -, -, -, hm1⟩ :=
      __CommandQueueManager.SubmitCurrent_recording m m1 tasks tasks1 pieces pieces1 wait_for
        task r hrec h
    have hlt : r < m.cmdLists.length := (List.getElem?_eq_some_iff.mp hc).1
    refine ⟨by rw [hm1], c, { c with State := CommandListState.Executable }, hc, hstate, ?_,
      rfl⟩
    rw [hm1]
    simp [List.getElem?_set, hlt]
  · intro tasks tasks1 m1 h b hb
    obtain ⟨-, -, hR⟩ := __CommandQueueManager.WaitForPendings_spec m m1 tasks tasks1 h
    obtain ⟨c1, hc1, hs1⟩ := hR.2.2.2.1 b hb
    have hlt := hvalid b hb
    exact ⟨m.cmdLists[b], c1, List.getElem?_eq_getElem hlt,
      hno b _ (List.getElem?_eq_getElem hlt), hc1, hs1⟩
  · intro tasks pieces taskOwners pieceOwners m1 h
    obtain ⟨retired, hR⟩ :=
      __CommandQueueManager.Clean_retired m m1 tasks pieces taskOwners pieceOwners h
    exact ⟨retired, hR.2.2.1, hR.2.2.2.1⟩
  · intro c
    constructor
    · intro hs
      simp [__CommandListManager.__Reset, hs]
    · intro hs
      simp [__CommandListManager.__Reset, hs]

theorem C25_handles_witness :
    __CommandQueueManager.Reachable recordingManager ∧
    ((∀ (j : Nat) (c : __CommandListManager), recordingManager.cmdLists[j]? = some c →
      c.State ≠ CommandListState.OnGPU) ∧
    (∀ (tasks tasks1 : TaskHeap) (pieces pieces1 : PieceHeap) (wait_for : List Nat)
        (m1 : __CommandQueueManager) (task r : Nat), recordingManager.recordingBuffer = some r →
      recordingManager.SubmitCurrent tasks pieces wait_for = .ok (m1, tasks1, pieces1, task) →
      m1.submittedBuffers = recordingManager.submittedBuffers ++ [r] ∧
      ∃ c c1, recordingManager.cmdLists[r]? = some c ∧ c.State = CommandListState.Recording ∧
        m1.cmdLists[r]? = some c1 ∧ c1.State = CommandListState.Executable) ∧
    (∀ (tasks tasks1 : TaskHeap) (m1 : __CommandQueueManager),
      recordingManager.WaitForPendings tasks = .ok (m1, tasks1) →
      ∀ b ∈ recordingManager.submittedBuffers, ∃ c c1, recordingManager.cmdLists[b]? = some c ∧
        c.State ≠ CommandListState.OnGPU ∧
        m1.cmdLists[b]? = some c1 ∧ c1.State = CommandListState.Initial) ∧
    (∀ (tasks : TaskHeap) (pieces : PieceHeap) (taskOwners pieceOwners : Nat → Nat)
        (m1 : __CommandQueueManager),
      recordingManager.Clean tasks pieces taskOwners pieceOwners = .ok m1 →
      ∃ retired, m1.reusableCmdBuffers = recordingManager.reusableCmdBuffers ++ retired ∧
        ∀ b ∈ retired, ∃ c1, m1.cmdLists[b]? = some c1 ∧
          c1.State = CommandListState.Initial) ∧
    (∀ c : __CommandListManager,
      (c.State = CommandListState.OnGPU →
        c.__Reset = .error (.thrown "Reseting a command list has not finished on the gpu")) ∧
      (c.State ≠ CommandListState.OnGPU →
        c.__Reset = .ok { c with State := CommandListState.Initial, recorded := [] }))) :=
  ⟨__CommandQueueManager.Reachable.peek _ recordingManager 0
      (__CommandQueueManager.Reachable.new GraphicsManager.SupportedEngines 0 false) (by rfl),
    C25_handles_are_never_OnGPU recordingManager
      (__CommandQueueManager.Reachable.peek _ recordingManager 0
        (__CommandQueueManager.Reachable.new GraphicsManager.SupportedEngines 0 false)
        (by rfl))⟩


/-! ## The slots of the worker threads -/

namespace __EngineManager

theorem new_managers (supportedEngines : EngineType)
    (frames frame_async_threads async_threads queues : Nat) (e : __EngineManager)
    (h : __EngineManager.new supportedEngines frames frame_async_threads async_threads queues =
      .ok e) :
    e.frames = frames ∧ e.frame_async_threads = frame_async_threads ∧
    e.async_threads = async_threads ∧ e.supportedEngines = supportedEngines ∧
    e.Managers.length = frames * (frame_async_threads + 1) + async_threads ∧
    e.marked = List.replicate e.Managers.length false ∧
    ∀ i, i < frames * (frame_async_threads + 1) + async_threads →
      e.Managers[i]? = some (__CommandQueueManager.new supportedEngines (i % queues)
        (decide (i ≥ frames * (frame_async_threads + 1)))) := by
  unfold __EngineManager.new at h
  simp only at h
  split at h
  · cases h
  · simp only [Except.ok.injEq] at h
    subst h
    refine ⟨rfl, rfl, rfl, rfl, by simp, by simp, ?_⟩
    intro i hi
    simp [List.getElem?_map, List.getElem?_range hi]

end __EngineManager

namespace __Device

theorem managerIdx_ASYNC (d : __Device) (t : Nat) (ht1 : d._NumberOfAsyncThreadsInFrame < t)
    (ht2 : t ≤ d._NumberOfAsyncThreadsInFrame + d._NumberOfAsyncThreads) :
    __PerformPopulation.managerIdx d .ASYNC t =
      .ok (((d._NumberOfFrames * (d._NumberOfAsyncThreadsInFrame + 1) +
        (t - d._NumberOfAsyncThreadsInFrame - 1) : Nat) : Int)) ∧
    (((d._NumberOfFrames : Int) - 1) * (d._NumberOfAsyncThreadsInFrame + 1) + t =
      ((d._NumberOfFrames * (d._NumberOfAsyncThreadsInFrame + 1) +
        (t - d._NumberOfAsyncThreadsInFrame - 1) : Nat) : Int)) := by
  obtain ⟨k, hk⟩ : ∃ k, t = d._NumberOfAsyncThreadsInFrame + 1 + k := ⟨t - d._NumberOfAsyncThreadsInFrame - 1, by omega⟩
  have hsub : t - d._NumberOfAsyncThreadsInFrame - 1 = k := by omega
  have harith : ((d._NumberOfFrames : Int) - 1) * (d._NumberOfAsyncThreadsInFrame + 1) + t =
      ((d._NumberOfFrames * (d._NumberOfAsyncThreadsInFrame + 1) +
        (t - d._NumberOfAsyncThreadsInFrame - 1) : Nat) : Int) := by
    rw [hsub, hk]
    push_cast
    ring
  refine ⟨?_, harith⟩
  unfold __PerformPopulation.managerIdx
  simp only
  rw [if_pos ⟨ht1, by omega⟩, harith]

end __Device

/-- Claim C26: for a cross-frame worker thread `t`, above `frame_threads` and at most
`frame_threads + async_threads`, the manager index that the population step gives an
`ASYNC` piece is `(frames - 1) * (frame_threads + 1) + t`, which is
`frames * (frame_threads + 1) + (t - frame_threads - 1)`; it does not depend on the frame
index, differs for different threads, lies in the cross-frame range, and in every engine
manager the manager at that index was created with `throwErrorIfAbandonedTasks = true`
while those below the range were created with `false`. -/
theorem C26_async_manager_index (d : __Device) (t : Nat)
    (ht1 : d._NumberOfAsyncThreadsInFrame < t)
    (ht2 : t ≤ d._NumberOfAsyncThreadsInFrame + d._NumberOfAsyncThreads) :
    __Device.__PerformPopulation.managerIdx d .ASYNC t =
      .ok (((d._NumberOfFrames : Int) - 1) * (d._NumberOfAsyncThreadsInFrame + 1) + t) ∧
    (((d._NumberOfFrames : Int) - 1) * (d._NumberOfAsyncThreadsInFrame + 1) + t =
      ((d._NumberOfFrames * (d._NumberOfAsyncThreadsInFrame + 1) +
        (t - d._NumberOfAsyncThreadsInFrame - 1) : Nat) : Int)) ∧
    d._NumberOfFrames * (d._NumberOfAsyncThreadsInFrame + 1) ≤
      d._NumberOfFrames * (d._NumberOfAsyncThreadsInFrame + 1) +
        (t - d._NumberOfAsyncThreadsInFrame - 1) ∧
    d._NumberOfFrames * (d._NumberOfAsyncThreadsInFrame + 1) +
        (t - d._NumberOfAsyncThreadsInFrame - 1) <
      d._NumberOfFrames * (d._NumberOfAsyncThreadsInFrame + 1) + d._NumberOfAsyncThreads ∧
    (∀ frame : Nat,
      __Device.__PerformPopulation.managerIdx { d with _FrameIndex := frame } .ASYNC t =
        __Device.__PerformPopulation.managerIdx d .ASYNC t) ∧
    (∀ t1 : Nat, d._NumberOfAsyncThreadsInFrame < t1 →
      t1 ≤ d._NumberOfAsyncThreadsInFrame + d._NumberOfAsyncThreads → t1 ≠ t →
      __Device.__PerformPopulation.managerIdx d .ASYNC t1 ≠
        __Device.__PerformPopulation.managerIdx d .ASYNC t) ∧
    (∀ (supportedEngines : EngineType) (queues : Nat) (e : __EngineManager),
      __EngineManager.new supportedEngines d._NumberOfFrames d._NumberOfAsyncThreadsInFrame
        d._NumberOfAsyncThreads queues = .ok e →
      (∃ m, e.Managers[d._NumberOfFrames * (d._NumberOfAsyncThreadsInFrame + 1) +
          (t - d._NumberOfAsyncThreadsInFrame - 1)]? = some m ∧
        m.throwErrorIfAbandonedTasks = true) ∧
      (∀ i, i < d._NumberOfFrames * (d._NumberOfAsyncThreadsInFrame + 1) →
        ∃ m, e.Managers[i]? = some m ∧ m.throwErrorIfAbandonedTasks = false)) := by
  obtain ⟨hidx, harith⟩ := __Device.managerIdx_ASYNC d t ht1 ht2
  refine ⟨by rw [hidx, harith], harith, by omega, by omega, ?_, ?_, ?_⟩
  · intro frame
    rfl
  · intro t1 h1 h2 hne heq
    rw [(__Device.managerIdx_ASYNC d t1 h1 h2).1, hidx] at heq
    simp only [Except.ok.injEq, Nat.cast_inj] at heq
    omega
  · intro supportedEngines queues e he
    obtain ⟨-, -, -, -, -, -, hmgr⟩ := __EngineManager.new_managers _ _ _ _ _ e he
    constructor
    · refine ⟨_, hmgr _ (by omega), ?_⟩
      simp [__CommandQueueManager.new]
    · intro i hi
      refine ⟨_, hmgr i (by omega), ?_⟩
      simp [__CommandQueueManager.new]
      omega

theorem C26_async_manager_witness :
    flushedDevice.device._NumberOfAsyncThreadsInFrame < 1 ∧
    __Device.__PerformPopulation.managerIdx flushedDevice.device .ASYNC 1 = .ok 1 ∧
    __Device.__PerformPopulation.managerIdx flushedDevice.device .ASYNC 1 =
      .ok (((flushedDevice.device._NumberOfFrames : Int) - 1) *
        (flushedDevice.device._NumberOfAsyncThreadsInFrame + 1) + (1 : Nat)) :=
  ⟨by decide, by decide,
    (C26_async_manager_index flushedDevice.device 1 (by decide) (by decide)).1⟩


/-! ## What `Clean` keeps and what it retires -/

theorem swapRemove_append {α : Type} (pre : List α) (x : α) (rest : List α) (last : α)
    (hlast : (pre ++ x :: rest).getLast? = some last) :
    (rest = [] ∧ ((pre ++ x :: rest).set pre.length last).dropLast = pre) ∨
    (∃ mid, rest = mid ++ [last] ∧
      ((pre ++ x :: rest).set pre.length last).dropLast = pre ++ last :: mid) := by
  have hset : (pre ++ x :: rest).set pre.length last = pre ++ last :: rest := by simp
  rw [hset]
  rcases List.eq_nil_or_concat rest with hnil | ⟨mid, z, hrest⟩
  · left
    subst hnil
    exact ⟨rfl, List.dropLast_concat⟩
  · right
    rw [List.concat_eq_append] at hrest
    subst hrest
    have hz : z = last := by
      rw [← List.cons_append, ← List.append_assoc, List.getLast?_concat] at hlast
      exact Option.some.inj hlast
    subst hz
    refine ⟨mid, rfl, ?_⟩
    rw [← List.cons_append, ← List.append_assoc, List.dropLast_concat]

theorem swapRemove_zip {α β : Type} (a : List α) (b : List β) (i : Nat) (la : α) (lb : β)
    (hlen : a.length = b.length) (hi : i < a.length)
    (hla : a.getLast? = some la) (hlb : b.getLast? = some lb) :
    ((a.set i la).dropLast).length = ((b.set i lb).dropLast).length ∧
    (List.zip ((a.set i la).dropLast) ((b.set i lb).dropLast)).take i = (List.zip a b).take i ∧
    List.Perm ((List.zip ((a.set i la).dropLast) ((b.set i lb).dropLast)).drop i)
      ((List.zip a b).drop (i + 1)) := by
  have hib : i < b.length := by omega
  have ha : a = a.take i ++ a[i] :: a.drop (i + 1) := by
    rw [List.getElem_cons_drop, List.take_append_drop]
  have hb : b = b.take i ++ b[i] :: b.drop (i + 1) := by
    rw [List.getElem_cons_drop, List.take_append_drop]
  have hpa : (a.take i).length = i := by rw [List.length_take]; omega
  have hpb : (b.take i).length = i := by rw [List.length_take]; omega
  have hra : (a.drop (i + 1)).length = (b.drop (i + 1)).length := by
    rw [List.length_drop, List.length_drop, hlen]
  generalize a.take i = preA at ha hpa
  generalize b.take i = preB at hb hpb
  generalize a.drop (i + 1) = restA at ha hra
  generalize b.drop (i + 1) = restB at hb hra
  generalize a[i] = xa at ha
  generalize b[i] = xb at hb
  subst ha hb
  have hzip : ∀ (ya : α) (yb : β) (ra : List α) (rb : List β),
      List.zip (preA ++ ya :: ra) (preB ++ yb :: rb) =
        List.zip preA preB ++ (ya, yb) :: List.zip ra rb := by
    intro ya yb ra rb
    rw [List.zip_append (by omega)]
    rfl
  have hzl : (List.zip preA preB).length = i := by
    rw [List.length_zip]; omega
  rcases swapRemove_append preA xa restA la hla with ⟨hnilA, hsA⟩ | ⟨midA, hmidA, hsA⟩
  · rcases swapRemove_append preB xb restB lb hlb with ⟨hnilB, hsB⟩ | ⟨midB, hmidB, hsB⟩
    · rw [hpa] at hsA
      rw [hpb] at hsB
      rw [hsA, hsB, hzip]
      subst hnilA hnilB
      refine ⟨by omega, ?_, ?_⟩
      · rw [← hzl, List.take_left, List.take_length]
      · rw [← hzl, List.drop_length]
        simp
    · subst hnilA hmidB
      simp at hra
  · rcases swapRemove_append preB xb restB lb hlb with ⟨hnilB, hsB⟩ | ⟨midB, hmidB, hsB⟩
    · subst hnilB hmidA
      simp at hra
    · rw [hpa] at hsA
      rw [hpb] at hsB
      rw [hsA, hsB, hzip, hzip]
      subst hmidA hmidB
      have hmid : midA.length = midB.length := by simpa using hra
      refine ⟨by simp; omega, ?_, ?_⟩
      · rw [← hzl, List.take_left, List.take_left]
      · rw [← hzl, List.drop_left]
        have h2 : List.drop ((List.zip preA preB).length + 1)
            (List.zip preA preB ++ (xa, xb) :: List.zip (midA ++ [la]) (midB ++ [lb])) =
            List.zip (midA ++ [la]) (midB ++ [lb]) := by
          rw [show List.zip preA preB ++ (xa, xb) :: List.zip (midA ++ [la]) (midB ++ [lb]) =
            (List.zip preA preB ++ [(xa, xb)]) ++ List.zip (midA ++ [la]) (midB ++ [lb]) by simp]
          rw [show (List.zip preA preB).length + 1 = (List.zip preA preB ++ [(xa, xb)]).length by simp]
          rw [List.drop_left]
        rw [h2, List.zip_append hmid]
        exact @List.perm_append_comm _ [(la, lb)] (List.zip midA midB)

theorem drop_of_getElem? {α : Type} (l : List α) (i : Nat) (x : α) (h : l[i]? = some x) :
    l.drop i = x :: l.drop (i + 1) := by
  obtain ⟨hlt, hx⟩ := List.getElem?_eq_some_iff.mp h
  rw [List.drop_eq_getElem_cons hlt, hx]

theorem take_of_getElem? {α : Type} (l : List α) (i : Nat) (x : α) (h : l[i]? = some x) :
    l.take (i + 1) = l.take i ++ [x] := by
  rw [List.take_succ, h]
  rfl


namespace __CommandQueueManager

theorem Clean.loop_pairs (tasks : TaskHeap) (taskOwners : Nat → Nat) :
    ∀ (fuel : Nat) (m : __CommandQueueManager) (i : Nat) (m1 : __CommandQueueManager),
      m.submittedBuffers.length = m.submittedTasks.length →
      Clean.loop tasks taskOwners fuel m i = .ok m1 →
      m1.submittedBuffers.length = m1.submittedTasks.length ∧
      ∃ retired, m1.reusableCmdBuffers = m.reusableCmdBuffers ++ retired ∧
        List.Perm m1.submittedPairs
          (m.submittedPairs.take i ++
            (m.submittedPairs.drop i).filter (fun p => !__GPUTask.finishedAt tasks p.2)) ∧
        List.Perm retired
          (((m.submittedPairs.drop i).filter
            (fun p => __GPUTask.finishedAt tasks p.2)).map Prod.fst) := by
  intro fuel
  have hdone : ∀ (m : __CommandQueueManager) (i : Nat),
      m.submittedBuffers.length = m.submittedTasks.length →
      ¬ i < m.submittedTasks.length →
      m.submittedBuffers.length = m.submittedTasks.length ∧
      ∃ retired, m.reusableCmdBuffers = m.reusableCmdBuffers ++ retired ∧
        List.Perm m.submittedPairs
          (m.submittedPairs.take i ++
            (m.submittedPairs.drop i).filter (fun p => !__GPUTask.finishedAt tasks p.2)) ∧
        List.Perm retired
          (((m.submittedPairs.drop i).filter
            (fun p => __GPUTask.finishedAt tasks p.2)).map Prod.fst) := by
    intro m i hlen hi
    have hpl : m.submittedPairs.length ≤ i := by
      unfold submittedPairs
      rw [List.length_zip]
      omega
    refine ⟨hlen, [], by simp, ?_, ?_⟩
    · rw [List.take_of_length_le hpl, List.drop_eq_nil_of_le hpl]
      simp
    · rw [List.drop_eq_nil_of_le hpl]
      simp
  induction fuel with
  | zero =>
    intro m i m1 hlen h
    simp only [Clean.loop] at h
    split at h
    · cases h
    · rename_i hi
      cases h
      exact hdone m i hlen hi
  | succ fuel ih =>
    intro m i m1 hlen h
    simp only [Clean.loop] at h
    split at h
    · rename_i hi
      split at h
      · cases h
      · rename_i t hti
        split at h
        · cases h
        · rename_i task htask
          split at h
          · rename_i hfin
            split at h
            · rename_i b lastBuffer lastTask hb hlb hlt
              split at h
              · cases h
              · rename_i c hc
                split at h
                · cases h
                · rename_i c1 hc1
                  obtain ⟨hlen1, htake, hperm⟩ := swapRemove_zip m.submittedBuffers
                    m.submittedTasks i lastBuffer lastTask hlen (by omega) hlb hlt
                  obtain ⟨hl1, retired1, hre1, hp1, hr1⟩ := ih _ i m1 hlen1 h
                  have hpair : m.submittedPairs[i]? = some (b, t) := by
                    unfold submittedPairs
                    rw [List.getElem?_zip_eq_some]
                    exact ⟨hb, hti⟩
                  have hfinAt : __GPUTask.finishedAt tasks t = true := by
                    simp [__GPUTask.finishedAt, htask, hfin]
                  have hdrop := drop_of_getElem? m.submittedPairs i (b, t) hpair
                  refine ⟨hl1, b :: retired1, ?_, ?_, ?_⟩
                  · rw [hre1]
                    simp
                  · refine hp1.trans ?_
                    simp only [submittedPairs] at htake hperm hdrop ⊢
                    rw [htake, hdrop]
                    simp only [List.filter_cons, hfinAt, Bool.not_true, Bool.false_eq_true,
                      if_false]
                    exact List.Perm.append_left _ (List.Perm.filter _ hperm)
                  · simp only [submittedPairs] at hperm hr1 hdrop ⊢
                    rw [hdrop]
                    simp only [List.filter_cons, hfinAt, if_true, List.map_cons]
                    exact List.Perm.cons b
                      (hr1.trans (List.Perm.map _ (List.Perm.filter _ hperm)))
            · cases h
          · rename_i hfin
            split at h
            · cases h
            · obtain ⟨hl1, retired1, hre1, hp1, hr1⟩ := ih m (i + 1) m1 hlen h
              have hib : i < m.submittedBuffers.length := by omega
              have hpair : m.submittedPairs[i]? = some (m.submittedBuffers[i], t) := by
                unfold submittedPairs
                rw [List.getElem?_zip_eq_some]
                exact ⟨List.getElem?_eq_getElem hib, hti⟩
              have hfinAt : __GPUTask.finishedAt tasks t = false := by
                simp [__GPUTask.finishedAt, htask, hfin]
              have hdrop := drop_of_getElem? m.submittedPairs i _ hpair
              have htk := take_of_getElem? m.submittedPairs i _ hpair
              refine ⟨hl1, retired1, hre1, ?_, ?_⟩
              · rw [htk] at hp1
                rw [hdrop]
                simp only [List.filter_cons, hfinAt, Bool.not_false, if_true]
                simpa using hp1
              · rw [hdrop]
                simp only [List.filter_cons, hfinAt, Bool.false_eq_true, if_false]
                exact hr1
    · rename_i hi
      cases h
      exact hdone m i hlen hi

/-- What a returning `Clean` leaves of the submitted vectors, when they were parallel: they
are parallel, their pairs are the former pairs whose task is unfinished, and the command
lists of the other pairs were reset and appended to the reusable list. -/
theorem Clean_pairs (m m1 : __CommandQueueManager) (tasks : TaskHeap) (pieces : PieceHeap)
    (taskOwners pieceOwners : Nat → Nat)
    (hlen : m.submittedBuffers.length = m.submittedTasks.length)
    (h : m.Clean tasks pieces taskOwners pieceOwners = .ok m1) :
    m1.submittedBuffers.length = m1.submittedTasks.length ∧
    List.Perm m1.submittedPairs
      (m.submittedPairs.filter (fun p => !__GPUTask.finishedAt tasks p.2)) ∧
    ∃ retired, m1.reusableCmdBuffers = m.reusableCmdBuffers ++ retired ∧
      List.Perm retired
        ((m.submittedPairs.filter (fun p => __GPUTask.finishedAt tasks p.2)).map Prod.fst) ∧
      ∀ b ∈ retired, ∃ c, m1.cmdLists[b]? = some c ∧ c.State = CommandListState.Initial := by
  obtain ⟨retired2, hR⟩ := Clean_retired m m1 tasks pieces taskOwners pieceOwners h
  unfold Clean at h
  split at h
  · cases h
  · rename_i m2 hloop
    split at h
    · cases h
    · simp only [Except.ok.injEq] at h
      subst h
      obtain ⟨hl1, retired, hre, hp, hr⟩ :=
        Clean.loop_pairs tasks taskOwners _ m 0 m2 hlen hloop
      simp only [List.take_zero, List.nil_append, List.drop_zero] at hp hr
      have heq : retired2 = retired := by
        have := hR.2.2.1
        rw [hre] at this
        exact (List.append_cancel_left this).symm
      subst heq
      exact ⟨hl1, hp, retired2, hre, hr, hR.2.2.2.1⟩

end __CommandQueueManager


/-- Claim C28: when `Clean` returns on a manager whose submitted vectors are parallel,
`submittedBuffers` and `submittedTasks` are parallel again; their pairs are, up to order,
the former pairs whose task is unfinished, each command list with its own task; and the
command lists of the pairs whose task is finished are in state `Initial` and were appended
to the reusable list. -/
theorem C28_Clean_keeps_unfinished_pairs (m m1 : __CommandQueueManager) (tasks : TaskHeap)
    (pieces : PieceHeap) (taskOwners pieceOwners : Nat → Nat)
    (hlen : m.submittedBuffers.length = m.submittedTasks.length)
    (h : m.Clean tasks pieces taskOwners pieceOwners = .ok m1) :
    m1.submittedBuffers.length = m1.submittedTasks.length ∧
    List.Perm (List.zip m1.submittedBuffers m1.submittedTasks)
      ((List.zip m.submittedBuffers m.submittedTasks).filter
        (fun p => !__GPUTask.finishedAt tasks p.2)) ∧
    ∃ retired, m1.reusableCmdBuffers = m.reusableCmdBuffers ++ retired ∧
      List.Perm retired
        (((List.zip m.submittedBuffers m.submittedTasks).filter
          (fun p => __GPUTask.finishedAt tasks p.2)).map Prod.fst) ∧
      ∀ b ∈ retired, ∃ c, m1.cmdLists[b]? = some c ∧ c.State = CommandListState.Initial :=
  __CommandQueueManager.Clean_pairs m m1 tasks pieces taskOwners pieceOwners hlen h

theorem C28_Clean_witness :
    List.zip twoSubmitted.1.submittedBuffers twoSubmitted.1.submittedTasks = [(0, 0), (1, 1)] ∧
    twoSubmitted.2.map (fun t => t.finished) = [true, false] ∧
    List.zip twoSubmitted.cleaned.submittedBuffers twoSubmitted.cleaned.submittedTasks =
      [(1, 1)] ∧
    twoSubmitted.cleaned.reusableCmdBuffers = [0] ∧
    (twoSubmitted.cleaned.submittedBuffers.length = twoSubmitted.cleaned.submittedTasks.length ∧
    List.Perm (List.zip twoSubmitted.cleaned.submittedBuffers twoSubmitted.cleaned.submittedTasks)
      ((List.zip twoSubmitted.1.submittedBuffers twoSubmitted.1.submittedTasks).filter
        (fun p => !__GPUTask.finishedAt twoSubmitted.2 p.2)) ∧
    ∃ retired, twoSubmitted.cleaned.reusableCmdBuffers =
        twoSubmitted.1.reusableCmdBuffers ++ retired ∧
      List.Perm retired
        (((List.zip twoSubmitted.1.submittedBuffers twoSubmitted.1.submittedTasks).filter
          (fun p => __GPUTask.finishedAt twoSubmitted.2 p.2)).map Prod.fst) ∧
      ∀ b ∈ retired, ∃ c, twoSubmitted.cleaned.cmdLists[b]? = some c ∧
        c.State = CommandListState.Initial) :=
  ⟨by decide, by decide, by decide, by decide,
    C28_Clean_keeps_unfinished_pairs twoSubmitted.1 twoSubmitted.cleaned twoSubmitted.2 []
      (fun _ => 2) (fun _ => 2) (by decide) (by rfl)⟩


/-! ## The engine a process is sent to supports it -/

theorem mapM_except_spec {α β ε : Type} (f : α → Except ε β) :
    ∀ (l : List α) (r : List β), l.mapM f = .ok r →
      r.length = l.length ∧
      ∀ (k : Nat) (x : α), l[k]? = some x → ∃ y, r[k]? = some y ∧ f x = .ok y := by
  intro l
  induction l with
  | nil =>
    intro r h
    simp only [List.mapM_nil, pure, Except.pure, Except.ok.injEq] at h
    subst h
    exact ⟨rfl, fun k x hk => by simp at hk⟩
  | cons a as ih =>
    intro r h
    rw [List.mapM_cons] at h
    cases ha : f a with
    | error e =>
      rw [ha] at h
      cases h
    | ok b =>
      cases has : as.mapM f with
      | error e =>
        rw [ha, has] at h
        cases h
      | ok bs =>
        rw [ha, has] at h
        simp only [bind, Except.bind, pure, Except.pure, Except.ok.injEq] at h
        subst h
        obtain ⟨hlen, hall⟩ := ih bs has
        refine ⟨by simp [hlen], ?_⟩
        intro k x hk
        cases k with
        | zero =>
          simp only [List.getElem?_cons_zero, Option.some.injEq] at hk
          subst hk
          exact ⟨b, by simp, ha⟩
        | succ k =>
          simp only [List.getElem?_cons_succ] at hk ⊢
          exact hall k x hk

namespace __Device

theorem created_engines (queueFamilies : List VkQueueFamilyProperties)
    (description : PresenterDescription) (d : __Device)
    (h : __create_vk_device queueFamilies description = .ok d) :
    d._engine_mapping = engine_mapping queueFamilies ∧
    d._Engines.length = queueFamilies.length ∧
    ∀ (k : Nat) (f : VkQueueFamilyProperties), queueFamilies[k]? = some f →
      ∃ e, d._Engines[k]? = some e ∧
        e.supportedEngines = GetSupportedEngines f.queueFlags ∧
        e.marked = List.replicate e.Managers.length false := by
  unfold __create_vk_device at h
  simp only at h
  split at h
  · cases h
  · rename_i engines hengines
    simp only [Except.ok.injEq] at h
    subst h
    obtain ⟨hlen, hall⟩ := mapM_except_spec _ queueFamilies engines hengines
    refine ⟨rfl, hlen, ?_⟩
    intro k f hk
    obtain ⟨e, he, hnew⟩ := hall k f hk
    obtain ⟨-, -, -, hsup, -, hmarked, -⟩ := __EngineManager.new_managers _ _ _ _ _ e hnew
    exact ⟨e, he, hsup, hmarked⟩

/-- The engine that the mapping of a created device names for a mask supports the mask. -/
theorem created_mapping_supports (queueFamilies : List VkQueueFamilyProperties)
    (description : PresenterDescription) (d : __Device) (mask : Nat) (hmask : mask < 16)
    (h : __create_vk_device queueFamilies description = .ok d) (idx : Int)
    (hidx : d._engine_mapping[mask]? = some idx) (hne : idx ≠ -1) :
    ∃ e, d.engineAt idx = .ok e ∧ (mask &&& e.supportedEngines) = mask := by
  obtain ⟨hmap, -, hengines⟩ := created_engines queueFamilies description d h
  rw [hmap] at hidx
  simp only [engine_mapping, List.getElem?_map, List.getElem?_range hmask, Option.map_some',
    Option.some.injEq] at hidx
  obtain ⟨-, hspec⟩ := minimal_fold_spec (ResolveEngineIndex.bits mask) false queueFamilies
  have hidx2 : (queueFamilies.foldl
      (__minimal_queue_index_for.step (ResolveEngineIndex.bits mask) false)
      (0xFFFFFFFF, -1, 0)).2.1 = idx := hidx
  rcases hspec with ⟨hnone, -⟩ | ⟨k, f, hk, -, hf, haccepted, -⟩
  · rw [hidx2] at hnone
    exact absurd hnone hne
  · rw [hidx2] at hk
    obtain ⟨e, he, hsup, -⟩ := hengines k f hf
    refine ⟨e, ?_, ?_⟩
    · unfold engineAt
      rw [hk]
      simp [he]
    · rw [hsup]
      exact (family_test_iff_supported f.queueFlags mask hmask).mp haccepted.1

end __Device

theorem __EngineManager.Dispatch_populating_facade (e e1 : __EngineManager)
    (pieces : PieceHeap) (workPiece : Nat) (wrapper : CommandListManager)
    (h : e.Dispatch_populating pieces workPiece = .ok (e1, wrapper)) :
    wrapper._supported_engines = e.supportedEngines ∧
    e1.supportedEngines = e.supportedEngines := by
  unfold __EngineManager.Dispatch_populating at h
  split at h
  · cases h
  · simp only at h
    split at h
    · cases h
    · split at h
      · cases h
      · simp only [Except.ok.injEq, Prod.mk.injEq] at h
        obtain ⟨h1, h2⟩ := h
        subst h1 h2
        exact ⟨rfl, rfl⟩

/-- Claim C29: for every mask below 16 and all Vulkan flags, the family test of the engine
mapping holds exactly when the mask is a subset of `GetSupportedEngines(flags)`; so on a
created device, when `_engine_mapping[mask]` is not `-1` it names an engine that supports
the mask; the facade that `__EngineManager::Dispatch` builds carries the capabilities of
its engine; and on a facade that supports the mask, `Populate` of a `MethodProcess` written
against that mask passes the cast and returns what the member function records. -/
theorem C29_facade_supports_required_engines (queueFamilies : List VkQueueFamilyProperties)
    (description : PresenterDescription) (d : __Device) (mask : Nat) (hmask : mask < 16)
    (hcreated : __Device.__create_vk_device queueFamilies description = .ok d) :
    (∀ flags : Nat,
      (flags &&& __Device.ResolveEngineIndex.bits mask) = __Device.ResolveEngineIndex.bits mask ↔
        (mask &&& __Device.GetSupportedEngines flags) = mask) ∧
    (∀ idx : Int, d._engine_mapping[mask]? = some idx → idx ≠ -1 →
      ∃ e, d.engineAt idx = .ok e ∧ (mask &&& e.supportedEngines) = mask ∧
        ∀ (pieces : PieceHeap) (workPiece : Nat) (e1 : __EngineManager)
          (wrapper : CommandListManager) (function : List Nat),
          e.Dispatch_populating pieces workPiece = .ok (e1, wrapper) →
          wrapper.As mask = .ok wrapper ∧
          (MethodProcess mask function).Populate wrapper = .ok function) ∧
    (∀ (facade : CommandListManager) (function : List Nat),
      (mask &&& facade._supported_engines) = mask →
      (MethodProcess mask function).Populate facade = .ok function) := by
  have hpop : ∀ (facade : CommandListManager) (function : List Nat),
      (mask &&& facade._supported_engines) = mask →
      facade.As mask = .ok facade ∧
      (MethodProcess mask function).Populate facade = .ok function := by
    intro facade function hsup
    simp [MethodProcess, CommandListManager.As, CommandListManager.CheckCastSupport, hsup]
  refine ⟨fun flags => __Device.family_test_iff_supported flags mask hmask, ?_,
    fun facade function hsup => (hpop facade function hsup).2⟩
  intro idx hidx hne
  obtain ⟨e, he, hsup⟩ := __Device.created_mapping_supports queueFamilies description d mask
    hmask hcreated idx hidx hne
  refine ⟨e, he, hsup, ?_⟩
  intro pieces workPiece e1 wrapper function hdisp
  have hw := (__EngineManager.Dispatch_populating_facade e e1 pieces workPiece wrapper hdisp).1
  exact hpop wrapper function (by rw [hw]; exact hsup)

theorem C29_facade_witness :
    sampleDevice._engine_mapping[RaytracingManager.SupportedEngines]? = some 0 ∧
    ((∀ flags : Nat,
      (flags &&& __Device.ResolveEngineIndex.bits RaytracingManager.SupportedEngines) =
          __Device.ResolveEngineIndex.bits RaytracingManager.SupportedEngines ↔
        (RaytracingManager.SupportedEngines &&& __Device.GetSupportedEngines flags) =
          RaytracingManager.SupportedEngines) ∧
    (∀ idx : Int, sampleDevice._engine_mapping[RaytracingManager.SupportedEngines]? = some idx →
      idx ≠ -1 →
      ∃ e, sampleDevice.engineAt idx = .ok e ∧
        (RaytracingManager.SupportedEngines &&& e.supportedEngines) =
          RaytracingManager.SupportedEngines ∧
        ∀ (pieces : PieceHeap) (workPiece : Nat) (e1 : __EngineManager)
          (wrapper : CommandListManager) (function : List Nat),
          e.Dispatch_populating pieces workPiece = .ok (e1, wrapper) →
          wrapper.As RaytracingManager.SupportedEngines = .ok wrapper ∧
          (MethodProcess RaytracingManager.SupportedEngines function).Populate wrapper =
            .ok function) ∧
    (∀ (facade : CommandListManager) (function : List Nat),
      (RaytracingManager.SupportedEngines &&& facade._supported_engines) =
        RaytracingManager.SupportedEngines →
      (MethodProcess RaytracingManager.SupportedEngines function).Populate facade =
        .ok function)) :=
  ⟨by decide,
    C29_facade_supports_required_engines sampleFamilies
      { frames := 1, frame_threads := 0, async_threads := 0 } sampleDevice
      RaytracingManager.SupportedEngines (by decide) (by rfl)⟩


/-! ## Flushing the slots of a frame -/

theorem foldlM_except_fixed {α σ : Type} (f : σ → α → Except Fault σ) (s : σ)
    (hfix : ∀ x s1, f s x = .ok s1 → s1 = s) :
    ∀ (l : List α) (s1 : σ), l.foldlM f s = .ok s1 →
      s1 = s ∧ ∀ x ∈ l, f s x = .ok s := by
  intro l
  induction l with
  | nil =>
    intro s1 h
    simp only [List.foldlM, pure, Except.pure, Except.ok.injEq] at h
    exact ⟨h.symm, fun x hx => (by cases hx)⟩
  | cons a rest ih =>
    intro s1 h
    rw [List.foldlM_cons] at h
    cases ha : f s a with
    | error e => rw [ha] at h; cases h
    | ok s2 =>
      rw [ha] at h
      simp only [bind, Except.bind] at h
      have hs2 := hfix a s2 ha
      subst hs2
      obtain ⟨h1, h2⟩ := ih s1 h
      refine ⟨h1, ?_⟩
      intro x hx
      rcases List.mem_cons.mp hx with e | hmem
      · rw [e]; exact ha
      · exact h2 x hmem

namespace __CommandQueueManager

/-- A returning `WaitForPopulation` leaves the pieces as they were, and every populated piece
has had its latch fired. -/
theorem WaitForPopulation_spec (m : __CommandQueueManager) (pieces pieces1 : PieceHeap)
    (h : m.WaitForPopulation pieces = .ok pieces1) :
    pieces1 = pieces ∧
    ∀ v ∈ m.populated, ∃ piece, pieces[v]? = some piece ∧
      piece.AfterPopulated.s.state ≠ 0 := by
  unfold WaitForPopulation at h
  obtain ⟨h1, h2⟩ := foldlM_except_fixed
    (fun pieces w => __CPUTask.Wait pieces { workPiece := w }) pieces
    (fun x s1 hx => __CPUTask.Wait_pieces pieces s1 _ hx) m.populated pieces1 h
  refine ⟨h1, ?_⟩
  intro v hv
  have hw := h2 v hv
  simp only [__CPUTask.Wait] at hw
  split at hw
  · cases hw
  · rename_i w hwv
    refine ⟨w, hwv, ?_⟩
    intro hzero
    simp [WorkPiece.WaitForPopulation, OneTimeSemaphore.Wait, Semaphore.Wait, hzero] at hw

/-- A piece that is `SUBMITTED` stays so across `SubmitCurrent`; and the mode, the process
and the indices of every piece are kept. -/
theorem SubmitCurrent_pieces (m m1 : __CommandQueueManager) (tasks tasks1 : TaskHeap)
    (pieces pieces1 : PieceHeap) (wait_for : List Nat) (task : Nat)
    (h : m.SubmitCurrent tasks pieces wait_for = .ok (m1, tasks1, pieces1, task)) :
    pieces1.length = pieces.length ∧
    (∀ (v : Nat) (piece : WorkPiece), pieces[v]? = some piece →
      ∃ piece1, pieces1[v]? = some piece1 ∧ piece1 = { piece with State := piece1.State } ∧
        (piece.State = WorkPieceState.SUBMITTED → piece1.State = WorkPieceState.SUBMITTED)) ∧
    (m.recordingBuffer ≠ none → ∀ v ∈ m.populated, ∃ piece1, pieces1[v]? = some piece1 ∧
      piece1.State = WorkPieceState.SUBMITTED) := by
  cases hrec : m.recordingBuffer with
  | none =>
    unfold SubmitCurrent at h
    simp only [hrec, Except.ok.injEq, Prod.mk.injEq] at h
    obtain ⟨-, -, hp, -⟩ := h
    subst hp
    exact ⟨rfl, fun v piece hv => ⟨piece, hv, rfl, id⟩, fun hne => absurd rfl hne⟩
  | some r =>
    obtain ⟨c, semaphores, -, -, -, -, -, hmark, -⟩ :=
      SubmitCurrent_recording m m1 tasks tasks1 pieces pieces1 wait_for task r hrec h
    obtain ⟨hlen, hsub, hother, hsame⟩ := markSubmitted_spec m.populated pieces pieces1 hmark
    refine ⟨hlen, ?_, fun _ => hsub⟩
    intro v piece hv
    have hvlt : v < pieces1.length := by
      rw [hlen]; exact (List.getElem?_eq_some_iff.mp hv).1
    obtain ⟨piece0, hp0, heq⟩ := hsame v pieces1[v] (List.getElem?_eq_getElem hvlt)
    rw [hv] at hp0
    cases hp0
    refine ⟨pieces1[v], List.getElem?_eq_getElem hvlt, heq, ?_⟩
    intro hst
    by_cases hmem : v ∈ m.populated
    · obtain ⟨p2, hp2, hs2⟩ := hsub v hmem
      rw [List.getElem?_eq_getElem hvlt] at hp2
      cases hp2
      exact hs2
    · have := hother v hmem
      rw [List.getElem?_eq_getElem hvlt, hv] at this
      cases this
      exact hst

theorem Reachable.populated_recording (m : __CommandQueueManager) (h : Reachable m) :
    m.populated ≠ [] → m.recordingBuffer ≠ none := by
  have hpeek : ∀ (m m1 : __CommandQueueManager) (r : Nat), m.Peek = .ok (m1, r) →
      m1.recordingBuffer ≠ none := by
    intro m m1 r hp
    unfold Peek at hp
    cases hrec : m.recordingBuffer with
    | some r0 =>
      simp only [hrec, Except.ok.injEq, Prod.mk.injEq] at hp
      rw [← hp.1, hrec]
      simp
    | none =>
      simp only [hrec] at hp
      split at hp
      · cases hp
      · simp only [Except.ok.injEq, Prod.mk.injEq] at hp
        rw [← hp.1]
        simp
  induction h with
  | new supported queue flag =>
    intro hne
    exact absurd rfl hne
  | peek m m1 r _ h _ => exact fun _ => hpeek m m1 r h
  | populating m m1 task r _ h _ => exact fun _ => hpeek _ m1 r h
  | submitCurrent m m1 tasks tasks1 pieces pieces1 wait_for task _ h ih =>
    cases hrec : m.recordingBuffer with
    | none =>
      unfold SubmitCurrent at h
      simp only [hrec, Except.ok.injEq, Prod.mk.injEq] at h
      rw [← h.1]
      exact ih
    | some r =>
      obtain ⟨c, semaphores, -, -, -, -, -, -, hm1⟩ :=
        SubmitCurrent_recording m m1 tasks tasks1 pieces pieces1 wait_for task r hrec h
      intro hne
      rw [hm1] at hne
      exact absurd rfl hne
  | waitForPendings m m1 tasks tasks1 _ h ih =>
    obtain ⟨-, -, hR⟩ := WaitForPendings_spec m m1 tasks tasks1 h
    rw [hR.1, hR.2.1]
    exact ih
  | clean m m1 tasks pieces taskOwners pieceOwners _ h ih =>
    obtain ⟨retired, hR⟩ := Clean_retired m m1 tasks pieces taskOwners pieceOwners h
    rw [hR.1, hR.2.1]
    exact ih
  | record m m1 cmdList commands _ h ih =>
    unfold __CommandQueueManager.record at h
    split at h
    · cases h
    · simp only [Except.ok.injEq] at h
      rw [← h]
      exact ih

end __CommandQueueManager


theorem WorkPiece.state_only_trans (a b c : WorkPiece)
    (h1 : b = { a with State := b.State }) (h2 : c = { b with State := c.State }) :
    c = { a with State := c.State } := by
  cases a
  cases b
  cases c
  simp only [WorkPiece.mk.injEq] at h1 h2 ⊢
  obtain ⟨a1, a2, a3, a4, -, a6⟩ := h1
  obtain ⟨b1, b2, b3, b4, -, b6⟩ := h2
  exact ⟨b1.trans a1, b2.trans a2, b3.trans a3, b4.trans a4, trivial, b6.trans a6⟩

namespace __EngineManager

/-- What `SubmitCurrent` called in turn on the managers of a duplicate-free list of slots
does: the other slots are as they were, each slot of the list holds the manager that
`SubmitCurrent` returned on the manager it held, the pieces that were populated on a slot
with a recording command list are `SUBMITTED`, and every piece keeps all but its state. -/
theorem submitAt_fold (waitingGPU : List Nat) :
    ∀ (idxs : List Nat), idxs.Nodup →
      ∀ (e : __EngineManager) (tasks : TaskHeap) (pieces : PieceHeap) (children : List Nat)
        (e1 : __EngineManager) (tasks1 : TaskHeap) (pieces1 : PieceHeap) (children1 : List Nat),
      idxs.foldlM (submitAt waitingGPU) (e, tasks, pieces, children) =
        .ok (e1, tasks1, pieces1, children1) →
      e1 = { e with Managers := e1.Managers } ∧
      (∀ j, j ∉ idxs → e1.Managers[j]? = e.Managers[j]?) ∧
      (∀ j ∈ idxs, ∃ (m m1 : __CommandQueueManager) (tasksA tasksB : TaskHeap)
          (piecesA piecesB : PieceHeap) (task : Nat),
        e.Managers[j]? = some m ∧ e1.Managers[j]? = some m1 ∧
        m.SubmitCurrent tasksA piecesA waitingGPU = .ok (m1, tasksB, piecesB, task)) ∧
      (∀ j ∈ idxs, ∀ m, e.Managers[j]? = some m → m.recordingBuffer ≠ none →
        ∀ v ∈ m.populated, ∃ piece1, pieces1[v]? = some piece1 ∧
          piece1.State = WorkPieceState.SUBMITTED) ∧
      (∀ (v : Nat) (piece : WorkPiece), pieces[v]? = some piece →
        ∃ piece1, pieces1[v]? = some piece1 ∧ piece1 = { piece with State := piece1.State } ∧
          (piece.State = WorkPieceState.SUBMITTED →
            piece1.State = WorkPieceState.SUBMITTED)) := by
  intro idxs
  induction idxs with
  | nil =>
    intro _ e tasks pieces children e1 tasks1 pieces1 children1 h
    simp only [List.foldlM, pure, Except.pure, Except.ok.injEq, Prod.mk.injEq] at h
    obtain ⟨h1, -, h3, -⟩ := h
    subst h1 h3
    exact ⟨rfl, fun _ _ => rfl, fun j hj => (by cases hj), fun j hj => (by cases hj),
      fun v piece hv => ⟨piece, hv, rfl, id⟩⟩
  | cons j rest ih =>
    intro hnodup e tasks pieces children e1 tasks1 pieces1 children1 h
    obtain ⟨hjrest, hnodup1⟩ := List.nodup_cons.mp hnodup
    rw [List.foldlM_cons] at h
    cases hstep : submitAt waitingGPU (e, tasks, pieces, children) j with
    | error f => rw [hstep] at h; cases h
    | ok acc =>
      rw [hstep] at h
      simp only [bind, Except.bind] at h
      unfold submitAt at hstep
      simp only at hstep
      split at hstep
      · cases hstep
      · rename_i m hm
        split at hstep
        · cases hstep
        · rename_i m1 tasks2 pieces2 task hsub
          simp only [Except.ok.injEq] at hstep
          subst hstep
          have hjlt : j < e.Managers.length := (List.getElem?_eq_some_iff.mp hm).1
          obtain ⟨hE, hother, hslots, hsubmitted, hkeep⟩ :=
            ih hnodup1 _ tasks2 pieces2 (children ++ [task]) e1 tasks1 pieces1 children1 h
          obtain ⟨-, hkeep0, hsub0⟩ :=
            __CommandQueueManager.SubmitCurrent_pieces m m1 tasks tasks2 pieces pieces2
              waitingGPU task hsub
          have hj1 : e1.Managers[j]? = some m1 := by
            rw [hother j hjrest]
            simp [List.getElem?_set, hjlt]
          refine ⟨?_, ?_, ?_, ?_, ?_⟩
          · rw [hE]
          · intro k hk
            have hkj : j ≠ k := fun e0 => hk (by rw [e0]; exact List.mem_cons_self k rest)
            rw [hother k (fun e0 => hk (List.mem_cons_of_mem j e0))]
            simp only
            rw [List.getElem?_set_ne hkj]
          · intro k hk
            rcases List.mem_cons.mp hk with e0 | hmem
            · subst e0
              exact ⟨m, m1, tasks, tasks2, pieces, pieces2, task, hm, hj1, hsub⟩
            · have hkj : j ≠ k := fun e0 => hjrest (by rw [e0]; exact hmem)
              obtain ⟨ma, mb, tA, tB, pA, pB, tk, h1, h2, h3⟩ := hslots k hmem
              simp only at h1
              rw [List.getElem?_set_ne hkj] at h1
              exact ⟨ma, mb, tA, tB, pA, pB, tk, h1, h2, h3⟩
          · intro k hk mk hmk hrec v hv
            rcases List.mem_cons.mp hk with e0 | hmem
            · subst e0
              rw [hm] at hmk
              cases hmk
              obtain ⟨p2, hp2, hs2⟩ := hsub0 hrec v hv
              obtain ⟨p1, hp1, -, hs1⟩ := hkeep v p2 hp2
              exact ⟨p1, hp1, hs1 hs2⟩
            · have hkj : j ≠ k := fun e0 => hjrest (by rw [e0]; exact hmem)
              exact hsubmitted k hmem mk
                (by simp only; rw [List.getElem?_set_ne hkj]; exact hmk) hrec v hv
          · intro v piece hv
            obtain ⟨p2, hp2, heq2, hs2⟩ := hkeep0 v piece hv
            obtain ⟨p1, hp1, heq1, hs1⟩ := hkeep v p2 hp2
            exact ⟨p1, hp1, WorkPiece.state_only_trans piece p2 p1 heq2 heq1,
              fun hst => hs1 (hs2 hst)⟩

end __EngineManager



namespace __EngineManager

theorem Flush_wait_spec (e : __EngineManager) (pieces pieces1 : PieceHeap) (frame : Nat)
    (h : e.Flush_wait pieces frame = .ok pieces1) :
    pieces1 = pieces ∧
    ∀ w, w ≤ e.frame_async_threads →
      ∃ m, e.Managers[(e.frame_async_threads + 1) * frame + w]? = some m ∧
        m.WaitForPopulation pieces = .ok pieces := by
  unfold Flush_wait at h
  obtain ⟨h1, h2⟩ := foldlM_except_fixed
    (fun (pieces : PieceHeap) i =>
      match e.Managers[(e.frame_async_threads + 1) * frame + i]? with
      | none => .error Fault.undefined
      | some m => m.WaitForPopulation pieces) pieces
    (by
      intro x s1 hx
      simp only at hx
      split at hx
      · cases hx
      · exact (__CommandQueueManager.WaitForPopulation_spec _ pieces s1 hx).1)
    _ pieces1 h
  refine ⟨h1, ?_⟩
  intro w hw
  have hstep := h2 w (List.mem_range.mpr (by omega))
  simp only at hstep
  split at hstep
  · cases hstep
  · rename_i m hm
    exact ⟨m, hm, hstep⟩

theorem Flush_submit_eq (e : __EngineManager) (tasks : TaskHeap) (pieces : PieceHeap)
    (frame : Nat) :
    e.Flush_submit tasks pieces frame =
      (List.range (e.frame_async_threads + 1)).foldlM (Flush_submit.step frame)
        (e, tasks, pieces) := rfl

theorem Flush_submit_fold (frame T : Nat) :
    ∀ (l : List Nat) (e : __EngineManager) (tasks : TaskHeap) (pieces : PieceHeap)
      (children : List Nat) (e1 : __EngineManager) (tasks1 : TaskHeap) (pieces1 : PieceHeap),
      e.frame_async_threads = T →
      l.foldlM (Flush_submit.step frame) (e, tasks, pieces) = .ok (e1, tasks1, pieces1) →
      ∃ children1, (l.map (fun w => (T + 1) * frame + w)).foldlM (submitAt [])
        (e, tasks, pieces, children) = .ok (e1, tasks1, pieces1, children1) := by
  intro l
  induction l with
  | nil =>
    intro e tasks pieces children e1 tasks1 pieces1 _ h
    simp only [List.foldlM, pure, Except.pure, Except.ok.injEq, Prod.mk.injEq] at h
    obtain ⟨h1, h2, h3⟩ := h
    subst h1 h2 h3
    exact ⟨children, rfl⟩
  | cons i rest ih =>
    intro e tasks pieces children e1 tasks1 pieces1 hT h
    subst hT
    rw [List.foldlM_cons] at h
    simp only [Flush_submit.step] at h
    cases hm : e.Managers[(e.frame_async_threads + 1) * frame + i]? with
    | none => simp [hm, bind, Except.bind] at h
    | some m =>
      simp only [hm] at h
      cases hsub : m.SubmitCurrent tasks pieces [] with
      | error f => simp [hsub, bind, Except.bind] at h
      | ok r =>
        obtain ⟨m1, tasks2, pieces2, task⟩ := r
        simp only [hsub, bind, Except.bind] at h
        obtain ⟨children1, hrest⟩ := ih
          { e with Managers := e.Managers.set ((e.frame_async_threads + 1) * frame + i) m1 }
          tasks2 pieces2 (children ++ [task]) e1 tasks1 pieces1 rfl h
        refine ⟨children1, ?_⟩
        rw [List.map_cons, List.foldlM_cons]
        simp only [submitAt, hm, hsub, bind, Except.bind]
        exact hrest

theorem frameSlots_nodup (e : __EngineManager) (frame : Nat) : (e.frameSlots frame).Nodup := by
  unfold frameSlots
  refine List.Nodup.map ?_ (List.nodup_range _)
  intro a b hab
  simp only at hab
  omega

theorem mem_frameSlots (e : __EngineManager) (frame j : Nat) :
    j ∈ e.frameSlots frame ↔
      ∃ w, w ≤ e.frame_async_threads ∧ j = frame * (e.frame_async_threads + 1) + w := by
  unfold frameSlots
  rw [List.mem_map]
  constructor
  · rintro ⟨w, hw, rfl⟩
    exact ⟨w, by have := List.mem_range.mp hw; omega, by rw [Nat.mul_comm]⟩
  · rintro ⟨w, hw, rfl⟩
    exact ⟨w, List.mem_range.mpr (by omega), by rw [Nat.mul_comm]⟩

end __EngineManager

/-- What a returning `Flush(frame)` of an engine manager does. -/
theorem __EngineManager.Flush_frame_spec (e e1 : __EngineManager) (tasks tasks1 : TaskHeap)
    (pieces pieces1 : PieceHeap) (frame : Nat)
    (h : e.Flush tasks pieces frame = .ok (e1, tasks1, pieces1)) :
    (∀ w, w ≤ e.frame_async_threads →
      ∃ m, e.Managers[frame * (e.frame_async_threads + 1) + w]? = some m ∧
        m.WaitForPopulation pieces = .ok pieces ∧
        ∀ v ∈ m.populated, ∃ piece, pieces[v]? = some piece ∧
          piece.AfterPopulated.s.state ≠ 0) ∧
    (∃ children, (e.frameSlots frame).foldlM (__EngineManager.submitAt [])
      (e, tasks, pieces, []) = .ok (e1, tasks1, pieces1, children)) ∧
    (∀ w, w ≤ e.frame_async_threads →
      ∃ (m m1 : __CommandQueueManager) (tasksA tasksB : TaskHeap)
          (piecesA piecesB : PieceHeap) (task : Nat),
        e.Managers[frame * (e.frame_async_threads + 1) + w]? = some m ∧
        e1.Managers[frame * (e.frame_async_threads + 1) + w]? = some m1 ∧
        m.SubmitCurrent tasksA piecesA [] = .ok (m1, tasksB, piecesB, task)) ∧
    (∀ j, (¬ ∃ w, w ≤ e.frame_async_threads ∧ j = frame * (e.frame_async_threads + 1) + w) →
      e1.Managers[j]? = e.Managers[j]?) ∧
    e1 = { e with Managers := e1.Managers } ∧
    (∀ w, w ≤ e.frame_async_threads → ∀ m,
      e.Managers[frame * (e.frame_async_threads + 1) + w]? = some m →
      __CommandQueueManager.Reachable m →
      ∀ v ∈ m.populated, ∃ piece1, pieces1[v]? = some piece1 ∧
        piece1.State = WorkPieceState.SUBMITTED) := by
  unfold __EngineManager.Flush at h
  split at h
  · cases h
  · rename_i piecesW hwait
    obtain ⟨hpw, hwaits⟩ := __EngineManager.Flush_wait_spec e pieces piecesW frame hwait
    subst hpw
    rw [__EngineManager.Flush_submit_eq] at h
    obtain ⟨children, hfold⟩ := __EngineManager.Flush_submit_fold frame e.frame_async_threads
      _ e tasks piecesW [] e1 tasks1 pieces1 rfl h
    have hfold2 : (e.frameSlots frame).foldlM (__EngineManager.submitAt [])
        (e, tasks, piecesW, []) = .ok (e1, tasks1, pieces1, children) := hfold
    obtain ⟨hE, hother, hslots, hsubmitted, -⟩ :=
      __EngineManager.submitAt_fold [] (e.frameSlots frame)
        (__EngineManager.frameSlots_nodup e frame) e tasks piecesW [] e1 tasks1 pieces1
        children hfold2
    have hmem : ∀ w, w ≤ e.frame_async_threads →
        frame * (e.frame_async_threads + 1) + w ∈ e.frameSlots frame :=
      fun w hw => (__EngineManager.mem_frameSlots e frame _).mpr ⟨w, hw, rfl⟩
    refine ⟨?_, ⟨children, hfold2⟩, fun w hw => hslots _ (hmem w hw), ?_, hE, ?_⟩
    · intro w hw
      obtain ⟨m, hm, hwm⟩ := hwaits w hw
      rw [Nat.mul_comm] at hm
      exact ⟨m, hm, hwm,
        (__CommandQueueManager.WaitForPopulation_spec m piecesW piecesW hwm).2⟩
    · intro j hj
      exact hother j (fun hin => hj ((__EngineManager.mem_frameSlots e frame j).mp hin))
    · intro w hw m hm hreach v hv
      have hne : m.populated ≠ [] := List.ne_nil_of_mem hv
      exact hsubmitted _ (hmem w hw) m hm
        (__CommandQueueManager.Reachable.populated_recording m hreach hne) v hv

theorem PieceHeap.ModesKept_same (p : PieceHeap) : PieceHeap.ModesKept p p :=
  fun _ piece h => ⟨piece, h, rfl⟩

theorem PieceHeap.ModesKept_chain (p p1 p2 : PieceHeap) (h1 : PieceHeap.ModesKept p p1)
    (h2 : PieceHeap.ModesKept p1 p2) : PieceHeap.ModesKept p p2 := by
  intro w piece h
  obtain ⟨piece1, hp1, hd1⟩ := h1 w piece h
  obtain ⟨piece2, hp2, hd2⟩ := h2 w piece1 hp1
  exact ⟨piece2, hp2, hd2.trans hd1⟩

theorem PieceHeap.ModesKept_append (p l : PieceHeap) : PieceHeap.ModesKept p (p ++ l) := by
  intro w piece h
  have hlt : w < p.length := (List.getElem?_eq_some_iff.mp h).1
  exact ⟨piece, by rw [List.getElem?_append_left hlt]; exact h, rfl⟩

theorem PieceHeap.ModesKept_set (p : PieceHeap) (v : Nat) (old new : WorkPiece)
    (hold : p[v]? = some old) (hmode : new.Dispatch = old.Dispatch) :
    PieceHeap.ModesKept p (p.set v new) := by
  intro w piece h
  by_cases hw : v = w
  · subst hw
    have hlt : v < p.length := (List.getElem?_eq_some_iff.mp h).1
    rw [hold] at h
    cases h
    exact ⟨new, by simp [List.getElem?_set, hlt], hmode⟩
  · exact ⟨piece, by rw [List.getElem?_set_ne hw]; exact h, rfl⟩

theorem PieceHeap.ModesKept_of_state_only (p p1 : PieceHeap)
    (h : ∀ (v : Nat) (piece : WorkPiece), p[v]? = some piece →
      ∃ piece1, p1[v]? = some piece1 ∧ piece1 = { piece with State := piece1.State } ∧
        (piece.State = WorkPieceState.SUBMITTED → piece1.State = WorkPieceState.SUBMITTED)) :
    PieceHeap.ModesKept p p1 := by
  intro w piece hw
  obtain ⟨piece1, hp1, heq, -⟩ := h w piece hw
  exact ⟨piece1, hp1, by rw [heq]⟩

theorem __Device.SchedulerKept_same (d : __Device) : __Device.SchedulerKept d d :=
  ⟨rfl, rfl, rfl, rfl, PieceHeap.ModesKept_same _⟩

theorem __Device.SchedulerKept_chain (d d1 d2 : __Device) (h1 : __Device.SchedulerKept d d1)
    (h2 : __Device.SchedulerKept d1 d2) : __Device.SchedulerKept d d2 :=
  ⟨h2.1.trans h1.1, h2.2.1.trans h1.2.1, h2.2.2.1.trans h1.2.2.1,
    h2.2.2.2.1.trans h1.2.2.2.1, PieceHeap.ModesKept_chain _ _ _ h1.2.2.2.2 h2.2.2.2.2⟩

theorem __Device.QueueServes_kept (p p1 : PieceHeap) (mode : DispatchMode)
    (q : ProducerConsumerQueue (Option Nat)) (hk : PieceHeap.ModesKept p p1)
    (h : __Device.QueueServes p mode q) : __Device.QueueServes p1 mode q := by
  intro x hx
  obtain ⟨w, piece, rfl, hp, hm⟩ := h x hx
  obtain ⟨piece1, hp1, hd⟩ := hk w piece hp
  exact ⟨w, piece1, rfl, hp1, hd.trans hm⟩

theorem __Device.SchedulerInvariant_kept (d d1 : __Device) (hk : __Device.SchedulerKept d d1)
    (h : d.SchedulerInvariant) : d1.SchedulerInvariant := by
  obtain ⟨hf, ha, hqf, hqa, hm⟩ := hk
  obtain ⟨h1, h2, h3, h4⟩ := h
  unfold __Device.SchedulerInvariant
  rw [hf, ha, hqf, hqa]
  exact ⟨h1, h2, __Device.QueueServes_kept _ _ _ _ hm h3,
    __Device.QueueServes_kept _ _ _ _ hm h4⟩

theorem __CommandQueueManager.SubmitCurrent_modes (m m1 : __CommandQueueManager)
    (tasks tasks1 : TaskHeap) (pieces pieces1 : PieceHeap) (wait_for : List Nat) (task : Nat)
    (h : m.SubmitCurrent tasks pieces wait_for = .ok (m1, tasks1, pieces1, task)) :
    PieceHeap.ModesKept pieces pieces1 :=
  PieceHeap.ModesKept_of_state_only pieces pieces1
    (__CommandQueueManager.SubmitCurrent_pieces m m1 tasks tasks1 pieces pieces1 wait_for
      task h).2.1

theorem __EngineManager.FlushMarked_modes (e e1 : __EngineManager) (tasks tasks1 : TaskHeap)
    (pieces pieces1 : PieceHeap) (waitingGPU children children1 : List Nat)
    (h : e.FlushMarked tasks pieces waitingGPU children = .ok (e1, tasks1, pieces1, children1)) :
    PieceHeap.ModesKept pieces pieces1 := by
  rw [__EngineManager.FlushMarked_eq] at h
  refine forLoop_invariant
    (fun (acc : __EngineManager × TaskHeap × PieceHeap × List Nat) =>
      PieceHeap.ModesKept pieces acc.2.2.1)
    (__EngineManager.FlushMarked.step waitingGPU) ?_ e.Managers.length
    (e, tasks, pieces, children) (e1, tasks1, pieces1, children1)
    (PieceHeap.ModesKept_same pieces) h
  intro s i s1 hs hstep
  simp only [__EngineManager.FlushMarked.step] at hstep
  split at hstep
  · cases hstep
  · cases hstep
    exact hs
  · split at hstep
    · cases hstep
    · split at hstep
      · cases hstep
      · rename_i hsub
        cases hstep
        exact PieceHeap.ModesKept_chain _ _ _ hs
          (__CommandQueueManager.SubmitCurrent_modes _ _ _ _ _ _ _ _ hsub)

theorem __EngineManager.Flush_modes (e e1 : __EngineManager) (tasks tasks1 : TaskHeap)
    (pieces pieces1 : PieceHeap) (frame : Nat)
    (h : e.Flush tasks pieces frame = .ok (e1, tasks1, pieces1)) :
    PieceHeap.ModesKept pieces pieces1 := by
  obtain ⟨-, ⟨children, hfold⟩, -⟩ :=
    __EngineManager.Flush_frame_spec e e1 tasks tasks1 pieces pieces1 frame h
  exact PieceHeap.ModesKept_of_state_only pieces pieces1
    (__EngineManager.submitAt_fold [] (e.frameSlots frame)
      (__EngineManager.frameSlots_nodup e frame) e tasks pieces [] e1 tasks1 pieces1
      children hfold).2.2.2.2

theorem __EngineManager.Dispatch_populate_modes (e e1 : __EngineManager)
    (pieces pieces1 : PieceHeap) (workPiece : Nat) (wrapper : CommandListManager)
    (h : e.Dispatch_populate pieces workPiece wrapper = .ok (e1, pieces1)) :
    PieceHeap.ModesKept pieces pieces1 := by
  unfold __EngineManager.Dispatch_populate at h
  split at h
  · cases h
  · rename_i w hw
    split at h
    · split at h
      · cases h
      · split at h
        · cases h
        · split at h
          · cases h
          · cases h
            exact PieceHeap.ModesKept_set _ _ w _ hw rfl
    · cases h

theorem __Device.assign_kept (d d1 : __Device) (workPiece threadIdx : Nat)
    (h : __Device.__PerformPopulation.assign d workPiece threadIdx = .ok d1) :
    __Device.SchedulerKept d d1 := by
  unfold __Device.__PerformPopulation.assign at h
  split at h
  · cases h
  · rename_i w hw
    split at h
    · cases h
    · cases h
      exact ⟨rfl, rfl, rfl, rfl, PieceHeap.ModesKept_set _ _ w _ hw rfl⟩

theorem __Device.populating_kept (d d1 : __Device) (workPiece threadIdx : Nat)
    (wrapper : Option CommandListManager)
    (h : __Device.__PerformPopulation.populating d workPiece threadIdx = .ok (d1, wrapper)) :
    __Device.SchedulerKept d d1 := by
  unfold __Device.__PerformPopulation.populating at h
  split at h
  · cases h
  · rename_i dA hassign
    have hA := __Device.assign_kept d dA workPiece threadIdx hassign
    split at h
    · cases h
    · split at h
      · split at h
        · cases h
        · split at h
          · cases h
          · cases h
            exact __Device.SchedulerKept_chain _ _ _ hA
              ⟨rfl, rfl, rfl, rfl, PieceHeap.ModesKept_same _⟩
      · cases h
        exact hA

theorem __Device.populate_kept (d d1 : __Device) (workPiece : Nat)
    (wrapper : Option CommandListManager)
    (h : __Device.__PerformPopulation.populate d workPiece wrapper = .ok d1) :
    __Device.SchedulerKept d d1 := by
  unfold __Device.__PerformPopulation.populate at h
  split at h
  · cases h
    exact __Device.SchedulerKept_same d
  · split at h
    · cases h
    · split at h
      · cases h
      · split at h
        · cases h
        · rename_i e1 pieces1 hpop
          cases h
          exact ⟨rfl, rfl, rfl, rfl,
            __EngineManager.Dispatch_populate_modes _ _ _ _ _ _ hpop⟩

theorem __Device.PerformPopulation_kept (d d1 : __Device) (workPiece threadIdx : Nat)
    (h : d.__PerformPopulation workPiece threadIdx = .ok d1) :
    __Device.SchedulerKept d d1 := by
  rw [__Device.PerformPopulation_eq_halves] at h
  split at h
  · cases h
  · rename_i dA wrapper hA
    exact __Device.SchedulerKept_chain _ _ _
      (__Device.populating_kept d dA workPiece threadIdx wrapper hA)
      (__Device.populate_kept dA d1 workPiece wrapper h)

theorem __Device.CreateWorkPiece_kept (d d1 : __Device) (process : Process)
    (mode : DispatchMode) (workPiece : Nat)
    (h : d.__CreateWorkPiece process mode = .ok (d1, workPiece)) :
    __Device.SchedulerKept d d1 ∧
    ∃ piece, d1.pieces[workPiece]? = some piece ∧ piece.Dispatch = mode := by
  unfold __Device.__CreateWorkPiece at h
  split at h
  · cases h
  · cases h
    exact ⟨⟨rfl, rfl, rfl, rfl, PieceHeap.ModesKept_append _ _⟩,
      ⟨_, List.getElem?_concat_length _ _, rfl⟩⟩

theorem __Device.Flush_mark_kept (d d1 : __Device) (tasks : List __CPUTask)
    (h : __Device.Flush.mark d tasks = .ok d1) : __Device.SchedulerKept d d1 := by
  rw [__Device.Flush.mark_eq] at h
  refine foldlM_except_invariant (fun x => __Device.SchedulerKept d x)
    __Device.Flush.mark.step ?_ tasks d d1 (__Device.SchedulerKept_same d) h
  intro b t b1 hb hstep
  obtain ⟨w, e, -, -, -, -, -, heq⟩ := __Device.Flush.mark.step_spec b b1 t hstep
  subst heq
  exact __Device.SchedulerKept_chain _ _ _ hb
    ⟨rfl, rfl, rfl, rfl, PieceHeap.ModesKept_same _⟩

theorem __Device.Flush_submit_kept (d d1 : __Device) (waitingGPU children : List Nat)
    (h : __Device.Flush.submit d waitingGPU = .ok (d1, children)) :
    __Device.SchedulerKept d d1 := by
  rw [__Device.Flush.submit_eq] at h
  refine forLoop_invariant (fun (acc : __Device × List Nat) => __Device.SchedulerKept d acc.1)
    (__Device.Flush.submit.step waitingGPU) ?_ d._Engines.length (d, []) (d1, children)
    (__Device.SchedulerKept_same d) h
  intro s i s1 hs hstep
  simp only [__Device.Flush.submit.step] at hstep
  split at hstep
  · cases hstep
  · split at hstep
    · cases hstep
    · rename_i hfm
      cases hstep
      exact __Device.SchedulerKept_chain _ _ _ hs
        ⟨rfl, rfl, rfl, rfl, __EngineManager.FlushMarked_modes _ _ _ _ _ _ _ _ _ hfm⟩

theorem __Device.Flush_kept (d d1 : __Device) (tasks : List __CPUTask)
    (waitingGPU : List Nat) (result : Nat)
    (h : d.Flush tasks waitingGPU = .ok (d1, result)) : __Device.SchedulerKept d d1 := by
  unfold __Device.Flush at h
  split at h
  · cases h
  · rename_i dA hmark
    split at h
    · cases h
    · rename_i dB children hsub
      cases h
      exact __Device.SchedulerKept_chain _ _ _
        (__Device.SchedulerKept_chain _ _ _ (__Device.Flush_mark_kept d dA tasks hmark)
          (__Device.Flush_submit_kept dA dB waitingGPU children hsub))
        ⟨rfl, rfl, rfl, rfl, PieceHeap.ModesKept_same _⟩

theorem Presenter.EndFrame_flush_kept (d d1 : __Device)
    (h : Presenter.EndFrame.flush d = .ok d1) : __Device.SchedulerKept d d1 := by
  unfold Presenter.EndFrame.flush at h
  refine foldlM_except_invariant (fun x => __Device.SchedulerKept d x) _ ?_
    (List.range d._Engines.length) d d1 (__Device.SchedulerKept_same d) h
  intro b i b1 hb hstep
  simp only at hstep
  split at hstep
  · cases hstep
  · split at hstep
    · cases hstep
    · rename_i hfl
      cases hstep
      exact __Device.SchedulerKept_chain _ _ _ hb
        ⟨rfl, rfl, rfl, rfl, __EngineManager.Flush_modes _ _ _ _ _ _ _ hfl⟩

theorem Presenter.EndFrame_kept (p p1 : PresenterState)
    (h : Presenter.EndFrame p = .ok p1) : __Device.SchedulerKept p.__state p1.__state := by
  unfold Presenter.EndFrame at h
  split at h
  · cases h
  · rename_i d hfl
    split at h
    · cases h
    · split at h
      · cases h
      · split at h
        · cases h
        · cases h
          exact __Device.SchedulerKept_chain _ _ _ (Presenter.EndFrame_flush_kept _ _ hfl)
            ⟨rfl, rfl, rfl, rfl, PieceHeap.ModesKept_same _⟩

theorem __Device.QueueServes_produce (C : Nat) (hC : C < 2 ^ 31) (pieces : PieceHeap)
    (mode : DispatchMode) (q q1 : ProducerConsumerQueue (Option Nat)) (w : Nat)
    (piece : WorkPiece) (hinv : ProducerConsumerQueue.Invariant C q)
    (hs : __Device.QueueServes pieces mode q) (hp : pieces[w]? = some piece)
    (hm : piece.Dispatch = mode) (h : q.Produce (some w) = .ok q1) :
    ProducerConsumerQueue.Invariant C q1 ∧ __Device.QueueServes pieces mode q1 := by
  obtain ⟨hlt, hblock⟩ := ProducerConsumerQueue.Produce_spec C hC q hinv (some w)
  by_cases hc : q.count < C
  · obtain ⟨q2, hq2, hinv2, hcont, -⟩ := hlt hc
    rw [h] at hq2
    cases hq2
    refine ⟨hinv2, ?_⟩
    intro x hx
    rw [hcont, List.mem_append, List.mem_singleton] at hx
    rcases hx with hx | hx
    · exact hs x hx
    · exact ⟨w, piece, hx, hp, hm⟩
  · have hle := hinv.2.2.1
    have heq : q.count = C := by omega
    rw [hblock heq] at h
    cases h

theorem __Device.QueueServes_consume (C : Nat) (pieces : PieceHeap) (mode : DispatchMode)
    (q : ProducerConsumerQueue (Option Nat)) (hinv : ProducerConsumerQueue.Invariant C q)
    (hs : __Device.QueueServes pieces mode q) :
    q.Consume ≠ .error .undefined ∧
    ∀ q1 x, q.Consume = .ok (q1, x) →
      ProducerConsumerQueue.Invariant C q1 ∧ __Device.QueueServes pieces mode q1 ∧
      ∃ (w : Nat) (piece : WorkPiece), x = some w ∧ pieces[w]? = some piece ∧
        piece.Dispatch = mode := by
  obtain ⟨hpos, hblock⟩ := ProducerConsumerQueue.Consume_spec C q hinv
  have h0 := hinv.2.1
  by_cases hc : 0 < q.count
  · obtain ⟨q2, x2, hq2, hinv2, hcont, -⟩ := hpos hc
    refine ⟨(by rw [hq2]; intro hk; cases hk), ?_⟩
    intro q1 x h
    rw [h] at hq2
    cases hq2
    refine ⟨hinv2, ?_, ?_⟩
    · intro y hy
      exact hs y (by rw [hcont]; exact List.mem_cons_of_mem _ hy)
    · exact hs _ (by rw [hcont]; exact List.mem_cons_self _ _)
  · have heq : q.count = 0 := by omega
    refine ⟨(by rw [hblock heq]; intro hk; cases hk), ?_⟩
    intro q1 x h
    rw [hblock heq] at h
    cases h

/-- What a returning `Dispatch.rest` did: it created the piece of the CPU task in the given
mode and then populated it inline (`MAIN_THREAD`, queues untouched) or produced it onto the
queue of the mode, leaving the other queue untouched. -/
theorem __Device.Dispatch_rest_spec (d d1 : __Device) (process : Process)
    (mode : DispatchMode) (task : __CPUTask)
    (h : __Device.Dispatch.rest d process mode = .ok (d1, task)) :
    ∃ (dC : __Device) (piece : WorkPiece),
      __Device.SchedulerKept d dC ∧ dC.pieces[task.workPiece]? = some piece ∧
      piece.Dispatch = mode ∧
      (mode = .MAIN_THREAD → __Device.SchedulerKept dC d1) ∧
      (mode = .ASYNC_FRAME → ∃ q, dC._FrameAsyncProcesses.Produce (some task.workPiece) = .ok q ∧
        d1 = { dC with _FrameAsyncProcesses := q }) ∧
      (mode = .ASYNC → ∃ q, dC._AsyncProcesses.Produce (some task.workPiece) = .ok q ∧
        d1 = { dC with _AsyncProcesses := q }) := by
  unfold __Device.Dispatch.rest at h
  split at h
  · cases h
  · rename_i dC workPiece hcreate
    obtain ⟨hk, piece, hp, hm⟩ := __Device.CreateWorkPiece_kept d dC process mode workPiece hcreate
    cases mode with
    | MAIN_THREAD =>
      simp only at h
      split at h
      · cases h
      · rename_i d2 hpop
        cases h
        exact ⟨dC, piece, hk, hp, hm,
          fun _ => __Device.PerformPopulation_kept dC _ workPiece 0 hpop,
          (fun hk => by cases hk), (fun hk => by cases hk)⟩
    | ASYNC_FRAME =>
      simp only at h
      split at h
      · cases h
      · rename_i q hq
        cases h
        exact ⟨dC, piece, hk, hp, hm, (fun hk => by cases hk), fun _ => ⟨q, hq, rfl⟩,
          (fun hk => by cases hk)⟩
    | ASYNC =>
      simp only at h
      split at h
      · cases h
      · rename_i q hq
        cases h
        exact ⟨dC, piece, hk, hp, hm, (fun hk => by cases hk), (fun hk => by cases hk),
          fun _ => ⟨q, hq, rfl⟩⟩

theorem __Device.Dispatch_rest_invariant (d d1 : __Device) (process : Process)
    (mode : DispatchMode) (task : __CPUTask)
    (hF : d._NumberOfAsyncThreadsInFrame * 2 < 2 ^ 31)
    (hA : d._NumberOfAsyncThreads * 2 < 2 ^ 31) (hinv : d.SchedulerInvariant)
    (h : __Device.Dispatch.rest d process mode = .ok (d1, task)) :
    d1._NumberOfAsyncThreadsInFrame = d._NumberOfAsyncThreadsInFrame ∧
    d1._NumberOfAsyncThreads = d._NumberOfAsyncThreads ∧ d1.SchedulerInvariant := by
  obtain ⟨dC, piece, hk, hp, hm, hmain, hframe, hasync⟩ :=
    __Device.Dispatch_rest_spec d d1 process mode task h
  have hinvC := __Device.SchedulerInvariant_kept d dC hk hinv
  obtain ⟨hfC, haC, -, -, -⟩ := hk
  cases mode with
  | MAIN_THREAD =>
    have hk1 := hmain rfl
    exact ⟨hk1.1.trans hfC, hk1.2.1.trans haC,
      __Device.SchedulerInvariant_kept dC d1 hk1 hinvC⟩
  | ASYNC_FRAME =>
    obtain ⟨q, hq, rfl⟩ := hframe rfl
    obtain ⟨h1, h2, h3, h4⟩ := hinvC
    obtain ⟨hq1, hq2⟩ := __Device.QueueServes_produce _ (by rw [hfC]; exact hF) dC.pieces
      .ASYNC_FRAME _ q task.workPiece piece h1 h3 hp hm hq
    exact ⟨hfC, haC, hq1, h2, hq2, h4⟩
  | ASYNC =>
    obtain ⟨q, hq, rfl⟩ := hasync rfl
    obtain ⟨h1, h2, h3, h4⟩ := hinvC
    obtain ⟨hq1, hq2⟩ := __Device.QueueServes_produce _ (by rw [haC]; exact hA) dC.pieces
      .ASYNC _ q task.workPiece piece h2 h4 hp hm hq
    exact ⟨hfC, haC, h1, hq1, h3, hq2⟩

/-- What the `Consume` of worker `idx` does on a device that meets the scheduler invariant: it
never reads a null pointer, and a piece it returns is one of the mode of the queue the
worker serves; the invariant is kept. -/
theorem __Device.consume_spec (d : __Device) (idx : Nat) (hinv : d.SchedulerInvariant) :
    __Device.__OompaLoompaWork.consume d idx ≠ .error .undefined ∧
    ∀ d1 workPiece, __Device.__OompaLoompaWork.consume d idx = .ok (d1, workPiece) →
      d1._NumberOfAsyncThreadsInFrame = d._NumberOfAsyncThreadsInFrame ∧
      d1._NumberOfAsyncThreads = d._NumberOfAsyncThreads ∧ d1._FrameIndex = d._FrameIndex ∧
      d1._NumberOfFrames = d._NumberOfFrames ∧ d1.pieces = d.pieces ∧
      d1.SchedulerInvariant ∧
      ∃ piece, d.pieces[workPiece]? = some piece ∧
        piece.Dispatch =
          (if idx ≤ d._NumberOfAsyncThreadsInFrame then DispatchMode.ASYNC_FRAME
           else DispatchMode.ASYNC) := by
  obtain ⟨h1, h2, h3, h4⟩ := hinv
  unfold __Device.__OompaLoompaWork.consume
  by_cases hidx : idx ≤ d._NumberOfAsyncThreadsInFrame
  · simp only [hidx, if_true]
    obtain ⟨hne, hok⟩ := __Device.QueueServes_consume _ d.pieces .ASYNC_FRAME _ h1 h3
    cases hc : d._FrameAsyncProcesses.Consume with
    | error f =>
      refine ⟨?_, fun d1 workPiece hk => by cases hk⟩
      intro hk
      simp only [Except.error.injEq] at hk
      rw [hc, hk] at hne
      exact hne rfl
    | ok r =>
      obtain ⟨q, x⟩ := r
      obtain ⟨hq1, hq2, w, piece, hx, hp, hm⟩ := hok q x hc
      subst hx
      refine ⟨(fun hk => by cases hk), ?_⟩
      intro d1 workPiece hk
      simp only [Except.ok.injEq, Prod.mk.injEq] at hk
      obtain ⟨rfl, rfl⟩ := hk
      exact ⟨rfl, rfl, rfl, rfl, rfl, ⟨hq1, h2, hq2, h4⟩, piece, hp, hm⟩
  · simp only [hidx, if_false]
    obtain ⟨hne, hok⟩ := __Device.QueueServes_consume _ d.pieces .ASYNC _ h2 h4
    cases hc : d._AsyncProcesses.Consume with
    | error f =>
      refine ⟨?_, fun d1 workPiece hk => by cases hk⟩
      intro hk
      simp only [Except.error.injEq] at hk
      rw [hc, hk] at hne
      exact hne rfl
    | ok r =>
      obtain ⟨q, x⟩ := r
      obtain ⟨hq1, hq2, w, piece, hx, hp, hm⟩ := hok q x hc
      subst hx
      refine ⟨(fun hk => by cases hk), ?_⟩
      intro d1 workPiece hk
      simp only [Except.ok.injEq, Prod.mk.injEq] at hk
      obtain ⟨rfl, rfl⟩ := hk
      exact ⟨rfl, rfl, rfl, rfl, rfl, ⟨h1, hq1, h3, hq2⟩, piece, hp, hm⟩

theorem __Device.created_invariant (queueFamilies : List VkQueueFamilyProperties)
    (description : PresenterDescription) (d : __Device)
    (h : __Device.__create_vk_device queueFamilies description = .ok d) :
    d.SchedulerInvariant := by
  obtain ⟨hqf, hqa, -, -, hf, ha⟩ := __Device.created_queues queueFamilies description d h
  unfold __Device.SchedulerInvariant
  rw [hqf, hqa, hf, ha]
  refine ⟨ProducerConsumerQueue.new_invariant _, ProducerConsumerQueue.new_invariant _, ?_, ?_⟩
  · intro x hx
    simp [ProducerConsumerQueue.contents, ProducerConsumerQueue.new] at hx
  · intro x hx
    simp [ProducerConsumerQueue.contents, ProducerConsumerQueue.new] at hx

/-- Every reachable device whose queue capacities fit an `int` meets the scheduler
invariant. -/
theorem __Device.Reachable.scheduler_invariant (d : __Device) (h : __Device.Reachable d) :
    d._NumberOfAsyncThreadsInFrame * 2 < 2 ^ 31 → d._NumberOfAsyncThreads * 2 < 2 ^ 31 →
    d.SchedulerInvariant := by
  have kept : ∀ (a b : __Device), __Device.SchedulerKept a b →
      (a._NumberOfAsyncThreadsInFrame * 2 < 2 ^ 31 → a._NumberOfAsyncThreads * 2 < 2 ^ 31 →
        a.SchedulerInvariant) →
      b._NumberOfAsyncThreadsInFrame * 2 < 2 ^ 31 → b._NumberOfAsyncThreads * 2 < 2 ^ 31 →
        b.SchedulerInvariant := by
    intro a b hk ih hF hA
    exact __Device.SchedulerInvariant_kept a b hk
      (ih (by rw [← hk.1]; exact hF) (by rw [← hk.2.1]; exact hA))
  induction h with
  | created queueFamilies description d hc =>
    intro _ _
    exact __Device.created_invariant queueFamilies description d hc
  | dispatch d d1 process mode task _ hd ih =>
    intro hF hA
    rw [__Device.Dispatch_eq_rest] at hd
    by_cases hFd : d._NumberOfAsyncThreadsInFrame * 2 < 2 ^ 31
    · by_cases hAd : d._NumberOfAsyncThreads * 2 < 2 ^ 31
      · exact (__Device.Dispatch_rest_invariant d d1 process _ task hFd hAd (ih hFd hAd) hd).2.2
      · obtain ⟨dC, -, hk, -, -, hmain, hframe, hasync⟩ :=
          __Device.Dispatch_rest_spec d d1 process _ task hd
        exfalso
        apply hAd
        rw [← hk.2.1]
        cases hmode : fallbackMode d mode with
        | MAIN_THREAD => rw [← (hmain hmode).2.1]; exact hA
        | ASYNC_FRAME => obtain ⟨q, -, rfl⟩ := hframe hmode; exact hA
        | ASYNC => obtain ⟨q, -, rfl⟩ := hasync hmode; exact hA
    · obtain ⟨dC, -, hk, -, -, hmain, hframe, hasync⟩ :=
        __Device.Dispatch_rest_spec d d1 process _ task hd
      exfalso
      apply hFd
      rw [← hk.1]
      cases hmode : fallbackMode d mode with
      | MAIN_THREAD => rw [← (hmain hmode).1]; exact hF
      | ASYNC_FRAME => obtain ⟨q, -, rfl⟩ := hframe hmode; exact hF
      | ASYNC => obtain ⟨q, -, rfl⟩ := hasync hmode; exact hF
  | consume d d1 idx workPiece _ _ _ hc ih =>
    intro hF hA
    unfold __Device.__OompaLoompaWork.consume at hc
    have hthreads : d1._NumberOfAsyncThreadsInFrame = d._NumberOfAsyncThreadsInFrame ∧
        d1._NumberOfAsyncThreads = d._NumberOfAsyncThreads := by
      split at hc
      · split at hc
        · cases hc
        · cases hc; exact ⟨rfl, rfl⟩
        · cases hc
      · split at hc
        · cases hc
        · cases hc; exact ⟨rfl, rfl⟩
        · cases hc
    have hinv := ih (by rw [← hthreads.1]; exact hF) (by rw [← hthreads.2]; exact hA)
    exact ((__Device.consume_spec d idx hinv).2 d1 workPiece
      (by unfold __Device.__OompaLoompaWork.consume; exact hc)).2.2.2.2.2.1
  | performPopulation d d1 workPiece threadIdx _ hp ih =>
    exact kept d d1 (__Device.PerformPopulation_kept d d1 workPiece threadIdx hp) ih
  | populating d d1 workPiece threadIdx wrapper _ hp ih =>
    exact kept d d1 (__Device.populating_kept d d1 workPiece threadIdx wrapper hp) ih
  | populate d d1 workPiece wrapper _ hp ih =>
    exact kept d d1 (__Device.populate_kept d d1 workPiece wrapper hp) ih
  | wait d t pieces1 _ hw ih =>
    have := __CPUTask.Wait_pieces d.pieces pieces1 t hw
    subst this
    exact ih
  | flush d d1 tasks waitingGPU result _ hf ih =>
    exact kept d d1 (__Device.Flush_kept d d1 tasks waitingGPU result hf) ih
  | endFrame p p1 _ he ih =>
    exact kept _ _ (Presenter.EndFrame_kept p p1 he) ih
  | engines d engines tasks disposed _ ih =>
    exact kept d _ ⟨rfl, rfl, rfl, rfl, PieceHeap.ModesKept_same _⟩ ih

/-- What the scheduler invariant gives for the calls made next on the device. -/
theorem __Device.scheduler_spec (d : __Device) (hinv : d.SchedulerInvariant) :
    d._FrameAsyncProcesses.elements.length = 2 * d._NumberOfAsyncThreadsInFrame ∧
    d._AsyncProcesses.elements.length = 2 * d._NumberOfAsyncThreads ∧
    (∀ (process : Process) (mode : DispatchMode),
      Device.Dispatch d process mode = __Device.Dispatch.rest d process (fallbackMode d mode) ∧
      (fallbackMode d mode = .ASYNC_FRAME →
        0 < d._NumberOfAsyncThreadsInFrame ∧ 0 < d._FrameAsyncProcesses.elements.length) ∧
      (fallbackMode d mode = .ASYNC →
        0 < d._NumberOfAsyncThreads ∧ 0 < d._AsyncProcesses.elements.length) ∧
      ∀ (d1 : __Device) (task : __CPUTask), Device.Dispatch d process mode = .ok (d1, task) →
        (fallbackMode d mode = .MAIN_THREAD →
          d1._FrameAsyncProcesses = d._FrameAsyncProcesses ∧
          d1._AsyncProcesses = d._AsyncProcesses) ∧
        (fallbackMode d mode = .ASYNC_FRAME →
          d._FrameAsyncProcesses.Produce (some task.workPiece) = .ok d1._FrameAsyncProcesses ∧
          d1._AsyncProcesses = d._AsyncProcesses) ∧
        (fallbackMode d mode = .ASYNC →
          d._AsyncProcesses.Produce (some task.workPiece) = .ok d1._AsyncProcesses ∧
          d1._FrameAsyncProcesses = d._FrameAsyncProcesses)) ∧
    (∀ t : Nat, 1 ≤ t → t ≤ d._NumberOfAsyncThreadsInFrame + d._NumberOfAsyncThreads →
      (t ≤ d._NumberOfAsyncThreadsInFrame → 0 < d._FrameAsyncProcesses.elements.length) ∧
      (d._NumberOfAsyncThreadsInFrame < t → 0 < d._AsyncProcesses.elements.length) ∧
      __Device.__OompaLoompaWork.consume d t ≠ .error .undefined ∧
      ∀ (d1 : __Device) (workPiece : Nat),
        __Device.__OompaLoompaWork.consume d t = .ok (d1, workPiece) →
        ∃ (piece : WorkPiece) (managerIdx : Int),
          d1.pieces[workPiece]? = some piece ∧
          (t ≤ d._NumberOfAsyncThreadsInFrame → piece.Dispatch = .ASYNC_FRAME) ∧
          (d._NumberOfAsyncThreadsInFrame < t → piece.Dispatch = .ASYNC) ∧
          __Device.__PerformPopulation.managerIdx d1 piece.Dispatch t = .ok managerIdx ∧
          __Device.__PerformPopulation.assign d1 workPiece t =
            .ok { d1 with
                  pieces := d1.pieces.set workPiece { piece with ManagerIndex := managerIdx } }) := by
  obtain ⟨h1, h2, h3, h4⟩ := hinv
  have hlenF : d._FrameAsyncProcesses.elements.length = 2 * d._NumberOfAsyncThreadsInFrame := by
    rw [h1.1, Nat.mul_comm]
  have hlenA : d._AsyncProcesses.elements.length = 2 * d._NumberOfAsyncThreads := by
    rw [h2.1, Nat.mul_comm]
  refine ⟨hlenF, hlenA, ?_, ?_⟩
  · intro process mode
    have hmodeF : fallbackMode d mode = .ASYNC_FRAME → 0 < d._NumberOfAsyncThreadsInFrame := by
      cases mode <;>
        by_cases hf : d._NumberOfAsyncThreadsInFrame = 0 <;>
        by_cases ha : d._NumberOfAsyncThreads = 0 <;>
        simp [fallbackMode, fallbackChain, workerCount, List.find?, hf, ha] <;> omega
    have hmodeA : fallbackMode d mode = .ASYNC → 0 < d._NumberOfAsyncThreads := by
      cases mode <;>
        by_cases hf : d._NumberOfAsyncThreadsInFrame = 0 <;>
        by_cases ha : d._NumberOfAsyncThreads = 0 <;>
        simp [fallbackMode, fallbackChain, workerCount, List.find?, hf, ha] <;> omega
    refine ⟨__Device.Dispatch_eq_rest d process mode,
      fun hm => ⟨hmodeF hm, by have := hmodeF hm; omega⟩,
      fun hm => ⟨hmodeA hm, by have := hmodeA hm; omega⟩, ?_⟩
    intro d1 task hd
    have hd1 : __Device.Dispatch.rest d process (fallbackMode d mode) = .ok (d1, task) := by
      rw [← __Device.Dispatch_eq_rest]; exact hd
    obtain ⟨dC, piece, hk, -, -, hmain, hframe, hasync⟩ :=
      __Device.Dispatch_rest_spec d d1 process _ task hd1
    obtain ⟨-, -, hqf, hqa, -⟩ := hk
    refine ⟨?_, ?_, ?_⟩
    · intro hm
      obtain ⟨-, -, hqf1, hqa1, -⟩ := hmain hm
      exact ⟨hqf1.trans hqf, hqa1.trans hqa⟩
    · intro hm
      obtain ⟨q, hq, rfl⟩ := hframe hm
      rw [hqf] at hq
      exact ⟨hq, hqa⟩
    · intro hm
      obtain ⟨q, hq, rfl⟩ := hasync hm
      rw [hqa] at hq
      exact ⟨hq, hqf⟩
  · intro t ht1 ht2
    obtain ⟨hne, hok⟩ := __Device.consume_spec d t ⟨h1, h2, h3, h4⟩
    refine ⟨fun h => by omega, fun h => by omega, hne, ?_⟩
    intro d1 workPiece hc
    obtain ⟨hf, ha, hfi, hnf, hpieces, -, piece, hp, hm⟩ := hok d1 workPiece hc
    rw [← hpieces] at hp
    by_cases hidx : t ≤ d._NumberOfAsyncThreadsInFrame
    · rw [if_pos hidx] at hm
      have hmgr : __Device.__PerformPopulation.managerIdx d1 piece.Dispatch t =
          .ok ((d1._FrameIndex : Int) * (d1._NumberOfAsyncThreadsInFrame + 1) + t) := by
        rw [hm]
        simp only [__Device.__PerformPopulation.managerIdx]
        rw [if_pos ⟨ht1, by rw [hf]; exact hidx⟩]
      refine ⟨piece, _, hp, fun _ => hm, fun h => by omega, hmgr, ?_⟩
      simp only [__Device.__PerformPopulation.assign, hp, hmgr]
    · rw [if_neg hidx] at hm
      have hmgr : __Device.__PerformPopulation.managerIdx d1 piece.Dispatch t =
          .ok (((d1._NumberOfFrames : Int) - 1) * (d1._NumberOfAsyncThreadsInFrame + 1) + t) := by
        rw [hm]
        simp only [__Device.__PerformPopulation.managerIdx]
        rw [if_pos ⟨by rw [hf]; omega, by rw [hf, ha]; omega⟩]
      refine ⟨piece, _, hp, fun h => absurd h hidx, fun _ => hm, hmgr, ?_⟩
      simp only [__Device.__PerformPopulation.assign, hp, hmgr]

/-- Claim C30: in every state reachable from the creation of the device (the capacities
fitting the `int` the queues are built with), the frame queue has capacity
`2 * frame_threads` and the cross-frame queue `2 * async_threads`; `Dispatch` runs in the
fall-back mode, produces onto the frame queue only when that mode is `ASYNC_FRAME`, in which
case `frame_threads > 0` and the capacity is not zero, onto the cross-frame queue only when
it is `ASYNC`, in which case `async_threads > 0` and the capacity is not zero, and touches
no queue in `MAIN_THREAD`; and for a worker thread `t` in `1 .. frame_threads +
async_threads` the queue it serves has a capacity that is not zero, its `Consume` never
yields a null piece, and a piece it consumes has the mode `ASYNC_FRAME` when
`t ≤ frame_threads` and `ASYNC` when `t > frame_threads`, so that the asserted thread range
of `__PerformPopulation` holds and the manager index is assigned. -/
theorem C30_queues_have_capacity_and_workers_get_their_mode (d : __Device)
    (hreach : __Device.Reachable d)
    (hF : d._NumberOfAsyncThreadsInFrame * 2 < 2 ^ 31)
    (hA : d._NumberOfAsyncThreads * 2 < 2 ^ 31) :
    d._FrameAsyncProcesses.elements.length = 2 * d._NumberOfAsyncThreadsInFrame ∧
    d._AsyncProcesses.elements.length = 2 * d._NumberOfAsyncThreads ∧
    (∀ (process : Process) (mode : DispatchMode),
      Device.Dispatch d process mode = __Device.Dispatch.rest d process (fallbackMode d mode) ∧
      (fallbackMode d mode = .ASYNC_FRAME →
        0 < d._NumberOfAsyncThreadsInFrame ∧ 0 < d._FrameAsyncProcesses.elements.length) ∧
      (fallbackMode d mode = .ASYNC →
        0 < d._NumberOfAsyncThreads ∧ 0 < d._AsyncProcesses.elements.length) ∧
      ∀ (d1 : __Device) (task : __CPUTask), Device.Dispatch d process mode = .ok (d1, task) →
        (fallbackMode d mode = .MAIN_THREAD →
          d1._FrameAsyncProcesses = d._FrameAsyncProcesses ∧
          d1._AsyncProcesses = d._AsyncProcesses) ∧
        (fallbackMode d mode = .ASYNC_FRAME →
          d._FrameAsyncProcesses.Produce (some task.workPiece) = .ok d1._FrameAsyncProcesses ∧
          d1._AsyncProcesses = d._AsyncProcesses) ∧
        (fallbackMode d mode = .ASYNC →
          d._AsyncProcesses.Produce (some task.workPiece) = .ok d1._AsyncProcesses ∧
          d1._FrameAsyncProcesses = d._FrameAsyncProcesses)) ∧
    (∀ t : Nat, 1 ≤ t → t ≤ d._NumberOfAsyncThreadsInFrame + d._NumberOfAsyncThreads →
      (t ≤ d._NumberOfAsyncThreadsInFrame → 0 < d._FrameAsyncProcesses.elements.length) ∧
      (d._NumberOfAsyncThreadsInFrame < t → 0 < d._AsyncProcesses.elements.length) ∧
      __Device.__OompaLoompaWork.consume d t ≠ .error .undefined ∧
      ∀ (d1 : __Device) (workPiece : Nat),
        __Device.__OompaLoompaWork.consume d t = .ok (d1, workPiece) →
        ∃ (piece : WorkPiece) (managerIdx : Int),
          d1.pieces[workPiece]? = some piece ∧
          (t ≤ d._NumberOfAsyncThreadsInFrame → piece.Dispatch = .ASYNC_FRAME) ∧
          (d._NumberOfAsyncThreadsInFrame < t → piece.Dispatch = .ASYNC) ∧
          __Device.__PerformPopulation.managerIdx d1 piece.Dispatch t = .ok managerIdx ∧
          __Device.__PerformPopulation.assign d1 workPiece t =
            .ok { d1 with
                  pieces := d1.pieces.set workPiece { piece with ManagerIndex := managerIdx } }) :=
  __Device.scheduler_spec d (__Device.Reachable.scheduler_invariant d hreach hF hA)

theorem C30_queues_witness :
    (__Device.Reachable workerDevice.1 ∧
      workerDevice.1._NumberOfAsyncThreadsInFrame * 2 < 2 ^ 31 ∧
      workerDevice.1._NumberOfAsyncThreads * 2 < 2 ^ 31 ∧
      (match __Device.__OompaLoompaWork.consume workerDevice.1 1 with
        | .ok r => some r.2
        | .error _ => none) = some 0 ∧
      workerDevice.1.pieces.map (fun w => w.Dispatch) = [DispatchMode.ASYNC_FRAME]) ∧
    (workerDevice.1._FrameAsyncProcesses.elements.length = 2 * workerDevice.1._NumberOfAsyncThreadsInFrame ∧
    workerDevice.1._AsyncProcesses.elements.length = 2 * workerDevice.1._NumberOfAsyncThreads ∧
    (∀ (process : Process) (mode : DispatchMode),
      Device.Dispatch workerDevice.1 process mode = __Device.Dispatch.rest workerDevice.1 process (fallbackMode workerDevice.1 mode) ∧
      (fallbackMode workerDevice.1 mode = .ASYNC_FRAME →
        0 < workerDevice.1._NumberOfAsyncThreadsInFrame ∧ 0 < workerDevice.1._FrameAsyncProcesses.elements.length) ∧
      (fallbackMode workerDevice.1 mode = .ASYNC →
        0 < workerDevice.1._NumberOfAsyncThreads ∧ 0 < workerDevice.1._AsyncProcesses.elements.length) ∧
      ∀ (d1 : __Device) (task : __CPUTask), Device.Dispatch workerDevice.1 process mode = .ok (d1, task) →
        (fallbackMode workerDevice.1 mode = .MAIN_THREAD →
          d1._FrameAsyncProcesses = workerDevice.1._FrameAsyncProcesses ∧
          d1._AsyncProcesses = workerDevice.1._AsyncProcesses) ∧
        (fallbackMode workerDevice.1 mode = .ASYNC_FRAME →
          workerDevice.1._FrameAsyncProcesses.Produce (some task.workPiece) = .ok d1._FrameAsyncProcesses ∧
          d1._AsyncProcesses = workerDevice.1._AsyncProcesses) ∧
        (fallbackMode workerDevice.1 mode = .ASYNC →
          workerDevice.1._AsyncProcesses.Produce (some task.workPiece) = .ok d1._AsyncProcesses ∧
          d1._FrameAsyncProcesses = workerDevice.1._FrameAsyncProcesses)) ∧
    (∀ t : Nat, 1 ≤ t → t ≤ workerDevice.1._NumberOfAsyncThreadsInFrame + workerDevice.1._NumberOfAsyncThreads →
      (t ≤ workerDevice.1._NumberOfAsyncThreadsInFrame → 0 < workerDevice.1._FrameAsyncProcesses.elements.length) ∧
      (workerDevice.1._NumberOfAsyncThreadsInFrame < t → 0 < workerDevice.1._AsyncProcesses.elements.length) ∧
      __Device.__OompaLoompaWork.consume workerDevice.1 t ≠ .error .undefined ∧
      ∀ (d1 : __Device) (workPiece : Nat),
        __Device.__OompaLoompaWork.consume workerDevice.1 t = .ok (d1, workPiece) →
        ∃ (piece : WorkPiece) (managerIdx : Int),
          d1.pieces[workPiece]? = some piece ∧
          (t ≤ workerDevice.1._NumberOfAsyncThreadsInFrame → piece.Dispatch = .ASYNC_FRAME) ∧
          (workerDevice.1._NumberOfAsyncThreadsInFrame < t → piece.Dispatch = .ASYNC) ∧
          __Device.__PerformPopulation.managerIdx d1 piece.Dispatch t = .ok managerIdx ∧
          __Device.__PerformPopulation.assign d1 workPiece t =
            .ok { d1 with
                  pieces := d1.pieces.set workPiece { piece with ManagerIndex := managerIdx } })) :=
  have hreach : __Device.Reachable workerDevice.1 :=
    __Device.Reachable.dispatch workerDevice.created workerDevice.1 processA .ASYNC_FRAME
      workerDevice.2
      (__Device.Reachable.created sampleFamilies
        { frames := 1, frame_threads := 1, async_threads := 1 } workerDevice.created (by rfl))
      (by rfl)
  ⟨⟨hreach, by decide, by decide, by decide, by decide⟩,
    C30_queues_have_capacity_and_workers_get_their_mode workerDevice.1 hreach
      (by decide) (by decide)⟩


/-- C8, counterexample.  On the device created for one frame, no frame thread and one
cross-frame worker, `A`, `B`, `C` are dispatched in this order within frame 0 as
`MAIN_THREAD`, `ASYNC`, `MAIN_THREAD`; all three pieces are mapped to engine 0.  The calls
return, but `B` is queued for the worker: the recording buffer of slot
`_FrameIndex * (frame_threads + 1) = 0` holds the commands of `A` and `C` only and the
slot's populated list the pieces 0 and 2 only, and once worker 1 has populated `B` its
commands and its piece are in slot 1. -/
theorem C8_async_piece_records_into_worker_slot :
    asyncDevice._NumberOfAsyncThreadsInFrame = 0 ∧
    asyncDevice._NumberOfAsyncThreads = 1 ∧
    asyncDevice._FrameIndex * (asyncDevice._NumberOfAsyncThreadsInFrame + 1) = 0 ∧
    asyncDevice.slotRecords = [[(none, [], []), (none, [], [])]] ∧
    (asyncDevice.DispatchAll asyncSequence).toOption.map (fun r => r.2) =
      some [{ workPiece := 0 }, { workPiece := 1 }, { workPiece := 2 }] ∧
    asyncDevice.dispatched.1._FrameIndex = 0 ∧
    asyncDevice.dispatched.1.pieces.map (fun w => (w.Dispatch, w.EngineIndex, w.ManagerIndex)) =
      [(.MAIN_THREAD, 0, 0), (.ASYNC, 0, -1), (.MAIN_THREAD, 0, 0)] ∧
    asyncDevice.dispatched.1._AsyncProcesses.contents = [some 1] ∧
    asyncDevice.dispatched.1.slotRecords =
      [[(some 0, [0, 2], [[10, 11, 30, 31, 32]]), (none, [], [])]] ∧
    (asyncDevice.dispatched.1.__OompaLoompaWork 1).toOption.map (fun d => d.slotRecords) =
      some [[(some 0, [0, 2], [[10, 11, 30, 31, 32]]), (some 0, [1], [[20]])]] ∧
    asyncDevice.populated.pieces.map (fun w => (w.Dispatch, w.EngineIndex, w.ManagerIndex)) =
      [(.MAIN_THREAD, 0, 0), (.ASYNC, 0, 1), (.MAIN_THREAD, 0, 0)] ∧
    recordedBy ⟨15, some 0⟩ asyncSequence = [10, 11, 20, 30, 31, 32] := by
  refine ⟨by decide, by decide, by decide, by decide, by decide, by decide, by decide,
    by decide, by decide, by decide, by decide, by decide⟩

end goofy
